import Mathlib

/-!
# Shadow-fd subsystem of waypipe: diff codec, reference counts, translation map, updates

A shallow embedding of `src/shadow.c` and theorems about it.

Conventions of the embedding.

* A C buffer that the code views both as `char *` and as `uint64_t *` is a
  function from word index to 64-bit word (`Mem`); the byte at address `a` is
  byte `a % 8` (little-endian) of word `a / 8`.  `__restrict__` buffers are
  distinct values of type `Mem`.
* `size_t` and `uint64_t` arithmetic is on `Nat`, reduced modulo `2 ^ 64`
  where the C expression can wrap; the cast `(int)size` is the two's
  complement reduction to 32 bits.
* `int` fields (reference counts, ids) are `Int`; signed overflow is undefined
  in C and is outside the model.
* Each C loop is a structurally recursive function with a fuel argument that
  is at least the number of iterations the loop can make.
* What the operating system, the GPU and video layers and the compression
  libraries answer during a call is passed in as an environment record.
* The workers of a parallel diff run one after the other, in index order.
-/

namespace Waypipe

/-! ## Memory -/

/-- Word-addressed memory: index `k` holds the 64-bit block `k` of a buffer. -/
abbrev Mem := Nat → Nat

/-- The assignment `m[a] = v` on 64-bit blocks. -/
def store (m : Mem) (a v : Nat) : Mem := fun k => if k = a then v else m k

/-- Byte `j` (little-endian) of the word `w`. -/
def byte_of (w j : Nat) : Nat := (w / 256 ^ j) % 256

/-- The word `w` with its byte `j` replaced by `b`. -/
def word_with_byte (w j b : Nat) : Nat :=
  w % 2 ^ 64 - byte_of w j * 256 ^ j + (b % 256) * 256 ^ j

/-- The read `m[a]` through a `char *` view of the buffer. -/
def load_byte (m : Mem) (a : Nat) : Nat := byte_of (m (a / 8)) (a % 8)

/-- The assignment `m[a] = b` through a `char *` view of the buffer. -/
def store_byte (m : Mem) (a b : Nat) : Mem :=
  store m (a / 8) (word_with_byte (m (a / 8)) (a % 8) b)

/-- The call `memcpy(dst + nfrom, src + from, 8 * n)` on 64-bit blocks. -/
def memcpy_blocks (dst : Mem) (nfrom : Nat) (src : Mem) (from_idx n : Nat) : Mem :=
  fun k => if nfrom ≤ k ∧ k < nfrom + n then src (from_idx + (k - nfrom)) else dst k

/-! ## Machine integers and the helpers of `util.h` -/

def SIZE_MAX : Nat := 2 ^ 64 - 1

/-- Reduction of a natural number to `uint64_t`. -/
def u64 (x : Nat) : Nat := x % 2 ^ 64

/-- The conversion of a `size_t` or `uint64_t` to `int`, as in `(int)x` or
in passing `x` for an `int` parameter. -/
def cast_int (x : Nat) : Int :=
  if x % 2 ^ 32 < 2 ^ 31 then ((x % 2 ^ 32 : Nat) : Int) else ((x % 2 ^ 32 : Nat) : Int) - 2 ^ 32

/-- The cast `(uint64_t)x` of a signed integer. -/
def cast_u64 (x : Int) : Nat := (x % 2 ^ 64).toNat

/-- Modelled from the spec: `floordiv` of `util.h`, which is not among the
sources; the C quotient `v / u` of two `int` (its call in `construct_diff`
casts the argument to `int`). -/
def floordiv (v u : Int) : Int := Int.tdiv v u

/-- Modelled from the spec: `ceildiv` of `util.h`, which is not among the
sources; the C quotient `(v + u - 1) / u` of two `int`. -/
def ceildiv (v u : Int) : Int := Int.tdiv (v + u - 1) u

/-- Modelled from the spec: `alignu` of `util.h`, which is not among the
sources; rounds `v` up to a multiple of `m` in `size_t` arithmetic. -/
def alignu (v m : Nat) : Nat := u64 (m * (u64 (v + m - 1) / m))

/-- Modelled from the spec: `minu` of `util.h`, the smaller of two `uint64_t`. -/
def minu (a b : Nat) : Nat := if a < b then a else b

/-- Modelled from the spec: `maxu` of `util.h`, the larger of two `uint64_t`. -/
def maxu (a b : Nat) : Nat := if a > b then a else b

/-! ## Damage -/

/-- Modelled from the spec: `struct ext_interval` of `util.h`, the byte ranges
`[start + r * stride, start + r * stride + width)` for `r < rep`. -/
structure ext_interval where
  start : Nat
  width : Nat
  rep : Nat
  stride : Nat
  deriving DecidableEq, Repr

/-- Modelled from the spec: `struct damage` of `util.h`, either the sentinel
`DAMAGE_EVERYTHING` or the array `damage[0 .. ndamage_rects)`. -/
inductive damage where
  | everything : damage
  | rects : List ext_interval → damage
  deriving DecidableEq, Repr

/-! ## `run_interval_diff` -/

def DIFF_WINDOW_SIZE : Nat := 4

/-- The local variables of `run_interval_diff` together with the two
buffers it writes. -/
structure scan_state where
  i : Nat
  changed_val : Nat
  base_val : Nat
  base : Mem
  diff : Mem
  cursor : Nat

/-- The scanner `while (changed_val == base_val && i < blockrange_max)`. -/
def scan_equal (changed_blocks : Mem) (blockrange_max : Nat) : Nat → scan_state → scan_state
  | 0, s => s
  | fuel + 1, s =>
    if s.changed_val = s.base_val ∧ s.i < blockrange_max then
      scan_equal changed_blocks blockrange_max fuel
        { s with changed_val := changed_blocks s.i, base_val := s.base s.i, i := s.i + 1 }
    else s

/-- The copier `while (i < blockrange_max && nskip <= DIFF_WINDOW_SIZE)`;
the second component is `nskip`. -/
def copy_window (changed_blocks : Mem) (blockrange_max : Nat) :
    Nat → scan_state → Nat → scan_state × Nat
  | 0, s, nskip => (s, nskip)
  | fuel + 1, s, nskip =>
    if s.i < blockrange_max ∧ nskip ≤ DIFF_WINDOW_SIZE then
      let base_val := s.base s.i
      let changed_val := changed_blocks s.i
      copy_window changed_blocks blockrange_max fuel
        { i := s.i + 1, changed_val := changed_val, base_val := base_val,
          base := store s.base s.i changed_val,
          diff := store s.diff s.cursor changed_val,
          cursor := s.cursor + 1 }
        ((nskip + 1) * (if base_val = changed_val then 1 else 0))
    else (s, nskip)

/-- One segment of the outer loop of `run_interval_diff`, entered with a
differing block at `i - 1`: the header placeholder, the first payload block,
the copier, the truncation `cursor -= nskip` and the completed header. -/
def emit_segment (changed_blocks : Mem) (blockrange_max : Nat) (s1 : scan_state) : scan_state :=
  let last_header := s1.cursor
  let d1 := store s1.diff last_header (u64 ((s1.i - 1) <<< 32))
  let d2 := store d1 (last_header + 1) s1.changed_val
  let b1 := store s1.base (s1.i - 1) s1.changed_val
  let w := copy_window changed_blocks blockrange_max blockrange_max
    { s1 with base := b1, diff := d2, cursor := last_header + 2 } 0
  let s2 := w.1
  let nskip := w.2
  { s2 with cursor := s2.cursor - nskip,
            diff := store s2.diff last_header (s2.diff last_header ||| (s2.i - nskip)) }

/-- The outer loop `while (i < blockrange_max)`; the second component is
`clear_exit`. -/
def diff_segments (changed_blocks : Mem) (blockrange_max : Nat) :
    Nat → scan_state → scan_state × Bool
  | 0, s => (s, false)
  | fuel + 1, s =>
    if s.i < blockrange_max then
      let s1 := scan_equal changed_blocks blockrange_max blockrange_max s
      if s1.i = blockrange_max then (s1, true)
      else diff_segments changed_blocks blockrange_max fuel
        (emit_segment changed_blocks blockrange_max s1)
    else (s, false)

/-- The buffers and the cursor that a diff construction step leaves. -/
structure diff_state where
  base : Mem
  diff : Mem
  cursor : Nat

/-- Embedding of `run_interval_diff`: returns the new cursor together with
the updated `base_blocks` and `diff_blocks`. -/
def run_interval_diff (blockrange_min blockrange_max : Nat) (changed_blocks base_blocks
    diff_blocks : Mem) (cursor : Nat) : diff_state :=
  let i := blockrange_min
  let changed_val := if i < blockrange_max then changed_blocks i else 0
  let base_val := if i < blockrange_max then base_blocks i else 0
  let r := diff_segments changed_blocks blockrange_max blockrange_max
    { i := i + 1, changed_val := changed_val, base_val := base_val,
      base := base_blocks, diff := diff_blocks, cursor := cursor }
  let s := r.1
  let clear_exit := r.2
  if (clear_exit = true ∨ blockrange_min + 1 = blockrange_max) ∧ s.changed_val ≠ s.base_val then
    { base := store s.base (blockrange_max - 1) s.changed_val,
      diff := store (store s.diff s.cursor (u64 ((blockrange_max - 1) <<< 32) ||| blockrange_max))
        (s.cursor + 1) s.changed_val,
      cursor := s.cursor + 2 }
  else { base := s.base, diff := s.diff, cursor := s.cursor }

/-! ## `construct_diff` -/

/-- The variables that the damage loops of `construct_diff` update. -/
structure damage_state where
  check_tail : Bool
  base : Mem
  diff : Mem
  cursor : Nat

/-- Body of the loop `for (r = 0; r < ei.rep; r++)` of `construct_diff`. -/
def damage_rep_step (nblocks copy_domain_start copy_domain_end : Nat) (changed : Mem)
    (ei : ext_interval) (st : damage_state) (r : Nat) : damage_state :=
  let minc := maxu (u64 (ei.start + r * ei.stride)) copy_domain_start
  let maxc := minu (u64 (ei.start + r * ei.stride + ei.width)) copy_domain_end
  let check_tail := st.check_tail || decide (maxc > u64 (8 * nblocks))
  let minb := minu (cast_u64 (floordiv (cast_int minc) 8)) nblocks
  let maxb := minu (cast_u64 (ceildiv (cast_int maxc) 8)) nblocks
  if minb ≥ maxb then { st with check_tail := check_tail }
  else
    let o := run_interval_diff minb maxb changed st.base st.diff st.cursor
    { check_tail := check_tail, base := o.base, diff := o.diff, cursor := o.cursor }

/-- Body of the loop `for (b = 0; b < damage->ndamage_rects; b++)`. -/
def damage_rect_step (nblocks copy_domain_start copy_domain_end : Nat) (changed : Mem)
    (st : damage_state) (ei : ext_interval) : damage_state :=
  (List.range ei.rep).foldl
    (damage_rep_step nblocks copy_domain_start copy_domain_end changed ei) st

/-- The first tail loop: `tail_change |= base[nblocks * 8 + i] != changed[nblocks * 8 + i]`. -/
def tail_differs (nblocks ntrailing : Nat) (base changed : Mem) : Bool :=
  (List.range ntrailing).foldl
    (fun t i => t || decide (load_byte base (nblocks * 8 + i) ≠ load_byte changed (nblocks * 8 + i)))
    false

/-- The second tail loop: copies the tail of `changed` into `diff` (at byte
`cursor * 8`) and into `base`. -/
def copy_tail (nblocks ntrailing cursor : Nat) (changed : Mem) (base diff : Mem) : Mem × Mem :=
  (List.range ntrailing).foldl
    (fun (p : Mem × Mem) i =>
      (store_byte p.1 (nblocks * 8 + i) (load_byte changed (nblocks * 8 + i)),
       store_byte p.2 (cursor * 8 + i) (load_byte changed (nblocks * 8 + i))))
    (base, diff)

/-- What `construct_diff` leaves: the updated mirror `base`, the diff
buffer and `*diffsize`. -/
structure diff_result where
  base : Mem
  diff : Mem
  diffsize : Nat

/-- The block count `(uint64_t)floordiv((int)size, 8)` of `construct_diff`. -/
def construct_nblocks (size : Nat) : Nat := cast_u64 (floordiv (cast_int size) 8)

/-- The copy domain after the realignment that `construct_diff` applies to a
misaligned domain. -/
def realign_domain (copy_domain_start copy_domain_end : Nat) : Nat × Nat :=
  if copy_domain_start % 8 ≠ 0 ∨ (copy_domain_end % 8 ≠ 0 ∧ copy_domain_end ≠ SIZE_MAX) then
    (alignu copy_domain_start 8,
     if copy_domain_end ≠ SIZE_MAX then alignu copy_domain_end 8 else SIZE_MAX)
  else (copy_domain_start, copy_domain_end)

/-- The damage scan of `construct_diff` (everything before the tail). -/
def scan_damage (nblocks : Nat) (dmg : damage) (copy_domain_start copy_domain_end : Nat)
    (base changed diff : Mem) : damage_state :=
  let cd_minb := copy_domain_start / 8
  let cd_maxb := copy_domain_end / 8
  match dmg with
  | damage.everything =>
    let o := run_interval_diff (maxu 0 cd_minb) (minu nblocks cd_maxb) changed base diff 0
    { check_tail := decide (copy_domain_end > u64 (8 * nblocks)),
      base := o.base, diff := o.diff, cursor := o.cursor }
  | damage.rects l =>
    l.foldl (damage_rect_step nblocks copy_domain_start copy_domain_end changed)
      { check_tail := false, base := base, diff := diff, cursor := 0 }

/-- Embedding of `construct_diff`. -/
def construct_diff (size : Nat) (dmg : damage) (copy_domain_start copy_domain_end : Nat)
    (base changed diff : Mem) : diff_result :=
  let nblocks := construct_nblocks size
  let ntrailing := u64 (size + (2 ^ 64 - u64 (8 * nblocks)))
  let cd := realign_domain copy_domain_start copy_domain_end
  let st := scan_damage nblocks dmg cd.1 cd.2 base changed diff
  let tail_change :=
    if st.check_tail = true ∧ ntrailing > 0 then tail_differs nblocks ntrailing st.base changed
    else false
  if tail_change = true then
    let p := copy_tail nblocks ntrailing st.cursor changed st.base st.diff
    { base := p.1, diff := p.2, diffsize := st.cursor * 8 + ntrailing }
  else { base := st.base, diff := st.diff, diffsize := st.cursor * 8 }

/-! ## `apply_diff` -/

/-- Which `return` of `apply_diff` was taken. -/
inductive apply_status where
  | applied : apply_status
  | trailing_mismatch : apply_status
  | invalid_range : apply_status
  deriving DecidableEq, Repr

/-- The buffer `base` that `apply_diff` leaves and the return it took. -/
structure apply_result where
  base : Mem
  status : apply_status

/-- The header loop `for (i = 0; i < ndiffblocks;)` of `apply_diff`; the
second component is false when the loop left through the error `return`. -/
def apply_diff_loop (nblocks ndiffblocks : Nat) (diff_blocks : Mem) :
    Nat → Nat → Mem → Mem × Bool
  | 0, _, base_blocks => (base_blocks, true)
  | fuel + 1, i, base_blocks =>
    if i < ndiffblocks then
      let block := diff_blocks i
      let nfrom := block >>> 32
      let nto := u64 (block <<< 32) >>> 32
      if nto > nblocks ∨ nfrom ≥ nto ∨ i + (nto - nfrom) ≥ ndiffblocks then
        (base_blocks, false)
      else
        apply_diff_loop nblocks ndiffblocks diff_blocks fuel (i + (nto - nfrom) + 1)
          (memcpy_blocks base_blocks nfrom diff_blocks (i + 1) (nto - nfrom))
    else (base_blocks, true)

/-- The tail loop of `apply_diff`: `base[nblocks * 8 + i] = diff[ndiffblocks * 8 + i]`. -/
def apply_tail (nblocks ndiffblocks ntrailing : Nat) (diff : Mem) (base : Mem) : Mem :=
  (List.range ntrailing).foldl
    (fun b i => store_byte b (nblocks * 8 + i) (load_byte diff (ndiffblocks * 8 + i))) base

/-- Embedding of `apply_diff`. -/
def apply_diff (size : Nat) (base : Mem) (diffsize : Nat) (diff : Mem) : apply_result :=
  let nblocks := size / 8
  let ndiffblocks := diffsize / 8
  let ntrailing := size - 8 * nblocks
  if diffsize % 8 ≠ 0 ∧ ntrailing ≠ diffsize - 8 * ndiffblocks then
    { base := base, status := apply_status.trailing_mismatch }
  else
    let r := apply_diff_loop nblocks ndiffblocks diff ndiffblocks 0 base
    if r.2 = false then { base := r.1, status := apply_status.invalid_range }
    else
      { base := if ntrailing > 0 then apply_tail nblocks ndiffblocks ntrailing diff r.1 else r.1,
        status := apply_status.applied }

/-! ## Specification vocabulary for the diff stream -/

/-- Block `k` lies in one of the block ranges `[nfrom, nto)` of `rs`. -/
def covered (rs : List (Nat × Nat)) (k : Nat) : Bool :=
  rs.any (fun r => decide (r.1 ≤ k ∧ k < r.2))

/-- The buffer `b` with the blocks of the ranges `rs` taken from `changed`. -/
def patched (changed : Mem) (rs : List (Nat × Nat)) (b : Mem) : Mem :=
  fun k => if covered rs k = true then changed k else b k

/-- The words `d[i .. j)` form a sequence of diff segments: each is a
header whose high 32 bits `nfrom` and low 32 bits `nto` satisfy
`nfrom < nto ≤ nblocks`, followed by `nto - nfrom` payload words equal to
the blocks `[nfrom, nto)` of `changed`; `rs` lists the ranges in order. -/
inductive segments (changed : Mem) (nblocks : Nat) (d : Mem) :
    Nat → Nat → List (Nat × Nat) → Prop where
  | nil (i : Nat) : segments changed nblocks d i i []
  | cons (i j nfrom nto : Nat) (rs : List (Nat × Nat)) :
      nfrom < nto → nto ≤ nblocks →
      d i >>> 32 = nfrom → d i % 2 ^ 32 = nto →
      (∀ k, k < nto - nfrom → d (i + 1 + k) = changed (nfrom + k)) →
      segments changed nblocks d (i + 1 + (nto - nfrom)) j rs →
      segments changed nblocks d i j ((nfrom, nto) :: rs)

/-- Postcondition of the outer loop of `run_interval_diff`, entered in state
`s` and left in state `R.1` with `clear_exit = R.2`; `rs` lists the block
ranges of the segments written and `e` is the end of the blocks already
synchronised (`blockrange_max - 1` on a clear exit, whose last block is still
pending, and `blockrange_max` otherwise). -/
def segments_post (changed : Mem) (nb mx : Nat) (s : scan_state) (R : scan_state × Bool)
    (rs : List (Nat × Nat)) (e : Nat) : Prop :=
  segments changed nb R.1.diff s.cursor R.1.cursor rs ∧
  (∀ q ∈ rs, s.i - 1 ≤ q.1 ∧ q.2 ≤ e) ∧
  (∀ k, k < s.cursor → R.1.diff k = s.diff k) ∧
  (∀ k, R.1.base k = if s.i - 1 ≤ k ∧ k < e then changed k else s.base k) ∧
  (∀ k, s.i - 1 ≤ k → k < e → covered rs k = false → s.base k = changed k) ∧
  (R.2 = true → R.1.changed_val = changed (mx - 1) ∧ R.1.base_val = s.base (mx - 1)) ∧
  R.1.cursor + (mx - e) * 2 ≤ s.cursor + (mx - (s.i - 1)) + 1 ∧
  (∀ k, s.cursor + (mx - (s.i - 1)) + 1 ≤ k → R.1.diff k = s.diff k) ∧
  e = (if R.2 = true then mx - 1 else mx)

/-- The copy domain is one that `construct_diff` accepts without
realignment: `copy_domain_start` and `copy_domain_end` are divisible by 8, or
the end is `SIZE_MAX`. -/
def domain_aligned (copy_domain_start copy_domain_end : Nat) : Prop :=
  copy_domain_start % 8 = 0 ∧ (copy_domain_end % 8 = 0 ∨ copy_domain_end = SIZE_MAX)

/-- The interval ends of the damage fit in `int`. -/
def damage_in_range : damage → Prop
  | damage.everything => True
  | damage.rects l => ∀ ei ∈ l, ∀ r, r < ei.rep → ei.start + r * ei.stride + ei.width < 2 ^ 31

/-- Block `k` is one that the damage scan visits: a whole block of the
buffer that lies between `floor(lo / 8)` and `ceil(hi / 8)` for the clipped
ends `lo = max(start + r * stride, copy_domain_start)` and
`hi = min(start + r * stride + width, copy_domain_end)` of some damaged
interval (for `DAMAGE_EVERYTHING`, between the block ends of the copy
domain). -/
def block_scanned (nblocks : Nat) (dmg : damage) (copy_domain_start copy_domain_end : Nat)
    (k : Nat) : Prop :=
  k < nblocks ∧
  match dmg with
  | damage.everything => copy_domain_start / 8 ≤ k ∧ k < copy_domain_end / 8
  | damage.rects l =>
    ∃ ei ∈ l, ∃ r, r < ei.rep ∧
      max (ei.start + r * ei.stride) copy_domain_start / 8 ≤ k ∧
      8 * k < min (ei.start + r * ei.stride + ei.width) copy_domain_end

/-- The trailing bytes are examined: some clipped end `hi` (for
`DAMAGE_EVERYTHING`, `copy_domain_end`) lies beyond the last whole block. -/
def tail_scanned (nblocks : Nat) (dmg : damage) (copy_domain_end : Nat) : Prop :=
  match dmg with
  | damage.everything => 8 * nblocks < copy_domain_end
  | damage.rects l =>
    ∃ ei ∈ l, ∃ r, r < ei.rep ∧
      8 * nblocks < min (ei.start + r * ei.stride + ei.width) copy_domain_end

/-- Byte `a` lies in the damage: always for `DAMAGE_EVERYTHING`, otherwise
in one of the intervals `[start + r * stride, start + r * stride + width)`. -/
def byte_damaged : damage → Nat → Prop
  | damage.everything, _ => True
  | damage.rects l, a =>
    ∃ ei ∈ l, ∃ r, r < ei.rep ∧ ei.start + r * ei.stride ≤ a ∧
      a < ei.start + r * ei.stride + ei.width

/-- The diff round trip at byte granularity: applying the diff that
`construct_diff` wrote to the base it started from gives `changed` on the
bytes of damage ∩ copy domain ∩ `[0, size)` and the old base on every other
byte. -/
def round_trip_bytewise (size : Nat) (dmg : damage) (copy_domain_start copy_domain_end : Nat)
    (base changed diff : Mem) : Prop :=
  ∀ a, a < size →
    ((byte_damaged dmg a ∧ copy_domain_start ≤ a ∧ a < copy_domain_end) →
      load_byte (apply_diff size base
        (construct_diff size dmg copy_domain_start copy_domain_end base changed diff).diffsize
        (construct_diff size dmg copy_domain_start copy_domain_end base changed diff).diff).base a
        = load_byte changed a) ∧
    (¬ (byte_damaged dmg a ∧ copy_domain_start ≤ a ∧ a < copy_domain_end) →
      load_byte (apply_diff size base
        (construct_diff size dmg copy_domain_start copy_domain_end base changed diff).diffsize
        (construct_diff size dmg copy_domain_start copy_domain_end base changed diff).diff).base a
        = load_byte base a)

/-- Byte `a` belongs to a block that the damage scan visits, or to the
trailing bytes when these are examined. -/
def byte_scanned (size : Nat) (dmg : damage) (copy_domain_start copy_domain_end : Nat)
    (a : Nat) : Prop :=
  block_scanned (size / 8) dmg copy_domain_start copy_domain_end (a / 8) ∨
  (size / 8 ≤ a / 8 ∧ tail_scanned (size / 8) dmg copy_domain_end)

/-- A buffer of zero bytes, as `calloc` returns it. -/
def zero_mem : Mem := fun _ => 0

/-! ## Shadow file descriptors and the translation map -/

/-- The categories `fdcat_t` of a shadow fd. -/
inductive fdcat_t where
  | FDC_UNKNOWN : fdcat_t
  | FDC_FILE : fdcat_t
  | FDC_DMABUF : fdcat_t
  | FDC_PIPE_IR : fdcat_t
  | FDC_PIPE_IW : fdcat_t
  | FDC_PIPE_RW : fdcat_t
  deriving DecidableEq, Repr

/-- Embedding of `fdcat_ispipe`. -/
def fdcat_ispipe (t : fdcat_t) : Bool :=
  decide (t = fdcat_t.FDC_PIPE_IR) || decide (t = fdcat_t.FDC_PIPE_RW) ||
    decide (t = fdcat_t.FDC_PIPE_IW)

/-- Modelled from the spec: the growable pipe buffers `pipe_recv` and
`pipe_send` of `util.h` (capacity `size`, fill level `used`, and the bytes,
absent while `data` is `NULL`). -/
structure pipe_buffer where
  size : Int := 0
  used : Int := 0
  data : Option (List Nat) := none

/-- Modelled from the spec: `struct shadow_fd` of `util.h`, with the fields
that `shadow.c` reads and writes.  `addr` is the address of the struct: two
pointers to shadow fds are equal exactly when the addresses are.  The default
values are those of `calloc`. -/
structure shadow_fd where
  addr : Nat
  fd_local : Int := 0
  remote_id : Int := 0
  type : fdcat_t := fdcat_t.FDC_UNKNOWN
  is_dirty : Bool := false
  dmg : damage := damage.rects []
  has_owner : Bool := false
  refcount_transfer : Int := 0
  refcount_protocol : Int := 0
  file_size : Nat := 0
  file_mem_local : Option Mem := none
  mem_mirror : Option Mem := none
  diff_buffer : Option Mem := none
  dmabuf_size : Nat := 0
  dmabuf_imported : Bool := false
  pipe_fd : Int := 0
  pipe_recv : pipe_buffer := {}
  pipe_send : pipe_buffer := {}
  pipe_readable : Bool := false
  pipe_writable : Bool := false
  pipe_lclosed : Bool := false
  pipe_rclosed : Bool := false
  pipe_onlyhere : Bool := false
  dmabuf_info : Mem := zero_mem
  video_ready : Bool := false
  file_shm_buf_name : List Nat := []

/-- Modelled from the spec: `enum compression_mode` of `util.h`. -/
inductive compression_mode where
  | COMP_NONE : compression_mode
  | COMP_LZ4 : compression_mode
  | COMP_ZSTD : compression_mode
  deriving DecidableEq, Repr

/-- Modelled from the spec: `struct fd_translation_map` of `util.h`; `list`
is the singly linked list through `next`, head first. -/
structure fd_translation_map where
  list : List shadow_fd
  local_sign : Int
  max_local_id : Int
  nthreads : Int
  scancomp_thread_threshold : Int
  compression : compression_mode := compression_mode.COMP_NONE

def INT32_MAX : Int := 2 ^ 31 - 1

/-- Embedding of `setup_translation_map`, without the compression contexts
and the worker threads.  `nt` is what `sysconf(_SC_NPROCESSORS_ONLN)` returns
and `threshold` the value of the floating point expression assigned to
`scancomp_thread_threshold` when there is more than one thread. -/
def setup_translation_map (display_side : Bool) (nt : Int) (threshold : Int)
    (comp : compression_mode) : fd_translation_map :=
  let nthreads := max (Int.tdiv nt 2) 1
  { list := [],
    local_sign := if display_side then -1 else 1,
    max_local_id := 1,
    compression := comp,
    nthreads := nthreads,
    scancomp_thread_threshold := if nthreads > 1 then threshold else INT32_MAX }

/-- Embedding of `get_shadow_for_local_fd`; `none` is `NULL`. -/
def get_shadow_for_local_fd (map : fd_translation_map) (lfd : Int) : Option shadow_fd :=
  map.list.find? (fun cur => decide (cur.fd_local = lfd))

/-- Embedding of `get_shadow_for_rid`; `none` is `NULL`. -/
def get_shadow_for_rid (map : fd_translation_map) (rid : Int) : Option shadow_fd :=
  map.list.find? (fun cur => decide (cur.remote_id = rid))

/-- What the environment answers during one call of `translate_fd`: the
address `calloc` returns, the category and size `get_fd_type` reports, the
mapping `mmap` returns (`none` for `NULL`), whether `import_dmabuf`
succeeded, the argument `info` (`none` for `NULL`) and whether
`setup_video_encode` left a usable encoder. -/
structure translate_env where
  new_addr : Nat
  fd_type : fdcat_t
  fsize : Nat
  mmap_result : Option Mem
  dmabuf_imported : Bool
  dmabuf_size : Nat
  info : Option Mem := none
  video_ready : Bool := false

/-- Modelled from the spec: the size of `struct dmabuf_slice_data` of
`util.h`, whose fields take 57 bytes. -/
def DMABUF_SLICE_DATA_SIZE : Nat := 64

/-- Modelled from the spec: the field `using_video` of a
`struct dmabuf_slice_data`, which follows the 56 bytes of `width`, `height`,
`format`, `num_planes`, `strides`, `offsets` and `modifier`. -/
def slice_using_video (info : Mem) : Bool := decide (load_byte info 56 ≠ 0)

/-- Embedding of `translate_fd`: the map it leaves and the shadow fd it
returns. -/
def translate_fd (map : fd_translation_map) (env : translate_env) (fd : Int) :
    fd_translation_map × shadow_fd :=
  match get_shadow_for_local_fd map fd with
  | some sfd => (map, sfd)
  | none =>
    let sfd : shadow_fd :=
      { addr := env.new_addr,
        fd_local := fd,
        file_mem_local := none,
        mem_mirror := none,
        file_size := SIZE_MAX,
        remote_id := map.max_local_id * map.local_sign,
        type := env.fd_type,
        is_dirty := true,
        dmg := damage.everything,
        has_owner := false,
        refcount_transfer := 1,
        refcount_protocol := 0 }
    let sfd : shadow_fd :=
      if sfd.type = fdcat_t.FDC_FILE then
        { sfd with file_size := env.fsize, file_mem_local := env.mmap_result, mem_mirror := none }
      else if fdcat_ispipe sfd.type = true then
        { sfd with pipe_fd := sfd.fd_local,
                   pipe_recv := { size := 16384, used := 0,
                                  data := some (List.replicate 16384 0) },
                   pipe_onlyhere := true }
      else if sfd.type = fdcat_t.FDC_DMABUF then
        { sfd with dmabuf_size := env.dmabuf_size, dmabuf_imported := env.dmabuf_imported,
                   mem_mirror := none, diff_buffer := none,
                   dmabuf_info := if env.dmabuf_imported = true then env.info.getD zero_mem
                                  else zero_mem,
                   video_ready := env.dmabuf_imported && env.info.isSome &&
                     slice_using_video (env.info.getD zero_mem) && env.video_ready }
      else sfd
    ({ map with list := sfd :: map.list, max_local_id := map.max_local_id + 1 }, sfd)

/-- The assignment through a pointer `sfd->... = ...`: the struct at address
`a` in the list is replaced by `f` of it. -/
def update_sfd (l : List shadow_fd) (a : Nat) (f : shadow_fd → shadow_fd) : List shadow_fd :=
  l.map (fun cur => if cur.addr = a then f cur else cur)

/-- The unlinking loop of `destroy_shadow_if_unreferenced`: the first node
with `cur == sfd` is taken out of the list. -/
def unlink_sfd : List shadow_fd → Nat → List shadow_fd
  | [], _ => []
  | cur :: rest, a => if cur.addr = a then rest else cur :: unlink_sfd rest a

/-- The struct that the pointer `a` refers to. -/
def deref_sfd (l : List shadow_fd) (a : Nat) : Option shadow_fd :=
  l.find? (fun cur => decide (cur.addr = a))

/-- Embedding of `destroy_shadow_if_unreferenced` for the shadow fd at
address `a`; the releases made by `destroy_unlinked_sfd` do not touch the
map and are left out. -/
def destroy_shadow_if_unreferenced (map : fd_translation_map) (a : Nat) :
    fd_translation_map × Bool :=
  match deref_sfd map.list a with
  | none => (map, false)
  | some sfd =>
    if sfd.refcount_protocol = 0 ∧ sfd.refcount_transfer = 0 ∧ sfd.has_owner = true then
      ({ map with list := unlink_sfd map.list a }, true)
    else (map, false)

/-- Embedding of `shadow_decref_protocol`. -/
def shadow_decref_protocol (map : fd_translation_map) (a : Nat) : fd_translation_map × Bool :=
  let l := update_sfd map.list a
    (fun sfd => { sfd with refcount_protocol := sfd.refcount_protocol - 1 })
  destroy_shadow_if_unreferenced { map with list := l } a

/-- Embedding of `shadow_decref_transfer`. -/
def shadow_decref_transfer (map : fd_translation_map) (a : Nat) : fd_translation_map × Bool :=
  let l := update_sfd map.list a
    (fun sfd => { sfd with refcount_transfer := sfd.refcount_transfer - 1 })
  destroy_shadow_if_unreferenced { map with list := l } a

/-- Embedding of `shadow_incref_protocol`. -/
def shadow_incref_protocol (map : fd_translation_map) (a : Nat) : fd_translation_map :=
  let l := update_sfd map.list a
    (fun sfd => { sfd with has_owner := true, refcount_protocol := sfd.refcount_protocol + 1 })
  { map with list := l }

/-- Embedding of `shadow_incref_transfer`. -/
def shadow_incref_transfer (map : fd_translation_map) (a : Nat) : fd_translation_map :=
  let l := update_sfd map.list a
    (fun sfd => { sfd with refcount_transfer := sfd.refcount_transfer + 1 })
  { map with list := l }

/-- One call of the lifecycle interface of the map. -/
inductive map_call where
  | translate : translate_env → Int → map_call
  | incref_protocol : Nat → map_call
  | incref_transfer : Nat → map_call
  | decref_protocol : Nat → map_call
  | decref_transfer : Nat → map_call

/-- The map after one call. -/
def run_call (map : fd_translation_map) : map_call → fd_translation_map
  | map_call.translate env fd => (translate_fd map env fd).1
  | map_call.incref_protocol a => shadow_incref_protocol map a
  | map_call.incref_transfer a => shadow_incref_transfer map a
  | map_call.decref_protocol a => (shadow_decref_protocol map a).1
  | map_call.decref_transfer a => (shadow_decref_transfer map a).1

/-- The map after a sequence of calls. -/
def run_calls (map : fd_translation_map) (calls : List map_call) : fd_translation_map :=
  calls.foldl run_call map

/-- Every shadow fd in the map has both reference counts non-negative. -/
def refcounts_nonneg (map : fd_translation_map) : Prop :=
  ∀ sfd ∈ map.list, 0 ≤ sfd.refcount_protocol ∧ 0 ≤ sfd.refcount_transfer

/-- The call does not release a reference that is not held: a decref is made
only on a shadow fd whose count of that kind is positive. -/
def call_balanced (map : fd_translation_map) : map_call → Prop
  | map_call.decref_protocol a => ∀ sfd ∈ map.list, sfd.addr = a → 0 < sfd.refcount_protocol
  | map_call.decref_transfer a => ∀ sfd ∈ map.list, sfd.addr = a → 0 < sfd.refcount_transfer
  | _ => True

/-- Every call of the sequence is balanced in the map it is made on. -/
def calls_balanced : fd_translation_map → List map_call → Prop
  | _, [] => True
  | map, c :: cs => call_balanced map c ∧ calls_balanced (run_call map c) cs

/-- The remote ids that the calls of `translate_fd` in the sequence mint,
in order: one for each call that creates a new shadow fd. -/
def minted_ids : fd_translation_map → List map_call → List Int
  | _, [] => []
  | map, map_call.translate env fd :: cs =>
    match get_shadow_for_local_fd map fd with
    | some _ => minted_ids (run_call map (map_call.translate env fd)) cs
    | none =>
      (translate_fd map env fd).2.remote_id ::
        minted_ids (run_call map (map_call.translate env fd)) cs
  | map, c :: cs => minted_ids (run_call map c) cs

/-- A shadow fd that a protocol object owns and that holds one last protocol
reference. -/
def owned_sfd : shadow_fd :=
  { addr := 100, fd_local := 5, remote_id := 1, type := fdcat_t.FDC_FILE, has_owner := true,
    refcount_transfer := 0, refcount_protocol := 1 }

/-- A shadow fd that was registered and never claimed by a protocol object. -/
def unowned_sfd : shadow_fd :=
  { addr := 200, fd_local := 6, remote_id := 2, type := fdcat_t.FDC_FILE, has_owner := false,
    refcount_transfer := 1, refcount_protocol := 0 }

/-- A map that holds the two shadow fds above. -/
def two_sfd_map : fd_translation_map :=
  { list := [unowned_sfd, owned_sfd], local_sign := 1, max_local_id := 3, nthreads := 1,
    scancomp_thread_threshold := INT32_MAX }

/-! ## Transfers -/

/-- Modelled from the spec: `struct bytebuf` of `util.h`, a byte count and a
pointer.  The buffer behind the pointer is kept whole, so that a read past
`size` bytes has a value. -/
structure bytebuf where
  size : Nat
  data : Mem

/-- Modelled from the spec: `struct transfer` of `util.h`.  `special` is the
union of `raw`, `file_actual_size` and `pipeclose`; `subtransfers` holds the
blocks of the transfer, which the pointer of that name leads to. -/
structure transfer where
  type : fdcat_t := fdcat_t.FDC_UNKNOWN
  obj_id : Int := 0
  special : Int := 0
  nblocks : Int := 0
  subtransfers : List bytebuf := []

/-- The output of `collect_update`: the entries `transfers[0 .. *ntransfers)`
and `blocks[0 .. *nblocks)`; the two counters are the lengths.  `fault` is
set by a call that does not return because it writes outside the buffer it
allocated; every call starts from a queue without it. -/
structure transfer_queue where
  transfers : List transfer := []
  blocks : List bytebuf := []
  fault : Bool := false

/-- The counter `*ntransfers`. -/
def transfer_queue.ntransfers (q : transfer_queue) : Nat := q.transfers.length

/-- The counter `*nblocks`. -/
def transfer_queue.nblocks (q : transfer_queue) : Nat := q.blocks.length

/-- Embedding of `setup_single_block_transfer`: the new transfer is the last
of the queue. -/
def setup_single_block_transfer (q : transfer_queue) (size : Nat) (data : Mem) :
    transfer_queue :=
  { transfers := q.transfers ++
      [{ type := fdcat_t.FDC_UNKNOWN, obj_id := 0, special := 0, nblocks := 1,
         subtransfers := [{ size := size, data := data }] }],
    blocks := q.blocks ++ [{ size := size, data := data }] }

/-- The assignments `tf->... = ...` through the pointer that
`setup_single_block_transfer` returned. -/
def set_last_transfer (q : transfer_queue) (f : transfer → transfer) : transfer_queue :=
  match q.transfers.getLast? with
  | none => q
  | some tf => { q with transfers := q.transfers.dropLast ++ [f tf] }

/-- The read `transf->subtransfers[0]`.  In a transfer without blocks the
slot lies outside the transfer; it is read as an empty block. -/
def first_block (transf : transfer) : bytebuf :=
  transf.subtransfers.headD { size := 0, data := zero_mem }

/-! ## Byte copies and comparisons -/

/-- The call `memcpy(dst + 8 * dblk, src + 8 * sblk, n)`. -/
def memcpy_bytes (dst : Mem) (dblk : Nat) (src : Mem) (sblk n : Nat) : Mem :=
  (List.range (n % 8)).foldl
    (fun b i => store_byte b ((dblk + n / 8) * 8 + i) (load_byte src ((sblk + n / 8) * 8 + i)))
    (memcpy_blocks dst dblk src sblk (n / 8))

/-- The call `memset(dst, v, n)`. -/
def memset_bytes (dst : Mem) (v n : Nat) : Mem :=
  (List.range (n % 8)).foldl (fun b i => store_byte b (n / 8 * 8 + i) v)
    (fun k => if k < n / 8 then
      ((List.range 8).map (fun j => (v % 256) * 256 ^ j)).sum else dst k)

/-- The test `memcmp(a + off, b + off, n) != 0`. -/
def memcmp_differs (a b : Mem) (off n : Nat) : Bool :=
  (List.range n).any (fun i => decide (load_byte a (off + i) ≠ load_byte b (off + i)))

/-- A buffer that holds the bytes of `l`. -/
def mem_of_bytes (l : List Nat) : Mem :=
  fun k => ((List.range 8).map (fun j => (l.getD (8 * k + j) 0 % 256) * 256 ^ j)).sum

/-- The first `n` bytes of a buffer. -/
def bytes_of_mem (m : Mem) (n : Nat) : List Nat := (List.range n).map (load_byte m)

/-- The buffer seen through the pointer `&m[8 * off]`. -/
def mem_view (m : Mem) (off : Nat) : Mem := fun k => m (off + k)

/-- The buffer `m` after the writes that left `v` behind the pointer
`&m[8 * off]`. -/
def mem_write_back (m : Mem) (off : Nat) (v : Mem) : Mem :=
  fun j => if off ≤ j then v (j - off) else m j

/-! ## Compression -/

/-- Modelled from the spec: the LZ4 and Zstandard libraries, as what the
`COMP_LZ4` and `COMP_ZSTD` branches of `compress_buffer` and
`uncompress_buffer` leave in `{*wsize, *wbuf}` for the input `{isize, ibuf}`
(and the expected size `msize`). -/
structure codec_lib where
  compress : compression_mode → Nat → Mem → bytebuf
  uncompress : compression_mode → Nat → Mem → Nat → bytebuf

/-- Embedding of `compress_buffer`: the result `{*wsize, *wbuf}`. -/
def compress_buffer (map : fd_translation_map) (lib : codec_lib) (isize : Nat) (ibuf : Mem) :
    bytebuf :=
  if isize = 0 then { size := 0, data := ibuf }
  else
    match map.compression with
    | compression_mode.COMP_NONE => { size := isize, data := ibuf }
    | compression_mode.COMP_LZ4 => lib.compress compression_mode.COMP_LZ4 isize ibuf
    | compression_mode.COMP_ZSTD => lib.compress compression_mode.COMP_ZSTD isize ibuf

/-- Embedding of `uncompress_buffer`: the result `{*wsize, *wbuf}`. -/
def uncompress_buffer (map : fd_translation_map) (lib : codec_lib) (isize : Nat) (ibuf : Mem)
    (msize : Nat) : bytebuf :=
  if isize = 0 then { size := 0, data := ibuf }
  else
    match map.compression with
    | compression_mode.COMP_NONE => { size := isize, data := ibuf }
    | compression_mode.COMP_LZ4 => lib.uncompress compression_mode.COMP_LZ4 isize ibuf msize
    | compression_mode.COMP_ZSTD => lib.uncompress compression_mode.COMP_ZSTD isize ibuf msize

/-! ## Damage bookkeeping -/

def INT32_MIN : Int := -(2 ^ 31)

/-- Modelled from the spec: `reset_damage` of `util.h` clears the damage. -/
def reset_damage : damage := damage.rects []

/-- Modelled from the spec: `get_damage_interval` of `util.h`, which returns
the minimal byte range `[lo, hi)` that covers all damage and the sum of the
widths; for `DAMAGE_EVERYTHING` the whole `int` range, for no damage an
empty range. -/
def get_damage_interval : damage → Int × Int × Int
  | damage.everything => (INT32_MIN, INT32_MAX, INT32_MAX)
  | damage.rects l =>
    l.foldl
      (fun (acc : Int × Int × Int) ei =>
        (min acc.1 (ei.start : Int),
         max acc.2.1 ((ei.start : Int) + ((ei.rep : Int) - 1) * ei.stride + ei.width),
         acc.2.2 + (ei.rep : Int) * ei.width))
      (INT32_MAX, INT32_MIN, 0)

/-- Modelled from the spec: `clamp` of `util.h` on `int`. -/
def clamp (v lower upper : Int) : Int := max (min v upper) lower

/-- Modelled from the spec: `align` of `util.h`, which rounds the `int` `v`
up to a multiple of `m` (the calls `(size_t)align((int)sfd->file_size, 8)`
show its type). -/
def align (v m : Int) : Int := m * Int.tdiv (v + m - 1) m
/-! ## `collect_update` -/

/-- What one worker of the parallel diff leaves: its slice of the file, its
region of `diff_buffer` (byte offsets), `*actual_size` and `*dst`. -/
structure worker_out where
  source_start : Nat
  source_end : Nat
  diff_start : Nat
  diff_end : Nat
  actual_size : Nat
  dst : bytebuf

/-- Embedding of `worker_run_compresseddiff` for the worker `index`, with
`map->thread_target` passed as `sfd`: the diff of the slice is written
through the pointer `&sfd->diff_buffer[diff_start]`. -/
def worker_run_compresseddiff (map : fd_translation_map) (lib : codec_lib) (sfd : shadow_fd)
    (index : Nat) : shadow_fd × worker_out :=
  let nthreads := cast_u64 map.nthreads
  let source_start := cast_u64 (align (cast_int (u64 (index * sfd.file_size) / nthreads)) 8)
  let source_end := cast_u64 (align (cast_int (u64 ((index + 1) * sfd.file_size) / nthreads)) 8)
  let diff_start := u64 (source_start + 8 * index)
  let diff_end := u64 (source_end + 8 * (index + 1))
  let buf := sfd.diff_buffer.getD zero_mem
  let r := construct_diff sfd.file_size sfd.dmg source_start source_end
    (sfd.mem_mirror.getD zero_mem) (sfd.file_mem_local.getD zero_mem)
    (mem_view buf (diff_start / 8))
  let buf2 := mem_write_back buf (diff_start / 8) r.diff
  ({ sfd with mem_mirror := some r.base, diff_buffer := some buf2 },
   { source_start := source_start, source_end := source_end, diff_start := diff_start,
     diff_end := diff_end, actual_size := r.diffsize,
     dst := compress_buffer map lib r.diffsize (mem_view buf2 (diff_start / 8)) })

/-- The workers of one parallel diff, run one after the other in index
order: index 0 is the call that `collect_update` makes itself, index `i + 1`
the one of `map->threads[i]`. -/
def run_workers (map : fd_translation_map) (lib : codec_lib) (sfd : shadow_fd) (n : Nat) :
    shadow_fd × List worker_out :=
  (List.range n).foldl
    (fun (p : shadow_fd × List worker_out) index =>
      let o := worker_run_compresseddiff map lib p.1 index
      (o.1, p.2 ++ [o.2]))
    (sfd, [])

/-- The conversion of `tf->special.file_actual_size += size`, an `int`
increased by a `size_t`. -/
def add_size_to_int (s : Int) (x : Nat) : Int := cast_int (u64 (cast_u64 s + x))

/-- The block that the transfer holds for a worker: without compression
`dst->data` points into `diff_buffer`, which is read when all workers are
done. -/
def worker_block (map : fd_translation_map) (buf : Mem) (o : worker_out) : bytebuf :=
  if map.compression = compression_mode.COMP_NONE then
    { size := o.dst.size, data := mem_view buf (o.diff_start / 8) }
  else o.dst

/-- The assembly of the multi-block transfer of the parallel diff: one block
for each worker with a non-zero `cd_actual_size`. -/
def parallel_transfer (map : fd_translation_map) (sfd : shadow_fd) (outs : List worker_out) :
    transfer :=
  let used := outs.filter (fun o => decide (o.actual_size ≠ 0))
  { type := sfd.type,
    obj_id := sfd.remote_id,
    nblocks := (used.length : Int),
    special := used.foldl (fun s o => add_size_to_int s o.actual_size) 0,
    subtransfers := used.map (worker_block map (sfd.diff_buffer.getD zero_mem)) }

/-- The call `calloc(align(v, 8), 1)` for a `size_t` `v`: the number of bytes
of the buffer that it returns, or `none` for `NULL`.  `align` takes and
returns `int`, so `v` is converted to `int`; `calloc` returns `NULL` when the
rounded value is negative (as a `size_t` it is more than can be allocated) or
lies above `INT32_MAX` (the rounding overflows `int` and wraps to a negative
value). -/
def calloc_align8 (v : Nat) : Option Nat :=
  if 0 ≤ align (cast_int v) 8 ∧ align (cast_int v) 8 ≤ INT32_MAX then
    some (align (cast_int v) 8).toNat
  else none

/-- The first transfer of a file, the block `if (!sfd->mem_mirror)` of
`collect_update`: the damage is reset, the mirror and the diff buffer are
allocated with `calloc(align(..., 8), 1)`, the file is copied into the mirror
and sent whole.  The result is `none` when the mirror is `NULL` or holds
fewer than `file_size` bytes: the `memcpy` of `file_size` bytes into it
faults. -/
def collect_first_transfer (map : fd_translation_map) (lib : codec_lib) (sfd1 : shadow_fd)
    (q0 : transfer_queue) : Option (shadow_fd × transfer_queue) :=
  let file := sfd1.file_mem_local.getD zero_mem
  let mirror_bytes := calloc_align8 sfd1.file_size
  let diff_buffer : Option Mem :=
    (calloc_align8 (u64 (sfd1.file_size + cast_u64 (8 * map.nthreads)))).map (fun _ => zero_mem)
  if mirror_bytes.getD 0 < sfd1.file_size then none
  else
    let mirror := memcpy_bytes zero_mem 0 file 0 sfd1.file_size
    let c := compress_buffer map lib sfd1.file_size mirror
    some ({ sfd1 with dmg := reset_damage, mem_mirror := some mirror,
                      diff_buffer := diff_buffer },
          set_last_transfer (setup_single_block_transfer q0 c.size c.data)
            (fun tf => { tf with type := sfd1.type, obj_id := sfd1.remote_id,
                                 special := cast_int sfd1.file_size }))

/-- The `FDC_FILE` branch of `collect_update`.  A `NULL` `file_mem_local` is
read as zero bytes.  When the copy into a new mirror faults, the call ends
there: the queue is returned with `fault` set and nothing added. -/
def collect_update_file (map : fd_translation_map) (lib : codec_lib) (sfd0 : shadow_fd)
    (q0 : transfer_queue) : shadow_fd × transfer_queue :=
  if sfd0.is_dirty = false then (sfd0, q0)
  else
    let sfd1 : shadow_fd := { sfd0 with is_dirty := false }
    let file := sfd1.file_mem_local.getD zero_mem
    let first : Option (shadow_fd × transfer_queue) :=
      match sfd1.mem_mirror with
      | some _ => some (sfd1, q0)
      | none => collect_first_transfer map lib sfd1 q0
    match first with
    | none => ({ sfd1 with dmg := reset_damage }, { q0 with fault := true })
    | some p =>
      let sfd2 := p.1
      let q1 := p.2
      let mirror := sfd2.mem_mirror.getD zero_mem
      let iv := get_damage_interval sfd2.dmg
      let intv_min := clamp iv.1 0 (cast_int sfd2.file_size)
      let intv_max := clamp iv.2.1 0 (cast_int sfd2.file_size)
      let total_area := min iv.2.2 (cast_int sfd2.file_size)
      if intv_min ≥ intv_max then ({ sfd2 with dmg := reset_damage }, q1)
      else if memcmp_differs file mirror intv_min.toNat (intv_max - intv_min).toNat = false then
        ({ sfd2 with dmg := reset_damage }, q1)
      else
        let sfd3 : shadow_fd := { sfd2 with diff_buffer := some (sfd2.diff_buffer.getD zero_mem) }
        if total_area > map.scancomp_thread_threshold then
          let w := run_workers map lib sfd3 map.nthreads.toNat
          let tf := parallel_transfer map w.1 w.2
          ({ w.1 with dmg := reset_damage },
           { transfers := q1.transfers ++ [tf], blocks := q1.blocks ++ tf.subtransfers })
        else
          let r := construct_diff sfd3.file_size sfd3.dmg 0 SIZE_MAX mirror file
            (sfd3.diff_buffer.getD zero_mem)
          let c := compress_buffer map lib r.diffsize r.diff
          let q2 :=
            if c.size > 0 then
              set_last_transfer (setup_single_block_transfer q1 c.size c.data)
                (fun tf => { tf with obj_id := sfd3.remote_id, type := sfd3.type,
                                     special := cast_int r.diffsize })
            else q1
          ({ sfd3 with mem_mirror := some r.base, diff_buffer := some r.diff,
                       dmg := reset_damage }, q2)

/-- What the environment answers during one call of `collect_update`: the
compression libraries, the mapping `map_dmabuf` returns (`none` for `NULL`)
and, modelled from the spec, the transfers that the video encoder
(`collect_video_from_mirror` of `video.c`) adds to the queue. -/
structure collect_env where
  lib : codec_lib
  map_dmabuf : Option Mem
  collect_video : shadow_fd → transfer_queue → Bool → transfer_queue

/-- The `FDC_DMABUF` branch of `collect_update`; `dmabuf_imported` says
that `dmabuf_bo` is not `NULL`. -/
def collect_update_dmabuf (map : fd_translation_map) (env : collect_env) (sfd0 : shadow_fd)
    (q0 : transfer_queue) : shadow_fd × transfer_queue :=
  if sfd0.is_dirty = false then (sfd0, q0)
  else
    let sfd1 : shadow_fd := { sfd0 with is_dirty := false }
    let using_video := slice_using_video sfd1.dmabuf_info
    let first := sfd1.mem_mirror.isNone
    let sfd2 : shadow_fd :=
      if sfd1.mem_mirror.isNone = true ∧ using_video = false then
        { sfd1 with mem_mirror := some zero_mem, diff_buffer := some zero_mem }
      else if sfd1.mem_mirror.isNone = true ∧ using_video = true then
        { sfd1 with mem_mirror := some zero_mem }
      else sfd1
    let mirror := sfd2.mem_mirror.getD zero_mem
    if sfd2.dmabuf_imported = false then (sfd2, q0)
    else
      match env.map_dmabuf with
      | none => (sfd2, q0)
      | some data =>
        if using_video = true ∧ sfd2.video_ready = true then
          let sfd3 : shadow_fd :=
            { sfd2 with mem_mirror := some (memcpy_bytes mirror 0 data 0 sfd2.dmabuf_size) }
          (sfd3, env.collect_video sfd3 q0 first)
        else if first = true then
          let mirror2 := memcpy_bytes mirror 0 data 0 sfd2.dmabuf_size
          let c := compress_buffer map env.lib sfd2.dmabuf_size mirror2
          let d1 := memcpy_bytes (sfd2.diff_buffer.getD zero_mem) 0 sfd2.dmabuf_info 0
            DMABUF_SLICE_DATA_SIZE
          let d2 := memcpy_bytes d1 (DMABUF_SLICE_DATA_SIZE / 8) c.data 0 c.size
          ({ sfd2 with mem_mirror := some mirror2, diff_buffer := some d2 },
           set_last_transfer
             (setup_single_block_transfer q0 (DMABUF_SLICE_DATA_SIZE + c.size) d2)
             (fun tf => { tf with type := sfd2.type, obj_id := sfd2.remote_id,
                                  special := cast_int sfd2.dmabuf_size }))
        else if memcmp_differs mirror data 0 sfd2.dmabuf_size = true then
          let r := construct_diff sfd2.dmabuf_size damage.everything 0 SIZE_MAX mirror data
            (sfd2.diff_buffer.getD zero_mem)
          let c := compress_buffer map env.lib r.diffsize r.diff
          ({ sfd2 with mem_mirror := some r.base, diff_buffer := some r.diff },
           set_last_transfer (setup_single_block_transfer q0 c.size c.data)
             (fun tf => { tf with obj_id := sfd2.remote_id, type := sfd2.type,
                                  special := cast_int r.diffsize }))
        else (sfd2, q0)

/-- The pipe branch of `collect_update`. -/
def collect_update_pipe (sfd : shadow_fd) (q : transfer_queue) : shadow_fd × transfer_queue :=
  let closing := sfd.pipe_lclosed && !sfd.pipe_rclosed
  if sfd.pipe_recv.used > 0 ∨ sfd.pipe_onlyhere = true ∨ closing = true then
    let q1 := set_last_transfer
      (setup_single_block_transfer q (cast_u64 sfd.pipe_recv.used)
        (mem_of_bytes (sfd.pipe_recv.data.getD [])))
      (fun tf => { tf with type := sfd.type, obj_id := sfd.remote_id,
                           special := if closing = true then 1 else 0 })
    let sfd1 : shadow_fd := { sfd with pipe_onlyhere := false }
    let sfd2 : shadow_fd :=
      if closing = true then { sfd1 with pipe_rclosed := true, pipe_fd := -2 } else sfd1
    ({ sfd2 with pipe_recv := { sfd2.pipe_recv with used := 0 } }, q1)
  else (sfd, q)

/-- Embedding of `collect_update`: the shadow fd and the queue of transfers
and blocks that it leaves. -/
def collect_update (map : fd_translation_map) (env : collect_env) (sfd : shadow_fd)
    (q : transfer_queue) : shadow_fd × transfer_queue :=
  if sfd.type = fdcat_t.FDC_FILE then collect_update_file map env.lib sfd q
  else if sfd.type = fdcat_t.FDC_DMABUF then collect_update_dmabuf map env sfd q
  else if fdcat_ispipe sfd.type = true then collect_update_pipe sfd q
  else (sfd, q)
/-! ## `create_from_update` and `apply_update` -/

/-- The messages that `create_from_update` and `apply_update` log at error
level. -/
inductive wp_error where
  | shm_create_failed : wp_error
  | shm_resize_failed : wp_error
  | socketpair_failed : wp_error
  | pipe_failed : wp_error
  | nonblock_failed : wp_error
  | unknown_type_update : wp_error
  | type_mismatch : wp_error
  | size_mismatch : wp_error
  | type_contramismatch : wp_error
  | nonexistent_dmabuf : wp_error
  deriving DecidableEq, Repr

/-- What the environment answers during one call of `apply_update`: the
compression libraries, the address `calloc` returns for a new shadow fd, the
results of `shm_open` and `ftruncate`, of `socketpair` or `pipe` and of
`set_fnctl_flag`, of `init_render_data`, `make_dmabuf` and `export_dmabuf`,
the mirror that the video decoder (`apply_video_packet_to_mirror` of
`video.c`, modelled from the spec) leaves, and whether `setup_video_decode`
left a usable decoder. -/
structure update_env where
  lib : codec_lib
  new_addr : Nat
  shm_fd : Int
  ftruncate_ok : Bool
  pipe_ok : Bool
  pipedes0 : Int
  pipedes1 : Int
  nonblock_ok : Bool
  render_ok : Bool
  make_dmabuf_ok : Bool
  export_fd : Int
  video_mirror : Mem
  video_ready : Bool

/-- The map that an update leaves and the errors logged on the way. -/
structure update_result where
  map : fd_translation_map
  errors : List wp_error

/-- The first characters `/waypipe` of the name that `create_from_update`
prints into `file_shm_buf_name`; the digits of the process id and of the
remote id that follow are not read by any function of `shadow.c` and are
left out. -/
def shm_buf_name : List Nat := [47, 119, 97, 121, 112, 105, 112, 101]

/-- The `FDC_FILE` branch of `create_from_update`, on the shadow fd that the
common part has set up.  The new shm file is mapped as zero bytes. -/
def create_file_from_update (map : fd_translation_map) (env : update_env) (transf : transfer)
    (sfd0 : shadow_fd) : shadow_fd × List wp_error :=
  let file_size := cast_u64 transf.special
  let block := first_block transf
  let u := uncompress_buffer map env.lib block.size block.data file_size
  let sfd1 : shadow_fd :=
    { sfd0 with file_mem_local := none, file_size := file_size,
                mem_mirror := some (memcpy_bytes zero_mem 0 u.data 0 u.size),
                file_shm_buf_name := shm_buf_name,
                fd_local := env.shm_fd }
  if env.shm_fd = -1 then (sfd1, [wp_error.shm_create_failed])
  else if env.ftruncate_ok = false then (sfd1, [wp_error.shm_resize_failed])
  else
    let mapping := memcpy_bytes zero_mem 0 (sfd1.mem_mirror.getD zero_mem) 0 file_size
    ({ sfd1 with file_mem_local := some mapping }, [])

/-- The pipe branch of `create_from_update`. -/
def create_pipe_from_update (env : update_env) (transf : transfer) (sfd0 : shadow_fd) :
    shadow_fd × List wp_error :=
  if env.pipe_ok = false then
    (sfd0, [if transf.type = fdcat_t.FDC_PIPE_RW then wp_error.socketpair_failed
            else wp_error.pipe_failed])
  else
    let sfd1 : shadow_fd :=
      if transf.type = fdcat_t.FDC_PIPE_IW then
        { sfd0 with fd_local := env.pipedes1, pipe_fd := env.pipedes0,
                    type := fdcat_t.FDC_PIPE_IR }
      else if transf.type = fdcat_t.FDC_PIPE_IR then
        { sfd0 with fd_local := env.pipedes0, pipe_fd := env.pipedes1,
                    type := fdcat_t.FDC_PIPE_IW }
      else
        { sfd0 with fd_local := env.pipedes0, pipe_fd := env.pipedes1,
                    type := fdcat_t.FDC_PIPE_RW }
    if env.nonblock_ok = false then (sfd1, [wp_error.nonblock_failed])
    else
      let recv : pipe_buffer :=
        { sfd1.pipe_recv with size := 16384, data := some (List.replicate 16384 0) }
      ({ sfd1 with pipe_recv := recv, pipe_onlyhere := false }, [])

/-- The `FDC_DMABUF` branch of `create_from_update`.  The header
`struct dmabuf_slice_data` is read at the start of the first block. -/
def create_dmabuf_from_update (map : fd_translation_map) (env : update_env) (transf : transfer)
    (sfd0 : shadow_fd) : shadow_fd × List wp_error :=
  let dmabuf_size := cast_u64 transf.special
  let block := first_block transf
  let info := block.data
  let mirror :=
    if slice_using_video info = true then
      if block.size > DMABUF_SLICE_DATA_SIZE then env.video_mirror
      else memset_bytes zero_mem 213 dmabuf_size
    else
      let u := uncompress_buffer map env.lib (u64 (block.size + (2 ^ 64 - DMABUF_SLICE_DATA_SIZE)))
        (mem_view block.data (DMABUF_SLICE_DATA_SIZE / 8)) dmabuf_size
      memcpy_bytes zero_mem 0 u.data 0 dmabuf_size
  let sfd1 : shadow_fd :=
    { sfd0 with dmabuf_size := dmabuf_size, mem_mirror := some mirror,
                video_ready := slice_using_video info && env.video_ready }
  if env.render_ok = false then ({ sfd1 with fd_local := -1 }, [])
  else if env.make_dmabuf_ok = false then ({ sfd1 with fd_local := -1 }, [])
  else
    ({ sfd1 with dmabuf_imported := true,
                 dmabuf_info := memcpy_bytes zero_mem 0 info 0 DMABUF_SLICE_DATA_SIZE,
                 fd_local := env.export_fd }, [])

/-- The shadow fd that `create_from_update` allocates, as the call leaves
it, and the errors logged. -/
def new_from_update (map : fd_translation_map) (env : update_env) (transf : transfer) :
    shadow_fd × List wp_error :=
  let sfd0 : shadow_fd :=
    { addr := env.new_addr,
      remote_id := transf.obj_id,
      fd_local := -1,
      type := transf.type,
      is_dirty := false,
      dmg := reset_damage,
      refcount_transfer := 1,
      refcount_protocol := 0 }
  if sfd0.type = fdcat_t.FDC_FILE then create_file_from_update map env transf sfd0
  else if fdcat_ispipe sfd0.type = true then create_pipe_from_update env transf sfd0
  else if sfd0.type = fdcat_t.FDC_DMABUF then create_dmabuf_from_update map env transf sfd0
  else (sfd0, [wp_error.unknown_type_update])

/-- Embedding of `create_from_update`: the new shadow fd becomes the head of
the list. -/
def create_from_update (map : fd_translation_map) (env : update_env) (transf : transfer) :
    update_result :=
  { map := { map with list := (new_from_update map env transf).1 :: map.list },
    errors := (new_from_update map env transf).2 }

/-- The loop `while (sfd->pipe_send.size < netsize) sfd->pipe_send.size *= 2`. -/
def grow_pipe_send (netsize : Int) : Nat → Int → Int
  | 0, size => size
  | fuel + 1, size => if size < netsize then grow_pipe_send netsize fuel (size * 2) else size

/-- The buffer that `realloc(data, n)` returns (`calloc(n, 1)` when `data`
is `NULL`): the old bytes as far as they fit; new bytes are read as zero. -/
def resize_bytes (data : Option (List Nat)) (n : Nat) : List Nat :=
  match data with
  | none => List.replicate n 0
  | some d => (d ++ List.replicate (n - d.length) 0).take n

/-- The call `memcpy(data + off, src, src.length)` on a byte buffer. -/
def write_bytes (data : List Nat) (off : Nat) (src : List Nat) : List Nat :=
  data.take off ++ src ++ data.drop (off + src.length)

/-- The `FDC_FILE` branch of `apply_update` on the shadow fd found. -/
def apply_update_file (map : fd_translation_map) (env : update_env) (transf : transfer)
    (sfd : shadow_fd) : shadow_fd × List wp_error :=
  let block := first_block transf
  let e1 := if transf.type ≠ sfd.type then [wp_error.type_mismatch] else []
  let u := uncompress_buffer map env.lib block.size block.data (cast_u64 transf.special)
  let e2 := if u.size > u64 (sfd.file_size + 8 * 128) then [wp_error.size_mismatch] else []
  let mirror := sfd.mem_mirror.map (fun m => (apply_diff sfd.file_size m u.size u.data).base)
  let file := sfd.file_mem_local.map (fun m => (apply_diff sfd.file_size m u.size u.data).base)
  ({ sfd with mem_mirror := mirror, file_mem_local := file }, e1 ++ e2)

/-- The pipe branch of `apply_update` on the shadow fd found. -/
def apply_update_pipe (transf : transfer) (sfd : shadow_fd) : shadow_fd × List wp_error :=
  let block := first_block transf
  let rw_match := decide (sfd.type = fdcat_t.FDC_PIPE_RW) && decide (transf.type = fdcat_t.FDC_PIPE_RW)
  let iw_match := decide (sfd.type = fdcat_t.FDC_PIPE_IW) && decide (transf.type = fdcat_t.FDC_PIPE_IR)
  let ir_match := decide (sfd.type = fdcat_t.FDC_PIPE_IR) && decide (transf.type = fdcat_t.FDC_PIPE_IW)
  let e := if (!rw_match && !iw_match && !ir_match) = true then [wp_error.type_contramismatch]
           else []
  let netsize : Int := sfd.pipe_send.used + (block.size : Int)
  let size1 : Int := if sfd.pipe_send.size ≤ 1024 then 1024 else sfd.pipe_send.size
  let size2 := grow_pipe_send netsize netsize.toNat size1
  let data := write_bytes (resize_bytes sfd.pipe_send.data size2.toNat) sfd.pipe_send.used.toNat
    (bytes_of_mem block.data block.size)
  let send : pipe_buffer :=
    { size := size2, used := sfd.pipe_send.used + (block.size : Int), data := some data }
  ({ sfd with pipe_send := send, pipe_writable := true,
              pipe_rclosed := if transf.special ≠ 0 then true else sfd.pipe_rclosed }, e)

/-- The `FDC_DMABUF` branch of `apply_update` on the shadow fd found; the
contents of the buffer object lie outside the map. -/
def apply_update_dmabuf (map : fd_translation_map) (env : update_env) (transf : transfer)
    (sfd : shadow_fd) : shadow_fd × List wp_error :=
  let block := first_block transf
  if sfd.dmabuf_imported = false then (sfd, [wp_error.nonexistent_dmabuf])
  else if slice_using_video sfd.dmabuf_info = true then
    ({ sfd with mem_mirror := some env.video_mirror }, [])
  else
    let u := uncompress_buffer map env.lib block.size block.data (cast_u64 transf.special)
    let mirror := sfd.mem_mirror.map (fun m => (apply_diff sfd.dmabuf_size m u.size u.data).base)
    ({ sfd with mem_mirror := mirror }, [])

/-- Embedding of `apply_update`. -/
def apply_update (map : fd_translation_map) (env : update_env) (transf : transfer) :
    update_result :=
  match get_shadow_for_rid map transf.obj_id with
  | none => create_from_update map env transf
  | some sfd =>
    let r : shadow_fd × List wp_error :=
      if sfd.type = fdcat_t.FDC_FILE then apply_update_file map env transf sfd
      else if fdcat_ispipe sfd.type = true then apply_update_pipe transf sfd
      else if sfd.type = fdcat_t.FDC_DMABUF then apply_update_dmabuf map env transf sfd
      else (sfd, [])
    { map := { map with list := update_sfd map.list sfd.addr (fun _ => r.1) }, errors := r.2 }

/-- Embedding of `close_rclosed_pipes`. -/
def close_rclosed_pipes (map : fd_translation_map) : fd_translation_map :=
  let l := map.list.map (fun cur =>
    if fdcat_ispipe cur.type = true ∧ cur.pipe_rclosed = true ∧ cur.pipe_lclosed = false then
      { cur with fd_local := if cur.pipe_fd = cur.fd_local then -2 else cur.fd_local,
                 pipe_fd := -2, pipe_lclosed := true }
    else cur)
  { map with list := l }

/-! ## Insertion histories -/

/-- A call that can insert a shadow fd into the map. -/
inductive insert_call where
  | translate : translate_env → Int → insert_call
  | create : update_env → transfer → insert_call

/-- The map after one such call. -/
def run_insert (map : fd_translation_map) : insert_call → fd_translation_map
  | insert_call.translate env fd => (translate_fd map env fd).1
  | insert_call.create env transf => (create_from_update map env transf).map

/-- The map after a sequence of such calls. -/
def run_inserts (map : fd_translation_map) (calls : List insert_call) : fd_translation_map :=
  calls.foldl run_insert map

/-- The shadow fds that the calls insert, in the order of insertion; a
`translate_fd` that finds its fd in the map inserts nothing. -/
def inserted_sfds : fd_translation_map → List insert_call → List shadow_fd
  | _, [] => []
  | map, insert_call.translate env fd :: cs =>
    match get_shadow_for_local_fd map fd with
    | some _ => inserted_sfds (run_insert map (insert_call.translate env fd)) cs
    | none =>
      (translate_fd map env fd).2 ::
        inserted_sfds (run_insert map (insert_call.translate env fd)) cs
  | map, insert_call.create env transf :: cs =>
    (new_from_update map env transf).1 ::
      inserted_sfds (run_insert map (insert_call.create env transf)) cs
/-! ## Specification vocabulary for updates -/

/-- A pipe buffer is well formed: the fill level `used` lies between 0 and
the capacity `size`, the buffer holds `size` bytes, and an absent buffer
(`data == NULL`) is empty. -/
def pipe_buffer_valid (b : pipe_buffer) : Prop :=
  0 ≤ b.used ∧ b.used ≤ b.size ∧
  match b.data with
  | some d => (d.length : Int) = b.size
  | none => b.used = 0

/-- The segments that the header loop of `apply_diff` accepts from diff word
`i` on: for each header that passes its check, the block range
`[nfrom, nto)` and the index of the first payload word.  The list ends before
the first header that fails the check. -/
def accepted_segments (nblocks ndiffblocks : Nat) (diff : Mem) :
    Nat → Nat → List (Nat × Nat × Nat)
  | 0, _ => []
  | fuel + 1, i =>
    if i < ndiffblocks then
      let nfrom := diff i >>> 32
      let nto := u64 (diff i <<< 32) >>> 32
      if nto > nblocks ∨ nfrom ≥ nto ∨ i + (nto - nfrom) ≥ ndiffblocks then []
      else
        (nfrom, nto, i + 1) ::
          accepted_segments nblocks ndiffblocks diff fuel (i + (nto - nfrom) + 1)
    else []

/-- The buffer `base` after the payloads of the segments `segs` of `diff`
were copied into it, in order. -/
def apply_segments (diff : Mem) (segs : List (Nat × Nat × Nat)) (base : Mem) : Mem :=
  segs.foldl (fun b s => memcpy_blocks b s.1 diff s.2.2 (s.2.1 - s.1)) base

/-- The first header of the diff fails the check of `apply_diff`:
`nto > nblocks`, `nfrom >= nto`, or the payload does not end before the end
of the diff. -/
def first_header_invalid (size diffsize : Nat) (diff : Mem) : Prop :=
  0 < diffsize / 8 ∧
  (u64 (diff 0 <<< 32) >>> 32 > size / 8 ∨ diff 0 >>> 32 ≥ u64 (diff 0 <<< 32) >>> 32 ∨
    u64 (diff 0 <<< 32) >>> 32 - diff 0 >>> 32 ≥ diffsize / 8)

/-- The block ranges `[nfrom, nto)` of the headers of a diff of `diffsize`
bytes for a buffer of `size` bytes. -/
def header_ranges (size diffsize : Nat) (diff : Mem) : List (Nat × Nat) :=
  (accepted_segments (size / 8) (diffsize / 8) diff (diffsize / 8) 0).map (fun s => (s.1, s.2.1))

/-- A diff of three words for a buffer of 16 bytes: the header `(0, 1)`, the
payload 7, and the header `(1, 1)` with `nfrom = nto`. -/
def half_valid_diff : Mem :=
  store (store (store zero_mem 0 1) 1 7) 2 (2 ^ 32 + 1)

/-- Every interval of the damage has a positive width. -/
def damage_nonempty : damage → Prop
  | damage.everything => True
  | damage.rects l => ∀ ei ∈ l, 0 < ei.width

/-- The damage `d2` covers every byte that `d1` covers. -/
def damage_covers (d2 d1 : damage) : Prop :=
  ∀ a, byte_damaged d1 a → byte_damaged d2 a

/-- The damage of one interval over the bytes `[0, 24)`. -/
def one_interval_damage : damage :=
  damage.rects [{ start := 0, width := 24, rep := 1, stride := 0 }]

/-- The same bytes `[0, 24)` as three intervals of 8 bytes. -/
def three_interval_damage : damage :=
  damage.rects [{ start := 0, width := 8, rep := 1, stride := 0 },
                { start := 8, width := 8, rep := 1, stride := 0 },
                { start := 16, width := 8, rep := 1, stride := 0 }]

/-- A stand-in for the compression libraries that hands its input back. -/
def plain_lib : codec_lib :=
  { compress := fun _ n b => { size := n, data := b },
    uncompress := fun _ n b _ => { size := n, data := b } }

/-- An environment of `collect_update` without buffer objects and video. -/
def plain_collect_env : collect_env :=
  { lib := plain_lib, map_dmabuf := none, collect_video := fun _ q _ => q }

/-- An environment of `apply_update` in which every system call succeeds;
new descriptors are 20 and 21 and the new struct is at address 500. -/
def plain_update_env : update_env :=
  { lib := plain_lib, new_addr := 500, shm_fd := 20, ftruncate_ok := true, pipe_ok := true,
    pipedes0 := 20, pipedes1 := 21, nonblock_ok := true, render_ok := true,
    make_dmabuf_ok := true, export_fd := 20, video_mirror := zero_mem, video_ready := false }

/-- An empty map with one thread and no compression. -/
def plain_map : fd_translation_map :=
  setup_translation_map false 2 1000 compression_mode.COMP_NONE

/-- A pipe the application reads from the far end of, as `translate_fd`
registers it for the local fd 5. -/
def fresh_pipe : shadow_fd :=
  (translate_fd plain_map
    { new_addr := 100, fd_type := fdcat_t.FDC_PIPE_IR, fsize := 0, mmap_result := none,
      dmabuf_imported := false, dmabuf_size := 0 } 5).2

/-- A pipe that is clean, without damage, and has received three bytes. -/
def clean_pipe_with_data : shadow_fd :=
  { addr := 300, fd_local := 7, remote_id := 3, type := fdcat_t.FDC_PIPE_IR, is_dirty := false,
    dmg := damage.rects [], refcount_transfer := 1, pipe_fd := 7,
    pipe_recv := { size := 16384, used := 3, data := some [104, 105, 10] } }

/-- A clean file of 16 bytes with a mirror. -/
def clean_file : shadow_fd :=
  { addr := 310, fd_local := 8, remote_id := 4, type := fdcat_t.FDC_FILE, is_dirty := false,
    dmg := damage.rects [], refcount_transfer := 1, file_size := 16,
    file_mem_local := some zero_mem, mem_mirror := some zero_mem, diff_buffer := some zero_mem }

/-- A pipe the application writes into (type `FDC_PIPE_IR`: this side reads
from it), with an empty write queue, in a map of its own. -/
def reading_pipe : shadow_fd :=
  { addr := 320, fd_local := 9, remote_id := 5, type := fdcat_t.FDC_PIPE_IR,
    refcount_transfer := 1, pipe_fd := 9,
    pipe_recv := { size := 16384, used := 0, data := some [] } }

/-- A map that holds `reading_pipe`. -/
def reading_pipe_map : fd_translation_map :=
  { list := [reading_pipe], local_sign := 1, max_local_id := 6, nthreads := 1,
    scancomp_thread_threshold := INT32_MAX }

/-- A transfer of three bytes for the remote id 5 that claims the type
`FDC_PIPE_IR`, the same as the receiving shadow fd has. -/
def same_direction_transfer : transfer :=
  { type := fdcat_t.FDC_PIPE_IR, obj_id := 5, special := 1, nblocks := 1,
    subtransfers := [{ size := 3, data := mem_of_bytes [104, 105, 10] }] }

/-- A pipe with a write queue of capacity 4 that holds two bytes. -/
def queued_pipe : shadow_fd :=
  { addr := 330, fd_local := 10, remote_id := 6, type := fdcat_t.FDC_PIPE_IW,
    refcount_transfer := 1, pipe_fd := 11,
    pipe_send := { size := 4, used := 2, data := some [1, 2, 0, 0] } }

/-- A map that holds `queued_pipe`. -/
def queued_pipe_map : fd_translation_map :=
  { list := [queued_pipe], local_sign := 1, max_local_id := 7, nthreads := 1,
    scancomp_thread_threshold := INT32_MAX }

/-- A transfer of three bytes for the remote id 6. -/
def three_byte_transfer : transfer :=
  { type := fdcat_t.FDC_PIPE_IR, obj_id := 6, special := 0, nblocks := 1,
    subtransfers := [{ size := 3, data := mem_of_bytes [104, 105, 10] }] }

/-- A map with two threads whose threshold for the parallel diff is 0. -/
def two_thread_map : fd_translation_map :=
  { list := [], local_sign := 1, max_local_id := 2, nthreads := 2,
    scancomp_thread_threshold := 0 }

/-- An empty map on the other side. -/
def plain_peer_map : fd_translation_map :=
  setup_translation_map true 2 1000 compression_mode.COMP_NONE

/-- A file of 12 bytes, block 0 of value 5 followed by the bytes 1, 2, 3, 4,
as `translate_fd` registers it for the local fd 16. -/
def odd_file : shadow_fd :=
  (translate_fd plain_map
    { new_addr := 380, fd_type := fdcat_t.FDC_FILE, fsize := 12,
      mmap_result := some (store (store zero_mem 0 5) 1 67305985),
      dmabuf_imported := false, dmabuf_size := 0 } 16).2

/-- The shadow fd `s` after the application has replaced the contents of the
file by `c` and the protocol parser has marked the whole file damaged. -/
def edit_file (s : shadow_fd) (c : Mem) : shadow_fd :=
  { s with file_mem_local := some c, is_dirty := true, dmg := damage.everything }

/-- A pipe whose local end was closed while the remote end is open. -/
def closing_pipe : shadow_fd :=
  { addr := 390, fd_local := 17, remote_id := 7, type := fdcat_t.FDC_PIPE_IR,
    refcount_transfer := 1, pipe_fd := 17, pipe_lclosed := true, pipe_rclosed := false,
    pipe_recv := { size := 16384, used := 0, data := some [] } }

/-- The range `q = (nfrom, nto)` starts and ends with a block in which `base`
and `changed` differ, and holds no five consecutive blocks in which they
agree (five is `DIFF_WINDOW_SIZE + 1`). -/
def segment_shape (base changed : Mem) (q : Nat × Nat) : Prop :=
  base q.1 ≠ changed q.1 ∧ base (q.2 - 1) ≠ changed (q.2 - 1) ∧
  ∀ k, q.1 ≤ k → k + 5 ≤ q.2 → ∃ j, k ≤ j ∧ j < k + 5 ∧ base j ≠ changed j

/-- The number of 64-bit words that segments with the ranges `rs` take: one
header and `nto - nfrom` payload words each. -/
def segments_words (rs : List (Nat × Nat)) : Nat :=
  (rs.map (fun q => 1 + (q.2 - q.1))).sum

/-- The buffers `base` and `changed` agree in every block except `k`. -/
def differs_only_in_block (base changed : Mem) (k : Nat) : Prop :=
  base k ≠ changed k ∧ ∀ j, j ≠ k → base j = changed j

/-! ## Teardown of a shadow fd -/

/-- One step of the teardown of a shadow fd: a call that releases a resource,
or the list surgery that takes the struct out of `map->list`. -/
inductive teardown_effect where
  | unlink_from_list : teardown_effect
  | destroy_video_data : teardown_effect
  | munmap_file : teardown_effect
  | free_mem_mirror : teardown_effect
  | free_diff_buffer : teardown_effect
  | free_compress_buffer : teardown_effect
  | shm_unlink : teardown_effect
  | destroy_dmabuf : teardown_effect
  | free_video_buffer : teardown_effect
  | close_pipe_fd : Int → teardown_effect
  | free_pipe_recv : teardown_effect
  | free_pipe_send : teardown_effect
  | close_fd_local : Int → teardown_effect
  | free_sfd : teardown_effect
  deriving DecidableEq, Repr

/-- Embedding of `destroy_unlinked_sfd`: the calls it makes, in program
order.  `free` and `munmap` are called whatever the pointers hold; the log
line after a failed `close` is left out. -/
def destroy_unlinked_sfd (sfd : shadow_fd) : List teardown_effect :=
  [teardown_effect.destroy_video_data] ++
  (if sfd.type = fdcat_t.FDC_FILE then
    [teardown_effect.munmap_file, teardown_effect.free_mem_mirror,
      teardown_effect.free_diff_buffer, teardown_effect.free_compress_buffer] ++
    (if sfd.file_shm_buf_name.headD 0 ≠ 0 then [teardown_effect.shm_unlink] else [])
  else if sfd.type = fdcat_t.FDC_DMABUF then
    [teardown_effect.destroy_dmabuf, teardown_effect.free_mem_mirror,
      teardown_effect.free_diff_buffer, teardown_effect.free_compress_buffer,
      teardown_effect.free_video_buffer]
  else if fdcat_ispipe sfd.type = true then
    (if sfd.pipe_fd ≠ sfd.fd_local ∧ sfd.pipe_fd ≠ -1 ∧ sfd.pipe_fd ≠ -2 then
      [teardown_effect.close_pipe_fd sfd.pipe_fd] else []) ++
    [teardown_effect.free_pipe_recv, teardown_effect.free_pipe_send]
  else []) ++
  (if sfd.fd_local ≠ -2 ∧ sfd.fd_local ≠ -1 then
    [teardown_effect.close_fd_local sfd.fd_local] else []) ++
  [teardown_effect.free_sfd]

/-- The teardown steps of `destroy_shadow_if_unreferenced` for the shadow fd
at address `a`: the unlinking loop runs first, `destroy_unlinked_sfd`
after it; nothing happens while a reference is left. -/
def destroy_shadow_if_unreferenced_effects (map : fd_translation_map) (a : Nat) :
    List teardown_effect :=
  match deref_sfd map.list a with
  | none => []
  | some sfd =>
    if sfd.refcount_protocol = 0 ∧ sfd.refcount_transfer = 0 ∧ sfd.has_owner = true then
      teardown_effect.unlink_from_list :: destroy_unlinked_sfd sfd
    else []

/-- The teardown steps of one call of `shadow_decref_protocol`. -/
def shadow_decref_protocol_effects (map : fd_translation_map) (a : Nat) :
    List teardown_effect :=
  let l := update_sfd map.list a
    (fun sfd => { sfd with refcount_protocol := sfd.refcount_protocol - 1 })
  destroy_shadow_if_unreferenced_effects { map with list := l } a

/-- The teardown steps of one call of `shadow_decref_transfer`. -/
def shadow_decref_transfer_effects (map : fd_translation_map) (a : Nat) :
    List teardown_effect :=
  let l := update_sfd map.list a
    (fun sfd => { sfd with refcount_transfer := sfd.refcount_transfer - 1 })
  destroy_shadow_if_unreferenced_effects { map with list := l } a

/-- The place of a step in the destruction sequence as the specification
words it: video codec 0, typed resources 1, scratch buffers 2, `fd_local` 3,
unlinking 4, the struct 5.  The two releases that the sequence does not name
(`shm_unlink` and the video buffer) are counted with the scratch buffers. -/
def spec_teardown_phase : teardown_effect → Nat
  | teardown_effect.destroy_video_data => 0
  | teardown_effect.munmap_file => 1
  | teardown_effect.destroy_dmabuf => 1
  | teardown_effect.close_pipe_fd _ => 1
  | teardown_effect.free_pipe_recv => 1
  | teardown_effect.free_pipe_send => 1
  | teardown_effect.free_mem_mirror => 2
  | teardown_effect.free_diff_buffer => 2
  | teardown_effect.free_compress_buffer => 2
  | teardown_effect.shm_unlink => 2
  | teardown_effect.free_video_buffer => 2
  | teardown_effect.close_fd_local _ => 3
  | teardown_effect.unlink_from_list => 4
  | teardown_effect.free_sfd => 5

/-- The place of a step in the sequence with the unlinking moved to the
front: unlinking 0, video codec 1, typed resources 2, scratch buffers 3,
`fd_local` 4, the struct 5. -/
def teardown_phase : teardown_effect → Nat
  | teardown_effect.unlink_from_list => 0
  | teardown_effect.destroy_video_data => 1
  | teardown_effect.munmap_file => 2
  | teardown_effect.destroy_dmabuf => 2
  | teardown_effect.close_pipe_fd _ => 2
  | teardown_effect.free_pipe_recv => 2
  | teardown_effect.free_pipe_send => 2
  | teardown_effect.free_mem_mirror => 3
  | teardown_effect.free_diff_buffer => 3
  | teardown_effect.free_compress_buffer => 3
  | teardown_effect.shm_unlink => 3
  | teardown_effect.free_video_buffer => 3
  | teardown_effect.close_fd_local _ => 4
  | teardown_effect.free_sfd => 5

/-- The steps `l` follow one another in the order of their places. -/
def in_phase_order (phase : teardown_effect → Nat) : List teardown_effect → Bool
  | [] => true
  | a :: l => l.all (fun b => decide (phase a ≤ phase b)) && in_phase_order phase l

/-! ## The parallel diff -/

/-- The test `diffsize + diff_start > diff_end` of
`worker_run_compresseddiff`, which guards the log line
"Compression section overflow". -/
def section_overflow (o : worker_out) : Bool :=
  decide (u64 (o.actual_size + o.diff_start) > o.diff_end)

/-- Applying the diffs of the workers, in index order, to the buffer `recv`
of `size` bytes; each diff is read where its worker wrote it in the diff
buffer `buf`. -/
def apply_worker_diffs (size : Nat) (buf : Mem) (recv : Mem) (outs : List worker_out) : Mem :=
  outs.foldl
    (fun b o => (apply_diff size b o.actual_size (mem_view buf (o.diff_start / 8))).base) recv

/-- The parallel side of the threshold equivalence for the file `sfd`: the
buffer that results when the diffs of the `map.nthreads` workers are applied
in index order to the mirror as it was, and the mirror the workers leave. -/
def parallel_diff_outcome (map : fd_translation_map) (lib : codec_lib) (sfd : shadow_fd) :
    Mem × Mem :=
  let w := run_workers map lib sfd map.nthreads.toNat
  (apply_worker_diffs sfd.file_size (w.1.diff_buffer.getD zero_mem)
     (sfd.mem_mirror.getD zero_mem) w.2,
   w.1.mem_mirror.getD zero_mem)

/-- The single-threaded side of the threshold equivalence: the buffer that
results when the one diff over the copy domain `[0, SIZE_MAX)` is applied to
the mirror as it was, and the mirror that `construct_diff` leaves. -/
def single_diff_outcome (sfd : shadow_fd) : Mem × Mem :=
  let r := construct_diff sfd.file_size sfd.dmg 0 SIZE_MAX (sfd.mem_mirror.getD zero_mem)
    (sfd.file_mem_local.getD zero_mem) (sfd.diff_buffer.getD zero_mem)
  ((apply_diff sfd.file_size (sfd.mem_mirror.getD zero_mem) r.diffsize r.diff).base, r.base)

/-! ## Pipe status -/

/-- The `struct pollfd` of the system header `poll.h`, with the two fields
that `mark_pipe_object_statuses` reads. -/
structure pollfd where
  fd : Int
  revents : Nat

/-- The event bit `POLLIN` of `poll.h`. -/
def POLLIN : Nat := 1

/-- The event bit `POLLOUT` of `poll.h`. -/
def POLLOUT : Nat := 4

/-- The event bit `POLLHUP` of `poll.h`. -/
def POLLHUP : Nat := 16

/-- Embedding of `get_shadow_for_pipe_fd`; `none` is `NULL`. -/
def get_shadow_for_pipe_fd (map : fd_translation_map) (pipefd : Int) : Option shadow_fd :=
  map.list.find? (fun cur => fdcat_ispipe cur.type && decide (cur.pipe_fd = pipefd))

/-- The body of the loop of `mark_pipe_object_statuses` on the shadow fd
found for the descriptor. -/
def mark_pipe_status (sfd : shadow_fd) (revents : Nat) : shadow_fd :=
  let s1 : shadow_fd := if revents &&& POLLIN ≠ 0 then { sfd with pipe_readable := true } else sfd
  let s2 : shadow_fd := if revents &&& POLLOUT ≠ 0 then { s1 with pipe_writable := true } else s1
  if revents &&& POLLHUP ≠ 0 then { s2 with pipe_lclosed := true } else s2

/-- Embedding of `mark_pipe_object_statuses`; a descriptor without a shadow
fd is only logged. -/
def mark_pipe_object_statuses (map : fd_translation_map) (pfds : List pollfd) :
    fd_translation_map :=
  pfds.foldl
    (fun m p =>
      match get_shadow_for_pipe_fd m p.fd with
      | none => m
      | some sfd =>
        { m with list := update_sfd m.list sfd.addr (fun s => mark_pipe_status s p.revents) })
    map

/-- The body of the loop of `close_rclosed_pipes` on one shadow fd. -/
def close_rclosed_pipe (cur : shadow_fd) : shadow_fd :=
  if fdcat_ispipe cur.type = true ∧ cur.pipe_rclosed = true ∧ cur.pipe_lclosed = false then
    { cur with fd_local := if cur.pipe_fd = cur.fd_local then -2 else cur.fd_local,
               pipe_fd := -2, pipe_lclosed := true }
  else cur

/-- The descriptors that the loop body of `close_rclosed_pipes` passes to
`close` for one shadow fd. -/
def close_rclosed_pipe_closes (cur : shadow_fd) : List Int :=
  if fdcat_ispipe cur.type = true ∧ cur.pipe_rclosed = true ∧ cur.pipe_lclosed = false then
    [cur.pipe_fd]
  else []

/-- The descriptors that `collect_update` passes to `close`: the call
`close(sfd->pipe_fd)` of the pipe branch, made when the local end is closed
and the remote side has not been told yet. -/
def collect_update_closes (sfd : shadow_fd) : List Int :=
  if sfd.type = fdcat_t.FDC_FILE then []
  else if sfd.type = fdcat_t.FDC_DMABUF then []
  else if fdcat_ispipe sfd.type = true then
    if (sfd.pipe_recv.used > 0 ∨ sfd.pipe_onlyhere = true ∨
        (sfd.pipe_lclosed && !sfd.pipe_rclosed) = true) ∧
        (sfd.pipe_lclosed && !sfd.pipe_rclosed) = true then
      [sfd.pipe_fd]
    else []
  else []

/-- One call that touches the close state of a pipe shadow fd:
`collect_update` on it, `apply_update` with a transfer for it,
`mark_pipe_object_statuses` with a `pollfd` of its descriptor, or
`close_rclosed_pipes`. -/
inductive pipe_call where
  | collect : fd_translation_map → collect_env → pipe_call
  | apply : transfer → pipe_call
  | mark : Nat → pipe_call
  | close_rclosed : pipe_call

/-- A history of one pipe shadow fd: its state, the descriptors passed to
`close` so far and the transfers emitted for it so far. -/
structure pipe_trace where
  sfd : shadow_fd
  closes : List Int := []
  transfers : List transfer := []

/-- The history after one more call. -/
def pipe_step (t : pipe_trace) : pipe_call → pipe_trace
  | pipe_call.collect map env =>
    let r := collect_update map env t.sfd {}
    { sfd := r.1, closes := t.closes ++ collect_update_closes t.sfd,
      transfers := t.transfers ++ r.2.transfers }
  | pipe_call.apply transf =>
    { t with sfd := (apply_update_pipe transf t.sfd).1 }
  | pipe_call.mark revents =>
    { t with sfd := mark_pipe_status t.sfd revents }
  | pipe_call.close_rclosed =>
    { t with sfd := close_rclosed_pipe t.sfd,
             closes := t.closes ++ close_rclosed_pipe_closes t.sfd }

/-- The history after a sequence of calls. -/
def run_pipe_calls (t : pipe_trace) (calls : List pipe_call) : pipe_trace :=
  calls.foldl pipe_step t

/-- The close invariant of a pipe shadow fd: the sentinel `-2` in `pipe_fd`
comes with both close flags. -/
def pipe_close_invariant (sfd : shadow_fd) : Prop :=
  sfd.pipe_fd = -2 → sfd.pipe_lclosed = true ∧ sfd.pipe_rclosed = true

/-- The transfers of `l` that announce the close (`special.pipeclose = 1`). -/
def pipeclose_transfers (l : List transfer) : List transfer :=
  l.filter (fun tf => decide (tf.special = 1))

/-! ## Worker threads -/

/-- A file of 28 bytes (three blocks and four trailing bytes) whose blocks
0 and 2 were changed to 1 and 3 after the mirror (all zero) was taken; the
whole file is damaged, and the diff buffer still holds the value 7 in word 5
from an earlier diff. -/
def odd_parallel_file : shadow_fd :=
  { addr := 400, fd_local := 17, remote_id := 4, type := fdcat_t.FDC_FILE, is_dirty := true,
    dmg := damage.everything, refcount_transfer := 1, file_size := 28,
    file_mem_local := some (store (store zero_mem 0 1) 2 3),
    mem_mirror := some zero_mem, diff_buffer := some (store zero_mem 5 7) }

/-- A file of 32 bytes whose blocks 0 and 1 were changed to 5 after the
mirror (all zero) was taken; the damage lists the adjacent intervals
`[0, 8)` and `[8, 16)`. -/
def adjacent_damage_file : shadow_fd :=
  { addr := 410, fd_local := 18, remote_id := 5, type := fdcat_t.FDC_FILE, is_dirty := true,
    dmg := damage.rects [{ start := 0, width := 8, rep := 1, stride := 0 },
                         { start := 8, width := 8, rep := 1, stride := 0 }],
    refcount_transfer := 1, file_size := 32,
    file_mem_local := some (store (store zero_mem 0 5) 1 5),
    mem_mirror := some zero_mem, diff_buffer := some zero_mem }

/-- A map with eight worker threads. -/
def eight_thread_map : fd_translation_map :=
  { list := [], local_sign := 1, max_local_id := 2, nthreads := 8,
    scancomp_thread_threshold := 0 }

/-- A file of `2 ^ 33` bytes. -/
def eight_gigabyte_file : shadow_fd :=
  { addr := 420, fd_local := 19, remote_id := 6, type := fdcat_t.FDC_FILE, is_dirty := true,
    dmg := damage.everything, refcount_transfer := 1, file_size := 2 ^ 33,
    file_mem_local := some zero_mem, mem_mirror := some zero_mem,
    diff_buffer := some zero_mem }

/-- A file of 16 bytes without a shm name, owned by a protocol object and
referenced once by the protocol, as `translate_fd` registered it for the
local fd 9. -/
def owned_file : shadow_fd :=
  { addr := 430, fd_local := 9, remote_id := 1, type := fdcat_t.FDC_FILE,
    has_owner := true, refcount_protocol := 1, file_size := 16,
    file_mem_local := some zero_mem }

/-- A map that holds the file `owned_file` only. -/
def owned_file_map : fd_translation_map :=
  { list := [owned_file],
    local_sign := 1, max_local_id := 2, nthreads := 1, scancomp_thread_threshold := INT32_MAX }

/-- A pipe whose local end has been closed by the application, before the
remote side was told. -/
def hung_up_pipe : shadow_fd :=
  { addr := 440, fd_local := 30, remote_id := 7, type := fdcat_t.FDC_PIPE_IR, pipe_fd := 31,
    has_owner := true, refcount_protocol := 1, pipe_lclosed := true }
/-- Postcondition of the outer loop of `run_interval_diff` with the shape of
the segments: as `segments_post`, with the diff stream read only when the
block indices fit the header fields, the cursor given by the words of the
segments, every range of `segment_shape`, and at least five agreeing blocks
between two ranges and before a pending last block. -/
def segments_shape_post (changed : Mem) (nb mx : Nat) (s : scan_state) (R : scan_state × Bool)
    (rs : List (Nat × Nat)) (e : Nat) : Prop :=
  (mx ≤ nb → nb < 2 ^ 32 → segments changed nb R.1.diff s.cursor R.1.cursor rs) ∧
  R.1.cursor = s.cursor + segments_words rs ∧
  (∀ q ∈ rs, s.i - 1 ≤ q.1 ∧ q.1 < q.2 ∧ q.2 ≤ e) ∧
  (∀ k, k < s.cursor → R.1.diff k = s.diff k) ∧
  (∀ k, R.1.base k = if s.i - 1 ≤ k ∧ k < e then changed k else s.base k) ∧
  (∀ k, s.i - 1 ≤ k → k < e → covered rs k = false → s.base k = changed k) ∧
  (R.2 = true → R.1.changed_val = changed (mx - 1) ∧ R.1.base_val = s.base (mx - 1)) ∧
  R.1.cursor + (mx - e) * 2 ≤ s.cursor + (mx - (s.i - 1)) + 1 ∧
  (∀ k, s.cursor + (mx - (s.i - 1)) + 1 ≤ k → R.1.diff k = s.diff k) ∧
  e = (if R.2 = true then mx - 1 else mx) ∧
  (∀ q ∈ rs, segment_shape s.base changed q) ∧
  rs.Pairwise (fun q r => q.2 + 5 ≤ r.1) ∧
  (∀ q ∈ rs, R.2 = true → q.2 + 5 ≤ mx - 1)

/-- The block range `[minb, maxb)` that `construct_diff` computes for the
repetition `r` of the damage interval `ei`. -/
def rep_block_range (nblocks copy_domain_start copy_domain_end : Nat) (ei : ext_interval)
    (r : Nat) : Nat × Nat :=
  (minu (cast_u64 (floordiv (cast_int
      (maxu (u64 (ei.start + r * ei.stride)) copy_domain_start)) 8)) nblocks,
   minu (cast_u64 (ceildiv (cast_int
      (minu (u64 (ei.start + r * ei.stride + ei.width)) copy_domain_end)) 8)) nblocks)

/-! ## The close state of a pipe -/

/-- What a history of calls on a pipe shadow fd keeps true: the close
invariant, no `close` of the sentinel, at most one `close` (made only once
both flags are set) and at most one transfer announcing the close (emitted
only once `pipe_rclosed` is set). -/
def pipe_trace_ok (t : pipe_trace) : Prop :=
  fdcat_ispipe t.sfd.type = true ∧ pipe_close_invariant t.sfd ∧
  (∀ fd ∈ t.closes, fd ≠ -2) ∧
  t.closes.length ≤ 1 ∧
  (t.closes.length = 1 → t.sfd.pipe_lclosed = true ∧ t.sfd.pipe_rclosed = true) ∧
  (pipeclose_transfers t.transfers).length ≤ 1 ∧
  ((pipeclose_transfers t.transfers).length = 1 → t.sfd.pipe_rclosed = true)

/-- A file of 32 bytes whose blocks 0, 1 and 2 were changed to 5, 6 and 7
after the mirror (all zero) was taken; the damage is one interval of width
8 repeated three times with stride 8, that is `[0, 8)`, `[8, 16)` and
`[16, 24)`. -/
def strided_damage_file : shadow_fd :=
  { addr := 450, fd_local := 22, remote_id := 8, type := fdcat_t.FDC_FILE, is_dirty := true,
    dmg := damage.rects [{ start := 0, width := 8, rep := 3, stride := 8 }],
    refcount_transfer := 1, file_size := 32,
    file_mem_local := some (store (store (store zero_mem 0 5) 1 6) 2 7),
    mem_mirror := some zero_mem, diff_buffer := some zero_mem }
/-! # Theorems -/

/-! ## Machine arithmetic and memory -/

theorem construct_nblocks_eq (size : Nat) (h : size < 2 ^ 31) : construct_nblocks size = size / 8 := by
  unfold construct_nblocks cast_u64 floordiv cast_int
  have h1 : size % 2 ^ 32 = size := Nat.mod_eq_of_lt (by omega)
  rw [h1, if_pos h]
  have h2 : Int.tdiv (size : Int) 8 = ((size / 8 : Nat) : Int) := by
    rw [Int.tdiv_eq_ediv] <;> simp
  rw [h2]
  have h3 : ((size / 8 : Nat) : Int) % 2 ^ 64 = ((size / 8 : Nat) : Int) := by
    apply Int.emod_eq_of_lt <;> omega
  rw [h3]; exact Int.toNat_ofNat _

theorem header_decode (a b : Nat) (ha : a < 2 ^ 32) (hb : b < 2 ^ 32) :
    (u64 (a <<< 32) ||| b) >>> 32 = a ∧ u64 ((u64 (a <<< 32) ||| b) <<< 32) >>> 32 = b := by
  have h1 : u64 (a <<< 32) = 2 ^ 32 * a := by
    unfold u64; rw [Nat.shiftLeft_eq, Nat.mod_eq_of_lt (by omega)]; ring
  rw [h1, ← Nat.mul_add_lt_is_or hb]
  unfold u64
  simp only [Nat.shiftRight_eq_div_pow, Nat.shiftLeft_eq]
  constructor <;> omega

theorem byte_of_lt (w j : Nat) : byte_of w j < 256 := by
  unfold byte_of; omega

theorem byte_of_word_with_byte (w j b j2 : Nat) (hj : j < 8) (hj2 : j2 < 8) :
    byte_of (word_with_byte w j b) j2 = if j2 = j then b % 256 else byte_of w j2 := by
  unfold word_with_byte byte_of
  interval_cases j <;> interval_cases j2 <;> simp <;> omega

/-! ## The loops of `run_interval_diff` -/

theorem store_same (m : Mem) (a v : Nat) : store m a v a = v := by simp [store]
theorem store_other (m : Mem) (a v k : Nat) (h : k ≠ a) : store m a v k = m k := by simp [store, h]

theorem scan_equal_spec (changed : Mem) (mx : Nat) :
    ∀ (fuel : Nat) (s : scan_state), mx - s.i ≤ fuel → 1 ≤ s.i → s.i ≤ mx →
      s.changed_val = changed (s.i - 1) → s.base_val = s.base (s.i - 1) →
      (scan_equal changed mx fuel s).base = s.base ∧
      (scan_equal changed mx fuel s).diff = s.diff ∧
      (scan_equal changed mx fuel s).cursor = s.cursor ∧
      s.i ≤ (scan_equal changed mx fuel s).i ∧
      (scan_equal changed mx fuel s).i ≤ mx ∧
      (scan_equal changed mx fuel s).changed_val = changed ((scan_equal changed mx fuel s).i - 1) ∧
      (scan_equal changed mx fuel s).base_val = s.base ((scan_equal changed mx fuel s).i - 1) ∧
      (∀ k, s.i - 1 ≤ k → k < (scan_equal changed mx fuel s).i - 1 → s.base k = changed k) ∧
      ((scan_equal changed mx fuel s).i < mx →
        (scan_equal changed mx fuel s).changed_val ≠ (scan_equal changed mx fuel s).base_val) := by
  intro fuel
  induction fuel with
  | zero =>
    intro s hf h1 hle hc hb
    have hs : scan_equal changed mx 0 s = s := rfl
    rw [hs]
    refine ⟨rfl, rfl, rfl, le_refl _, hle, hc, hb, ?_, ?_⟩
    · intro k h2 h3; omega
    · intro h; omega
  | succ fuel ih =>
    intro s hf h1 hle hc hb
    by_cases hcond : s.changed_val = s.base_val ∧ s.i < mx
    · have hs : scan_equal changed mx (fuel + 1) s = scan_equal changed mx fuel
          { s with changed_val := changed s.i, base_val := s.base s.i, i := s.i + 1 } := by
        simp only [scan_equal, if_pos hcond]
      rw [hs]
      obtain ⟨a1, a2, a3, a4, a5, a6, a7, a8, a9⟩ := ih
        { s with changed_val := changed s.i, base_val := s.base s.i, i := s.i + 1 }
        (by simp only; omega) (by simp only; omega) (by simp only; omega) (by simp) (by simp)
      simp only at a1 a2 a3 a4 a5 a6 a7 a8 a9
      refine ⟨a1, a2, a3, by omega, a5, a6, a7, ?_, a9⟩
      intro k h2 h3
      by_cases hk : k = s.i - 1
      · subst hk; rw [← hb, ← hc]; exact hcond.1.symm
      · apply a8 k <;> omega
    · have hs : scan_equal changed mx (fuel + 1) s = s := by
        simp only [scan_equal, if_neg hcond]
      rw [hs]
      refine ⟨rfl, rfl, rfl, le_refl _, hle, hc, hb, ?_, ?_⟩
      · intro k h2 h3; omega
      · intro h hh; exact hcond ⟨hh, h⟩

theorem copy_window_spec (changed : Mem) (mx : Nat) :
    ∀ (fuel : Nat) (s : scan_state) (n : Nat), mx - s.i ≤ fuel → s.i ≤ mx →
      s.i ≤ (copy_window changed mx fuel s n).1.i ∧
      (copy_window changed mx fuel s n).1.i ≤ mx ∧
      (copy_window changed mx fuel s n).1.cursor =
        s.cursor + ((copy_window changed mx fuel s n).1.i - s.i) ∧
      (∀ k, (copy_window changed mx fuel s n).1.base k =
        if s.i ≤ k ∧ k < (copy_window changed mx fuel s n).1.i then changed k else s.base k) ∧
      (∀ k, (copy_window changed mx fuel s n).1.diff k =
        if s.cursor ≤ k ∧ k < (copy_window changed mx fuel s n).1.cursor
        then changed (s.i + (k - s.cursor)) else s.diff k) ∧
      (copy_window changed mx fuel s n).2 ≤ n + ((copy_window changed mx fuel s n).1.i - s.i) ∧
      (∀ k, s.i ≤ k → (copy_window changed mx fuel s n).1.i - (copy_window changed mx fuel s n).2 ≤ k →
        k < (copy_window changed mx fuel s n).1.i → s.base k = changed k) ∧
      ((copy_window changed mx fuel s n).1.i = mx ∨
        DIFF_WINDOW_SIZE < (copy_window changed mx fuel s n).2) ∧
      (s.i < (copy_window changed mx fuel s n).1.i →
        (copy_window changed mx fuel s n).1.changed_val =
          changed ((copy_window changed mx fuel s n).1.i - 1) ∧
        (0 < (copy_window changed mx fuel s n).2 →
          (copy_window changed mx fuel s n).1.base_val =
            (copy_window changed mx fuel s n).1.changed_val)) ∧
      (n ≤ DIFF_WINDOW_SIZE → s.i < mx → s.i < (copy_window changed mx fuel s n).1.i) ∧
      ((copy_window changed mx fuel s n).1.i = s.i → copy_window changed mx fuel s n = (s, n)) := by
  intro fuel
  induction fuel with
  | zero =>
    intro s n hf hle
    have hs : copy_window changed mx 0 s n = (s, n) := rfl
    rw [hs]
    dsimp only
    refine ⟨le_refl _, hle, by simp, ?_, ?_, by simp, ?_, Or.inl (by omega), ?_, ?_, ?_⟩
    · intro k; rw [if_neg]; omega
    · intro k; rw [if_neg]; omega
    · intro k h1 h2 h3; omega
    · intro h; omega
    · intro _ h; omega
    · intro _; rfl
  | succ fuel ih =>
    intro s n hf hle
    by_cases hcond : s.i < mx ∧ n ≤ DIFF_WINDOW_SIZE
    · have hs : copy_window changed mx (fuel + 1) s n = copy_window changed mx fuel
          { i := s.i + 1, changed_val := changed s.i, base_val := s.base s.i,
            base := store s.base s.i (changed s.i),
            diff := store s.diff s.cursor (changed s.i),
            cursor := s.cursor + 1 }
          ((n + 1) * (if s.base s.i = changed s.i then 1 else 0)) := by
        simp only [copy_window, if_pos hcond]
      rw [hs]
      obtain ⟨a1, a2, a3, a4, a5, a6, a7, a8, a9, _, a11⟩ := ih
        { i := s.i + 1, changed_val := changed s.i, base_val := s.base s.i,
            base := store s.base s.i (changed s.i),
            diff := store s.diff s.cursor (changed s.i),
            cursor := s.cursor + 1 }
        ((n + 1) * (if s.base s.i = changed s.i then 1 else 0))
        (by simp only; omega) (by simp only; omega)
      simp only at a1 a2 a3 a4 a5 a6 a7 a8 a9 a11
      generalize copy_window changed mx fuel
          { i := s.i + 1, changed_val := changed s.i, base_val := s.base s.i,
            base := store s.base s.i (changed s.i),
            diff := store s.diff s.cursor (changed s.i),
            cursor := s.cursor + 1 }
          ((n + 1) * (if s.base s.i = changed s.i then 1 else 0)) = r at *
      have hn : (n + 1) * (if s.base s.i = changed s.i then 1 else 0) ≤ n + 1 := by
        split <;> simp
      refine ⟨by omega, a2, by omega, ?_, ?_, by omega, ?_, a8, ?_, ?_, ?_⟩
      · intro k
        rw [a4 k]
        by_cases hk : k = s.i
        · subst hk
          rw [if_neg (by omega), if_pos (by omega), store_same]
        · rw [store_other _ _ _ _ hk]
          by_cases h2 : s.i + 1 ≤ k ∧ k < r.1.i
          · rw [if_pos h2, if_pos (by omega)]
          · rw [if_neg h2, if_neg (by omega)]
      · intro k
        rw [a5 k]
        by_cases hk : k = s.cursor
        · subst hk
          rw [if_neg (by omega), if_pos (by omega), store_same]; simp
        · rw [store_other _ _ _ _ hk]
          by_cases h2 : s.cursor + 1 ≤ k ∧ k < r.1.cursor
          · rw [if_pos h2, if_pos (by omega)]
            congr 1; omega
          · rw [if_neg h2, if_neg (by omega)]
      · intro k h1 h2 h3
        by_cases hk : k = s.i
        · subst hk
          by_contra hne
          have h0 : (n + 1) * (if s.base s.i = changed s.i then 1 else 0) = 0 := by
            rw [if_neg hne, Nat.mul_zero]
          rw [h0] at a6
          omega
        · have := a7 k (by omega) h2 h3
          rwa [store_other _ _ _ _ hk] at this
      · intro _
        by_cases h1 : r.1.i = s.i + 1
        · have hr := a11 h1
          rw [hr]
          dsimp only
          rw [hr] at h1
          dsimp only at h1
          refine ⟨by simp, ?_⟩
          intro hpos
          by_contra hne
          rw [if_neg hne, Nat.mul_zero] at hpos
          omega
        · exact a9 (by omega)
      · intro _ _; omega
      · intro h; omega
    · have hs : copy_window changed mx (fuel + 1) s n = (s, n) := by
        simp only [copy_window, if_neg hcond]
      rw [hs]
      dsimp only
      refine ⟨le_refl _, hle, by simp, ?_, ?_, by simp, ?_, ?_, ?_, ?_, ?_⟩
      · intro k; rw [if_neg]; omega
      · intro k; rw [if_neg]; omega
      · intro k h1 h2 h3; omega
      · by_cases h : s.i < mx
        · right; by_contra h2; exact hcond ⟨h, by omega⟩
        · left; omega
      · intro h; omega
      · intro h1 h2; exact absurd ⟨h2, h1⟩ hcond
      · intro _; trivial

theorem low_bits_eq (b : Nat) : u64 (b <<< 32) >>> 32 = b % 2 ^ 32 := by
  unfold u64
  simp only [Nat.shiftRight_eq_div_pow, Nat.shiftLeft_eq]
  omega

theorem covered_nil (k : Nat) : covered [] k = false := rfl

theorem covered_cons (a b : Nat) (rs : List (Nat × Nat)) (k : Nat) :
    covered ((a, b) :: rs) k = (decide (a ≤ k ∧ k < b) || covered rs k) := by
  simp [covered]

theorem covered_append (rs1 rs2 : List (Nat × Nat)) (k : Nat) :
    covered (rs1 ++ rs2) k = (covered rs1 k || covered rs2 k) := by
  simp [covered]

theorem covered_iff (rs : List (Nat × Nat)) (k : Nat) :
    covered rs k = true ↔ ∃ r ∈ rs, r.1 ≤ k ∧ k < r.2 := by
  simp [covered]

theorem segments_le {changed : Mem} {nb : Nat} {d : Mem} {i j : Nat} {rs : List (Nat × Nat)}
    (h : segments changed nb d i j rs) : i ≤ j := by
  induction h with
  | nil i => exact le_refl _
  | cons i j nfrom nto rs _ _ _ _ _ _ ih => omega

theorem segments_congr {changed : Mem} {nb : Nat} {d d2 : Mem} {i j : Nat}
    {rs : List (Nat × Nat)} (h : segments changed nb d i j rs)
    (hd : ∀ k, i ≤ k → k < j → d2 k = d k) : segments changed nb d2 i j rs := by
  induction h with
  | nil i => exact segments.nil i
  | cons i j nfrom nto rs h1 h2 h3 h4 h5 h6 ih =>
    have hle := segments_le h6
    have e : d2 i = d i := hd i (le_refl _) (by omega)
    refine segments.cons i j nfrom nto rs h1 h2 (by rw [e]; exact h3) (by rw [e]; exact h4) ?_ ?_
    · intro k hk
      rw [hd (i + 1 + k) (by omega) (by omega)]
      exact h5 k hk
    · apply ih
      intro k hk1 hk2
      exact hd k (by omega) hk2

theorem segments_append {changed : Mem} {nb : Nat} {d : Mem} {i j l : Nat}
    {rs1 rs2 : List (Nat × Nat)} (h1 : segments changed nb d i j rs1)
    (h2 : segments changed nb d j l rs2) : segments changed nb d i l (rs1 ++ rs2) := by
  induction h1 with
  | nil i => simpa using h2
  | cons i j nfrom nto rs a1 a2 a3 a4 a5 _ ih =>
    exact segments.cons i l nfrom nto (rs ++ rs2) a1 a2 a3 a4 a5 (ih h2)

theorem segments_ranges {changed : Mem} {nb : Nat} {d : Mem} {i j : Nat}
    {rs : List (Nat × Nat)} (h : segments changed nb d i j rs) :
    ∀ r ∈ rs, r.1 < r.2 ∧ r.2 ≤ nb := by
  induction h with
  | nil i => intro r hr; simp at hr
  | cons i j nfrom nto rs a1 a2 _ _ _ _ ih =>
    intro r hr
    rcases List.mem_cons.mp hr with h | h
    · subst h; exact ⟨a1, a2⟩
    · exact ih r h

theorem apply_diff_loop_fuel (nb nd : Nat) (d : Mem) :
    ∀ (f1 f2 i : Nat) (b : Mem), nd - i ≤ f1 → nd - i ≤ f2 →
      apply_diff_loop nb nd d f1 i b = apply_diff_loop nb nd d f2 i b := by
  intro f1
  induction f1 with
  | zero =>
    intro f2 i b h1 h2
    cases f2 with
    | zero => rfl
    | succ f2 =>
      have : ¬ i < nd := by omega
      simp only [apply_diff_loop, if_neg this]
  | succ f1 ih =>
    intro f2 i b h1 h2
    cases f2 with
    | zero =>
      have : ¬ i < nd := by omega
      simp only [apply_diff_loop, if_neg this]
    | succ f2 =>
      simp only [apply_diff_loop]
      split
      · split
        · rfl
        · apply ih <;> omega
      · rfl

theorem apply_diff_loop_segments {changed : Mem} {nb : Nat} {d : Mem} {i j : Nat}
    {rs : List (Nat × Nat)} (h : segments changed nb d i j rs) (nd : Nat) (hj : j ≤ nd) :
    ∀ (b : Mem) (f : Nat), nd - i ≤ f →
      apply_diff_loop nb nd d f i b = apply_diff_loop nb nd d (nd - j) j (patched changed rs b) := by
  induction h with
  | nil i =>
    intro b f hf
    have e : patched changed [] b = b := by
      funext k; simp [patched, covered_nil]
    rw [e]
    exact apply_diff_loop_fuel nb nd d f (nd - i) i b hf (le_refl _)
  | cons i j nfrom nto rs a1 a2 a3 a4 a5 a6 ih =>
    intro b f hf
    have hle := segments_le a6
    obtain ⟨f, rfl⟩ : ∃ f2, f = f2 + 1 := ⟨f - 1, by omega⟩
    have hi : i < nd := by omega
    have hok : ¬ (nto > nb ∨ nfrom ≥ nto ∨ i + (nto - nfrom) ≥ nd) := by omega
    have hs : apply_diff_loop nb nd d (f + 1) i b =
        apply_diff_loop nb nd d f (i + (nto - nfrom) + 1)
          (memcpy_blocks b nfrom d (i + 1) (nto - nfrom)) := by
      simp only [apply_diff_loop, if_pos hi, low_bits_eq, a3, a4, if_neg hok]
    rw [hs]
    have e1 : i + (nto - nfrom) + 1 = i + 1 + (nto - nfrom) := by omega
    rw [e1, ih hj _ f (by omega)]
    congr 1
    funext k
    simp only [patched, covered_cons, memcpy_blocks, Bool.or_eq_true, decide_eq_true_eq]
    by_cases hc : covered rs k = true
    · simp [hc]
    · by_cases hr : nfrom ≤ k ∧ k < nto
      · have hr2 : nfrom ≤ k ∧ k < nfrom + (nto - nfrom) := by omega
        simp only [hc, hr, hr2, or_false, if_true, and_self, if_false]
        rw [a5 (k - nfrom) (by omega)]
        have e2 : nfrom + (k - nfrom) = k := by omega
        simp [e2]
      · have hr2 : ¬ (nfrom ≤ k ∧ k < nfrom + (nto - nfrom)) := by omega
        simp [hc, hr, hr2]

theorem emit_segment_aux (changed : Mem) (nb mx : Nat) (hmx : mx ≤ nb) (hnb : nb < 2 ^ 32)
    (s1 : scan_state) (h1 : 1 ≤ s1.i) (hlt : s1.i < mx)
    (hc : s1.changed_val = changed (s1.i - 1)) (w : scan_state × Nat)
    (a2 : w.1.i ≤ mx)
    (a3 : w.1.cursor = s1.cursor + 2 + (w.1.i - s1.i))
    (a4 : ∀ k, w.1.base k = if s1.i ≤ k ∧ k < w.1.i then changed k
      else store s1.base (s1.i - 1) s1.changed_val k)
    (a5 : ∀ k, w.1.diff k = if s1.cursor + 2 ≤ k ∧ k < w.1.cursor
      then changed (s1.i + (k - (s1.cursor + 2)))
      else store (store s1.diff s1.cursor (u64 ((s1.i - 1) <<< 32))) (s1.cursor + 1)
        s1.changed_val k)
    (a6 : w.2 ≤ 0 + (w.1.i - s1.i))
    (a7 : ∀ k, s1.i ≤ k → w.1.i - w.2 ≤ k → k < w.1.i →
      store s1.base (s1.i - 1) s1.changed_val k = changed k)
    (a8 : w.1.i = mx ∨ 4 < w.2)
    (hadv : s1.i < w.1.i)
    (a9a : w.1.changed_val = changed (w.1.i - 1))
    (a9b : 0 < w.2 → w.1.base_val = w.1.changed_val) :
    ∃ nto, s1.i ≤ nto ∧ nto ≤ w.1.i ∧ s1.i < w.1.i ∧ w.1.i ≤ mx ∧
      segments changed nb (store w.1.diff s1.cursor (w.1.diff s1.cursor ||| (w.1.i - w.2)))
        s1.cursor (w.1.cursor - w.2) [(s1.i - 1, nto)] ∧
      (∀ k, k < s1.cursor →
        store w.1.diff s1.cursor (w.1.diff s1.cursor ||| (w.1.i - w.2)) k = s1.diff k) ∧
      (∀ k, w.1.base k = if s1.i - 1 ≤ k ∧ k < w.1.i then changed k else s1.base k) ∧
      (∀ k, nto ≤ k → k < w.1.i → s1.base k = changed k) ∧
      w.1.changed_val = changed (w.1.i - 1) ∧
      (w.1.i < mx → w.1.base_val = w.1.changed_val ∧
        w.1.cursor - w.2 + 5 ≤ s1.cursor + 2 + (w.1.i - s1.i)) ∧
      w.1.cursor - w.2 ≤ s1.cursor + 2 + (w.1.i - s1.i) ∧
      s1.cursor + 2 ≤ w.1.cursor - w.2 ∧
      (∀ k, s1.cursor + 2 + (w.1.i - s1.i) ≤ k →
        store w.1.diff s1.cursor (w.1.diff s1.cursor ||| (w.1.i - w.2)) k = s1.diff k) := by
  have hhdr : w.1.diff s1.cursor = u64 ((s1.i - 1) <<< 32) := by
    rw [a5 s1.cursor, if_neg (by omega), store_other _ _ _ _ (by omega), store_same]
  obtain ⟨hd1, hd2⟩ := header_decode (s1.i - 1) (w.1.i - w.2) (by omega) (by omega)
  rw [low_bits_eq] at hd2
  refine ⟨w.1.i - w.2, by omega, by omega, hadv, a2, ?_, ?_, ?_, ?_, a9a, ?_, by omega, by omega, ?_⟩
  · have e : w.1.cursor - w.2 = s1.cursor + 1 + (w.1.i - w.2 - (s1.i - 1)) := by omega
    rw [e]
    refine segments.cons _ _ _ _ _ (by omega) (by omega) ?_ ?_ ?_ (segments.nil _)
    · rw [store_same, hhdr]; exact hd1
    · rw [store_same, hhdr]; exact hd2
    · intro k hk
      rw [store_other _ _ _ _ (by omega), a5]
      by_cases hk0 : k = 0
      · subst hk0
        rw [if_neg (by omega), store_same, hc]; rfl
      · rw [if_pos (by omega)]
        congr 1; omega
  · intro k hk
    rw [store_other _ _ _ _ (by omega), a5, if_neg (by omega), store_other _ _ _ _ (by omega),
      store_other _ _ _ _ (by omega)]
  · intro k
    rw [a4 k]
    by_cases hk : s1.i ≤ k ∧ k < w.1.i
    · rw [if_pos hk, if_pos (by omega)]
    · rw [if_neg hk]
      by_cases hk2 : k = s1.i - 1
      · rw [hk2, store_same, if_pos (by omega), hc]
      · rw [store_other _ _ _ _ hk2, if_neg (by omega)]
  · intro k hk1 hk2
    have := a7 k (by omega) hk1 hk2
    rwa [store_other _ _ _ _ (by omega)] at this
  · intro hlt2
    have h5 : 4 < w.2 := by omega
    exact ⟨a9b (by omega), by omega⟩
  · intro k hk
    rw [store_other _ _ _ _ (by omega), a5, if_neg (by omega), store_other _ _ _ _ (by omega),
      store_other _ _ _ _ (by omega)]

theorem emit_segment_spec (changed : Mem) (nb mx : Nat) (hmx : mx ≤ nb) (hnb : nb < 2 ^ 32)
    (s1 : scan_state) (h1 : 1 ≤ s1.i) (hlt : s1.i < mx)
    (hc : s1.changed_val = changed (s1.i - 1)) :
    ∃ nto, s1.i ≤ nto ∧ nto ≤ (emit_segment changed mx s1).i ∧
      s1.i < (emit_segment changed mx s1).i ∧ (emit_segment changed mx s1).i ≤ mx ∧
      segments changed nb (emit_segment changed mx s1).diff s1.cursor
        (emit_segment changed mx s1).cursor [(s1.i - 1, nto)] ∧
      (∀ k, k < s1.cursor → (emit_segment changed mx s1).diff k = s1.diff k) ∧
      (∀ k, (emit_segment changed mx s1).base k =
        if s1.i - 1 ≤ k ∧ k < (emit_segment changed mx s1).i then changed k else s1.base k) ∧
      (∀ k, nto ≤ k → k < (emit_segment changed mx s1).i → s1.base k = changed k) ∧
      (emit_segment changed mx s1).changed_val = changed ((emit_segment changed mx s1).i - 1) ∧
      ((emit_segment changed mx s1).i < mx →
        (emit_segment changed mx s1).base_val = (emit_segment changed mx s1).changed_val ∧
        (emit_segment changed mx s1).cursor + 5 ≤
          s1.cursor + 2 + ((emit_segment changed mx s1).i - s1.i)) ∧
      (emit_segment changed mx s1).cursor ≤
        s1.cursor + 2 + ((emit_segment changed mx s1).i - s1.i) ∧
      s1.cursor + 2 ≤ (emit_segment changed mx s1).cursor ∧
      (∀ k, s1.cursor + 2 + ((emit_segment changed mx s1).i - s1.i) ≤ k →
        (emit_segment changed mx s1).diff k = s1.diff k) := by
  obtain ⟨a1, a2, a3, a4, a5, a6, a7, a8, a9, a10, -⟩ := copy_window_spec changed mx mx
    { s1 with base := store s1.base (s1.i - 1) s1.changed_val,
              diff := store (store s1.diff s1.cursor (u64 ((s1.i - 1) <<< 32)))
                (s1.cursor + 1) s1.changed_val,
              cursor := s1.cursor + 2 } 0 (by dsimp only; omega) (by dsimp only; omega)
  dsimp only at a1 a2 a3 a4 a5 a6 a7 a8 a9 a10
  have hadv := a10 (by unfold DIFF_WINDOW_SIZE; omega) hlt
  obtain ⟨a9a, a9b⟩ := a9 hadv
  unfold DIFF_WINDOW_SIZE at a8
  exact emit_segment_aux changed nb mx hmx hnb s1 h1 hlt hc _ a2 a3 a4 a5 a6 a7 a8 hadv a9a a9b

theorem diff_segments_done (changed : Mem) (mx fuel : Nat) (s : scan_state) (h : ¬ s.i < mx) :
    diff_segments changed mx fuel s = (s, false) := by
  cases fuel with
  | zero => rfl
  | succ f => simp only [diff_segments, if_neg h]

theorem diff_segments_spec (changed : Mem) (nb mx : Nat) (hmx : mx ≤ nb) (hnb : nb < 2 ^ 32) :
    ∀ (fuel : Nat) (s : scan_state), mx - s.i ≤ fuel → 1 ≤ s.i → s.i < mx →
      s.changed_val = changed (s.i - 1) → s.base_val = s.base (s.i - 1) →
      ∃ rs e, segments_post changed nb mx s (diff_segments changed mx fuel s) rs e := by
  intro fuel
  induction fuel with
  | zero => intro s hf h1 hlt; omega
  | succ fuel ih =>
    intro s hf h1 hlt hc hb
    obtain ⟨b1, b2, b3, b4, b5, b6, b7, b8, b9⟩ :=
      scan_equal_spec changed mx mx s (by omega) h1 (by omega) hc hb
    by_cases hend : (scan_equal changed mx mx s).i = mx
    · have hs : diff_segments changed mx (fuel + 1) s = (scan_equal changed mx mx s, true) := by
        simp only [diff_segments, if_pos hlt, if_pos hend]
      rw [hs]
      refine ⟨[], mx - 1, ?_, ?_, ?_, ?_, ?_, ?_, ?_, ?_, ?_⟩
      · dsimp only; rw [b2, b3]; exact segments.nil _
      · intro q hq; simp at hq
      · intro k _; dsimp only; rw [b2]
      · intro k; dsimp only; rw [b1]
        by_cases hk : s.i - 1 ≤ k ∧ k < mx - 1
        · rw [if_pos hk]; exact b8 k hk.1 (by omega)
        · rw [if_neg hk]
      · intro k hk1 hk2 _; exact b8 k hk1 (by omega)
      · intro _; dsimp only; rw [b6, b7, hend]; exact ⟨rfl, rfl⟩
      · dsimp only; rw [b3]; omega
      · intro k _; dsimp only; rw [b2]
      · simp
    · have hs : diff_segments changed mx (fuel + 1) s =
          diff_segments changed mx fuel (emit_segment changed mx (scan_equal changed mx mx s)) := by
        simp only [diff_segments, if_pos hlt, if_neg hend]
      rw [hs]
      have hlt1 : (scan_equal changed mx mx s).i < mx := by omega
      obtain ⟨nto, c1, c2, c3, c4, c5, c6, c7, c8, c9, c10, c11, c12, c13⟩ :=
        emit_segment_spec changed nb mx hmx hnb (scan_equal changed mx mx s) (by omega) hlt1 b6
      rw [b3] at c5 c6 c10 c11 c12 c13
      rw [b2] at c6 c13
      rw [b1] at c7 c8
      generalize scan_equal changed mx mx s = s1 at *
      generalize emit_segment changed mx s1 = s3 at *
      by_cases hlt3 : s3.i < mx
      · obtain ⟨c10a, c10b⟩ := c10 hlt3
        have hb3 : s3.base_val = s3.base (s3.i - 1) := by
          rw [c10a, c9, c7, if_pos (by omega)]
        obtain ⟨rs, e, d1, d2, d3, d4, d5, d6, d7, d8, d9⟩ :=
          ih s3 (by omega) (by omega) hlt3 c9 hb3
        have he : mx - 1 ≤ e ∧ e ≤ mx := by
          rw [d9]; split <;> omega
        refine ⟨(s1.i - 1, nto) :: rs, e, ?_, ?_, ?_, ?_, ?_, ?_, ?_, ?_, d9⟩
        · have hseg : segments changed nb (diff_segments changed mx fuel s3).1.diff s.cursor
              s3.cursor [(s1.i - 1, nto)] := segments_congr c5 (fun k _ hk => d3 k hk)
          exact segments_append hseg d1
        · intro q hq
          rcases List.mem_cons.mp hq with h | h
          · subst h; dsimp only; omega
          · have := d2 q h; omega
        · intro k hk; rw [d3 k (by omega)]; exact c6 k hk
        · intro k
          rw [d4 k, c7 k]
          by_cases hk : s.i - 1 ≤ k ∧ k < e
          · rw [if_pos hk]
            by_cases hk2 : s3.i - 1 ≤ k ∧ k < e
            · rw [if_pos hk2]
            · rw [if_neg hk2]
              by_cases hk3 : s1.i - 1 ≤ k ∧ k < s3.i
              · rw [if_pos hk3]
              · rw [if_neg hk3]; exact b8 k hk.1 (by omega)
          · rw [if_neg hk, if_neg (by omega), if_neg (by omega)]
        · intro k hk1 hk2 hcov
          rw [covered_cons, Bool.or_eq_false_iff, decide_eq_false_iff_not] at hcov
          by_cases g1 : k < s1.i - 1
          · exact b8 k hk1 g1
          · by_cases g2 : k < nto
            · exact absurd ⟨by omega, g2⟩ hcov.1
            · by_cases g3 : k < s3.i
              · exact c8 k (by omega) g3
              · have := d5 k (by omega) hk2 hcov.2
                rwa [c7 k, if_neg (by omega)] at this
        · intro hce
          obtain ⟨g1, g2⟩ := d6 hce
          refine ⟨g1, ?_⟩
          rw [g2, c7, if_neg (by omega)]
        · omega
        · intro k hk; rw [d8 k (by omega)]; exact c13 k (by omega)
      · rw [diff_segments_done changed mx fuel s3 hlt3]
        have hi3 : s3.i = mx := by omega
        refine ⟨[(s1.i - 1, nto)], mx, c5, ?_, c6, ?_, ?_, ?_, ?_, ?_, ?_⟩
        · intro q hq
          rw [List.mem_singleton] at hq
          subst hq; dsimp only; omega
        · intro k
          dsimp only
          rw [c7 k, hi3]
          by_cases hk : s.i - 1 ≤ k ∧ k < mx
          · rw [if_pos hk]
            by_cases hk3 : s1.i - 1 ≤ k ∧ k < mx
            · rw [if_pos hk3]
            · rw [if_neg hk3]; exact b8 k hk.1 (by omega)
          · rw [if_neg hk, if_neg (by omega)]
        · intro k hk1 hk2 hcov
          rw [covered_cons, Bool.or_eq_false_iff, decide_eq_false_iff_not] at hcov
          by_cases g1 : k < s1.i - 1
          · exact b8 k hk1 g1
          · by_cases g2 : k < nto
            · exact absurd ⟨by omega, g2⟩ hcov.1
            · exact c8 k (by omega) (by omega)
        · intro h; simp at h
        · dsimp only; omega
        · intro k hk; dsimp only; exact c13 k (by omega)
        · simp

theorem last_block_segment (changed : Mem) (nb mx : Nat) (h1 : 1 ≤ mx) (hmx : mx ≤ nb)
    (hnb : nb < 2 ^ 32) (d : Mem) (c : Nat) :
    segments changed nb
      (store (store d c (u64 ((mx - 1) <<< 32) ||| mx)) (c + 1) (changed (mx - 1)))
      c (c + 2) [(mx - 1, mx)] := by
  obtain ⟨hd1, hd2⟩ := header_decode (mx - 1) mx (by omega) (by omega)
  rw [low_bits_eq] at hd2
  have e : c + 2 = c + 1 + (mx - (mx - 1)) := by omega
  rw [e]
  refine segments.cons _ _ _ _ _ (by omega) hmx ?_ ?_ ?_ (segments.nil _)
  · rw [store_other _ _ _ _ (by omega), store_same]; exact hd1
  · rw [store_other _ _ _ _ (by omega), store_same]; exact hd2
  · intro k hk
    have hk0 : k = 0 := by omega
    subst hk0
    rw [store_same]; rfl

theorem run_interval_diff_spec (changed base diff : Mem) (c nb mn mx : Nat) (hmx : mx ≤ nb)
    (hnb : nb < 2 ^ 32) :
    ∃ rs, segments changed nb (run_interval_diff mn mx changed base diff c).diff c
        (run_interval_diff mn mx changed base diff c).cursor rs ∧
      (∀ q ∈ rs, mn ≤ q.1 ∧ q.2 ≤ mx) ∧
      (∀ k, k < c → (run_interval_diff mn mx changed base diff c).diff k = diff k) ∧
      (∀ k, (run_interval_diff mn mx changed base diff c).base k =
        if mn ≤ k ∧ k < mx then changed k else base k) ∧
      (∀ k, mn ≤ k → k < mx → covered rs k = false → base k = changed k) ∧
      (run_interval_diff mn mx changed base diff c).cursor ≤ c + (mx - mn) + 1 ∧
      (∀ k, c + (mx - mn) + 1 ≤ k → (run_interval_diff mn mx changed base diff c).diff k = diff k) := by
  by_cases hlt : mn + 1 < mx
  · obtain ⟨rs, e, d1, d2, d3, d4, d5, d6, d7, d8, d9⟩ :=
      diff_segments_spec changed nb mx hmx hnb mx
        { i := mn + 1, changed_val := if mn < mx then changed mn else 0,
          base_val := if mn < mx then base mn else 0, base := base, diff := diff, cursor := c }
        (by dsimp only; omega) (by dsimp only; omega) hlt
        (by dsimp only; rw [if_pos (by omega)]; rfl)
        (by dsimp only; rw [if_pos (by omega)]; rfl)
    dsimp only at d1 d2 d3 d4 d5 d6 d7 d8
    simp only [Nat.add_sub_cancel] at d2 d4 d5 d7 d8
    unfold run_interval_diff
    dsimp only
    generalize diff_segments changed mx mx
        { i := mn + 1, changed_val := if mn < mx then changed mn else 0,
          base_val := if mn < mx then base mn else 0, base := base, diff := diff, cursor := c } = R at *
    by_cases hce : R.2 = true
    · rw [if_pos hce] at d9
      obtain ⟨g1, g2⟩ := d6 hce
      subst d9
      have hbase : R.1.base (mx - 1) = base (mx - 1) := by
        rw [d4, if_neg (by omega)]
      by_cases hne : R.1.changed_val ≠ R.1.base_val
      · rw [if_pos ⟨Or.inl hce, hne⟩]
        dsimp only
        refine ⟨rs ++ [(mx - 1, mx)], ?_, ?_, ?_, ?_, ?_, by omega, ?_⟩
        · apply @segments_append changed nb _ c R.1.cursor
          · apply segments_congr d1
            intro k _ hk
            rw [store_other _ _ _ _ (by omega), store_other _ _ _ _ (by omega)]
          · rw [g1]
            exact last_block_segment changed nb mx (by omega) hmx hnb _ _
        · intro q hq
          rcases List.mem_append.mp hq with h | h
          · have := d2 q h; omega
          · rw [List.mem_singleton] at h; subst h; dsimp only; omega
        · intro k hk
          have := segments_le d1
          rw [store_other _ _ _ _ (by omega), store_other _ _ _ _ (by omega)]
          exact d3 k hk
        · intro k
          by_cases hk : k = mx - 1
          · rw [hk, store_same, g1, if_pos (by omega)]
          · rw [store_other _ _ _ _ hk, d4]
            by_cases hk2 : mn ≤ k ∧ k < mx - 1
            · rw [if_pos hk2, if_pos (by omega)]
            · rw [if_neg hk2, if_neg (by omega)]
        · intro k hk1 hk2 hcov
          rw [covered_append, Bool.or_eq_false_iff] at hcov
          by_cases hk : k = mx - 1
          · have := hcov.2
            rw [covered_cons, Bool.or_eq_false_iff, decide_eq_false_iff_not] at this
            exact absurd ⟨by omega, by omega⟩ this.1
          · exact d5 k hk1 (by omega) hcov.1
        · intro k hk
          rw [store_other _ _ _ _ (by omega), store_other _ _ _ _ (by omega)]
          exact d8 k hk
      · rw [if_neg (fun h => hne h.2)]
        dsimp only
        have heq : changed (mx - 1) = base (mx - 1) := by
          rw [← g1, ← g2]; exact not_not.mp hne
        refine ⟨rs, d1, ?_, d3, ?_, ?_, by omega, d8⟩
        · intro q hq; have := d2 q hq; omega
        · intro k
          rw [d4]
          by_cases hk : k = mx - 1
          · rw [hk, if_neg (by omega), if_pos (by omega), heq]
          · by_cases hk2 : mn ≤ k ∧ k < mx - 1
            · rw [if_pos hk2, if_pos (by omega)]
            · rw [if_neg hk2, if_neg (by omega)]
        · intro k hk1 hk2 hcov
          by_cases hk : k = mx - 1
          · rw [hk, heq]
          · exact d5 k hk1 (by omega) hcov
    · rw [if_neg hce] at d9
      subst d9
      have hcond : ¬ ((R.2 = true ∨ mn + 1 = e) ∧ R.1.changed_val ≠ R.1.base_val) := by
        intro h; rcases h.1 with h | h
        · exact hce h
        · omega
      rw [if_neg hcond]
      dsimp only
      exact ⟨rs, d1, d2, d3, d4, d5, by omega, d8⟩
  · have hR : diff_segments changed mx mx
        { i := mn + 1, changed_val := if mn < mx then changed mn else 0,
          base_val := if mn < mx then base mn else 0, base := base, diff := diff, cursor := c }
        = (scan_state.mk (mn + 1) (if mn < mx then changed mn else 0)
            (if mn < mx then base mn else 0) base diff c, false) :=
      diff_segments_done changed mx mx _ (by dsimp only; omega)
    unfold run_interval_diff
    dsimp only
    rw [hR]
    dsimp only
    by_cases hcond : (false = true ∨ mn + 1 = mx) ∧
        (if mn < mx then changed mn else 0) ≠ (if mn < mx then base mn else 0)
    · rw [if_pos hcond]
      dsimp only
      have hm : mn + 1 = mx := by
        rcases hcond.1 with h | h
        · exact absurd h (by simp)
        · exact h
      have hmn : mn = mx - 1 := by omega
      have hv : (if mn < mx then changed mn else 0) = changed (mx - 1) := by
        rw [if_pos (by omega), hmn]
      rw [hv]
      refine ⟨[(mx - 1, mx)], last_block_segment changed nb mx (by omega) hmx hnb _ _,
        ?_, ?_, ?_, ?_, by omega, ?_⟩
      · intro q hq; rw [List.mem_singleton] at hq; subst hq; dsimp only; omega
      · intro k hk
        rw [store_other _ _ _ _ (by omega), store_other _ _ _ _ (by omega)]
      · intro k
        by_cases hk : k = mx - 1
        · rw [hk, store_same, if_pos (by omega)]
        · rw [store_other _ _ _ _ hk, if_neg (by omega)]
      · intro k hk1 hk2 hcov
        rw [covered_cons, Bool.or_eq_false_iff, decide_eq_false_iff_not] at hcov
        exact absurd ⟨by omega, by omega⟩ hcov.1
      · intro k hk
        rw [store_other _ _ _ _ (by omega), store_other _ _ _ _ (by omega)]
    · rw [if_neg hcond]
      dsimp only
      refine ⟨[], segments.nil _, ?_, ?_, ?_, ?_, by omega, ?_⟩
      · intro q hq; simp at hq
      · intro k _; rfl
      · intro k
        by_cases hk : mn ≤ k ∧ k < mx
        · rw [if_pos hk]
          have hk2 : k = mn := by omega
          have hm : mn + 1 = mx := by omega
          subst hk2
          by_contra hne
          apply hcond
          refine ⟨Or.inr hm, ?_⟩
          rw [if_pos (by omega), if_pos (by omega)]
          exact fun h => hne h.symm
        · rw [if_neg hk]
      · intro k hk1 hk2 _
        have hk3 : k = mn := by omega
        have hm : mn + 1 = mx := by omega
        subst hk3
        by_contra hne
        apply hcond
        refine ⟨Or.inr hm, ?_⟩
        rw [if_pos (by omega), if_pos (by omega)]
        exact fun h => hne h.symm
      · intro k _; rfl

/-! ## The damage scan of `construct_diff` -/

theorem foldl_invariant {α β : Type} (P : α → Prop) (f : α → β → α) (l : List β)
    (hstep : ∀ a b, b ∈ l → P a → P (f a b)) : ∀ init, P init → P (l.foldl f init) := by
  induction l with
  | nil => intro init h; exact h
  | cons x xs ih =>
    intro init h
    rw [List.foldl_cons]
    apply ih
    · intro a b hb ha; exact hstep a b (List.mem_cons_of_mem _ hb) ha
    · exact hstep init x (List.mem_cons_self _ _) h

theorem minu_le_right (a b : Nat) : minu a b ≤ b := by
  unfold minu; split <;> omega

theorem damage_rep_step_inv (changed base0 : Mem) (nb cds cde : Nat) (hnb : nb < 2 ^ 32)
    (ei : ext_interval) (st : damage_state) (r : Nat)
    (h : ∃ rs, segments changed nb st.diff 0 st.cursor rs ∧ st.base = patched changed rs base0) :
    ∃ rs, segments changed nb (damage_rep_step nb cds cde changed ei st r).diff 0
        (damage_rep_step nb cds cde changed ei st r).cursor rs ∧
      (damage_rep_step nb cds cde changed ei st r).base = patched changed rs base0 := by
  obtain ⟨rs, h1, h2⟩ := h
  unfold damage_rep_step
  dsimp only
  split
  · exact ⟨rs, h1, h2⟩
  · rename_i hlt
    obtain ⟨rs2, a1, a2, a3, a4, a5, -, -⟩ := run_interval_diff_spec changed st.base st.diff
      st.cursor nb
      (minu (cast_u64 (floordiv (cast_int (maxu (u64 (ei.start + r * ei.stride)) cds)) 8)) nb)
      (minu (cast_u64 (ceildiv (cast_int (minu (u64 (ei.start + r * ei.stride + ei.width)) cde))
        8)) nb)
      (minu_le_right _ _) hnb
    refine ⟨rs ++ rs2, ?_, ?_⟩
    · exact segments_append (segments_congr h1 (fun k _ hk => a3 k hk)) a1
    · funext k
      dsimp only
      rw [a4 k, h2]
      simp only [patched, covered_append, Bool.or_eq_true]
      by_cases c2 : covered rs2 k = true
      · obtain ⟨q, hq, hq2⟩ := (covered_iff rs2 k).mp c2
        have := a2 q hq
        rw [if_pos (by omega)]
        simp [c2]
      · by_cases c1 : covered rs k = true
        · simp only [c1, c2, or_false, if_true]
          split <;> rfl
        · simp only [c1, c2, or_false, if_false]
          split
          · rename_i hk
            have := a5 k hk.1 hk.2 (by simpa using c2)
            rw [h2] at this
            simp only [patched, c1, if_false] at this
            exact this.symm ▸ rfl
          · rfl

theorem scan_damage_inv (changed base diff : Mem) (nb cds cde : Nat) (hnb : nb < 2 ^ 32)
    (dmg : damage) :
    ∃ rs, segments changed nb (scan_damage nb dmg cds cde base changed diff).diff 0
        (scan_damage nb dmg cds cde base changed diff).cursor rs ∧
      (scan_damage nb dmg cds cde base changed diff).base = patched changed rs base := by
  cases dmg with
  | everything =>
    obtain ⟨rs, a1, a2, a3, a4, a5, -, -⟩ := run_interval_diff_spec changed base diff 0 nb
      (maxu 0 (cds / 8)) (minu nb (cde / 8)) (by unfold minu; split <;> omega) hnb
    refine ⟨rs, a1, ?_⟩
    funext k
    simp only [scan_damage]
    rw [a4 k]
    simp only [patched]
    by_cases c : covered rs k = true
    · obtain ⟨q, hq, hq2⟩ := (covered_iff rs k).mp c
      have := a2 q hq
      rw [if_pos (by omega), if_pos c]
    · rw [if_neg c]
      split
      · rename_i hk
        exact (a5 k hk.1 hk.2 (by simpa using c)).symm
      · rfl
  | rects l =>
    simp only [scan_damage]
    apply foldl_invariant (fun st : damage_state =>
      ∃ rs, segments changed nb st.diff 0 st.cursor rs ∧ st.base = patched changed rs base)
    · intro st ei _ hst
      unfold damage_rect_step
      apply foldl_invariant (fun st : damage_state =>
        ∃ rs, segments changed nb st.diff 0 st.cursor rs ∧ st.base = patched changed rs base)
      · intro st2 r _ hst2
        exact damage_rep_step_inv changed base nb cds cde hnb ei st2 r hst2
      · exact hst
    · refine ⟨[], segments.nil 0, ?_⟩
      funext k
      simp [patched, covered_nil]

/-! ## Bytes and the trailing tail -/

theorem load_byte_lt (m : Mem) (a : Nat) : load_byte m a < 256 := byte_of_lt _ _

theorem load_byte_store_byte (m : Mem) (a b a2 : Nat) :
    load_byte (store_byte m a b) a2 = if a2 = a then b % 256 else load_byte m a2 := by
  unfold load_byte store_byte
  by_cases hq : a2 / 8 = a / 8
  · rw [hq, store_same, byte_of_word_with_byte _ _ _ _ (Nat.mod_lt _ (by omega))
      (Nat.mod_lt _ (by omega))]
    by_cases h : a2 = a
    · rw [if_pos h, if_pos (by rw [h])]
    · rw [if_neg h, if_neg (by omega)]
  · rw [store_other _ _ _ _ hq, if_neg (by intro h; apply hq; rw [h])]

theorem store_byte_other (m : Mem) (a b k : Nat) (h : k ≠ a / 8) : store_byte m a b k = m k := by
  unfold store_byte; exact store_other _ _ _ _ h

theorem store_bytes_spec (off : Nat) (v : Nat → Nat) (m : Mem) (n : Nat) :
    (∀ a, load_byte ((List.range n).foldl (fun b i => store_byte b (off + i) (v i)) m) a =
      if off ≤ a ∧ a < off + n then v (a - off) % 256 else load_byte m a) ∧
    (∀ k, (∀ i, i < n → k ≠ (off + i) / 8) →
      (List.range n).foldl (fun b i => store_byte b (off + i) (v i)) m k = m k) := by
  induction n with
  | zero =>
    constructor
    · intro a; rw [if_neg (by omega)]; rfl
    · intro k _; rfl
  | succ n ih =>
    rw [List.range_succ, List.foldl_append]
    simp only [List.foldl_cons, List.foldl_nil]
    constructor
    · intro a
      rw [load_byte_store_byte, ih.1 a]
      by_cases h : a = off + n
      · rw [if_pos h, if_pos (by omega)]
        congr 2; omega
      · rw [if_neg h]
        by_cases h2 : off ≤ a ∧ a < off + n
        · rw [if_pos h2, if_pos (by omega)]
        · rw [if_neg h2, if_neg (by omega)]
    · intro k hk
      rw [store_byte_other _ _ _ _ (hk n (by omega))]
      exact ih.2 k (fun i hi => hk i (by omega))

theorem store_bytes_congr (off : Nat) (v v2 : Nat → Nat) (m : Mem) (n : Nat)
    (h : ∀ i, i < n → v i = v2 i) :
    (List.range n).foldl (fun b i => store_byte b (off + i) (v i)) m =
    (List.range n).foldl (fun b i => store_byte b (off + i) (v2 i)) m := by
  induction n with
  | zero => rfl
  | succ n ih =>
    rw [List.range_succ, List.foldl_append, List.foldl_append]
    simp only [List.foldl_cons, List.foldl_nil]
    rw [ih (fun i hi => h i (by omega)), h n (by omega)]

theorem copy_tail_fst (nb nt c : Nat) (changed base diff : Mem) :
    (copy_tail nb nt c changed base diff).1 =
      (List.range nt).foldl
        (fun b i => store_byte b (nb * 8 + i) (load_byte changed (nb * 8 + i))) base := by
  unfold copy_tail
  generalize List.range nt = l
  induction l generalizing base diff with
  | nil => rfl
  | cons x xs ih => simp only [List.foldl_cons]; exact ih _ _

theorem copy_tail_snd (nb nt c : Nat) (changed base diff : Mem) :
    (copy_tail nb nt c changed base diff).2 =
      (List.range nt).foldl
        (fun b i => store_byte b (c * 8 + i) (load_byte changed (nb * 8 + i))) diff := by
  unfold copy_tail
  generalize List.range nt = l
  induction l generalizing base diff with
  | nil => rfl
  | cons x xs ih => simp only [List.foldl_cons]; exact ih _ _

theorem tail_differs_iff (nb nt : Nat) (base changed : Mem) :
    tail_differs nb nt base changed = true ↔
      ∃ i, i < nt ∧ load_byte base (nb * 8 + i) ≠ load_byte changed (nb * 8 + i) := by
  unfold tail_differs
  induction nt with
  | zero => simp
  | succ n ih =>
    rw [List.range_succ, List.foldl_append]
    simp only [List.foldl_cons, List.foldl_nil, Bool.or_eq_true, decide_eq_true_eq]
    rw [ih]
    constructor
    · rintro (⟨i, hi, h⟩ | h)
      · exact ⟨i, by omega, h⟩
      · exact ⟨n, by omega, h⟩
    · rintro ⟨i, hi, h⟩
      by_cases hin : i = n
      · right; rw [← hin]; exact h
      · left; exact ⟨i, by omega, h⟩

theorem apply_tail_eq (nb nd nt : Nat) (diff base : Mem) :
    apply_tail nb nd nt diff base =
      (List.range nt).foldl
        (fun b i => store_byte b (nb * 8 + i) (load_byte diff (nd * 8 + i))) base := rfl

/-! ## `construct_diff` followed by `apply_diff` -/

theorem ntrailing_eq (size : Nat) :
    u64 (size + (2 ^ 64 - u64 (8 * (size / 8)))) = size % 8 := by
  unfold u64; omega

theorem construct_diff_cases (size : Nat) (dmg : damage) (cds cde : Nat) (base changed diff : Mem)
    (hsize : size < 2 ^ 31) :
    (construct_diff size dmg cds cde base changed diff =
        { base := (scan_damage (size / 8) dmg (realign_domain cds cde).1 (realign_domain cds cde).2
            base changed diff).base,
          diff := (scan_damage (size / 8) dmg (realign_domain cds cde).1 (realign_domain cds cde).2
            base changed diff).diff,
          diffsize := (scan_damage (size / 8) dmg (realign_domain cds cde).1
            (realign_domain cds cde).2 base changed diff).cursor * 8 } ∧
      ¬ ((scan_damage (size / 8) dmg (realign_domain cds cde).1 (realign_domain cds cde).2
            base changed diff).check_tail = true ∧ 0 < size % 8 ∧
         tail_differs (size / 8) (size % 8) (scan_damage (size / 8) dmg (realign_domain cds cde).1
            (realign_domain cds cde).2 base changed diff).base changed = true)) ∨
    (construct_diff size dmg cds cde base changed diff =
        { base := (List.range (size % 8)).foldl
            (fun b i => store_byte b (size / 8 * 8 + i) (load_byte changed (size / 8 * 8 + i)))
            (scan_damage (size / 8) dmg (realign_domain cds cde).1 (realign_domain cds cde).2
              base changed diff).base,
          diff := (List.range (size % 8)).foldl
            (fun b i => store_byte b ((scan_damage (size / 8) dmg (realign_domain cds cde).1
              (realign_domain cds cde).2 base changed diff).cursor * 8 + i)
              (load_byte changed (size / 8 * 8 + i)))
            (scan_damage (size / 8) dmg (realign_domain cds cde).1 (realign_domain cds cde).2
              base changed diff).diff,
          diffsize := (scan_damage (size / 8) dmg (realign_domain cds cde).1
            (realign_domain cds cde).2 base changed diff).cursor * 8 + size % 8 } ∧
      (scan_damage (size / 8) dmg (realign_domain cds cde).1 (realign_domain cds cde).2
            base changed diff).check_tail = true ∧ 0 < size % 8 ∧
      tail_differs (size / 8) (size % 8) (scan_damage (size / 8) dmg (realign_domain cds cde).1
            (realign_domain cds cde).2 base changed diff).base changed = true) := by
  unfold construct_diff
  dsimp only
  rw [construct_nblocks_eq size hsize, ntrailing_eq size]
  generalize scan_damage (size / 8) dmg (realign_domain cds cde).1 (realign_domain cds cde).2
    base changed diff = st
  by_cases hc : st.check_tail = true ∧ size % 8 > 0
  · rw [if_pos hc]
    by_cases ht : tail_differs (size / 8) (size % 8) st.base changed = true
    · right
      rw [if_pos ht, copy_tail_fst, copy_tail_snd]
      exact ⟨rfl, hc.1, hc.2, ht⟩
    · left
      rw [if_neg ht]
      exact ⟨rfl, fun h => ht h.2.2⟩
  · left
    rw [if_neg hc, if_neg (by simp)]
    exact ⟨rfl, fun h => hc ⟨h.1, h.2.1⟩⟩

theorem apply_diff_of_segments (changed : Mem) (size diffsize : Nat) (d b : Mem)
    (rs : List (Nat × Nat)) (hseg : segments changed (size / 8) d 0 (diffsize / 8) rs)
    (htail : diffsize % 8 = 0 ∨ diffsize % 8 = size % 8) :
    (apply_diff size b diffsize d).status = apply_status.applied ∧
    (apply_diff size b diffsize d).base =
      (if size % 8 > 0 then
        apply_tail (size / 8) (diffsize / 8) (size % 8) d (patched changed rs b)
       else patched changed rs b) := by
  have hloop := apply_diff_loop_segments hseg (diffsize / 8) (le_refl _) b (diffsize / 8)
    (by omega)
  rw [Nat.sub_self] at hloop
  have h0 : apply_diff_loop (size / 8) (diffsize / 8) d 0 (diffsize / 8) (patched changed rs b)
      = (patched changed rs b, true) := rfl
  rw [h0] at hloop
  have hnt : size - 8 * (size / 8) = size % 8 := by omega
  have hc : ¬ (diffsize % 8 ≠ 0 ∧ size - 8 * (size / 8) ≠ diffsize - 8 * (diffsize / 8)) := by
    omega
  unfold apply_diff
  dsimp only
  rw [if_neg hc, hloop]
  dsimp only
  rw [if_neg (by simp), hnt]
  exact ⟨rfl, rfl⟩

theorem construct_diff_segments (size : Nat) (dmg : damage) (cds cde : Nat)
    (base changed diff : Mem) (hsize : size < 2 ^ 31) :
    ∃ rs, segments changed (size / 8) (construct_diff size dmg cds cde base changed diff).diff 0
        ((construct_diff size dmg cds cde base changed diff).diffsize / 8) rs ∧
      ((construct_diff size dmg cds cde base changed diff).diffsize % 8 = 0 ∨
        ((construct_diff size dmg cds cde base changed diff).diffsize % 8 = size % 8 ∧
         ∀ i, i < size % 8 →
          load_byte (construct_diff size dmg cds cde base changed diff).diff
            ((construct_diff size dmg cds cde base changed diff).diffsize / 8 * 8 + i) =
          load_byte changed (size / 8 * 8 + i))) ∧
      (scan_damage (size / 8) dmg (realign_domain cds cde).1 (realign_domain cds cde).2
          base changed diff).base = patched changed rs base ∧
      (scan_damage (size / 8) dmg (realign_domain cds cde).1 (realign_domain cds cde).2
          base changed diff).cursor =
        (construct_diff size dmg cds cde base changed diff).diffsize / 8 := by
  obtain ⟨rs, h1, h2⟩ := scan_damage_inv changed base diff (size / 8) (realign_domain cds cde).1
    (realign_domain cds cde).2 (by omega) dmg
  rcases construct_diff_cases size dmg cds cde base changed diff hsize with ⟨he, _⟩ | ⟨he, _, hpos, _⟩
  · rw [he]
    dsimp only
    rw [Nat.mul_div_cancel _ (by omega : 0 < 8)]
    exact ⟨rs, h1, Or.inl (Nat.mul_mod_left _ _), h2, rfl⟩
  · rw [he]
    dsimp only
    generalize scan_damage (size / 8) dmg (realign_domain cds cde).1 (realign_domain cds cde).2
      base changed diff = st at *
    have hlt : size % 8 < 8 := Nat.mod_lt _ (by omega)
    have hq : (st.cursor * 8 + size % 8) / 8 = st.cursor := by omega
    have hr : (st.cursor * 8 + size % 8) % 8 = size % 8 := by omega
    rw [hq, hr]
    obtain ⟨s1, s2⟩ := store_bytes_spec (st.cursor * 8)
      (fun i => load_byte changed (size / 8 * 8 + i)) st.diff (size % 8)
    refine ⟨rs, ?_, Or.inr ⟨rfl, ?_⟩, h2, rfl⟩
    · apply segments_congr h1
      intro k _ hk
      apply s2
      intro i hi; omega
    · intro i hi
      rw [s1, if_pos (by omega)]
      have e : st.cursor * 8 + i - st.cursor * 8 = i := by omega
      rw [e]
      exact Nat.mod_eq_of_lt (load_byte_lt _ _)

theorem apply_construct_diff (size : Nat) (dmg : damage) (cds cde : Nat)
    (base changed diff : Mem) (hsize : size < 2 ^ 31) :
    (apply_diff size base (construct_diff size dmg cds cde base changed diff).diffsize
      (construct_diff size dmg cds cde base changed diff).diff).status = apply_status.applied ∧
    (∀ k, k < size / 8 →
      (apply_diff size base (construct_diff size dmg cds cde base changed diff).diffsize
        (construct_diff size dmg cds cde base changed diff).diff).base k =
      (construct_diff size dmg cds cde base changed diff).base k) ∧
    ((size % 8 = 0 ∨ (construct_diff size dmg cds cde base changed diff).diffsize % 8 ≠ 0) →
      (apply_diff size base (construct_diff size dmg cds cde base changed diff).diffsize
        (construct_diff size dmg cds cde base changed diff).diff).base =
      (construct_diff size dmg cds cde base changed diff).base) := by
  obtain ⟨rs, h1, h2, h3, h4⟩ := construct_diff_segments size dmg cds cde base changed diff hsize
  have htail : (construct_diff size dmg cds cde base changed diff).diffsize % 8 = 0 ∨
      (construct_diff size dmg cds cde base changed diff).diffsize % 8 = size % 8 := by
    rcases h2 with h | h
    · exact Or.inl h
    · exact Or.inr h.1
  obtain ⟨a1, a2⟩ := apply_diff_of_segments changed size _ _ base rs h1 htail
  refine ⟨a1, ?_, ?_⟩
  · intro k hk
    rw [a2]
    have hfr : ∀ m : Mem, apply_tail (size / 8)
        ((construct_diff size dmg cds cde base changed diff).diffsize / 8) (size % 8)
        (construct_diff size dmg cds cde base changed diff).diff m k = m k := by
      intro m
      rw [apply_tail_eq]
      apply (store_bytes_spec _ _ _ _).2
      intro i hi; omega
    have hb : (construct_diff size dmg cds cde base changed diff).base k =
        patched changed rs base k := by
      rw [← h3]
      rcases construct_diff_cases size dmg cds cde base changed diff hsize with
        ⟨he, _⟩ | ⟨he, _, _, _⟩
      · rw [he]
      · rw [he]
        dsimp only
        apply (store_bytes_spec _ _ _ _).2
        intro i hi; omega
    rw [hb]
    split
    · exact hfr _
    · rfl
  · intro hcase
    rw [a2]
    rcases construct_diff_cases size dmg cds cde base changed diff hsize with
      ⟨he, _⟩ | ⟨he, _, hpos, _⟩
    · have hz : size % 8 = 0 := by
        rcases hcase with h | h
        · exact h
        · rw [he] at h; dsimp only at h; omega
      rw [if_neg (by omega), ← h3, he]
    · rw [if_pos hpos, apply_tail_eq, ← h3]
      have hv : ∀ i, i < size % 8 →
          load_byte (construct_diff size dmg cds cde base changed diff).diff
            ((construct_diff size dmg cds cde base changed diff).diffsize / 8 * 8 + i) =
          load_byte changed (size / 8 * 8 + i) := by
        rcases h2 with h | h
        · rw [he] at h; dsimp only at h; omega
        · exact h.2
      rw [store_bytes_congr _ _ _ _ _ hv, he]

theorem u64_of_lt (x : Nat) (h : x < 2 ^ 64) : u64 x = x := Nat.mod_eq_of_lt h

theorem minu_eq_min (a b : Nat) : minu a b = min a b := by
  unfold minu; split <;> omega

theorem maxu_eq_max (a b : Nat) : maxu a b = max a b := by
  unfold maxu; split <;> omega

theorem cast_int_of_lt (n : Nat) (h : n < 2 ^ 31) : cast_int n = (n : Int) := by
  unfold cast_int
  have h1 : n % 2 ^ 32 = n := Nat.mod_eq_of_lt (by omega)
  rw [h1, if_pos h]

theorem cast_floordiv (n : Nat) (h : n < 2 ^ 31) :
    cast_u64 (floordiv (cast_int n) 8) = n / 8 := by
  rw [cast_int_of_lt n h]
  unfold cast_u64 floordiv
  have h2 : Int.tdiv (n : Int) 8 = ((n / 8 : Nat) : Int) := by
    rw [Int.tdiv_eq_ediv] <;> simp
  rw [h2]
  have h3 : ((n / 8 : Nat) : Int) % 2 ^ 64 = ((n / 8 : Nat) : Int) := by
    apply Int.emod_eq_of_lt <;> omega
  rw [h3]; exact Int.toNat_ofNat _

theorem cast_ceildiv (n : Nat) (h : n < 2 ^ 31) :
    cast_u64 (ceildiv (cast_int n) 8) = (n + 7) / 8 := by
  rw [cast_int_of_lt n h]
  unfold cast_u64 ceildiv
  have h1 : (n : Int) + 8 - 1 = ((n + 7 : Nat) : Int) := by push_cast; ring
  rw [h1]
  have h2 : Int.tdiv ((n + 7 : Nat) : Int) 8 = (((n + 7) / 8 : Nat) : Int) := by
    rw [Int.tdiv_eq_ediv (by omega) (by omega)]; omega
  rw [h2]
  have h3 : (((n + 7) / 8 : Nat) : Int) % 2 ^ 64 = (((n + 7) / 8 : Nat) : Int) := by
    apply Int.emod_eq_of_lt <;> omega
  rw [h3]; exact Int.toNat_ofNat _

theorem damage_rep_step_effect (changed : Mem) (nb cds cde : Nat) (hnb : nb < 2 ^ 32)
    (hcds : cds < 2 ^ 31) (ei : ext_interval) (st : damage_state) (r : Nat)
    (hfit : ei.start + r * ei.stride + ei.width < 2 ^ 31) :
    (∀ k, (damage_rep_step nb cds cde changed ei st r).base k =
      if k < nb ∧ max (ei.start + r * ei.stride) cds / 8 ≤ k ∧
          8 * k < min (ei.start + r * ei.stride + ei.width) cde
      then changed k else st.base k) ∧
    (damage_rep_step nb cds cde changed ei st r).check_tail =
      (st.check_tail || decide (8 * nb < min (ei.start + r * ei.stride + ei.width) cde)) := by
  have e1 : u64 (ei.start + r * ei.stride) = ei.start + r * ei.stride := u64_of_lt _ (by omega)
  have e2 : u64 (ei.start + r * ei.stride + ei.width) = ei.start + r * ei.stride + ei.width :=
    u64_of_lt _ (by omega)
  have e3 : u64 (8 * nb) = 8 * nb := u64_of_lt _ (by omega)
  have e4 : cast_u64 (floordiv (cast_int (max (ei.start + r * ei.stride) cds)) 8) =
      max (ei.start + r * ei.stride) cds / 8 := cast_floordiv _ (by omega)
  have e5 : cast_u64 (ceildiv (cast_int (min (ei.start + r * ei.stride + ei.width) cde)) 8) =
      (min (ei.start + r * ei.stride + ei.width) cde + 7) / 8 := cast_ceildiv _ (by omega)
  unfold damage_rep_step
  dsimp only
  simp only [maxu_eq_max, minu_eq_min]
  rw [e1, e2, e3, e4, e5]
  split
  · rename_i hge
    dsimp only
    refine ⟨?_, rfl⟩
    intro k
    rw [if_neg (by omega)]
  · rename_i hlt
    dsimp only
    obtain ⟨rs2, _, _, _, a4, _, _, _⟩ := run_interval_diff_spec changed st.base st.diff
      st.cursor nb
      (min (max (ei.start + r * ei.stride) cds / 8) nb)
      (min ((min (ei.start + r * ei.stride + ei.width) cde + 7) / 8) nb)
      (Nat.min_le_right _ _) hnb
    refine ⟨?_, rfl⟩
    intro k
    rw [a4 k]
    by_cases hk : k < nb ∧ max (ei.start + r * ei.stride) cds / 8 ≤ k ∧
          8 * k < min (ei.start + r * ei.stride + ei.width) cde
    · rw [if_pos hk, if_pos (by omega)]
    · rw [if_neg hk, if_neg (by omega)]

theorem damage_rect_step_effect (changed : Mem) (nb cds cde : Nat) (hnb : nb < 2 ^ 32)
    (hcds : cds < 2 ^ 31) (ei : ext_interval) (st : damage_state) (n : Nat)
    (hfit : ∀ r, r < n → ei.start + r * ei.stride + ei.width < 2 ^ 31) :
    (∀ k, (∃ r, r < n ∧ k < nb ∧ max (ei.start + r * ei.stride) cds / 8 ≤ k ∧
          8 * k < min (ei.start + r * ei.stride + ei.width) cde) →
      ((List.range n).foldl (damage_rep_step nb cds cde changed ei) st).base k = changed k) ∧
    (∀ k, (¬ ∃ r, r < n ∧ k < nb ∧ max (ei.start + r * ei.stride) cds / 8 ≤ k ∧
          8 * k < min (ei.start + r * ei.stride + ei.width) cde) →
      ((List.range n).foldl (damage_rep_step nb cds cde changed ei) st).base k = st.base k) ∧
    (((List.range n).foldl (damage_rep_step nb cds cde changed ei) st).check_tail = true ↔
      (st.check_tail = true ∨
        ∃ r, r < n ∧ 8 * nb < min (ei.start + r * ei.stride + ei.width) cde)) := by
  induction n with
  | zero =>
    refine ⟨?_, ?_, ?_⟩
    · rintro k ⟨r, hr, _⟩; omega
    · intro k _; rfl
    · simp
  | succ n ih =>
    obtain ⟨i1, i2, i3⟩ := ih (fun r hr => hfit r (by omega))
    rw [List.range_succ, List.foldl_append]
    simp only [List.foldl_cons, List.foldl_nil]
    obtain ⟨s1, s2⟩ := damage_rep_step_effect changed nb cds cde hnb hcds ei
      ((List.range n).foldl (damage_rep_step nb cds cde changed ei) st) n (hfit n (by omega))
    refine ⟨?_, ?_, ?_⟩
    · rintro k ⟨r, hr, hk⟩
      rw [s1 k]
      by_cases hn : r = n
      · subst hn; rw [if_pos hk]
      · split
        · rfl
        · exact i1 k ⟨r, by omega, hk⟩
    · intro k hk
      rw [s1 k, if_neg (fun h => hk ⟨n, by omega, h⟩)]
      exact i2 k (fun ⟨r, hr, h⟩ => hk ⟨r, by omega, h⟩)
    · rw [s2, Bool.or_eq_true, i3, decide_eq_true_eq]
      constructor
      · rintro ((h | ⟨r, hr, h⟩) | h)
        · exact Or.inl h
        · exact Or.inr ⟨r, by omega, h⟩
        · exact Or.inr ⟨n, by omega, h⟩
      · rintro (h | ⟨r, hr, h⟩)
        · exact Or.inl (Or.inl h)
        · by_cases hn : r = n
          · subst hn; exact Or.inr h
          · exact Or.inl (Or.inr ⟨r, by omega, h⟩)

theorem damage_rects_effect (changed : Mem) (nb cds cde : Nat) (hnb : nb < 2 ^ 32)
    (hcds : cds < 2 ^ 31) (l : List ext_interval)
    (hfit : ∀ ei ∈ l, ∀ r, r < ei.rep → ei.start + r * ei.stride + ei.width < 2 ^ 31) :
    ∀ st : damage_state,
    (∀ k, (∃ ei ∈ l, ∃ r, r < ei.rep ∧ k < nb ∧ max (ei.start + r * ei.stride) cds / 8 ≤ k ∧
          8 * k < min (ei.start + r * ei.stride + ei.width) cde) →
      (l.foldl (damage_rect_step nb cds cde changed) st).base k = changed k) ∧
    (∀ k, (¬ ∃ ei ∈ l, ∃ r, r < ei.rep ∧ k < nb ∧ max (ei.start + r * ei.stride) cds / 8 ≤ k ∧
          8 * k < min (ei.start + r * ei.stride + ei.width) cde) →
      (l.foldl (damage_rect_step nb cds cde changed) st).base k = st.base k) ∧
    ((l.foldl (damage_rect_step nb cds cde changed) st).check_tail = true ↔
      (st.check_tail = true ∨
        ∃ ei ∈ l, ∃ r, r < ei.rep ∧ 8 * nb < min (ei.start + r * ei.stride + ei.width) cde)) := by
  induction l with
  | nil =>
    intro st
    refine ⟨?_, ?_, ?_⟩
    · rintro k ⟨ei, hei, _⟩; simp at hei
    · intro k _; rfl
    · simp
  | cons x xs ih =>
    intro st
    obtain ⟨s1, s2, s3⟩ := damage_rect_step_effect changed nb cds cde hnb hcds x st x.rep
      (hfit x (List.mem_cons_self _ _))
    obtain ⟨i1, i2, i3⟩ := ih (fun ei hei => hfit ei (List.mem_cons_of_mem _ hei))
      (damage_rect_step nb cds cde changed st x)
    rw [List.foldl_cons]
    refine ⟨?_, ?_, ?_⟩
    · rintro k ⟨ei, hei, r, hr, hk⟩
      by_cases hx : ∃ ei ∈ xs, ∃ r, r < ei.rep ∧ k < nb ∧
          max (ei.start + r * ei.stride) cds / 8 ≤ k ∧
          8 * k < min (ei.start + r * ei.stride + ei.width) cde
      · exact i1 k hx
      · rw [i2 k hx]
        rcases List.mem_cons.mp hei with h | h
        · subst h; exact s1 k ⟨r, hr, hk⟩
        · exact absurd ⟨ei, h, r, hr, hk⟩ hx
    · intro k hk
      rw [i2 k (fun ⟨ei, hei, h⟩ => hk ⟨ei, List.mem_cons_of_mem _ hei, h⟩)]
      exact s2 k (fun h => hk ⟨x, List.mem_cons_self _ _, h⟩)
    · rw [i3]
      unfold damage_rect_step
      rw [s3]
      constructor
      · rintro ((h | ⟨r, hr, h⟩) | ⟨ei, hei, h⟩)
        · exact Or.inl h
        · exact Or.inr ⟨x, List.mem_cons_self _ _, r, hr, h⟩
        · exact Or.inr ⟨ei, List.mem_cons_of_mem _ hei, h⟩
      · rintro (h | ⟨ei, hei, h⟩)
        · exact Or.inl (Or.inl h)
        · rcases List.mem_cons.mp hei with h2 | h2
          · subst h2; exact Or.inl (Or.inr h)
          · exact Or.inr ⟨ei, h2, h⟩

theorem scan_damage_effect (changed base diff : Mem) (nb cds cde : Nat) (hnb : nb < 2 ^ 32)
    (hcds : cds < 2 ^ 31) (dmg : damage) (hfit : damage_in_range dmg) :
    (∀ k, block_scanned nb dmg cds cde k →
      (scan_damage nb dmg cds cde base changed diff).base k = changed k) ∧
    (∀ k, ¬ block_scanned nb dmg cds cde k →
      (scan_damage nb dmg cds cde base changed diff).base k = base k) ∧
    ((scan_damage nb dmg cds cde base changed diff).check_tail = true ↔
      tail_scanned nb dmg cde) := by
  cases dmg with
  | everything =>
    obtain ⟨rs, _, _, _, a4, _, _, _⟩ := run_interval_diff_spec changed base diff 0 nb
      (maxu 0 (cds / 8)) (minu nb (cde / 8)) (by rw [minu_eq_min]; exact Nat.min_le_left _ _) hnb
    simp only [scan_damage, block_scanned, tail_scanned]
    have hmax : maxu 0 (cds / 8) = cds / 8 := by rw [maxu_eq_max]; omega
    have hmin : minu nb (cde / 8) = min nb (cde / 8) := minu_eq_min _ _
    refine ⟨?_, ?_, ?_⟩
    · intro k hk
      rw [a4 k, if_pos (by omega)]
    · intro k hk
      rw [a4 k, if_neg (by omega)]
    · rw [decide_eq_true_eq, u64_of_lt _ (by omega)]
  | rects l =>
    obtain ⟨i1, i2, i3⟩ := damage_rects_effect changed nb cds cde hnb hcds l hfit
      { check_tail := false, base := base, diff := diff, cursor := 0 }
    simp only [scan_damage, block_scanned, tail_scanned]
    refine ⟨?_, ?_, ?_⟩
    · rintro k ⟨hk, ei, hei, r, hr, h⟩
      exact i1 k ⟨ei, hei, r, hr, hk, h⟩
    · intro k hk
      exact i2 k (fun ⟨ei, hei, r, hr, hk2, h⟩ => hk ⟨hk2, ei, hei, r, hr, h⟩)
    · rw [i3]
      simp

/-- For `DAMAGE_EVERYTHING` a diff buffer of `size + 8` bytes suffices:
`construct_diff` reports `diffsize ≤ size + 8` and leaves every diff byte at
an offset `≥ size + 8` as it was. -/
theorem construct_diff_everything_bound (size cds cde : Nat) (base changed diff : Mem)
    (hsize : size < 2 ^ 31) :
    (construct_diff size damage.everything cds cde base changed diff).diffsize ≤ size + 8 ∧
    (∀ a, size + 8 ≤ a →
      load_byte (construct_diff size damage.everything cds cde base changed diff).diff a =
        load_byte diff a) := by
  obtain ⟨rs, _, _, _, _, _, a6, a7⟩ := run_interval_diff_spec changed base diff 0 (size / 8)
    (maxu 0 ((realign_domain cds cde).1 / 8)) (minu (size / 8) ((realign_domain cds cde).2 / 8))
    (by rw [minu_eq_min]; exact Nat.min_le_left _ _) (by omega)
  have hmin : minu (size / 8) ((realign_domain cds cde).2 / 8) ≤ size / 8 := by
    rw [minu_eq_min]; exact Nat.min_le_left _ _
  have hcur : (scan_damage (size / 8) damage.everything (realign_domain cds cde).1
      (realign_domain cds cde).2 base changed diff).cursor ≤ size / 8 + 1 := by
    simp only [scan_damage]
    omega
  have hfr : ∀ k, size / 8 + 1 ≤ k →
      (scan_damage (size / 8) damage.everything (realign_domain cds cde).1
        (realign_domain cds cde).2 base changed diff).diff k = diff k := by
    intro k hk
    simp only [scan_damage]
    exact a7 k (by omega)
  rcases construct_diff_cases size damage.everything cds cde base changed diff hsize with
    ⟨he, _⟩ | ⟨he, _, hpos, _⟩
  · rw [he]
    dsimp only
    refine ⟨by omega, ?_⟩
    intro a ha
    unfold load_byte
    rw [hfr (a / 8) (by omega)]
  · rw [he]
    dsimp only
    refine ⟨by omega, ?_⟩
    intro a ha
    rw [(store_bytes_spec _ _ _ _).1 a, if_neg (by omega)]
    unfold load_byte
    rw [hfr (a / 8) (by omega)]

/-! ## Claims on the diff codec -/

theorem realign_domain_aligned (cds cde : Nat) (h : domain_aligned cds cde) :
    realign_domain cds cde = (cds, cde) := by
  unfold realign_domain
  rw [if_neg]
  obtain ⟨h1, h2⟩ := h
  intro hc
  rcases hc with hc | ⟨hc1, hc2⟩
  · exact hc h1
  · rcases h2 with h2 | h2
    · exact hc1 h2
    · exact hc2 h2

theorem construct_diff_base_blocks (size : Nat) (dmg : damage) (cds cde : Nat)
    (base changed diff : Mem) (hsize : size < 2 ^ 31) (k : Nat) (hk : k < size / 8) :
    (construct_diff size dmg cds cde base changed diff).base k =
      (scan_damage (size / 8) dmg (realign_domain cds cde).1 (realign_domain cds cde).2
        base changed diff).base k := by
  rcases construct_diff_cases size dmg cds cde base changed diff hsize with
    ⟨he, _⟩ | ⟨he, _, _, _⟩
  · rw [he]
  · rw [he]
    dsimp only
    apply (store_bytes_spec _ _ _ _).2
    intro i hi; omega

/-- C1 (as amended). The diff round trip holds at block granularity: for
`size < 2 ^ 31`, an aligned copy domain and damage whose interval ends fit in
`int` as the size does, `apply_diff` applied to the base that `construct_diff` started from
and the diff it wrote yields the byte of `changed` on every byte of a scanned
8-byte block (and on the trailing `size % 8` bytes when they are examined),
and the byte of the old base elsewhere.  Nothing is stated about the trailing
bytes when the diff carries no tail. -/
theorem diff_round_trip_blockwise (size : Nat) (dmg : damage) (cds cde : Nat)
    (base changed diff : Mem) (hsize : size < 2 ^ 31) (hal : domain_aligned cds cde)
    (hcds : cds < 2 ^ 31) (hfit : damage_in_range dmg) (a : Nat) (ha : a < size)
    (hpart : a / 8 < size / 8 ∨ size % 8 = 0 ∨
      (construct_diff size dmg cds cde base changed diff).diffsize % 8 ≠ 0) :
    (byte_scanned size dmg cds cde a →
      load_byte (apply_diff size base (construct_diff size dmg cds cde base changed diff).diffsize
        (construct_diff size dmg cds cde base changed diff).diff).base a = load_byte changed a) ∧
    (¬ byte_scanned size dmg cds cde a →
      load_byte (apply_diff size base (construct_diff size dmg cds cde base changed diff).diffsize
        (construct_diff size dmg cds cde base changed diff).diff).base a = load_byte base a) := by
  obtain ⟨_, a2, a3⟩ := apply_construct_diff size dmg cds cde base changed diff hsize
  obtain ⟨e1, e2, e3⟩ := scan_damage_effect changed base diff (size / 8) cds cde (by omega) hcds
    dmg hfit
  have hre := realign_domain_aligned cds cde hal
  by_cases hblk : a / 8 < size / 8
  · have hb := construct_diff_base_blocks size dmg cds cde base changed diff hsize (a / 8) hblk
    rw [hre] at hb
    dsimp only at hb
    have hs : byte_scanned size dmg cds cde a ↔ block_scanned (size / 8) dmg cds cde (a / 8) := by
      unfold byte_scanned
      constructor
      · rintro (h | ⟨h, _⟩)
        · exact h
        · omega
      · intro h; exact Or.inl h
    rw [hs]
    unfold load_byte
    rw [a2 (a / 8) hblk, hb]
    constructor
    · intro h; rw [e1 _ h]
    · intro h; rw [e2 _ h]
  · have hnz : size % 8 ≠ 0 := by omega
    have hd : (construct_diff size dmg cds cde base changed diff).diffsize % 8 ≠ 0 := by
      rcases hpart with h | h | h
      · exact absurd h hblk
      · exact absurd h hnz
      · exact h
    rw [a3 (Or.inr hd)]
    rcases construct_diff_cases size dmg cds cde base changed diff hsize with
      ⟨he, _⟩ | ⟨he, hct, hpos, _⟩
    · rw [he] at hd; dsimp only at hd; omega
    · rw [hre] at he hct
      dsimp only at he hct
      have hbyte : load_byte (construct_diff size dmg cds cde base changed diff).base a =
          load_byte changed a := by
        rw [he]
        dsimp only
        rw [(store_bytes_spec _ _ _ _).1 a, if_pos (by omega)]
        have e : size / 8 * 8 + (a - size / 8 * 8) = a := by omega
        rw [e]
        exact Nat.mod_eq_of_lt (load_byte_lt _ _)
      constructor
      · intro _; exact hbyte
      · intro h
        exfalso
        apply h
        exact Or.inr ⟨by omega, e3.mp hct⟩

/-- C1 (counterexample). At byte granularity the round trip fails: with
`size = 8`, damage `[0, 1)`, copy domain `[0, SIZE_MAX)`, a zero base and
`changed` holding `01 01 00 ..`, byte 1 lies outside the damage but
`apply_diff` replaces it, because the whole 8-byte block is copied. -/
theorem diff_round_trip_bytewise_fails :
    ¬ round_trip_bytewise 8 (damage.rects [⟨0, 1, 1, 0⟩]) 0 SIZE_MAX zero_mem
      (fun k => if k = 0 then 257 else 0) zero_mem := by
  intro h
  have h1 := (h 1 (by decide)).2
    (by
      rintro ⟨⟨ei, hei, r, hr, h1, h2⟩, _⟩
      rw [List.mem_singleton] at hei
      subst hei
      dsimp only at hr h1 h2
      omega)
  revert h1
  decide

/-- C1 (witness). The amended round trip at `size = 16`, damage `[3, 5)`,
copy domain `[0, SIZE_MAX)` and byte 4, which lies in the scanned block 0. -/
theorem diff_round_trip_blockwise_witness :
    (16 : Nat) < 2 ^ 31 ∧ domain_aligned 0 SIZE_MAX ∧ (0 : Nat) < 2 ^ 31 ∧
    damage_in_range (damage.rects [⟨3, 2, 1, 0⟩]) ∧ (4 : Nat) < 16 ∧ 4 / 8 < 16 / 8 ∧
    byte_scanned 16 (damage.rects [⟨3, 2, 1, 0⟩]) 0 SIZE_MAX 4 ∧
    load_byte (apply_diff 16 zero_mem
      (construct_diff 16 (damage.rects [⟨3, 2, 1, 0⟩]) 0 SIZE_MAX zero_mem
        (fun _ => 257) zero_mem).diffsize
      (construct_diff 16 (damage.rects [⟨3, 2, 1, 0⟩]) 0 SIZE_MAX zero_mem
        (fun _ => 257) zero_mem).diff).base 4 = load_byte (fun _ => 257) 4 :=
  have hs : byte_scanned 16 (damage.rects [⟨3, 2, 1, 0⟩]) 0 SIZE_MAX 4 :=
    Or.inl ⟨by decide, ⟨3, 2, 1, 0⟩, List.mem_singleton.mpr rfl, 0, by decide, by decide,
      by decide⟩
  have hal : domain_aligned 0 SIZE_MAX := ⟨by decide, Or.inr rfl⟩
  have hfit : damage_in_range (damage.rects [⟨3, 2, 1, 0⟩]) := by
    intro ei hei r hr
    rw [List.mem_singleton] at hei
    subst hei
    dsimp only at hr ⊢
    omega
  ⟨by decide, hal, by decide, hfit, by decide, by decide, hs,
    (diff_round_trip_blockwise 16 (damage.rects [⟨3, 2, 1, 0⟩]) 0 SIZE_MAX zero_mem
      (fun _ => 257) zero_mem (by decide) hal (by decide) hfit
      4 (by decide) (Or.inl (by decide))).1 hs⟩

/-- C2 (evaluation at the failing input). With `size = 12`, a base of eight
zero bytes followed by `01 02 03 04`, `changed` differing from it in block 0
only and a zeroed diff buffer, `construct_diff` writes one header and one
payload block (`diffsize = 16`, no tail) and leaves the trailing bytes of the
mirror alone, but `apply_diff` of that diff to the old base overwrites the
trailing bytes with the bytes that follow the diff in its buffer. -/
theorem mirror_differs_from_applied_diff :
    (construct_diff 12 damage.everything 0 SIZE_MAX (fun k => if k = 1 then 0x04030201 else 0)
      (fun k => if k = 1 then 0x04030201 else 7) zero_mem).diffsize = 16 ∧
    load_byte (construct_diff 12 damage.everything 0 SIZE_MAX
      (fun k => if k = 1 then 0x04030201 else 0)
      (fun k => if k = 1 then 0x04030201 else 7) zero_mem).base 8 = 1 ∧
    load_byte (apply_diff 12 (fun k => if k = 1 then 0x04030201 else 0)
      (construct_diff 12 damage.everything 0 SIZE_MAX (fun k => if k = 1 then 0x04030201 else 0)
        (fun k => if k = 1 then 0x04030201 else 7) zero_mem).diffsize
      (construct_diff 12 damage.everything 0 SIZE_MAX (fun k => if k = 1 then 0x04030201 else 0)
        (fun k => if k = 1 then 0x04030201 else 7) zero_mem).diff).base 8 = 0 := by
  decide

theorem store_zero_bytes (off off2 n : Nat) :
    (List.range n).foldl (fun b i => store_byte b (off + i) (load_byte zero_mem (off2 + i)))
      zero_mem = zero_mem := by
  induction n with
  | zero => rfl
  | succ n ih =>
    rw [List.range_succ, List.foldl_append, ih]
    simp only [List.foldl_cons, List.foldl_nil]
    funext k
    simp [store_byte, store, zero_mem, load_byte, byte_of, word_with_byte]


theorem copy_tail_zero (nb nt c : Nat) (base : Mem) :
    (copy_tail nb nt c zero_mem base zero_mem).2 = zero_mem := by
  rw [copy_tail_snd]
  exact store_zero_bytes (c * 8) (nb * 8) nt

theorem construct_diff_all_tail (s : Nat) (base : Mem) (hnb : construct_nblocks s = 0)
    (hnt : u64 (s + (2 ^ 64 - u64 (8 * 0))) = s)
    (hdiff : tail_differs 0 s base zero_mem = true) (hpos : s > 0) :
    (construct_diff s damage.everything 0 SIZE_MAX base zero_mem zero_mem).diff = zero_mem ∧
    (construct_diff s damage.everything 0 SIZE_MAX base zero_mem zero_mem).diffsize = s := by
  have hre : realign_domain 0 SIZE_MAX = (0, SIZE_MAX) :=
    realign_domain_aligned 0 SIZE_MAX ⟨by decide, Or.inr rfl⟩
  have hs : scan_damage 0 damage.everything 0 SIZE_MAX base zero_mem zero_mem =
      { check_tail := true, base := base, diff := zero_mem, cursor := 0 } := rfl
  unfold construct_diff
  dsimp only
  rw [hnb, hnt, hre, hs]
  dsimp only
  rw [if_pos (show ((true = true) ∧ s > 0) from ⟨rfl, hpos⟩), hdiff, if_pos rfl]
  dsimp only
  exact ⟨copy_tail_zero _ _ _ _, by omega⟩

/-- C3 (counterexample). For `size = 2 ^ 32` (so `size / 8 < 2 ^ 32`) the
cast `(int)size` is 0: `construct_diff` takes the whole buffer for trailing
bytes and writes it raw, and `apply_diff`, which divides the uncast size,
reads the first word of that diff as a header and takes its
invalid-copy-range return. -/
theorem diff_stream_rejected_at_int_overflow :
    2 ^ 32 / 8 < 2 ^ 32 ∧
    (apply_diff (2 ^ 32) (fun k => if k = 1 then 1 else 0)
      (construct_diff (2 ^ 32) damage.everything 0 SIZE_MAX (fun k => if k = 1 then 1 else 0)
        zero_mem zero_mem).diffsize
      (construct_diff (2 ^ 32) damage.everything 0 SIZE_MAX (fun k => if k = 1 then 1 else 0)
        zero_mem zero_mem).diff).status = apply_status.invalid_range := by
  refine ⟨by decide, ?_⟩
  obtain ⟨h1, h2⟩ := construct_diff_all_tail (2 ^ 32) (fun k => if k = 1 then 1 else 0)
    (by decide) (by decide)
    (by rw [tail_differs_iff]; exact ⟨8, by decide, by decide⟩) (by decide)
  rw [h1, h2]
  decide

/-- C3 (as amended). For every input with `size < 2 ^ 31` the diff written by
`construct_diff` is a sequence of segments, each a header with
`nfrom < nto ≤ size / 8` followed by `nto - nfrom` payload words equal to the
blocks `[nfrom, nto)` of `changed`, optionally followed by a tail of exactly
`size % 8` bytes equal to the trailing bytes of `changed`; and `apply_diff`
takes neither error return on it, whatever base it is applied to. -/
theorem diff_stream_well_formed (size : Nat) (dmg : damage) (cds cde : Nat)
    (base changed diff : Mem) (hsize : size < 2 ^ 31) :
    (∃ rs, segments changed (size / 8) (construct_diff size dmg cds cde base changed diff).diff 0
      ((construct_diff size dmg cds cde base changed diff).diffsize / 8) rs) ∧
    ((construct_diff size dmg cds cde base changed diff).diffsize % 8 = 0 ∨
      ((construct_diff size dmg cds cde base changed diff).diffsize % 8 = size % 8 ∧
       ∀ i, i < size % 8 →
        load_byte (construct_diff size dmg cds cde base changed diff).diff
          ((construct_diff size dmg cds cde base changed diff).diffsize / 8 * 8 + i) =
        load_byte changed (size / 8 * 8 + i))) ∧
    (∀ b : Mem, (apply_diff size b (construct_diff size dmg cds cde base changed diff).diffsize
      (construct_diff size dmg cds cde base changed diff).diff).status = apply_status.applied) := by
  obtain ⟨rs, h1, h2, _, _⟩ := construct_diff_segments size dmg cds cde base changed diff hsize
  refine ⟨⟨rs, h1⟩, h2, ?_⟩
  intro b
  have htail : (construct_diff size dmg cds cde base changed diff).diffsize % 8 = 0 ∨
      (construct_diff size dmg cds cde base changed diff).diffsize % 8 = size % 8 := by
    rcases h2 with h | h
    · exact Or.inl h
    · exact Or.inr h.1
  exact (apply_diff_of_segments changed size _ _ b rs h1 htail).1

/-- C3 (witness). The amended claim at `size = 20` with every block and the
tail changed. -/
theorem diff_stream_well_formed_witness :
    (20 : Nat) < 2 ^ 31 ∧
    (∀ b : Mem, (apply_diff 20 b
      (construct_diff 20 damage.everything 0 SIZE_MAX zero_mem (fun _ => 7) zero_mem).diffsize
      (construct_diff 20 damage.everything 0 SIZE_MAX zero_mem (fun _ => 7) zero_mem).diff).status
      = apply_status.applied) :=
  ⟨by decide, (diff_stream_well_formed 20 damage.everything 0 SIZE_MAX zero_mem (fun _ => 7)
    zero_mem (by decide)).2.2⟩

theorem apply_diff_loop_writes (nb nd : Nat) (d : Mem) :
    ∀ (fuel i : Nat) (b : Mem) (k : Nat), nb ≤ k →
      (apply_diff_loop nb nd d fuel i b).1 k = b k := by
  intro fuel
  induction fuel with
  | zero => intro i b k _; rfl
  | succ fuel ih =>
    intro i b k hk
    simp only [apply_diff_loop]
    split
    · split
      · rfl
      · rename_i hok
        rw [ih _ _ k hk]
        unfold memcpy_blocks
        rw [if_neg (by omega)]
    · rfl

theorem apply_diff_loop_reads (nb nd : Nat) (d d2 : Mem) (hd : ∀ k, k < nd → d2 k = d k) :
    ∀ (fuel i : Nat) (b : Mem),
      apply_diff_loop nb nd d2 fuel i b = apply_diff_loop nb nd d fuel i b := by
  intro fuel
  induction fuel with
  | zero => intro i b; rfl
  | succ fuel ih =>
    intro i b
    simp only [apply_diff_loop]
    by_cases hi : i < nd
    · rw [if_pos hi, if_pos hi, hd i hi]
      split
      · rfl
      · rename_i hok
        rw [ih]
        congr 1
        funext k
        unfold memcpy_blocks
        split
        · exact hd _ (by omega)
        · rfl
    · rw [if_neg hi, if_neg hi]

/-- C4. `apply_diff` validates before it copies.  In the header loop, run
with `nblocks = size / 8` and `ndiffblocks = diffsize / 8` on arbitrary diff
words: a header whose high 32 bits `nfrom` and low 32 bits `nto` have
`nfrom ≥ nto`, or `nto > nblocks`, or whose payload would pass the last whole
diff block, makes the loop return at once with the base as it stood; any
other header is followed by one copy of the diff blocks
`[i + 1, i + 1 + (nto - nfrom))`, all below `ndiffblocks`, to the base blocks
`[nfrom, nto)`, all below `nblocks`; hence the loop never changes a base block
with index `≥ nblocks` and its result does not depend on any diff block with
index `≥ ndiffblocks`. -/
theorem apply_diff_validates_before_copy (size diffsize : Nat) (diff : Mem) (fuel i : Nat)
    (base : Mem) :
    (i < diffsize / 8 ∧
      (diff i >>> 32 ≥ diff i % 2 ^ 32 ∨ diff i % 2 ^ 32 > size / 8 ∨
        i + (diff i % 2 ^ 32 - diff i >>> 32) ≥ diffsize / 8) →
      apply_diff_loop (size / 8) (diffsize / 8) diff (fuel + 1) i base = (base, false)) ∧
    (i < diffsize / 8 ∧
      ¬ (diff i >>> 32 ≥ diff i % 2 ^ 32 ∨ diff i % 2 ^ 32 > size / 8 ∨
        i + (diff i % 2 ^ 32 - diff i >>> 32) ≥ diffsize / 8) →
      apply_diff_loop (size / 8) (diffsize / 8) diff (fuel + 1) i base =
        apply_diff_loop (size / 8) (diffsize / 8) diff fuel
          (i + (diff i % 2 ^ 32 - diff i >>> 32) + 1)
          (memcpy_blocks base (diff i >>> 32) diff (i + 1) (diff i % 2 ^ 32 - diff i >>> 32)) ∧
      diff i >>> 32 + (diff i % 2 ^ 32 - diff i >>> 32) ≤ size / 8 ∧
      i + 1 + (diff i % 2 ^ 32 - diff i >>> 32) ≤ diffsize / 8) ∧
    (∀ k, size / 8 ≤ k →
      (apply_diff_loop (size / 8) (diffsize / 8) diff fuel i base).1 k = base k) ∧
    (∀ diff2 : Mem, (∀ k, k < diffsize / 8 → diff2 k = diff k) →
      apply_diff_loop (size / 8) (diffsize / 8) diff2 fuel i base =
        apply_diff_loop (size / 8) (diffsize / 8) diff fuel i base) := by
  refine ⟨?_, ?_, ?_, ?_⟩
  · rintro ⟨hi, hbad⟩
    simp only [apply_diff_loop, if_pos hi, low_bits_eq]
    rw [if_pos]
    rcases hbad with h | h | h
    · exact Or.inr (Or.inl h)
    · exact Or.inl h
    · exact Or.inr (Or.inr h)
  · rintro ⟨hi, hok⟩
    refine ⟨?_, by omega, by omega⟩
    simp only [apply_diff_loop, if_pos hi, low_bits_eq]
    rw [if_neg]
    intro hbad
    apply hok
    rcases hbad with h | h | h
    · exact Or.inr (Or.inl h)
    · exact Or.inl h
    · exact Or.inr (Or.inr h)
  · intro k hk
    exact apply_diff_loop_writes _ _ _ fuel i base k hk
  · intro diff2 hd
    exact apply_diff_loop_reads _ _ _ _ hd fuel i base

/-- C4 (witness). A header `nfrom = 2, nto = 1` at index 0 of a 32-byte
diff for a 64-byte base stops the loop without a copy. -/
theorem apply_diff_validates_before_copy_witness :
    (0 < 32 / 8 ∧
      ((fun k => if k = 0 then 2 * 2 ^ 32 + 1 else 9 : Mem) 0 >>> 32 ≥
          (fun k => if k = 0 then 2 * 2 ^ 32 + 1 else 9 : Mem) 0 % 2 ^ 32 ∨
        (fun k => if k = 0 then 2 * 2 ^ 32 + 1 else 9 : Mem) 0 % 2 ^ 32 > 64 / 8 ∨
        0 + ((fun k => if k = 0 then 2 * 2 ^ 32 + 1 else 9 : Mem) 0 % 2 ^ 32 -
          (fun k => if k = 0 then 2 * 2 ^ 32 + 1 else 9 : Mem) 0 >>> 32) ≥ 32 / 8)) ∧
    apply_diff_loop (64 / 8) (32 / 8) (fun k => if k = 0 then 2 * 2 ^ 32 + 1 else 9) (3 + 1) 0
      zero_mem = (zero_mem, false) :=
  have hbad : 0 < 32 / 8 ∧
      ((fun k => if k = 0 then 2 * 2 ^ 32 + 1 else 9 : Mem) 0 >>> 32 ≥
          (fun k => if k = 0 then 2 * 2 ^ 32 + 1 else 9 : Mem) 0 % 2 ^ 32 ∨
        (fun k => if k = 0 then 2 * 2 ^ 32 + 1 else 9 : Mem) 0 % 2 ^ 32 > 64 / 8 ∨
        0 + ((fun k => if k = 0 then 2 * 2 ^ 32 + 1 else 9 : Mem) 0 % 2 ^ 32 -
          (fun k => if k = 0 then 2 * 2 ^ 32 + 1 else 9 : Mem) 0 >>> 32) ≥ 32 / 8) :=
    ⟨by decide, Or.inl (by decide)⟩
  ⟨hbad, (apply_diff_validates_before_copy 64 32 (fun k => if k = 0 then 2 * 2 ^ 32 + 1 else 9)
    3 0 zero_mem).1 hbad⟩

/-- C5 (evaluation at the failing input). With `size = 12` and the valid
16-byte diff "header (0, 1), one payload block" (`diffsize` a multiple of 8,
no tail), `apply_diff` returns normally but has replaced the four trailing
bytes of the base by the bytes at offsets `16 .. 19` of the diff buffer,
which lie beyond `diffsize`: the result follows those bytes. -/
theorem apply_diff_copies_absent_tail :
    (apply_diff 12 (fun k => if k = 1 then 0x04030201 else 0) 16
      (fun k => if k = 0 then 1 else if k = 1 then 7 else 0)).status = apply_status.applied ∧
    load_byte (fun k => if k = 1 then 0x04030201 else 0) 8 = 1 ∧
    load_byte (apply_diff 12 (fun k => if k = 1 then 0x04030201 else 0) 16
      (fun k => if k = 0 then 1 else if k = 1 then 7 else 0)).base 8 = 0 ∧
    load_byte (apply_diff 12 (fun k => if k = 1 then 0x04030201 else 0) 16
      (fun k => if k = 0 then 1 else if k = 1 then 7 else 0xffffffffffffffff)).base 8 = 255 := by
  decide

/-- C6 (evaluation at the failing input). With `size = 16`, both blocks
changed and damage listing the adjacent intervals `[0, 8)` and `[8, 16)`,
`construct_diff` reports `diffsize = 32 > size + 8` and has written the diff
word 3 (bytes 24 to 31), beyond a buffer of `size + 8` bytes. -/
theorem construct_diff_overruns_diff_buffer :
    (construct_diff 16 (damage.rects [⟨0, 8, 1, 0⟩, ⟨8, 8, 1, 0⟩]) 0 SIZE_MAX zero_mem
      (fun _ => 5) zero_mem).diffsize = 32 ∧
    16 + 8 < 32 ∧
    (construct_diff 16 (damage.rects [⟨0, 8, 1, 0⟩, ⟨8, 8, 1, 0⟩]) 0 SIZE_MAX zero_mem
      (fun _ => 5) zero_mem).diff 3 = 5 ∧ zero_mem 3 = 0 := by
  decide

/-! ## The translation map: registration, remote ids, reference counts -/

theorem translate_fd_created (map : fd_translation_map) (env : translate_env) (fd : Int)
    (h : get_shadow_for_local_fd map fd = none) :
    (translate_fd map env fd).1.list = (translate_fd map env fd).2 :: map.list ∧
    (translate_fd map env fd).1.max_local_id = map.max_local_id + 1 ∧
    (translate_fd map env fd).1.local_sign = map.local_sign ∧
    (translate_fd map env fd).2.fd_local = fd ∧
    (translate_fd map env fd).2.remote_id = map.max_local_id * map.local_sign ∧
    (translate_fd map env fd).2.refcount_transfer = 1 ∧
    (translate_fd map env fd).2.refcount_protocol = 0 ∧
    (translate_fd map env fd).2.has_owner = false ∧
    (translate_fd map env fd).2.is_dirty = true ∧
    (translate_fd map env fd).2.dmg = damage.everything ∧
    (translate_fd map env fd).2.addr = env.new_addr := by
  unfold translate_fd
  rw [h]
  dsimp only
  refine ⟨rfl, rfl, rfl, ?_, ?_, ?_, ?_, ?_, ?_, ?_, ?_⟩ <;>
    (split_ifs <;> rfl)

theorem translate_fd_existing (map : fd_translation_map) (env : translate_env) (fd : Int)
    (sfd : shadow_fd) (h : get_shadow_for_local_fd map fd = some sfd) :
    translate_fd map env fd = (map, sfd) := by
  unfold translate_fd
  rw [h]

/-- C9. Initial state of a newly registered fd: when no shadow fd of the
map has `fd_local = fd`, `translate_fd` puts exactly one new shadow fd at the
head of the list, in front of the earlier entries, which are unchanged and in
the same order; the new one has `fd_local = fd`, `refcount_transfer = 1`,
`refcount_protocol = 0`, `has_owner = false`, `is_dirty = true` and damage
everything; and `max_local_id` grows by exactly one. -/
theorem translate_fd_initial_state (map : fd_translation_map) (env : translate_env) (fd : Int)
    (hnew : ∀ sfd ∈ map.list, sfd.fd_local ≠ fd) :
    (translate_fd map env fd).1.list = (translate_fd map env fd).2 :: map.list ∧
    (translate_fd map env fd).2.fd_local = fd ∧
    (translate_fd map env fd).2.refcount_transfer = 1 ∧
    (translate_fd map env fd).2.refcount_protocol = 0 ∧
    (translate_fd map env fd).2.has_owner = false ∧
    (translate_fd map env fd).2.is_dirty = true ∧
    (translate_fd map env fd).2.dmg = damage.everything ∧
    (translate_fd map env fd).1.max_local_id = map.max_local_id + 1 := by
  have h : get_shadow_for_local_fd map fd = none := by
    unfold get_shadow_for_local_fd
    rw [List.find?_eq_none]
    intro sfd hs
    simpa using hnew sfd hs
  obtain ⟨a1, a2, _, a4, _, a6, a7, a8, a9, a10, _⟩ := translate_fd_created map env fd h
  exact ⟨a1, a4, a6, a7, a8, a9, a10, a2⟩

/-- C9 (witness). Registering fd 5 as a pipe in a freshly set up map. -/
theorem translate_fd_initial_state_witness :
    (∀ sfd ∈ (setup_translation_map false 4 1000 compression_mode.COMP_NONE).list, sfd.fd_local ≠ 5) ∧
    (translate_fd (setup_translation_map false 4 1000 compression_mode.COMP_NONE)
      ⟨100, fdcat_t.FDC_PIPE_IR, 0, none, false, 0, none, false⟩ 5).2.refcount_transfer = 1 ∧
    (translate_fd (setup_translation_map false 4 1000 compression_mode.COMP_NONE)
      ⟨100, fdcat_t.FDC_PIPE_IR, 0, none, false, 0, none, false⟩ 5).1.max_local_id = 1 + 1 :=
  have hnew : ∀ sfd ∈ (setup_translation_map false 4 1000 compression_mode.COMP_NONE).list, sfd.fd_local ≠ 5 := by
    intro sfd h
    simp [setup_translation_map] at h
  ⟨hnew,
   (translate_fd_initial_state (setup_translation_map false 4 1000 compression_mode.COMP_NONE)
      ⟨100, fdcat_t.FDC_PIPE_IR, 0, none, false, 0, none, false⟩ 5 hnew).2.2.1,
   (translate_fd_initial_state (setup_translation_map false 4 1000 compression_mode.COMP_NONE)
      ⟨100, fdcat_t.FDC_PIPE_IR, 0, none, false, 0, none, false⟩ 5 hnew).2.2.2.2.2.2.2⟩

theorem destroy_shadow_if_unreferenced_fields (map : fd_translation_map) (a : Nat) :
    (destroy_shadow_if_unreferenced map a).1.max_local_id = map.max_local_id ∧
    (destroy_shadow_if_unreferenced map a).1.local_sign = map.local_sign := by
  unfold destroy_shadow_if_unreferenced
  split
  · exact ⟨rfl, rfl⟩
  · split <;> exact ⟨rfl, rfl⟩

theorem run_call_fields (map : fd_translation_map) (c : map_call) :
    (run_call map c).local_sign = map.local_sign ∧
    ((∃ env fd, c = map_call.translate env fd ∧ get_shadow_for_local_fd map fd = none ∧
        (run_call map c).max_local_id = map.max_local_id + 1) ∨
     ((∀ env fd, c = map_call.translate env fd → get_shadow_for_local_fd map fd ≠ none) ∧
        (run_call map c).max_local_id = map.max_local_id)) := by
  cases c with
  | translate env fd =>
    cases h : get_shadow_for_local_fd map fd with
    | none =>
      obtain ⟨_, a2, a3, _⟩ := translate_fd_created map env fd h
      exact ⟨a3, Or.inl ⟨env, fd, rfl, h, a2⟩⟩
    | some sfd =>
      have := translate_fd_existing map env fd sfd h
      have hr : run_call map (map_call.translate env fd) = map := by
        simp only [run_call, this]
      rw [hr]
      refine ⟨rfl, Or.inr ⟨?_, rfl⟩⟩
      intro env2 fd2 he
      cases he
      rw [h]; simp
  | incref_protocol a => exact ⟨rfl, Or.inr ⟨(by intro _ _ h; cases h), rfl⟩⟩
  | incref_transfer a => exact ⟨rfl, Or.inr ⟨(by intro _ _ h; cases h), rfl⟩⟩
  | decref_protocol a =>
    simp only [run_call, shadow_decref_protocol]
    obtain ⟨h1, h2⟩ := destroy_shadow_if_unreferenced_fields
      { map with list := update_sfd map.list a (fun sfd =>
                          { sfd with refcount_protocol := sfd.refcount_protocol - 1 }) } a
    exact ⟨h2, Or.inr ⟨(by intro _ _ h; cases h), h1⟩⟩
  | decref_transfer a =>
    simp only [run_call, shadow_decref_transfer]
    obtain ⟨h1, h2⟩ := destroy_shadow_if_unreferenced_fields
      { map with list := update_sfd map.list a (fun sfd =>
                          { sfd with refcount_transfer := sfd.refcount_transfer - 1 }) } a
    exact ⟨h2, Or.inr ⟨(by intro _ _ h; cases h), h1⟩⟩

theorem minted_ids_spec (calls : List map_call) :
    ∀ (map : fd_translation_map) (k : Nat) (x : Int), (minted_ids map calls)[k]? = some x →
      x = (map.max_local_id + k) * map.local_sign := by
  induction calls with
  | nil => intro map k x h; simp [minted_ids] at h
  | cons c cs ih =>
    intro map k x h
    obtain ⟨hs, hm⟩ := run_call_fields map c
    cases c with
    | translate env fd =>
      cases hg : get_shadow_for_local_fd map fd with
      | none =>
        simp only [minted_ids, hg] at h
        obtain ⟨_, a2, _, _, a5, _⟩ := translate_fd_created map env fd hg
        cases k with
        | zero =>
          simp only [List.getElem?_cons_zero, Option.some.injEq] at h
          rw [← h, a5]; simp
        | succ k =>
          simp only [List.getElem?_cons_succ] at h
          have := ih _ k x h
          rw [this, hs]
          simp only [run_call, a2]
          push_cast; ring
      | some sfd =>
        simp only [minted_ids, hg] at h
        have := ih _ k x h
        rw [this, hs]
        rcases hm with ⟨_, _, he, hn, _⟩ | ⟨_, hm⟩
        · cases he; rw [hg] at hn; cases hn
        · rw [hm]
    | incref_protocol a =>
      simp only [minted_ids] at h
      have := ih _ k x h
      rw [this]; rfl
    | incref_transfer a =>
      simp only [minted_ids] at h
      have := ih _ k x h
      rw [this]; rfl
    | decref_protocol a =>
      simp only [minted_ids] at h
      have := ih _ k x h
      rw [this, hs]
      rcases hm with ⟨_, _, he, _⟩ | ⟨_, hm⟩
      · cases he
      · rw [hm]
    | decref_transfer a =>
      simp only [minted_ids] at h
      have := ih _ k x h
      rw [this, hs]
      rcases hm with ⟨_, _, he, _⟩ | ⟨_, hm⟩
      · cases he
      · rw [hm]

/-- C10. Remote ids cannot collide across sides: on a map set up by
`setup_translation_map`, whatever calls of the lifecycle interface are made,
the k-th shadow fd that `translate_fd` creates (k = 1, 2, …) gets
`remote_id = k * local_sign`, with `local_sign = -1` on the display side and
`+1` otherwise; so the ids which one map mints are non-zero and pairwise
distinct, and an id minted by a display-side map never equals one minted by a
map of the other side. -/
theorem remote_ids_do_not_collide (display_side : Bool) (nt threshold : Int)
    (comp : compression_mode)
    (calls : List map_call) :
    (setup_translation_map display_side nt threshold comp).local_sign =
      (if display_side then -1 else 1) ∧
    (∀ (k : Nat) (x : Int),
      (minted_ids (setup_translation_map display_side nt threshold comp) calls)[k]? = some x →
      x = ((k : Int) + 1) * (if display_side then -1 else 1)) ∧
    (∀ x ∈ minted_ids (setup_translation_map display_side nt threshold comp) calls, x ≠ 0) ∧
    (minted_ids (setup_translation_map display_side nt threshold comp) calls).Nodup ∧
    (∀ (nt2 threshold2 : Int) (comp2 : compression_mode) (calls2 : List map_call),
      ∀ x ∈ minted_ids (setup_translation_map true nt threshold comp) calls,
      ∀ y ∈ minted_ids (setup_translation_map false nt2 threshold2 comp2) calls2, x ≠ y) := by
  have key : ∀ (ds : Bool) (n t : Int) (cm : compression_mode) (cs : List map_call)
      (k : Nat) (x : Int),
      (minted_ids (setup_translation_map ds n t cm) cs)[k]? = some x →
      x = ((k : Int) + 1) * (if ds then -1 else 1) := by
    intro ds n t cm cs k x h
    have := minted_ids_spec cs _ k x h
    rw [this]
    simp only [setup_translation_map]
    ring
  refine ⟨rfl, key display_side nt threshold comp calls, ?_, ?_, ?_⟩
  · intro x hx
    obtain ⟨k, hk⟩ := List.getElem?_of_mem hx
    rw [key _ _ _ _ _ k x hk]
    cases display_side <;> simp <;> omega
  · rw [List.nodup_iff_getElem?_ne_getElem?]
    intro i j hij hj h
    obtain ⟨x, hx⟩ : ∃ x, (minted_ids (setup_translation_map display_side nt threshold comp)
        calls)[j]? = some x := by
      rw [List.getElem?_eq_getElem hj]; exact ⟨_, rfl⟩
    have h1 := key _ _ _ _ _ j x hx
    have h2 := key _ _ _ _ _ i x (by rw [h, hx])
    cases display_side <;> simp at h1 h2 <;> omega
  · intro nt2 threshold2 comp2 calls2 x hx y hy
    obtain ⟨k, hk⟩ := List.getElem?_of_mem hx
    obtain ⟨j, hj⟩ := List.getElem?_of_mem hy
    rw [key _ _ _ _ _ k x hk, key _ _ _ _ _ j y hj]
    simp
    omega

theorem mem_update_sfd (l : List shadow_fd) (a : Nat) (f : shadow_fd → shadow_fd)
    (s : shadow_fd) (hs : s ∈ update_sfd l a f) :
    ∃ t ∈ l, (t.addr = a ∧ s = f t) ∨ (t.addr ≠ a ∧ s = t) := by
  unfold update_sfd at hs
  rw [List.mem_map] at hs
  obtain ⟨t, ht, he⟩ := hs
  refine ⟨t, ht, ?_⟩
  by_cases h : t.addr = a
  · rw [if_pos h] at he; exact Or.inl ⟨h, he.symm⟩
  · rw [if_neg h] at he; exact Or.inr ⟨h, he.symm⟩

theorem mem_unlink_sfd (l : List shadow_fd) (a : Nat) (s : shadow_fd)
    (hs : s ∈ unlink_sfd l a) : s ∈ l := by
  induction l with
  | nil => simp [unlink_sfd] at hs
  | cons x xs ih =>
    simp only [unlink_sfd] at hs
    split at hs
    · exact List.mem_cons_of_mem _ hs
    · rcases List.mem_cons.mp hs with h | h
      · rw [h]; exact List.mem_cons_self _ _
      · exact List.mem_cons_of_mem _ (ih h)

theorem mem_destroy_shadow_if_unreferenced (map : fd_translation_map) (a : Nat) (s : shadow_fd)
    (hs : s ∈ (destroy_shadow_if_unreferenced map a).1.list) : s ∈ map.list := by
  unfold destroy_shadow_if_unreferenced at hs
  split at hs
  · exact hs
  · split at hs
    · exact mem_unlink_sfd _ _ _ hs
    · exact hs

theorem run_call_refcounts_nonneg (map : fd_translation_map) (c : map_call)
    (hb : call_balanced map c) (h : refcounts_nonneg map) : refcounts_nonneg (run_call map c) := by
  cases c with
  | translate env fd =>
    cases hg : get_shadow_for_local_fd map fd with
    | none =>
      obtain ⟨a1, _, _, _, _, a6, a7, _⟩ := translate_fd_created map env fd hg
      intro s hs
      simp only [run_call, a1] at hs
      rcases List.mem_cons.mp hs with h1 | h1
      · rw [h1, a6, a7]; omega
      · exact h s h1
    | some sfd =>
      have hr : run_call map (map_call.translate env fd) = map := by
        simp only [run_call, translate_fd_existing map env fd sfd hg]
      rw [hr]; exact h
  | incref_protocol a =>
    intro s hs
    obtain ⟨t, ht, h1 | h1⟩ := mem_update_sfd _ _ _ _ hs
    · have := h t ht
      rw [h1.2]; dsimp only; omega
    · rw [h1.2]; exact h t ht
  | incref_transfer a =>
    intro s hs
    obtain ⟨t, ht, h1 | h1⟩ := mem_update_sfd _ _ _ _ hs
    · have := h t ht
      rw [h1.2]; dsimp only; omega
    · rw [h1.2]; exact h t ht
  | decref_protocol a =>
    intro s hs
    have hs2 := mem_destroy_shadow_if_unreferenced _ _ _ hs
    obtain ⟨t, ht, h1 | h1⟩ := mem_update_sfd _ _ _ _ hs2
    · have := h t ht
      have := hb t ht h1.1
      rw [h1.2]; dsimp only; omega
    · rw [h1.2]; exact h t ht
  | decref_transfer a =>
    intro s hs
    have hs2 := mem_destroy_shadow_if_unreferenced _ _ _ hs
    obtain ⟨t, ht, h1 | h1⟩ := mem_update_sfd _ _ _ _ hs2
    · have := h t ht
      have := hb t ht h1.1
      rw [h1.2]; dsimp only; omega
    · rw [h1.2]; exact h t ht

/-- C8 (as amended). Reference counts stay non-negative as long as no
reference is released that is not held: starting from a map set up by
`setup_translation_map`, after any sequence of `translate_fd`,
`shadow_incref_protocol`, `shadow_incref_transfer`, `shadow_decref_protocol`
and `shadow_decref_transfer` calls in which every decref is made on a shadow
fd whose count of that kind is positive, every shadow fd in the map has
`refcount_protocol ≥ 0` and `refcount_transfer ≥ 0`. -/
theorem refcounts_stay_nonneg (display_side : Bool) (nt threshold : Int)
    (comp : compression_mode)
    (calls : List map_call)
    (hb : calls_balanced (setup_translation_map display_side nt threshold comp) calls) :
    refcounts_nonneg (run_calls (setup_translation_map display_side nt threshold comp) calls) := by
  have key : ∀ (cs : List map_call) (map : fd_translation_map),
      calls_balanced map cs → refcounts_nonneg map → refcounts_nonneg (run_calls map cs) := by
    intro cs
    induction cs with
    | nil => intro map _ h; exact h
    | cons c cs ih =>
      intro map hb h
      exact ih (run_call map c) hb.2 (run_call_refcounts_nonneg map c hb.1 h)
  apply key calls _ hb
  intro s hs
  simp [setup_translation_map] at hs

/-- C8 (counterexample). Non-negativity fails after an unmatched decref: on
a fresh map, `translate_fd` of fd 5 followed by `shadow_decref_protocol` on
the new shadow fd leaves it in the map with `refcount_protocol = -1`. -/
theorem refcount_negative_after_unmatched_decref :
    ¬ refcounts_nonneg (run_calls (setup_translation_map false 4 1000 compression_mode.COMP_NONE)
      [map_call.translate ⟨100, fdcat_t.FDC_FILE, 64, none, false, 0, none, false⟩ 5,
       map_call.decref_protocol 100]) := by
  intro h
  have hl : ∃ s ∈ (run_calls (setup_translation_map false 4 1000 compression_mode.COMP_NONE)
      [map_call.translate ⟨100, fdcat_t.FDC_FILE, 64, none, false, 0, none, false⟩ 5,
       map_call.decref_protocol 100]).list, s.refcount_protocol = -1 := by
    decide
  obtain ⟨s, hs, hn⟩ := hl
  have := (h s hs).1
  omega

/-- C8 (witness). A translate, a protocol incref and the two matching
decrefs. -/
theorem refcounts_stay_nonneg_witness :
    calls_balanced (setup_translation_map false 4 1000 compression_mode.COMP_NONE)
      [map_call.translate ⟨100, fdcat_t.FDC_FILE, 64, none, false, 0, none, false⟩ 5,
       map_call.incref_protocol 100, map_call.decref_transfer 100,
       map_call.decref_protocol 100] ∧
    refcounts_nonneg (run_calls (setup_translation_map false 4 1000 compression_mode.COMP_NONE)
      [map_call.translate ⟨100, fdcat_t.FDC_FILE, 64, none, false, 0, none, false⟩ 5,
       map_call.incref_protocol 100, map_call.decref_transfer 100,
       map_call.decref_protocol 100]) :=
  have hb : calls_balanced (setup_translation_map false 4 1000 compression_mode.COMP_NONE)
      [map_call.translate ⟨100, fdcat_t.FDC_FILE, 64, none, false, 0, none, false⟩ 5,
       map_call.incref_protocol 100, map_call.decref_transfer 100,
       map_call.decref_protocol 100] := by
    refine ⟨trivial, trivial, ?_, ?_, trivial⟩
    · intro s hs ha; revert s; decide
    · intro s hs ha; revert s; decide
  ⟨hb, refcounts_stay_nonneg false 4 1000 compression_mode.COMP_NONE
    [map_call.translate ⟨100, fdcat_t.FDC_FILE, 64, none, false, 0, none, false⟩ 5,
       map_call.incref_protocol 100, map_call.decref_transfer 100,
       map_call.decref_protocol 100] hb⟩

theorem deref_sfd_of_mem (l : List shadow_fd) (s : shadow_fd) (hin : s ∈ l)
    (hnd : (l.map (fun x => x.addr)).Nodup) : deref_sfd l s.addr = some s := by
  induction l with
  | nil => simp at hin
  | cons x xs ih =>
    rw [List.map_cons, List.nodup_cons] at hnd
    unfold deref_sfd
    rcases List.mem_cons.mp hin with h | h
    · subst h
      simp [List.find?_cons]
    · have hne : x.addr ≠ s.addr := by
        intro he
        apply hnd.1
        rw [he]
        exact List.mem_map.mpr ⟨s, h, rfl⟩
      rw [List.find?_cons]
      simp only [hne, decide_False]
      exact ih h hnd.2

theorem unlink_sfd_eq_filter (l : List shadow_fd) (a : Nat)
    (hnd : (l.map (fun x => x.addr)).Nodup) :
    unlink_sfd l a = l.filter (fun x => decide (x.addr ≠ a)) := by
  induction l with
  | nil => rfl
  | cons x xs ih =>
    rw [List.map_cons, List.nodup_cons] at hnd
    simp only [unlink_sfd]
    by_cases h : x.addr = a
    · rw [if_pos h, List.filter_cons]
      have hx : decide (x.addr ≠ a) = false := by simp [h]
      rw [hx]
      simp only [Bool.false_eq_true, if_false]
      symm
      rw [List.filter_eq_self]
      intro y hy
      simp only [ne_eq, decide_not, Bool.not_eq_true', decide_eq_false_iff_not]
      intro he
      apply hnd.1
      rw [h, ← he]
      exact List.mem_map.mpr ⟨y, hy, rfl⟩
    · rw [if_neg h, List.filter_cons]
      simp only [ne_eq, h, not_false_eq_true, decide_True, if_true]
      rw [ih hnd.2]

theorem update_sfd_addrs (l : List shadow_fd) (a : Nat) (f : shadow_fd → shadow_fd)
    (hf : ∀ x, (f x).addr = x.addr) :
    (update_sfd l a f).map (fun x => x.addr) = l.map (fun x => x.addr) := by
  unfold update_sfd
  rw [List.map_map]
  apply List.map_congr_left
  intro x _
  simp only [Function.comp]
  split
  · exact hf x
  · rfl

theorem mem_update_sfd_self (l : List shadow_fd) (s : shadow_fd) (f : shadow_fd → shadow_fd)
    (hin : s ∈ l) : f s ∈ update_sfd l s.addr f := by
  unfold update_sfd
  rw [List.mem_map]
  exact ⟨s, hin, by rw [if_pos rfl]⟩

theorem update_sfd_filter (l : List shadow_fd) (a : Nat) (f : shadow_fd → shadow_fd)
    (hf : ∀ x, (f x).addr = x.addr) :
    (update_sfd l a f).filter (fun x => decide (x.addr ≠ a)) =
      l.filter (fun x => decide (x.addr ≠ a)) := by
  induction l with
  | nil => rfl
  | cons x xs ih =>
    unfold update_sfd at ih ⊢
    rw [List.map_cons, List.filter_cons, List.filter_cons, ih]
    by_cases h : x.addr = a
    · rw [if_pos h]
      simp [hf, h]
    · rw [if_neg h]

theorem destroy_after_update (map : fd_translation_map) (sfd : shadow_fd)
    (f : shadow_fd → shadow_fd) (hf : ∀ x, (f x).addr = x.addr) (hin : sfd ∈ map.list)
    (hnd : (map.list.map (fun x => x.addr)).Nodup) :
    ((destroy_shadow_if_unreferenced { map with list := update_sfd map.list sfd.addr f }
        sfd.addr).2 = true ↔
      ((f sfd).refcount_protocol = 0 ∧ (f sfd).refcount_transfer = 0 ∧
        (f sfd).has_owner = true)) ∧
    ((destroy_shadow_if_unreferenced { map with list := update_sfd map.list sfd.addr f }
        sfd.addr).2 = true →
      (destroy_shadow_if_unreferenced { map with list := update_sfd map.list sfd.addr f }
        sfd.addr).1.list = map.list.filter (fun x => decide (x.addr ≠ sfd.addr))) ∧
    ((destroy_shadow_if_unreferenced { map with list := update_sfd map.list sfd.addr f }
        sfd.addr).2 = false →
      (destroy_shadow_if_unreferenced { map with list := update_sfd map.list sfd.addr f }
        sfd.addr).1.list = update_sfd map.list sfd.addr f) := by
  have hnd2 : ((update_sfd map.list sfd.addr f).map (fun x => x.addr)).Nodup := by
    rw [update_sfd_addrs _ _ _ hf]; exact hnd
  have hd := deref_sfd_of_mem _ (f sfd)
    (by have := mem_update_sfd_self map.list sfd f hin; exact this) hnd2
  rw [hf] at hd
  unfold destroy_shadow_if_unreferenced
  dsimp only
  rw [hd]
  dsimp only
  by_cases hc : (f sfd).refcount_protocol = 0 ∧ (f sfd).refcount_transfer = 0 ∧
      (f sfd).has_owner = true
  · rw [if_pos hc]
    dsimp only
    refine ⟨⟨fun _ => hc, fun _ => rfl⟩, ?_, ?_⟩
    · intro _
      rw [unlink_sfd_eq_filter _ _ hnd2, update_sfd_filter _ _ _ hf]
    · intro h; cases h
  · rw [if_neg hc]
    dsimp only
    refine ⟨⟨fun h => (by cases h), fun h => absurd h hc⟩, ?_, ?_⟩
    · intro h; cases h
    · intro _; rfl

/-- C7. Destruction condition: for a shadow fd of the map (whose structs
have distinct addresses), `shadow_decref_protocol` and
`shadow_decref_transfer` return true exactly when, after the decrement,
`refcount_protocol = 0`, `refcount_transfer = 0` and `has_owner` is true.
When they return true the list is the old list without that shadow fd, the
others in the same order, and neither `get_shadow_for_rid` nor
`get_shadow_for_local_fd` returns it any more; when they return false the
list keeps the same structs in the same order, the one decremented. -/
theorem decref_destroys_iff_unreferenced (map : fd_translation_map) (sfd : shadow_fd)
    (hin : sfd ∈ map.list) (hnd : (map.list.map (fun x => x.addr)).Nodup) :
    (((shadow_decref_protocol map sfd.addr).2 = true ↔
        (sfd.refcount_protocol - 1 = 0 ∧ sfd.refcount_transfer = 0 ∧ sfd.has_owner = true)) ∧
      ((shadow_decref_protocol map sfd.addr).2 = true →
        (shadow_decref_protocol map sfd.addr).1.list =
          map.list.filter (fun x => decide (x.addr ≠ sfd.addr)) ∧
        (∀ rid s, get_shadow_for_rid (shadow_decref_protocol map sfd.addr).1 rid = some s →
          s.addr ≠ sfd.addr) ∧
        (∀ fd s, get_shadow_for_local_fd (shadow_decref_protocol map sfd.addr).1 fd = some s →
          s.addr ≠ sfd.addr)) ∧
      ((shadow_decref_protocol map sfd.addr).2 = false →
        (shadow_decref_protocol map sfd.addr).1.list = update_sfd map.list sfd.addr
          (fun x => { x with refcount_protocol := x.refcount_protocol - 1 }) ∧
        (shadow_decref_protocol map sfd.addr).1.list.map (fun x => x.addr) =
          map.list.map (fun x => x.addr))) ∧
    (((shadow_decref_transfer map sfd.addr).2 = true ↔
        (sfd.refcount_protocol = 0 ∧ sfd.refcount_transfer - 1 = 0 ∧ sfd.has_owner = true)) ∧
      ((shadow_decref_transfer map sfd.addr).2 = true →
        (shadow_decref_transfer map sfd.addr).1.list =
          map.list.filter (fun x => decide (x.addr ≠ sfd.addr)) ∧
        (∀ rid s, get_shadow_for_rid (shadow_decref_transfer map sfd.addr).1 rid = some s →
          s.addr ≠ sfd.addr) ∧
        (∀ fd s, get_shadow_for_local_fd (shadow_decref_transfer map sfd.addr).1 fd = some s →
          s.addr ≠ sfd.addr)) ∧
      ((shadow_decref_transfer map sfd.addr).2 = false →
        (shadow_decref_transfer map sfd.addr).1.list = update_sfd map.list sfd.addr
          (fun x => { x with refcount_transfer := x.refcount_transfer - 1 }) ∧
        (shadow_decref_transfer map sfd.addr).1.list.map (fun x => x.addr) =
          map.list.map (fun x => x.addr))) := by
  have hlook : ∀ (m : fd_translation_map),
      m.list = map.list.filter (fun x => decide (x.addr ≠ sfd.addr)) →
      (∀ rid s, get_shadow_for_rid m rid = some s → s.addr ≠ sfd.addr) ∧
      (∀ fd s, get_shadow_for_local_fd m fd = some s → s.addr ≠ sfd.addr) := by
    intro m hm
    constructor
    · intro rid s hs
      unfold get_shadow_for_rid at hs
      have := List.mem_of_find?_eq_some hs
      rw [hm, List.mem_filter] at this
      simpa using this.2
    · intro fd s hs
      unfold get_shadow_for_local_fd at hs
      have := List.mem_of_find?_eq_some hs
      rw [hm, List.mem_filter] at this
      simpa using this.2
  constructor
  · obtain ⟨h1, h2, h3⟩ := destroy_after_update map sfd
      (fun x => { x with refcount_protocol := x.refcount_protocol - 1 }) (fun _ => rfl) hin hnd
    refine ⟨h1, ?_, ?_⟩
    · intro h
      exact ⟨h2 h, hlook _ (h2 h)⟩
    · intro h
      refine ⟨h3 h, ?_⟩
      have e := h3 h
      unfold shadow_decref_protocol
      dsimp only
      rw [e]
      exact update_sfd_addrs _ _ _ (fun _ => rfl)
  · obtain ⟨h1, h2, h3⟩ := destroy_after_update map sfd
      (fun x => { x with refcount_transfer := x.refcount_transfer - 1 }) (fun _ => rfl) hin hnd
    refine ⟨h1, ?_, ?_⟩
    · intro h
      exact ⟨h2 h, hlook _ (h2 h)⟩
    · intro h
      refine ⟨h3 h, ?_⟩
      have e := h3 h
      unfold shadow_decref_transfer
      dsimp only
      rw [e]
      exact update_sfd_addrs _ _ _ (fun _ => rfl)

/-- C7 (witness). In a map of two shadow fds, the last protocol decref on
the owned one returns true. -/
theorem decref_destroys_iff_unreferenced_witness :
    owned_sfd ∈ two_sfd_map.list ∧ (two_sfd_map.list.map (fun x => x.addr)).Nodup ∧
    (shadow_decref_protocol two_sfd_map owned_sfd.addr).2 = true :=
  ⟨List.mem_cons_of_mem _ (List.mem_cons_self _ _), by decide,
    ((decref_destroys_iff_unreferenced two_sfd_map owned_sfd
      (List.mem_cons_of_mem _ (List.mem_cons_self _ _)) (by decide)).1.1).mpr
      ⟨by decide, by decide, rfl⟩⟩

/-! ## Lookup, update collection and update application -/

theorem find_first_match {α : Type} (p : α → Bool) (l : List α) :
    (l.find? p = none ↔ ∀ s ∈ l, p s = false) ∧
    (∀ s, l.find? p = some s →
      ∃ l1 l2, l = l1 ++ s :: l2 ∧ p s = true ∧ ∀ t ∈ l1, p t = false) := by
  constructor
  · simp [List.find?_eq_none]
  · intro s h
    induction l with
    | nil => simp at h
    | cons a l ih =>
      rw [List.find?_cons] at h
      cases hp : p a with
      | true =>
        rw [hp] at h
        simp at h
        subst h
        exact ⟨[], l, rfl, hp, by simp⟩
      | false =>
        rw [hp] at h
        obtain ⟨l1, l2, h1, h2, h3⟩ := ih h
        refine ⟨a :: l1, l2, by simp [h1], h2, ?_⟩
        intro t ht
        rcases List.mem_cons.1 ht with rfl | ht
        · exact hp
        · exact h3 t ht

theorem run_inserts_list (calls : List insert_call) :
    ∀ map : fd_translation_map,
      (run_inserts map calls).list = (inserted_sfds map calls).reverse ++ map.list := by
  induction calls with
  | nil => intro map; rfl
  | cons c cs ih =>
    intro map
    have hstep : run_inserts map (c :: cs) = run_inserts (run_insert map c) cs := rfl
    rw [hstep, ih]
    cases c with
    | translate env fd =>
      simp only [inserted_sfds]
      cases hg : get_shadow_for_local_fd map fd with
      | none =>
        simp only [run_insert, (translate_fd_created map env fd hg).1, List.reverse_cons,
          List.append_assoc, List.singleton_append]
      | some sfd =>
        simp only [run_insert, translate_fd_existing map env fd sfd hg]
    | create env transf =>
      simp only [inserted_sfds, run_insert, create_from_update, List.reverse_cons,
        List.append_assoc, List.singleton_append]

/-- C11. Lookup returns the most recently inserted match.  After any sequence
of `translate_fd` and `create_from_update` calls the list is the inserted
shadow fds, latest first, in front of the earlier list; so
`get_shadow_for_local_fd` and `get_shadow_for_rid` return, among the inserted
shadow fds that match, the one inserted last, and fall back to the earlier
list when none of them matches.  On every map a lookup returns `NULL`
exactly when no shadow fd of the list matches, and otherwise the match
nearest to the head. -/
theorem lookup_returns_latest_match (map : fd_translation_map) (calls : List insert_call) :
    (run_inserts map calls).list = (inserted_sfds map calls).reverse ++ map.list ∧
    (∀ lfd, get_shadow_for_local_fd (run_inserts map calls) lfd =
      ((inserted_sfds map calls).reverse.find? (fun s => decide (s.fd_local = lfd))).or
        (get_shadow_for_local_fd map lfd)) ∧
    (∀ rid, get_shadow_for_rid (run_inserts map calls) rid =
      ((inserted_sfds map calls).reverse.find? (fun s => decide (s.remote_id = rid))).or
        (get_shadow_for_rid map rid)) ∧
    (∀ lfd,
      (get_shadow_for_local_fd map lfd = none ↔ ∀ s ∈ map.list, s.fd_local ≠ lfd) ∧
      ∀ s, get_shadow_for_local_fd map lfd = some s →
        ∃ l1 l2, map.list = l1 ++ s :: l2 ∧ s.fd_local = lfd ∧ ∀ t ∈ l1, t.fd_local ≠ lfd) ∧
    (∀ rid,
      (get_shadow_for_rid map rid = none ↔ ∀ s ∈ map.list, s.remote_id ≠ rid) ∧
      ∀ s, get_shadow_for_rid map rid = some s →
        ∃ l1 l2, map.list = l1 ++ s :: l2 ∧ s.remote_id = rid ∧ ∀ t ∈ l1, t.remote_id ≠ rid) := by
  refine ⟨run_inserts_list calls map, ?_, ?_, ?_, ?_⟩
  · intro lfd
    unfold get_shadow_for_local_fd
    rw [run_inserts_list, List.find?_append]
  · intro rid
    unfold get_shadow_for_rid
    rw [run_inserts_list, List.find?_append]
  · intro lfd
    have h := find_first_match (fun cur : shadow_fd => decide (cur.fd_local = lfd)) map.list
    unfold get_shadow_for_local_fd
    constructor
    · rw [h.1]
      simp
    · intro s hs
      obtain ⟨l1, l2, h1, h2, h3⟩ := h.2 s hs
      exact ⟨l1, l2, h1, by simpa using h2, by simpa using h3⟩
  · intro rid
    have h := find_first_match (fun cur : shadow_fd => decide (cur.remote_id = rid)) map.list
    unfold get_shadow_for_rid
    constructor
    · rw [h.1]
      simp
    · intro s hs
      obtain ⟨l1, l2, h1, h2, h3⟩ := h.2 s hs
      exact ⟨l1, l2, h1, by simpa using h2, by simpa using h3⟩

theorem set_last_setup (q : transfer_queue) (size : Nat) (data : Mem) (f : transfer → transfer) :
    set_last_transfer (setup_single_block_transfer q size data) f =
      { transfers := q.transfers ++
          [f { type := fdcat_t.FDC_UNKNOWN, obj_id := 0, special := 0, nblocks := 1,
               subtransfers := [{ size := size, data := data }] }],
        blocks := q.blocks ++ [{ size := size, data := data }] } := by
  simp [set_last_transfer, setup_single_block_transfer]

theorem collect_update_pipe_emit (sfd : shadow_fd) (q : transfer_queue)
    (h : sfd.pipe_recv.used > 0 ∨ sfd.pipe_onlyhere = true ∨
      (sfd.pipe_lclosed && !sfd.pipe_rclosed) = true) :
    (collect_update_pipe sfd q).2 =
      { transfers := q.transfers ++
          [{ type := sfd.type, obj_id := sfd.remote_id,
             special := if (sfd.pipe_lclosed && !sfd.pipe_rclosed) = true then 1 else 0,
             nblocks := 1,
             subtransfers := [{ size := cast_u64 sfd.pipe_recv.used,
                                data := mem_of_bytes (sfd.pipe_recv.data.getD []) }] }],
        blocks := q.blocks ++ [{ size := cast_u64 sfd.pipe_recv.used,
                                 data := mem_of_bytes (sfd.pipe_recv.data.getD []) }] } := by
  unfold collect_update_pipe
  simp only []
  rw [if_pos h, set_last_setup]

theorem collect_update_pipe_idle (sfd : shadow_fd) (q : transfer_queue)
    (h : ¬ (sfd.pipe_recv.used > 0 ∨ sfd.pipe_onlyhere = true ∨
      (sfd.pipe_lclosed && !sfd.pipe_rclosed) = true)) :
    collect_update_pipe sfd q = (sfd, q) := by
  unfold collect_update_pipe
  simp only []
  rw [if_neg h]

theorem collect_update_of_pipe (map : fd_translation_map) (env : collect_env) (sfd : shadow_fd)
    (q : transfer_queue) (hp : fdcat_ispipe sfd.type = true) :
    collect_update map env sfd q = collect_update_pipe sfd q := by
  unfold collect_update
  have h1 : sfd.type ≠ fdcat_t.FDC_FILE := by
    intro h; rw [h] at hp; simp [fdcat_ispipe] at hp
  have h2 : sfd.type ≠ fdcat_t.FDC_DMABUF := by
    intro h; rw [h] at hp; simp [fdcat_ispipe] at hp
  rw [if_neg h1, if_neg h2, if_pos hp]

/-- C12 (amended). A FILE or DMABUF shadow fd that is not dirty is left as it
is by `collect_update`, which emits no transfer and no block, whatever the
damage says.  A pipe is not gated by the dirty flag: it leaves `*ntransfers`
and `*nblocks` unchanged exactly when `pipe_recv.used` is not positive,
`pipe_onlyhere` is false and no close is pending. -/
theorem clean_sfd_collects_nothing (map : fd_translation_map) (env : collect_env)
    (sfd : shadow_fd) (q : transfer_queue) (hclean : sfd.is_dirty = false) :
    ((sfd.type = fdcat_t.FDC_FILE ∨ sfd.type = fdcat_t.FDC_DMABUF) →
      collect_update map env sfd q = (sfd, q)) ∧
    (fdcat_ispipe sfd.type = true →
      (((collect_update map env sfd q).2.ntransfers = q.ntransfers ∧
        (collect_update map env sfd q).2.nblocks = q.nblocks) ↔
       (sfd.pipe_recv.used ≤ 0 ∧ sfd.pipe_onlyhere = false ∧
        ¬ (sfd.pipe_lclosed = true ∧ sfd.pipe_rclosed = false)))) := by
  constructor
  · rintro (h | h)
    · unfold collect_update collect_update_file
      rw [if_pos h, if_pos hclean]
    · unfold collect_update collect_update_dmabuf
      have h1 : sfd.type ≠ fdcat_t.FDC_FILE := by rw [h]; decide
      rw [if_neg h1, if_pos h, if_pos hclean]
  · intro hp
    rw [collect_update_of_pipe map env sfd q hp]
    by_cases h : sfd.pipe_recv.used > 0 ∨ sfd.pipe_onlyhere = true ∨
        (sfd.pipe_lclosed && !sfd.pipe_rclosed) = true
    · rw [collect_update_pipe_emit sfd q h]
      simp only [transfer_queue.ntransfers, transfer_queue.nblocks, List.length_append,
        List.length_singleton]
      constructor
      · intro h2; omega
      · rintro ⟨h1, h2, h3⟩
        exfalso
        rcases h with h | h | h
        · omega
        · rw [h2] at h; cases h
        · apply h3
          cases hl : sfd.pipe_lclosed <;> cases hr : sfd.pipe_rclosed <;> simp [hl, hr] at h ⊢
    · rw [collect_update_pipe_idle sfd q h]
      simp only [true_and, and_self]
      constructor
      · intro _
        refine ⟨by omega, ?_, ?_⟩
        · cases ho : sfd.pipe_onlyhere
          · rfl
          · exact absurd (Or.inr (Or.inl ho)) h
        · rintro ⟨hl, hr⟩
          apply h
          right; right
          simp [hl, hr]
      · intro _; trivial

theorem collect_update_pipe_fst (sfd : shadow_fd) (q : transfer_queue)
    (h : sfd.pipe_recv.used > 0 ∨ sfd.pipe_onlyhere = true ∨
      (sfd.pipe_lclosed && !sfd.pipe_rclosed) = true) :
    (collect_update_pipe sfd q).1 =
      { sfd with
          pipe_onlyhere := false,
          pipe_rclosed := if (sfd.pipe_lclosed && !sfd.pipe_rclosed) = true then true
                          else sfd.pipe_rclosed,
          pipe_fd := if (sfd.pipe_lclosed && !sfd.pipe_rclosed) = true then -2 else sfd.pipe_fd,
          pipe_recv := { sfd.pipe_recv with used := 0 } } := by
  unfold collect_update_pipe
  simp only []
  rw [if_pos h]
  by_cases hc : (sfd.pipe_lclosed && !sfd.pipe_rclosed) = true
  · simp only [hc, if_true]
  · simp only [hc, if_false]
    simp

/-- C13 (amended). Pipe announce with empty buffer: for a pipe with
`pipe_onlyhere = true`, `pipe_recv.used = 0` and no close pending,
`collect_update` adds exactly one transfer, with `nblocks = 1`, whose single
block has size 0, with `pipeclose = 0`, the type and remote id of the pipe;
it clears `pipe_onlyhere`; and a second `collect_update` right after it
changes nothing, so it produces no transfer. -/
theorem pipe_announce_one_empty_block (map : fd_translation_map) (env : collect_env)
    (sfd : shadow_fd) (q : transfer_queue) (hp : fdcat_ispipe sfd.type = true)
    (hon : sfd.pipe_onlyhere = true) (hused : sfd.pipe_recv.used = 0)
    (hnc : ¬ (sfd.pipe_lclosed = true ∧ sfd.pipe_rclosed = false)) :
    (∃ b : bytebuf, b.size = 0 ∧
      (collect_update map env sfd q).2 =
        { transfers := q.transfers ++
            [{ type := sfd.type, obj_id := sfd.remote_id, special := 0, nblocks := 1,
               subtransfers := [b] }],
          blocks := q.blocks ++ [b] }) ∧
    (collect_update map env sfd q).1.pipe_onlyhere = false ∧
    collect_update map env (collect_update map env sfd q).1 (collect_update map env sfd q).2 =
      collect_update map env sfd q := by
  have hc : (sfd.pipe_lclosed && !sfd.pipe_rclosed) = false := by
    cases hl : sfd.pipe_lclosed <;> cases hr : sfd.pipe_rclosed <;> simp [hl, hr] at hnc ⊢
  have h : sfd.pipe_recv.used > 0 ∨ sfd.pipe_onlyhere = true ∨
      (sfd.pipe_lclosed && !sfd.pipe_rclosed) = true := Or.inr (Or.inl hon)
  have h1 := collect_update_pipe_fst sfd q h
  have h2 := collect_update_pipe_emit sfd q h
  rw [hc] at h1 h2
  simp only [Bool.false_eq_true, if_false] at h1 h2
  rw [collect_update_of_pipe map env sfd q hp]
  refine ⟨⟨_, ?_, h2⟩, ?_, ?_⟩
  · rw [hused]; rfl
  · rw [h1]
  · have hp2 : fdcat_ispipe (collect_update_pipe sfd q).1.type = true := by rw [h1]; exact hp
    rw [collect_update_of_pipe map env _ _ hp2]
    apply collect_update_pipe_idle
    rw [h1]
    simp [hc]

theorem find_rid_update_sfd (l : List shadow_fd) (rid : Int) (p x : shadow_fd)
    (h : l.find? (fun cur => decide (cur.remote_id = rid)) = some p)
    (hx : x.remote_id = rid) :
    (update_sfd l p.addr (fun _ => x)).find? (fun cur => decide (cur.remote_id = rid)) =
      some x := by
  induction l with
  | nil => simp at h
  | cons a l ih =>
    rw [List.find?_cons] at h
    simp only [update_sfd, List.map_cons, List.find?_cons]
    by_cases ha : a.remote_id = rid
    · simp only [ha, decide_True] at h
      have : a = p := by simpa using h
      subst this
      simp [hx]
    · simp only [ha, decide_False] at h
      by_cases haa : a.addr = p.addr
      · simp [haa, hx]
      · simp only [haa, if_false, ha, decide_False]
        exact ih h

theorem apply_update_existing (map : fd_translation_map) (env : update_env) (transf : transfer)
    (p : shadow_fd) (h : get_shadow_for_rid map transf.obj_id = some p)
    (hp : fdcat_ispipe p.type = true) :
    (apply_update map env transf).map =
      { map with list := update_sfd map.list p.addr (fun _ => (apply_update_pipe transf p).1) } ∧
    (apply_update map env transf).errors = (apply_update_pipe transf p).2 := by
  have h1 : p.type ≠ fdcat_t.FDC_FILE := by
    intro h; rw [h] at hp; simp [fdcat_ispipe] at hp
  unfold apply_update
  rw [h]
  simp only [if_neg h1, if_pos hp, and_self]

theorem get_rid_apply_update_pipe (map : fd_translation_map) (env : update_env)
    (transf : transfer) (p : shadow_fd) (h : get_shadow_for_rid map transf.obj_id = some p)
    (hp : fdcat_ispipe p.type = true) :
    get_shadow_for_rid (apply_update map env transf).map transf.obj_id =
      some (apply_update_pipe transf p).1 := by
  rw [(apply_update_existing map env transf p h hp).1]
  have hrid : p.remote_id = transf.obj_id := by
    have := List.find?_some h
    simpa using this
  exact find_rid_update_sfd map.list transf.obj_id p _ h hrid

theorem find_rid_map (f : shadow_fd → shadow_fd) (hf : ∀ a, (f a).remote_id = a.remote_id)
    (l : List shadow_fd) (rid : Int) :
    (l.map f).find? (fun cur => decide (cur.remote_id = rid)) =
      (l.find? (fun cur => decide (cur.remote_id = rid))).map f := by
  induction l with
  | nil => rfl
  | cons a l ih =>
    simp only [List.map_cons, List.find?_cons, hf]
    by_cases ha : a.remote_id = rid
    · simp [ha]
    · simp only [ha, decide_False]
      exact ih

theorem get_rid_close_rclosed_pipes (map : fd_translation_map) (rid : Int) (p : shadow_fd)
    (h : get_shadow_for_rid map rid = some p) :
    get_shadow_for_rid (close_rclosed_pipes map) rid =
      some (if fdcat_ispipe p.type = true ∧ p.pipe_rclosed = true ∧ p.pipe_lclosed = false then
        { p with fd_local := if p.pipe_fd = p.fd_local then -2 else p.fd_local,
                 pipe_fd := -2, pipe_lclosed := true }
      else p) := by
  unfold get_shadow_for_rid close_rclosed_pipes at *
  simp only []
  rw [find_rid_map _ _ map.list rid, h]
  · rfl
  · intro a
    split <;> rfl

/-- C14. Pipe close propagation: `collect_update` on a pipe emits a transfer
with `special.pipeclose = 1` if and only if `pipe_lclosed` is set and
`pipe_rclosed` is not; in that case it sets `pipe_fd = -2` and
`pipe_rclosed = true`, and `apply_update` of the transfer on a peer map whose
shadow fd for that remote id is a pipe sets the peer's `pipe_rclosed`, after
which `close_rclosed_pipes` (peer not locally closed) sets the peer's
`pipe_fd = -2` and `pipe_lclosed = true`. -/
theorem pipe_close_propagates (map : fd_translation_map) (env : collect_env)
    (sfd : shadow_fd) (q : transfer_queue) (hp : fdcat_ispipe sfd.type = true) :
    ((∃ tf ∈ (collect_update map env sfd q).2.transfers.drop q.transfers.length,
        tf.special = 1) ↔
      (sfd.pipe_lclosed = true ∧ sfd.pipe_rclosed = false)) ∧
    ((sfd.pipe_lclosed = true ∧ sfd.pipe_rclosed = false) →
      (collect_update map env sfd q).1.pipe_fd = -2 ∧
      (collect_update map env sfd q).1.pipe_rclosed = true ∧
      ∃ tf, (collect_update map env sfd q).2.transfers = q.transfers ++ [tf] ∧
        tf.special = 1 ∧ tf.obj_id = sfd.remote_id ∧
        ∀ (peer : fd_translation_map) (uenv : update_env) (p : shadow_fd),
          get_shadow_for_rid peer tf.obj_id = some p → fdcat_ispipe p.type = true →
          ∃ p1, get_shadow_for_rid (apply_update peer uenv tf).map tf.obj_id = some p1 ∧
            p1.pipe_rclosed = true ∧ p1.pipe_lclosed = p.pipe_lclosed ∧
            (p.pipe_lclosed = false →
              ∃ p2, get_shadow_for_rid (close_rclosed_pipes (apply_update peer uenv tf).map)
                  tf.obj_id = some p2 ∧
                p2.pipe_fd = -2 ∧ p2.pipe_lclosed = true)) := by
  rw [collect_update_of_pipe map env sfd q hp]
  have hcl : (sfd.pipe_lclosed && !sfd.pipe_rclosed) = true ↔
      (sfd.pipe_lclosed = true ∧ sfd.pipe_rclosed = false) := by
    cases sfd.pipe_lclosed <;> cases sfd.pipe_rclosed <;> simp
  constructor
  · by_cases h : sfd.pipe_recv.used > 0 ∨ sfd.pipe_onlyhere = true ∨
        (sfd.pipe_lclosed && !sfd.pipe_rclosed) = true
    · rw [collect_update_pipe_emit sfd q h]
      simp only [List.drop_left, List.mem_singleton, exists_eq_left]
      rw [← hcl]
      by_cases hc : (sfd.pipe_lclosed && !sfd.pipe_rclosed) = true
      · simp [hc]
      · simp [hc]
    · rw [collect_update_pipe_idle sfd q h]
      simp only [List.drop_length, List.not_mem_nil, false_and, exists_false, false_iff]
      intro hc
      exact h (Or.inr (Or.inr (hcl.2 hc)))
  · intro hc
    have hc2 := hcl.2 hc
    have h : sfd.pipe_recv.used > 0 ∨ sfd.pipe_onlyhere = true ∨
        (sfd.pipe_lclosed && !sfd.pipe_rclosed) = true := Or.inr (Or.inr hc2)
    rw [collect_update_pipe_emit sfd q h, collect_update_pipe_fst sfd q h]
    simp only [hc2, if_true]
    refine ⟨trivial, trivial, _, rfl, rfl, rfl, ?_⟩
    intro peer uenv p hget hpp
    refine ⟨_, get_rid_apply_update_pipe peer uenv _ p hget hpp, ?_, ?_, ?_⟩
    · simp [apply_update_pipe]
    · simp [apply_update_pipe]
    · intro hl
      refine ⟨_, get_rid_close_rclosed_pipes _ _ _
        (get_rid_apply_update_pipe peer uenv _ p hget hpp), ?_⟩
      have hcond : fdcat_ispipe (apply_update_pipe
          { type := sfd.type, obj_id := sfd.remote_id, special := 1, nblocks := 1,
            subtransfers := [{ size := cast_u64 sfd.pipe_recv.used,
                               data := mem_of_bytes (sfd.pipe_recv.data.getD []) }] } p).1.type
            = true ∧
          (apply_update_pipe
          { type := sfd.type, obj_id := sfd.remote_id, special := 1, nblocks := 1,
            subtransfers := [{ size := cast_u64 sfd.pipe_recv.used,
                               data := mem_of_bytes (sfd.pipe_recv.data.getD []) }] }
          p).1.pipe_rclosed = true ∧
          (apply_update_pipe
          { type := sfd.type, obj_id := sfd.remote_id, special := 1, nblocks := 1,
            subtransfers := [{ size := cast_u64 sfd.pipe_recv.used,
                               data := mem_of_bytes (sfd.pipe_recv.data.getD []) }] }
          p).1.pipe_lclosed = false := by
        refine ⟨?_, ?_, ?_⟩
        · simpa [apply_update_pipe] using hpp
        · simp [apply_update_pipe]
        · simpa [apply_update_pipe] using hl
      rw [if_pos hcond]
      exact ⟨rfl, rfl⟩

theorem grow_pipe_send_spec (netsize : Int) :
    ∀ (fuel : Nat) (size : Int), 1 ≤ size → (netsize - size).toNat ≤ fuel →
      ∃ k : Nat, grow_pipe_send netsize fuel size = size * 2 ^ k ∧
        netsize ≤ size * 2 ^ k ∧ (∀ j, j < k → size * 2 ^ j < netsize) ∧
        ∀ fuel2, fuel ≤ fuel2 → grow_pipe_send netsize fuel2 size = size * 2 ^ k := by
  intro fuel
  induction fuel with
  | zero =>
    intro size h1 hf
    refine ⟨0, by simp [grow_pipe_send], by simp; omega, by intro j hj; omega, ?_⟩
    intro fuel2 _
    cases fuel2 with
    | zero => simp [grow_pipe_send]
    | succ f =>
      have : ¬ size < netsize := by omega
      simp [grow_pipe_send, this]
  | succ fuel ih =>
    intro size h1 hf
    by_cases hlt : size < netsize
    · obtain ⟨k, hk1, hk2, hk3, hk4⟩ := ih (size * 2) (by omega) (by omega)
      refine ⟨k + 1, ?_, ?_, ?_, ?_⟩
      · simp only [grow_pipe_send, if_pos hlt]
        rw [hk1]; ring
      · have : size * 2 ^ (k + 1) = size * 2 * 2 ^ k := by ring
        rw [this]; exact hk2
      · intro j hj
        cases j with
        | zero => simpa using hlt
        | succ j =>
          have := hk3 j (by omega)
          have e : size * 2 ^ (j + 1) = size * 2 * 2 ^ j := by ring
          rw [e]; exact this
      · intro fuel2 hf2
        cases fuel2 with
        | zero => omega
        | succ f =>
          simp only [grow_pipe_send, if_pos hlt]
          rw [hk4 f (by omega)]; ring
    · refine ⟨0, by simp [grow_pipe_send, hlt], by simp; omega, by intro j hj; omega, ?_⟩
      intro fuel2 _
      cases fuel2 with
      | zero => simp [grow_pipe_send]
      | succ f => simp [grow_pipe_send, hlt]

theorem resize_write_bytes (data : Option (List Nat)) (used n : Nat) (src : List Nat)
    (hfit : used + src.length ≤ n)
    (hdata : match data with
      | some d => used ≤ d.length
      | none => used = 0) :
    (write_bytes (resize_bytes data n) used src).length = n ∧
    (write_bytes (resize_bytes data n) used src).take (used + src.length) =
      (data.getD []).take used ++ src := by
  have hlen : (resize_bytes data n).length = n := by
    cases data with
    | none => simp [resize_bytes]
    | some d => simp [resize_bytes]; omega
  have htake : (resize_bytes data n).take used = (data.getD []).take used := by
    cases data with
    | none =>
      simp only [] at hdata
      subst hdata
      simp
    | some d =>
      simp only [] at hdata
      simp only [resize_bytes, Option.getD_some]
      rw [List.take_take, min_eq_left (by omega), List.take_append_of_le_length hdata]
  constructor
  · simp only [write_bytes, List.length_append, List.length_take, List.length_drop, hlen]
    omega
  · simp only [write_bytes]
    rw [htake]
    have hl : ((data.getD []).take used).length = used := by
      rw [← htake, List.length_take, hlen]; omega
    have hAs : ((data.getD []).take used ++ src).length = used + src.length := by
      rw [List.length_append, hl]
    exact List.take_left' hAs

theorem bytes_of_mem_length (m : Mem) (n : Nat) : (bytes_of_mem m n).length = n := by
  simp [bytes_of_mem]

/-- C15. Pipe write queue append: for an existing pipe whose `pipe_send` is
well formed, `apply_update` leaves in `pipe_send` the previous `used` bytes
followed by the bytes of the block, `used` grown by the block size, a
capacity that is the old one (raised to 1024 if smaller) doubled `k` times,
where `k` is the least number of doublings that reaches the new `used`, hence
at least `max(used, 1024)`; `pipe_writable` is set and `pipe_rclosed` is set
if the close flag is.  The doubling loop terminates: it returns the same
capacity for every fuel from `used` on. -/
theorem pipe_write_queue_append (map : fd_translation_map) (env : update_env)
    (transf : transfer) (sfd : shadow_fd) (hget : get_shadow_for_rid map transf.obj_id = some sfd)
    (hp : fdcat_ispipe sfd.type = true) (hv : pipe_buffer_valid sfd.pipe_send) :
    ∃ (sfd1 : shadow_fd) (d1 : List Nat) (k : Nat),
      get_shadow_for_rid (apply_update map env transf).map transf.obj_id = some sfd1 ∧
      sfd1.pipe_send.data = some d1 ∧
      d1.take (sfd.pipe_send.used.toNat + (first_block transf).size) =
        (sfd.pipe_send.data.getD []).take sfd.pipe_send.used.toNat ++
          bytes_of_mem (first_block transf).data (first_block transf).size ∧
      sfd1.pipe_send.used = sfd.pipe_send.used + ((first_block transf).size : Int) ∧
      sfd1.pipe_send.size = max sfd.pipe_send.size 1024 * 2 ^ k ∧
      (∀ j, j < k → max sfd.pipe_send.size 1024 * 2 ^ j < sfd1.pipe_send.used) ∧
      max sfd1.pipe_send.used 1024 ≤ sfd1.pipe_send.size ∧
      (d1.length : Int) = sfd1.pipe_send.size ∧
      sfd1.pipe_writable = true ∧
      sfd1.pipe_rclosed = (decide (transf.special ≠ 0) || sfd.pipe_rclosed) ∧
      (∀ fuel, sfd1.pipe_send.used.toNat ≤ fuel →
        grow_pipe_send sfd1.pipe_send.used fuel (max sfd.pipe_send.size 1024) =
          sfd1.pipe_send.size) := by
  obtain ⟨h0, hle, hdata⟩ := hv
  have hsz : (if sfd.pipe_send.size ≤ 1024 then (1024 : Int) else sfd.pipe_send.size) =
      max sfd.pipe_send.size 1024 := by
    split <;> omega
  obtain ⟨k, hk1, hk2, hk3, hk4⟩ := grow_pipe_send_spec
    (sfd.pipe_send.used + ((first_block transf).size : Int))
    (sfd.pipe_send.used + ((first_block transf).size : Int)).toNat
    (max sfd.pipe_send.size 1024) (by omega) (by omega)
  have hpos : (0 : Int) ≤ max sfd.pipe_send.size 1024 * 2 ^ k := by positivity
  have hfit : sfd.pipe_send.used.toNat + (bytes_of_mem (first_block transf).data
      (first_block transf).size).length ≤ (max sfd.pipe_send.size 1024 * 2 ^ k).toNat := by
    rw [bytes_of_mem_length]; omega
  have hd2 : match sfd.pipe_send.data with
      | some d => sfd.pipe_send.used.toNat ≤ d.length
      | none => sfd.pipe_send.used.toNat = 0 := by
    cases hd : sfd.pipe_send.data with
    | none => rw [hd] at hdata; simp only [] at hdata ⊢; omega
    | some d => rw [hd] at hdata; simp only [] at hdata ⊢; omega
  obtain ⟨hw1, hw2⟩ := resize_write_bytes sfd.pipe_send.data sfd.pipe_send.used.toNat
    (max sfd.pipe_send.size 1024 * 2 ^ k).toNat
    (bytes_of_mem (first_block transf).data (first_block transf).size) hfit hd2
  rw [bytes_of_mem_length] at hw2
  refine ⟨_, write_bytes (resize_bytes sfd.pipe_send.data
      (max sfd.pipe_send.size 1024 * 2 ^ k).toNat) sfd.pipe_send.used.toNat
      (bytes_of_mem (first_block transf).data (first_block transf).size), k,
    get_rid_apply_update_pipe map env transf sfd hget hp, ?_, ?_, ?_, ?_, ?_, ?_,
    ?_, ?_, ?_, ?_⟩
  · simp only [apply_update_pipe, hsz, hk1]
  · exact hw2
  · simp only [apply_update_pipe]
  · simp only [apply_update_pipe, hsz, hk1]
  · intro j hj
    simp only [apply_update_pipe]
    exact hk3 j hj
  · simp only [apply_update_pipe, hsz, hk1]
    have : (1024 : Int) ≤ max sfd.pipe_send.size 1024 * 2 ^ k := by
      have h2 : (1 : Int) ≤ 2 ^ k := one_le_pow₀ (by norm_num)
      nlinarith [le_max_right sfd.pipe_send.size 1024]
    omega
  · simp only [apply_update_pipe, hsz, hk1, hw1]
    omega
  · simp only [apply_update_pipe]
  · simp only [apply_update_pipe]
    by_cases hs : transf.special = 0 <;> simp [hs]
  · intro fuel hf
    simp only [apply_update_pipe, hsz, hk1] at hf ⊢
    exact hk4 fuel hf

/-- C16 (amended). Pipe type check on apply: for an existing pipe,
`apply_update` logs the error "Transfer type contramismatch" exactly when
(sfd type, transfer type) is none of (RW, RW), (IW, IR), (IR, IW); the map it
leaves does not depend on the transfer type: the block is appended to
`pipe_send`, `pipe_writable` is set and the close flag is honoured in every
case. -/
theorem pipe_type_mismatch_only_logged (map : fd_translation_map) (env : update_env)
    (transf : transfer) (sfd : shadow_fd) (hget : get_shadow_for_rid map transf.obj_id = some sfd)
    (hp : fdcat_ispipe sfd.type = true) :
    (wp_error.type_contramismatch ∈ (apply_update map env transf).errors ↔
      ¬ ((sfd.type = fdcat_t.FDC_PIPE_RW ∧ transf.type = fdcat_t.FDC_PIPE_RW) ∨
         (sfd.type = fdcat_t.FDC_PIPE_IW ∧ transf.type = fdcat_t.FDC_PIPE_IR) ∨
         (sfd.type = fdcat_t.FDC_PIPE_IR ∧ transf.type = fdcat_t.FDC_PIPE_IW))) ∧
    (∀ t : fdcat_t,
      (apply_update map env { transf with type := t }).map = (apply_update map env transf).map) ∧
    ∃ sfd1, get_shadow_for_rid (apply_update map env transf).map transf.obj_id = some sfd1 ∧
      sfd1.pipe_send.used = sfd.pipe_send.used + ((first_block transf).size : Int) ∧
      sfd1.pipe_writable = true ∧
      sfd1.pipe_rclosed = (decide (transf.special ≠ 0) || sfd.pipe_rclosed) := by
  refine ⟨?_, ?_, ?_⟩
  · rw [(apply_update_existing map env transf sfd hget hp).2]
    simp only [apply_update_pipe]
    cases hs : sfd.type <;> cases ht : transf.type <;> simp
  · intro t
    rw [(apply_update_existing map env transf sfd hget hp).1,
      (apply_update_existing map env { transf with type := t } sfd hget hp).1]
    rfl
  · refine ⟨_, get_rid_apply_update_pipe map env transf sfd hget hp, ?_, ?_, ?_⟩
    · simp only [apply_update_pipe]
    · simp only [apply_update_pipe]
    · simp only [apply_update_pipe]
      by_cases hs : transf.special = 0 <;> simp [hs]

theorem accepted_of_segments {changed : Mem} {nb : Nat} {d : Mem} {i j : Nat}
    {rs : List (Nat × Nat)} (h : segments changed nb d i j rs) :
    ∀ fuel, j - i ≤ fuel →
      (accepted_segments nb j d fuel i).map (fun s => (s.1, s.2.1)) = rs := by
  induction h with
  | nil i =>
    intro fuel _
    cases fuel with
    | zero => rfl
    | succ f => simp [accepted_segments]
  | cons i j nfrom nto rs h1 h2 h3 h4 h5 hrest ih =>
    intro fuel hf
    have hle := segments_le hrest
    cases fuel with
    | zero => omega
    | succ f =>
      have hlow : u64 (d i <<< 32) >>> 32 = nto := by rw [low_bits_eq, h4]
      simp only [accepted_segments, h3, hlow]
      have hi : i < j := by omega
      have hgood : ¬ (nto > nb ∨ nfrom ≥ nto ∨ i + (nto - nfrom) ≥ j) := by omega
      rw [if_pos hi, if_neg hgood]
      simp only [List.map_cons, List.cons.injEq, true_and]
      have e : i + (nto - nfrom) + 1 = i + 1 + (nto - nfrom) := by omega
      rw [e]
      exact ih f (by omega)

theorem header_ranges_construct_diff (size : Nat) (dmg : damage) (cds cde : Nat)
    (base changed diff : Mem) (hsize : size < 2 ^ 31) :
    segments changed (size / 8) (construct_diff size dmg cds cde base changed diff).diff 0
      ((construct_diff size dmg cds cde base changed diff).diffsize / 8)
      (header_ranges size (construct_diff size dmg cds cde base changed diff).diffsize
        (construct_diff size dmg cds cde base changed diff).diff) ∧
    (scan_damage (size / 8) dmg (realign_domain cds cde).1 (realign_domain cds cde).2
        base changed diff).base =
      patched changed
        (header_ranges size (construct_diff size dmg cds cde base changed diff).diffsize
          (construct_diff size dmg cds cde base changed diff).diff) base := by
  obtain ⟨rs, h1, _, h3, _⟩ := construct_diff_segments size dmg cds cde base changed diff hsize
  have := accepted_of_segments h1 _ (by omega : (construct_diff size dmg cds cde base changed
    diff).diffsize / 8 - 0 ≤ (construct_diff size dmg cds cde base changed diff).diffsize / 8)
  unfold header_ranges
  rw [this]
  exact ⟨h1, h3⟩

theorem covered_iff_scanned (size : Nat) (dmg : damage) (cds cde : Nat)
    (base changed diff : Mem) (hsize : size < 2 ^ 31) (hal : domain_aligned cds cde)
    (hcds : cds < 2 ^ 31) (hfit : damage_in_range dmg) (k : Nat) (hne : base k ≠ changed k) :
    covered (header_ranges size (construct_diff size dmg cds cde base changed diff).diffsize
      (construct_diff size dmg cds cde base changed diff).diff) k = true ↔
    block_scanned (size / 8) dmg cds cde k := by
  obtain ⟨_, hp⟩ := header_ranges_construct_diff size dmg cds cde base changed diff hsize
  obtain ⟨e1, e2, _⟩ := scan_damage_effect changed base diff (size / 8) cds cde (by omega) hcds
    dmg hfit
  rw [realign_domain_aligned cds cde hal] at hp
  dsimp only at hp
  have hk := congrFun hp k
  simp only [patched] at hk
  constructor
  · intro hc
    by_contra hns
    rw [e2 k hns, if_pos hc] at hk
    exact hne hk
  · intro hs
    by_contra hnc
    rw [e1 k hs, if_neg hnc] at hk
    exact hne hk.symm

theorem damage_covers_everything (d2 : damage) (hfit : damage_in_range d2)
    (hcov : damage_covers d2 damage.everything) : d2 = damage.everything := by
  cases d2 with
  | everything => rfl
  | rects l =>
    exfalso
    obtain ⟨ei, hmem, r, hr, _, h2⟩ := hcov (2 ^ 31) trivial
    have := hfit ei hmem r hr
    omega

theorem scanned_byte (nb cds cde k : Nat) (hal : domain_aligned cds cde) (hnb : nb < 2 ^ 32)
    (lo hi : Nat) (hw : lo < hi) (hk : k < nb) (h1 : max lo cds / 8 ≤ k)
    (h2 : 8 * k < min hi cde) :
    ∃ b, lo ≤ b ∧ b < hi ∧ cds ≤ b ∧ b < cde ∧ b / 8 = k := by
  obtain ⟨ha1, ha2⟩ := hal
  have hlo : lo / 8 ≤ k := le_trans (Nat.div_le_div_right (le_max_left lo cds)) h1
  have hcd : cds / 8 ≤ k := le_trans (Nat.div_le_div_right (le_max_right lo cds)) h1
  have h3 : 8 * k < hi := lt_of_lt_of_le h2 (min_le_left hi cde)
  have h4 : 8 * k < cde := lt_of_lt_of_le h2 (min_le_right hi cde)
  have hcde : 8 * k + 8 ≤ cde := by
    rcases ha2 with ha2 | ha2
    · omega
    · rw [ha2]; unfold SIZE_MAX; omega
  refine ⟨max (8 * k) lo, le_max_right _ _, ?_, ?_, ?_, ?_⟩
  · exact max_lt h3 hw
  · have : cds ≤ 8 * k := by omega
    exact le_trans this (le_max_left _ _)
  · have : max (8 * k) lo < 8 * k + 8 := max_lt (by omega) (by omega)
    omega
  · have h5 : max (8 * k) lo < 8 * k + 8 := max_lt (by omega) (by omega)
    have h6 : 8 * k ≤ max (8 * k) lo := le_max_left _ _
    omega

theorem block_scanned_mono (nb cds cde k : Nat) (d1 d2 : damage)
    (hal : domain_aligned cds cde) (hnb : nb < 2 ^ 32) (hfit2 : damage_in_range d2)
    (hne : damage_nonempty d1) (hcov : damage_covers d2 d1)
    (h : block_scanned nb d1 cds cde k) : block_scanned nb d2 cds cde k := by
  cases d1 with
  | everything =>
    rw [damage_covers_everything d2 hfit2 hcov]
    exact h
  | rects l =>
    obtain ⟨hk, ei, hmem, r, hr, h1, h2⟩ := h
    have hw : ei.start + r * ei.stride < ei.start + r * ei.stride + ei.width := by
      have := hne ei hmem
      omega
    obtain ⟨b, hb1, hb2, hb3, hb4, hb5⟩ := scanned_byte nb cds cde k hal hnb _ _ hw hk h1 h2
    have hd := hcov b ⟨ei, hmem, r, hr, hb1, hb2⟩
    cases d2 with
    | everything =>
      refine ⟨hk, ?_, ?_⟩
      · have := Nat.div_le_div_right (c := 8) hb3
        omega
      · rcases hal.2 with ha2 | ha2
        · omega
        · rw [ha2]; unfold SIZE_MAX; omega
    | rects l2 =>
      obtain ⟨ei2, hmem2, r2, hr2, hlo2, hhi2⟩ := hd
      refine ⟨hk, ei2, hmem2, r2, hr2, ?_, ?_⟩
      · have : max (ei2.start + r2 * ei2.stride) cds ≤ b := max_le hlo2 hb3
        have := Nat.div_le_div_right (c := 8) this
        omega
      · apply lt_min
        · omega
        · omega

theorem tail_scanned_mono (nb cde : Nat) (d1 d2 : damage) (hfit2 : damage_in_range d2)
    (hne : damage_nonempty d1) (hcov : damage_covers d2 d1)
    (h : tail_scanned nb d1 cde) : tail_scanned nb d2 cde := by
  cases d1 with
  | everything =>
    rw [damage_covers_everything d2 hfit2 hcov]
    exact h
  | rects l =>
    obtain ⟨ei, hmem, r, hr, h1⟩ := h
    have hw := hne ei hmem
    have h3 : 8 * nb < ei.start + r * ei.stride + ei.width :=
      lt_of_lt_of_le h1 (min_le_left _ _)
    have h4 : 8 * nb < cde := lt_of_lt_of_le h1 (min_le_right _ _)
    have hd := hcov (max (8 * nb) (ei.start + r * ei.stride))
      ⟨ei, hmem, r, hr, le_max_right _ _, max_lt h3 (by omega)⟩
    cases d2 with
    | everything => exact h4
    | rects l2 =>
      obtain ⟨ei2, hmem2, r2, hr2, _, hhi2⟩ := hd
      refine ⟨ei2, hmem2, r2, hr2, lt_min ?_ h4⟩
      have : 8 * nb ≤ max (8 * nb) (ei.start + r * ei.stride) := le_max_left _ _
      omega

theorem diff_has_tail_iff (size : Nat) (dmg : damage) (cds cde : Nat)
    (base changed diff : Mem) (hsize : size < 2 ^ 31) (hal : domain_aligned cds cde)
    (hcds : cds < 2 ^ 31) (hfit : damage_in_range dmg) :
    (construct_diff size dmg cds cde base changed diff).diffsize % 8 ≠ 0 ↔
      (tail_scanned (size / 8) dmg cde ∧ 0 < size % 8 ∧
        tail_differs (size / 8) (size % 8) base changed = true) := by
  obtain ⟨_, e2, e3⟩ := scan_damage_effect changed base diff (size / 8) cds cde (by omega) hcds
    dmg hfit
  have hre := realign_domain_aligned cds cde hal
  have htd : tail_differs (size / 8) (size % 8)
      (scan_damage (size / 8) dmg cds cde base changed diff).base changed =
      tail_differs (size / 8) (size % 8) base changed := by
    have hb : (scan_damage (size / 8) dmg cds cde base changed diff).base (size / 8) =
        base (size / 8) := e2 _ (by intro h; exact absurd h.1 (lt_irrefl _))
    have key : ∀ i, i < size % 8 →
        load_byte (scan_damage (size / 8) dmg cds cde base changed diff).base (size / 8 * 8 + i) =
        load_byte base (size / 8 * 8 + i) := by
      intro i hi
      have hm := Nat.mod_lt size (by norm_num : 8 > 0)
      have : (size / 8 * 8 + i) / 8 = size / 8 := by omega
      unfold load_byte
      rw [this, hb]
    cases h1 : tail_differs (size / 8) (size % 8)
        (scan_damage (size / 8) dmg cds cde base changed diff).base changed <;>
      cases h2 : tail_differs (size / 8) (size % 8) base changed
    · rfl
    · exfalso
      obtain ⟨i, hi, hne⟩ := (tail_differs_iff _ _ _ _).1 h2
      have : tail_differs (size / 8) (size % 8)
          (scan_damage (size / 8) dmg cds cde base changed diff).base changed = true :=
        (tail_differs_iff _ _ _ _).2 ⟨i, hi, by rw [key i hi]; exact hne⟩
      rw [h1] at this
      cases this
    · exfalso
      obtain ⟨i, hi, hne⟩ := (tail_differs_iff _ _ _ _).1 h1
      have : tail_differs (size / 8) (size % 8) base changed = true :=
        (tail_differs_iff _ _ _ _).2 ⟨i, hi, by rw [← key i hi]; exact hne⟩
      rw [h2] at this
      cases this
    · rfl
  rcases construct_diff_cases size dmg cds cde base changed diff hsize with ⟨h1, h2⟩ | ⟨h1, h2⟩
  · rw [h1]
    rw [hre] at h2
    dsimp only at h2 ⊢
    rw [htd, e3] at h2
    constructor
    · intro h; omega
    · intro h; exact absurd h h2
  · rw [h1]
    rw [hre] at h2
    dsimp only at h2 ⊢
    rw [htd, e3] at h2
    constructor
    · intro _; exact h2
    · intro _
      have := Nat.mod_lt size (by norm_num : 8 > 0)
      omega

/-- C19 (amended). Damage monotonicity on changed blocks: for `size < 2 ^ 31`,
an aligned copy domain, and damage values `d1`, `d2` with interval ends below
`2 ^ 31` such that the intervals of `d1` have positive width and `d2` covers
every byte `d1` covers, every block in which `base` and `changed` differ and
which a header range of the diff for `d1` covers is covered by a header range
of the diff for `d2`, and if the diff for `d1` carries the tail so does the
diff for `d2`. -/
theorem damage_monotone_on_changed_blocks (size : Nat) (d1 d2 : damage) (cds cde : Nat)
    (base changed diff1 diff2 : Mem)
    (hsize : size < 2 ^ 31) (hal : domain_aligned cds cde) (hcds : cds < 2 ^ 31)
    (hfit1 : damage_in_range d1) (hfit2 : damage_in_range d2) (hne : damage_nonempty d1)
    (hcov : damage_covers d2 d1) :
    (∀ k, base k ≠ changed k →
      covered (header_ranges size (construct_diff size d1 cds cde base changed diff1).diffsize
        (construct_diff size d1 cds cde base changed diff1).diff) k = true →
      covered (header_ranges size (construct_diff size d2 cds cde base changed diff2).diffsize
        (construct_diff size d2 cds cde base changed diff2).diff) k = true) ∧
    ((construct_diff size d1 cds cde base changed diff1).diffsize % 8 ≠ 0 →
      (construct_diff size d2 cds cde base changed diff2).diffsize % 8 ≠ 0) := by
  constructor
  · intro k hk h1
    rw [covered_iff_scanned size d1 cds cde base changed diff1 hsize hal hcds hfit1 k hk] at h1
    rw [covered_iff_scanned size d2 cds cde base changed diff2 hsize hal hcds hfit2 k hk]
    exact block_scanned_mono (size / 8) cds cde k d1 d2 hal (by omega) hfit2 hne hcov h1
  · intro h1
    rw [diff_has_tail_iff size d1 cds cde base changed diff1 hsize hal hcds hfit1] at h1
    rw [diff_has_tail_iff size d2 cds cde base changed diff2 hsize hal hcds hfit2]
    exact ⟨tail_scanned_mono (size / 8) cde d1 d2 hfit2 hne hcov h1.1, h1.2.1, h1.2.2⟩

theorem apply_diff_loop_accepted (nb nd : Nat) (d : Mem) :
    ∀ (fuel i : Nat) (b : Mem),
      (apply_diff_loop nb nd d fuel i b).1 =
        apply_segments d (accepted_segments nb nd d fuel i) b := by
  intro fuel
  induction fuel with
  | zero => intro i b; rfl
  | succ fuel ih =>
    intro i b
    simp only [apply_diff_loop, accepted_segments]
    by_cases hi : i < nd
    · simp only [hi, if_true]
      by_cases hbad : u64 (d i <<< 32) >>> 32 > nb ∨ d i >>> 32 ≥ u64 (d i <<< 32) >>> 32 ∨
          i + (u64 (d i <<< 32) >>> 32 - d i >>> 32) ≥ nd
      · rw [if_pos hbad, if_pos hbad]
        rfl
      · rw [if_neg hbad, if_neg hbad, ih]
        rfl
    · simp only [hi, if_false]
      rfl


/-- C20 (amended). When `apply_diff` takes an error return, `base` is as it
was if the trailing byte count mismatches or the first header is invalid;
otherwise `apply_diff` has stopped at the first invalid header: `base` holds
the payloads of the valid segments before it, copied in order, and nothing
else has changed; the trailing bytes (every block from `size / 8` on) are
always as before. -/
theorem invalid_diff_keeps_valid_segments (size : Nat) (base : Mem) (diffsize : Nat)
    (diff : Mem)
    (h : (apply_diff size base diffsize diff).status ≠ apply_status.applied) :
    (apply_diff size base diffsize diff).base =
      (if (apply_diff size base diffsize diff).status = apply_status.trailing_mismatch then base
       else apply_segments diff
         (accepted_segments (size / 8) (diffsize / 8) diff (diffsize / 8) 0) base) ∧
    (((apply_diff size base diffsize diff).status = apply_status.trailing_mismatch ∨
        first_header_invalid size diffsize diff) →
      (apply_diff size base diffsize diff).base = base) ∧
    (∀ k, size / 8 ≤ k → (apply_diff size base diffsize diff).base k = base k) := by
  unfold apply_diff at h ⊢
  simp only [] at h ⊢
  by_cases hm : diffsize % 8 ≠ 0 ∧ size - 8 * (size / 8) ≠ diffsize - 8 * (diffsize / 8)
  · simp only [if_pos hm]
    simp
  · simp only [if_neg hm] at h ⊢
    by_cases hr : (apply_diff_loop (size / 8) (diffsize / 8) diff (diffsize / 8) 0 base).2 = false
    · simp only [if_pos hr]
      refine ⟨?_, ?_, ?_⟩
      · rw [if_neg (by decide)]
        exact apply_diff_loop_accepted _ _ _ _ _ _
      · rintro (hc | ⟨hpos, hbad⟩)
        · cases hc
        · rw [apply_diff_loop_accepted]
          obtain ⟨f, hf⟩ : ∃ f, diffsize / 8 = f + 1 := ⟨diffsize / 8 - 1, by omega⟩
          have hbad2 : u64 (diff 0 <<< 32) >>> 32 > size / 8 ∨
              diff 0 >>> 32 ≥ u64 (diff 0 <<< 32) >>> 32 ∨
              0 + (u64 (diff 0 <<< 32) >>> 32 - diff 0 >>> 32) ≥ diffsize / 8 := by
            simpa using hbad
          have : accepted_segments (size / 8) (diffsize / 8) diff (diffsize / 8) 0 = [] := by
            conv_lhs => rw [hf]
            simp only [accepted_segments]
            rw [← hf, if_pos hpos, if_pos hbad2]
          rw [this]
          rfl
      · intro k hk
        exact apply_diff_loop_writes _ _ _ _ _ _ k hk
    · simp only [if_neg hr] at h
      exact absurd rfl h

/-! ## The update theorems at concrete inputs -/

/-- C12 (witness). The clean 16-byte file: `collect_update` leaves it and
the empty queue as they are. -/
theorem clean_sfd_collects_nothing_witness :
    clean_file.is_dirty = false ∧
    collect_update plain_map plain_collect_env clean_file {} = (clean_file, {}) :=
  ⟨rfl, (clean_sfd_collects_nothing plain_map plain_collect_env clean_file {} rfl).1
    (Or.inl rfl)⟩

/-- C12 (counterexample). A pipe that is not dirty and has no damage, with
three received bytes in `pipe_recv`: `collect_update` emits one transfer and
one block. -/
theorem clean_pipe_emits_transfer :
    fdcat_ispipe clean_pipe_with_data.type = true ∧
    clean_pipe_with_data.is_dirty = false ∧ clean_pipe_with_data.dmg = damage.rects [] ∧
    (collect_update plain_map plain_collect_env clean_pipe_with_data {}).2.ntransfers = 1 ∧
    (collect_update plain_map plain_collect_env clean_pipe_with_data {}).2.nblocks = 1 := by
  decide

/-- C13 (witness). The pipe that `translate_fd` has just registered. -/
theorem pipe_announce_one_empty_block_witness :
    fdcat_ispipe fresh_pipe.type = true ∧ fresh_pipe.pipe_onlyhere = true ∧
    fresh_pipe.pipe_recv.used = 0 ∧
    ¬ (fresh_pipe.pipe_lclosed = true ∧ fresh_pipe.pipe_rclosed = false) ∧
    ((∃ b : bytebuf, b.size = 0 ∧
      (collect_update plain_map plain_collect_env fresh_pipe {}).2 =
        { transfers := ({} : transfer_queue).transfers ++
            [{ type := fresh_pipe.type, obj_id := fresh_pipe.remote_id, special := 0,
               nblocks := 1, subtransfers := [b] }],
          blocks := ({} : transfer_queue).blocks ++ [b] }) ∧
    (collect_update plain_map plain_collect_env fresh_pipe {}).1.pipe_onlyhere = false ∧
    collect_update plain_map plain_collect_env
        (collect_update plain_map plain_collect_env fresh_pipe {}).1
        (collect_update plain_map plain_collect_env fresh_pipe {}).2 =
      collect_update plain_map plain_collect_env fresh_pipe {}) :=
  ⟨rfl, rfl, rfl, by decide,
    pipe_announce_one_empty_block plain_map plain_collect_env fresh_pipe {} rfl rfl rfl
      (by decide)⟩

/-- C13 (counterexample). For the pipe that `translate_fd` has just
registered (`pipe_onlyhere` set, nothing received, not closed) the transfer
that `collect_update` emits has `nblocks = 1`, not 0, and `*nblocks` goes from
0 to 1. -/
theorem pipe_announce_has_a_block :
    fdcat_ispipe fresh_pipe.type = true ∧ fresh_pipe.pipe_onlyhere = true ∧
    fresh_pipe.pipe_recv.used = 0 ∧ fresh_pipe.pipe_lclosed = false ∧
    (collect_update plain_map plain_collect_env fresh_pipe {}).2.transfers.map
      (fun tf => tf.nblocks) = [1] ∧
    (collect_update plain_map plain_collect_env fresh_pipe {}).2.nblocks = 1 := by
  decide

/-- C14 (witness). A pipe that was closed locally and not remotely: the
transfer carries `pipeclose = 1`, and the sender's `pipe_fd` becomes `-2` and
`pipe_rclosed` true. -/
theorem pipe_close_propagates_witness :
    fdcat_ispipe closing_pipe.type = true ∧
    ((∃ tf ∈ (collect_update plain_map plain_collect_env closing_pipe {}).2.transfers.drop
          ({} : transfer_queue).transfers.length, tf.special = 1) ↔
      (closing_pipe.pipe_lclosed = true ∧ closing_pipe.pipe_rclosed = false)) ∧
    (collect_update plain_map plain_collect_env closing_pipe {}).1.pipe_fd = -2 ∧
    (collect_update plain_map plain_collect_env closing_pipe {}).1.pipe_rclosed = true :=
  ⟨rfl, (pipe_close_propagates plain_map plain_collect_env closing_pipe {} rfl).1,
    ((pipe_close_propagates plain_map plain_collect_env closing_pipe {} rfl).2 ⟨rfl, rfl⟩).1,
    ((pipe_close_propagates plain_map plain_collect_env closing_pipe {} rfl).2 ⟨rfl, rfl⟩).2.1⟩

/-- C15 (witness). A write queue of capacity 4 holding two bytes receives a
block of three bytes. -/
theorem pipe_write_queue_append_witness :
    get_shadow_for_rid queued_pipe_map three_byte_transfer.obj_id = some queued_pipe ∧
    fdcat_ispipe queued_pipe.type = true ∧ pipe_buffer_valid queued_pipe.pipe_send ∧
    ∃ (sfd1 : shadow_fd) (d1 : List Nat) (k : Nat),
      get_shadow_for_rid (apply_update queued_pipe_map plain_update_env three_byte_transfer).map
        three_byte_transfer.obj_id = some sfd1 ∧
      sfd1.pipe_send.data = some d1 ∧
      d1.take (queued_pipe.pipe_send.used.toNat + (first_block three_byte_transfer).size) =
        (queued_pipe.pipe_send.data.getD []).take queued_pipe.pipe_send.used.toNat ++
          bytes_of_mem (first_block three_byte_transfer).data
            (first_block three_byte_transfer).size ∧
      sfd1.pipe_send.used =
        queued_pipe.pipe_send.used + ((first_block three_byte_transfer).size : Int) ∧
      sfd1.pipe_send.size = max queued_pipe.pipe_send.size 1024 * 2 ^ k ∧
      (∀ j, j < k → max queued_pipe.pipe_send.size 1024 * 2 ^ j < sfd1.pipe_send.used) ∧
      max sfd1.pipe_send.used 1024 ≤ sfd1.pipe_send.size ∧
      (d1.length : Int) = sfd1.pipe_send.size ∧
      sfd1.pipe_writable = true ∧
      sfd1.pipe_rclosed =
        (decide (three_byte_transfer.special ≠ 0) || queued_pipe.pipe_rclosed) ∧
      (∀ fuel, sfd1.pipe_send.used.toNat ≤ fuel →
        grow_pipe_send sfd1.pipe_send.used fuel (max queued_pipe.pipe_send.size 1024) =
          sfd1.pipe_send.size) :=
  have hv : pipe_buffer_valid queued_pipe.pipe_send := ⟨by decide, by decide, rfl⟩
  ⟨rfl, rfl, hv,
    pipe_write_queue_append queued_pipe_map plain_update_env three_byte_transfer queued_pipe
      rfl rfl hv⟩

/-- C16 (witness). A transfer of type `FDC_PIPE_IR` for a pipe of type
`FDC_PIPE_IR`: the error is logged. -/
theorem pipe_type_mismatch_only_logged_witness :
    get_shadow_for_rid reading_pipe_map same_direction_transfer.obj_id = some reading_pipe ∧
    fdcat_ispipe reading_pipe.type = true ∧
    wp_error.type_contramismatch ∈
      (apply_update reading_pipe_map plain_update_env same_direction_transfer).errors :=
  ⟨rfl, rfl,
    (pipe_type_mismatch_only_logged reading_pipe_map plain_update_env same_direction_transfer
      reading_pipe rfl rfl).1.2 (by decide)⟩

/-- C16 (counterexample). A transfer of type `FDC_PIPE_IR` with three bytes
and the close flag, applied to an existing pipe of type `FDC_PIPE_IR` (not one
of the three accepted pairs) with an empty write queue: the three bytes are
queued, `pipe_writable` and `pipe_rclosed` are set. -/
theorem mismatched_pipe_transfer_applied :
    get_shadow_for_rid reading_pipe_map same_direction_transfer.obj_id = some reading_pipe ∧
    reading_pipe.type = fdcat_t.FDC_PIPE_IR ∧
    same_direction_transfer.type = fdcat_t.FDC_PIPE_IR ∧
    (reading_pipe.pipe_send.used, reading_pipe.pipe_writable, reading_pipe.pipe_rclosed) =
      (0, false, false) ∧
    (get_shadow_for_rid (apply_update reading_pipe_map plain_update_env
        same_direction_transfer).map 5).map
      (fun s => (s.pipe_send.used, s.pipe_send.data.map (fun d => d.take 3),
        s.pipe_writable, s.pipe_rclosed)) =
      some (3, some [104, 105, 10], true, true) := by
  refine ⟨rfl, rfl, rfl, rfl, ?_⟩
  decide

/-- The round trip of C18 at a size that is not a multiple of 8.  A file of
12 bytes is sent to an empty peer; then block 0 changes from 5 to 7 and the
file is marked damaged.  The second `collect_update` brings the sender's
mirror to block 7 followed by the old trailing bytes and emits a diff of 16
bytes without tail; `apply_update` on the peer copies the four bytes that
follow the diff in its buffer over the trailing bytes of the peer's mirror,
which become 0. -/
theorem odd_size_mirrors_diverge :
    ((collect_update plain_map plain_collect_env odd_file {}).2.transfers.map
      (fun tf1 =>
        ((collect_update plain_map plain_collect_env
            (edit_file (collect_update plain_map plain_collect_env odd_file {}).1
              (store (store zero_mem 0 7) 1 67305985)) {}).1.mem_mirror.map
          (fun m => (m 0, m 1)),
         (collect_update plain_map plain_collect_env
            (edit_file (collect_update plain_map plain_collect_env odd_file {}).1
              (store (store zero_mem 0 7) 1 67305985)) {}).2.transfers.map
          (fun tf2 =>
            ((first_block tf2).size,
             (get_shadow_for_rid
               (apply_update (apply_update plain_peer_map plain_update_env tf1).map
                 plain_update_env tf2).map odd_file.remote_id).map
               (fun p => p.mem_mirror.map (fun m => (m 0, m 1)))))))) =
      [(some (7, 67305985), [(16, some (some (7, 0)))])] := by
  rfl

theorem three_covers_one : damage_covers one_interval_damage three_interval_damage := by
  intro a h
  obtain ⟨ei, hmem, r, hr, h1, h2⟩ := h
  refine ⟨⟨0, 24, 1, 0⟩, List.mem_singleton.mpr rfl, 0, by decide, ?_, ?_⟩
  · simp
  · simp only [three_interval_damage, List.mem_cons, List.mem_singleton, List.not_mem_nil,
      or_false] at hmem
    rcases hmem with rfl | rfl | rfl <;> simp only [] at hr h1 h2 ⊢ <;> omega

theorem one_covers_three : damage_covers three_interval_damage one_interval_damage := by
  intro a h
  obtain ⟨ei, hmem, r, hr, h1, h2⟩ := h
  simp only [one_interval_damage, List.mem_singleton] at hmem
  subst hmem
  simp only [] at hr h1 h2
  have hr0 : r = 0 := by omega
  subst hr0
  by_cases ha : a < 8
  · exact ⟨⟨0, 8, 1, 0⟩, by simp [three_interval_damage], 0, by decide, by simp, by simpa using ha⟩
  · by_cases hb : a < 16
    · exact ⟨⟨8, 8, 1, 0⟩, by simp [three_interval_damage], 0, by decide,
        by simp; omega, by simp; omega⟩
    · exact ⟨⟨16, 8, 1, 0⟩, by simp [three_interval_damage], 0, by decide,
        by simp; omega, by simp; omega⟩

theorem three_in_range : damage_in_range three_interval_damage := by
  intro ei hmem r hr
  simp only [List.mem_cons, List.mem_singleton, List.not_mem_nil, or_false] at hmem
  rcases hmem with rfl | rfl | rfl <;> simp only [] at hr ⊢ <;> omega

theorem one_in_range : damage_in_range one_interval_damage := by
  intro ei hmem r hr
  simp only [List.mem_singleton] at hmem
  subst hmem
  simp only [] at hr ⊢
  omega

theorem three_nonempty : damage_nonempty three_interval_damage := by
  intro ei hmem
  simp only [List.mem_cons, List.mem_singleton, List.not_mem_nil, or_false] at hmem
  rcases hmem with rfl | rfl | rfl <;> decide

/-- C19 (witness). A buffer of 24 bytes whose blocks 0 and 2 changed, with
the damage `[0, 8), [8, 16), [16, 24)` as `d1` and `[0, 24)` as `d2`. -/
theorem damage_monotone_on_changed_blocks_witness :
    (24 : Nat) < 2 ^ 31 ∧ domain_aligned 0 SIZE_MAX ∧ (0 : Nat) < 2 ^ 31 ∧
    damage_in_range three_interval_damage ∧ damage_in_range one_interval_damage ∧
    damage_nonempty three_interval_damage ∧
    damage_covers one_interval_damage three_interval_damage ∧
    (∀ k, zero_mem k ≠ (store (store zero_mem 0 5) 2 6) k →
      covered (header_ranges 24
        (construct_diff 24 three_interval_damage 0 SIZE_MAX zero_mem
          (store (store zero_mem 0 5) 2 6) zero_mem).diffsize
        (construct_diff 24 three_interval_damage 0 SIZE_MAX zero_mem
          (store (store zero_mem 0 5) 2 6) zero_mem).diff) k = true →
      covered (header_ranges 24
        (construct_diff 24 one_interval_damage 0 SIZE_MAX zero_mem
          (store (store zero_mem 0 5) 2 6) zero_mem).diffsize
        (construct_diff 24 one_interval_damage 0 SIZE_MAX zero_mem
          (store (store zero_mem 0 5) 2 6) zero_mem).diff) k = true) :=
  have hal : domain_aligned 0 SIZE_MAX := ⟨by decide, Or.inr rfl⟩
  ⟨by decide, hal, by decide, three_in_range, one_in_range, three_nonempty, three_covers_one,
    (damage_monotone_on_changed_blocks 24 three_interval_damage one_interval_damage 0 SIZE_MAX
      zero_mem (store (store zero_mem 0 5) 2 6) zero_mem zero_mem (by decide) hal (by decide)
      three_in_range one_in_range three_nonempty three_covers_one).1⟩

/-- C19 (counterexample). A buffer of 24 zero bytes whose blocks 0 and 2
changed (block 1 did not).  The damage `[0, 8), [8, 16), [16, 24)` covers
every byte that the damage `[0, 24)` covers.  The diff for `[0, 24)` has the
single header range `(0, 3)`, which covers block 1; the diff for the three
intervals has the ranges `(0, 1)` and `(2, 3)`, which do not. -/
theorem split_damage_shrinks_coverage :
    damage_covers three_interval_damage one_interval_damage ∧
    covered (header_ranges 24
      (construct_diff 24 one_interval_damage 0 SIZE_MAX zero_mem
        (store (store zero_mem 0 5) 2 6) zero_mem).diffsize
      (construct_diff 24 one_interval_damage 0 SIZE_MAX zero_mem
        (store (store zero_mem 0 5) 2 6) zero_mem).diff) 1 = true ∧
    covered (header_ranges 24
      (construct_diff 24 three_interval_damage 0 SIZE_MAX zero_mem
        (store (store zero_mem 0 5) 2 6) zero_mem).diffsize
      (construct_diff 24 three_interval_damage 0 SIZE_MAX zero_mem
        (store (store zero_mem 0 5) 2 6) zero_mem).diff) 1 = false :=
  ⟨one_covers_three, by decide, by decide⟩

/-- C20 (witness). The diff with a valid segment followed by an invalid
header, applied to 16 zero bytes. -/
theorem invalid_diff_keeps_valid_segments_witness :
    (apply_diff 16 zero_mem 24 half_valid_diff).status ≠ apply_status.applied ∧
    (apply_diff 16 zero_mem 24 half_valid_diff).base =
      (if (apply_diff 16 zero_mem 24 half_valid_diff).status = apply_status.trailing_mismatch
       then zero_mem
       else apply_segments half_valid_diff
         (accepted_segments (16 / 8) (24 / 8) half_valid_diff (24 / 8) 0) zero_mem) :=
  ⟨by decide, (invalid_diff_keeps_valid_segments 16 zero_mem 24 half_valid_diff (by decide)).1⟩

/-- C20 (counterexample). A buffer of 16 zero bytes and a diff of 24 bytes:
the header `(0, 1)` with payload 7, then the header `(1, 1)`, which is invalid
(`nfrom >= nto`).  `apply_diff` takes the invalid-range return, and block 0 of
`base` is 7, no longer 0. -/
theorem invalid_diff_partially_applied :
    (apply_diff 16 zero_mem 24 half_valid_diff).status = apply_status.invalid_range ∧
    zero_mem 0 = 0 ∧ (apply_diff 16 zero_mem 24 half_valid_diff).base 0 = 7 := by
  decide
/-! ## The shape of the segments of one scan -/

theorem copy_window_shape (base0 changed : Mem) (mx lo : Nat) :
    ∀ (fuel : Nat) (s : scan_state) (n : Nat), mx - s.i ≤ fuel → s.i ≤ mx →
      (∀ k, s.i ≤ k → s.base k = base0 k) → lo + n + 1 ≤ s.i → n ≤ 5 →
      base0 (s.i - n - 1) ≠ changed (s.i - n - 1) →
      (∀ k, s.i - n ≤ k → k < s.i → base0 k = changed k) →
      (∀ k, lo ≤ k → k + 5 ≤ s.i - n → ∃ j, k ≤ j ∧ j < k + 5 ∧ base0 j ≠ changed j) →
      lo + (copy_window changed mx fuel s n).2 + 1 ≤ (copy_window changed mx fuel s n).1.i ∧
      (copy_window changed mx fuel s n).2 ≤ 5 ∧
      base0 ((copy_window changed mx fuel s n).1.i - (copy_window changed mx fuel s n).2 - 1) ≠
        changed ((copy_window changed mx fuel s n).1.i - (copy_window changed mx fuel s n).2 - 1) ∧
      (∀ k, lo ≤ k →
        k + 5 ≤ (copy_window changed mx fuel s n).1.i - (copy_window changed mx fuel s n).2 →
        ∃ j, k ≤ j ∧ j < k + 5 ∧ base0 j ≠ changed j) ∧
      ((copy_window changed mx fuel s n).1.i < mx → (copy_window changed mx fuel s n).2 = 5) := by
  intro fuel
  induction fuel with
  | zero =>
    intro s n hf hle hb hlo hn h1 h2 h3
    have hs : copy_window changed mx 0 s n = (s, n) := rfl
    rw [hs]
    dsimp only
    exact ⟨hlo, hn, h1, h3, fun h => by omega⟩
  | succ fuel ih =>
    intro s n hf hle hb hlo hn h1 h2 h3
    by_cases hcond : s.i < mx ∧ n ≤ DIFF_WINDOW_SIZE
    · have hs : copy_window changed mx (fuel + 1) s n = copy_window changed mx fuel
          { i := s.i + 1, changed_val := changed s.i, base_val := s.base s.i,
            base := store s.base s.i (changed s.i),
            diff := store s.diff s.cursor (changed s.i),
            cursor := s.cursor + 1 }
          ((n + 1) * (if s.base s.i = changed s.i then 1 else 0)) := by
        simp only [copy_window, if_pos hcond]
      rw [hs]
      have hn4 : n ≤ 4 := hcond.2
      have hbi : s.base s.i = base0 s.i := hb s.i (le_refl _)
      by_cases heq : s.base s.i = changed s.i
      · rw [if_pos heq, Nat.mul_one]
        apply ih _ _ (by dsimp only; omega) (by dsimp only; omega)
        · intro k hk; dsimp only at hk ⊢
          rw [store_other _ _ _ _ (by omega)]; exact hb k (by omega)
        · dsimp only; omega
        · omega
        · dsimp only
          have e : s.i + 1 - (n + 1) - 1 = s.i - n - 1 := by omega
          rw [e]; exact h1
        · intro k hk1 hk2
          dsimp only at hk1 hk2
          by_cases hk : k = s.i
          · rw [hk, ← hbi]; exact heq
          · exact h2 k (by omega) (by omega)
        · intro k hk1 hk2
          dsimp only at hk2
          exact h3 k hk1 (by omega)
      · rw [if_neg heq, Nat.mul_zero]
        apply ih _ _ (by dsimp only; omega) (by dsimp only; omega)
        · intro k hk; dsimp only at hk ⊢
          rw [store_other _ _ _ _ (by omega)]; exact hb k (by omega)
        · dsimp only; omega
        · omega
        · dsimp only
          have e : s.i + 1 - 0 - 1 = s.i := by omega
          rw [e, ← hbi]; exact heq
        · intro k hk1 hk2
          dsimp only at hk1 hk2; omega
        · intro k hk1 hk2
          dsimp only at hk2
          by_cases hk : k + 5 ≤ s.i - n
          · exact h3 k hk1 hk
          · by_cases hk4 : k + 4 = s.i
            · exact ⟨s.i, by omega, by omega, by rw [← hbi]; exact heq⟩
            · exact ⟨s.i - n - 1, by omega, by omega, h1⟩
    · have hs : copy_window changed mx (fuel + 1) s n = (s, n) := by
        simp only [copy_window, if_neg hcond]
      rw [hs]
      dsimp only
      refine ⟨hlo, hn, h1, h3, fun h => ?_⟩
      unfold DIFF_WINDOW_SIZE at hcond
      omega

theorem emit_segment_strong (changed : Mem) (nb mx : Nat) (s1 : scan_state) (h1 : 1 ≤ s1.i)
    (hlt : s1.i < mx) (hc : s1.changed_val = changed (s1.i - 1))
    (hd : s1.base (s1.i - 1) ≠ changed (s1.i - 1)) :
    ∃ nto, s1.i ≤ nto ∧ nto ≤ (emit_segment changed mx s1).i ∧
      s1.i < (emit_segment changed mx s1).i ∧ (emit_segment changed mx s1).i ≤ mx ∧
      (mx ≤ nb → nb < 2 ^ 32 → segments changed nb (emit_segment changed mx s1).diff s1.cursor
        (emit_segment changed mx s1).cursor [(s1.i - 1, nto)]) ∧
      (emit_segment changed mx s1).cursor = s1.cursor + 1 + (nto - (s1.i - 1)) ∧
      (∀ k, k < s1.cursor → (emit_segment changed mx s1).diff k = s1.diff k) ∧
      (∀ k, (emit_segment changed mx s1).base k =
        if s1.i - 1 ≤ k ∧ k < (emit_segment changed mx s1).i then changed k else s1.base k) ∧
      (∀ k, nto ≤ k → k < (emit_segment changed mx s1).i → s1.base k = changed k) ∧
      (emit_segment changed mx s1).changed_val = changed ((emit_segment changed mx s1).i - 1) ∧
      ((emit_segment changed mx s1).i < mx →
        (emit_segment changed mx s1).base_val = (emit_segment changed mx s1).changed_val ∧
        (emit_segment changed mx s1).i = nto + 5) ∧
      (∀ k, s1.cursor + 2 + ((emit_segment changed mx s1).i - s1.i) ≤ k →
        (emit_segment changed mx s1).diff k = s1.diff k) ∧
      segment_shape s1.base changed (s1.i - 1, nto) := by
  obtain ⟨a1, a2, a3, a4, a5, a6, a7, a8, a9, a10, -⟩ := copy_window_spec changed mx mx
    { s1 with base := store s1.base (s1.i - 1) s1.changed_val,
              diff := store (store s1.diff s1.cursor (u64 ((s1.i - 1) <<< 32)))
                (s1.cursor + 1) s1.changed_val,
              cursor := s1.cursor + 2 } 0 (by dsimp only; omega) (by dsimp only; omega)
  obtain ⟨b1, b2, b3, b4, b5⟩ := copy_window_shape s1.base changed mx (s1.i - 1) mx
    { s1 with base := store s1.base (s1.i - 1) s1.changed_val,
              diff := store (store s1.diff s1.cursor (u64 ((s1.i - 1) <<< 32)))
                (s1.cursor + 1) s1.changed_val,
              cursor := s1.cursor + 2 } 0 (by dsimp only; omega) (by dsimp only; omega)
    (by intro k hk; dsimp only at hk ⊢; rw [store_other _ _ _ _ (by omega)])
    (by dsimp only; omega) (by omega)
    (by dsimp only; exact hd)
    (by intro k hk1 hk2; dsimp only at hk1 hk2; omega)
    (by intro k hk1 hk2; dsimp only at hk2; omega)
  dsimp only at a1 a2 a3 a4 a5 a6 a7 a8 a9 a10 b1 b2 b3 b4 b5
  have hadv := a10 (by unfold DIFF_WINDOW_SIZE; omega) hlt
  obtain ⟨a9a, a9b⟩ := a9 hadv
  unfold DIFF_WINDOW_SIZE at a8
  unfold emit_segment
  dsimp only
  generalize copy_window changed mx mx
    { s1 with base := store s1.base (s1.i - 1) s1.changed_val,
              diff := store (store s1.diff s1.cursor (u64 ((s1.i - 1) <<< 32)))
                (s1.cursor + 1) s1.changed_val,
              cursor := s1.cursor + 2 } 0 = w at *
  have hhdr : w.1.diff s1.cursor = u64 ((s1.i - 1) <<< 32) := by
    rw [a5 s1.cursor, if_neg (by omega), store_other _ _ _ _ (by omega), store_same]
  refine ⟨w.1.i - w.2, by omega, by omega, hadv, a2, ?_, by omega, ?_, ?_, ?_, a9a, ?_, ?_, ?_⟩
  · intro hmx hnb
    obtain ⟨hd1, hd2⟩ := header_decode (s1.i - 1) (w.1.i - w.2) (by omega) (by omega)
    rw [low_bits_eq] at hd2
    have e : w.1.cursor - w.2 = s1.cursor + 1 + (w.1.i - w.2 - (s1.i - 1)) := by omega
    rw [e]
    refine segments.cons _ _ _ _ _ (by omega) (by omega) ?_ ?_ ?_ (segments.nil _)
    · rw [store_same, hhdr]; exact hd1
    · rw [store_same, hhdr]; exact hd2
    · intro k hk
      rw [store_other _ _ _ _ (by omega), a5]
      by_cases hk0 : k = 0
      · subst hk0
        rw [if_neg (by omega), store_same, hc]; rfl
      · rw [if_pos (by omega)]
        congr 1; omega
  · intro k hk
    rw [store_other _ _ _ _ (by omega), a5, if_neg (by omega), store_other _ _ _ _ (by omega),
      store_other _ _ _ _ (by omega)]
  · intro k
    rw [a4 k]
    by_cases hk : s1.i ≤ k ∧ k < w.1.i
    · rw [if_pos hk, if_pos (by omega)]
    · rw [if_neg hk]
      by_cases hk2 : k = s1.i - 1
      · rw [hk2, store_same, if_pos (by omega), hc]
      · rw [store_other _ _ _ _ hk2, if_neg (by omega)]
  · intro k hk1 hk2
    have := a7 k (by omega) hk1 hk2
    rwa [store_other _ _ _ _ (by omega)] at this
  · intro hlt2
    have h5 := b5 hlt2
    exact ⟨a9b (by omega), by omega⟩
  · intro k hk
    rw [store_other _ _ _ _ (by omega), a5, if_neg (by omega), store_other _ _ _ _ (by omega),
      store_other _ _ _ _ (by omega)]
  · refine ⟨hd, ?_, ?_⟩
    · dsimp only
      have e : w.1.i - w.2 - 1 = w.1.i - w.2 - 1 := rfl
      exact b3
    · intro k hk1 hk2
      exact b4 k hk1 hk2

theorem segments_words_cons (q : Nat × Nat) (rs : List (Nat × Nat)) :
    segments_words (q :: rs) = 1 + (q.2 - q.1) + segments_words rs := by
  simp [segments_words]

theorem segments_words_append (rs1 rs2 : List (Nat × Nat)) :
    segments_words (rs1 ++ rs2) = segments_words rs1 + segments_words rs2 := by
  simp [segments_words]

theorem diff_segments_strong (changed : Mem) (nb mx : Nat) :
    ∀ (fuel : Nat) (s : scan_state), mx - s.i ≤ fuel → 1 ≤ s.i → s.i < mx →
      s.changed_val = changed (s.i - 1) → s.base_val = s.base (s.i - 1) →
      ∃ rs e, segments_shape_post changed nb mx s (diff_segments changed mx fuel s) rs e := by
  intro fuel
  induction fuel with
  | zero => intro s hf h1 hlt; omega
  | succ fuel ih =>
    intro s hf h1 hlt hc hb
    obtain ⟨b1, b2, b3, b4, b5, b6, b7, b8, b9⟩ :=
      scan_equal_spec changed mx mx s (by omega) h1 (by omega) hc hb
    by_cases hend : (scan_equal changed mx mx s).i = mx
    · have hs : diff_segments changed mx (fuel + 1) s = (scan_equal changed mx mx s, true) := by
        simp only [diff_segments, if_pos hlt, if_pos hend]
      rw [hs]
      refine ⟨[], mx - 1, ?_, ?_, ?_, ?_, ?_, ?_, ?_, ?_, ?_, ?_, ?_, ?_, ?_⟩
      · intro _ _; dsimp only; rw [b2, b3]; exact segments.nil _
      · dsimp only; rw [b3]; simp [segments_words]
      · intro q hq; simp at hq
      · intro k _; dsimp only; rw [b2]
      · intro k; dsimp only; rw [b1]
        by_cases hk : s.i - 1 ≤ k ∧ k < mx - 1
        · rw [if_pos hk]; exact b8 k hk.1 (by omega)
        · rw [if_neg hk]
      · intro k hk1 hk2 _; exact b8 k hk1 (by omega)
      · intro _; dsimp only; rw [b6, b7, hend]; exact ⟨rfl, rfl⟩
      · dsimp only; rw [b3]; omega
      · intro k _; dsimp only; rw [b2]
      · simp
      · intro q hq; simp at hq
      · exact List.Pairwise.nil
      · intro q hq; simp at hq
    · have hs : diff_segments changed mx (fuel + 1) s =
          diff_segments changed mx fuel (emit_segment changed mx (scan_equal changed mx mx s)) := by
        simp only [diff_segments, if_pos hlt, if_neg hend]
      rw [hs]
      have hlt1 : (scan_equal changed mx mx s).i < mx := by omega
      have hdif : (scan_equal changed mx mx s).base ((scan_equal changed mx mx s).i - 1) ≠
          changed ((scan_equal changed mx mx s).i - 1) := by
        have := b9 hlt1
        rw [b6, b7] at this
        rw [b1]
        exact fun h => this h.symm
      obtain ⟨nto, c1, c2, c3, c4, c5, c6, c7, c8, c9, c10, c11, c12, c13⟩ :=
        emit_segment_strong changed nb mx (scan_equal changed mx mx s) (by omega) hlt1 b6 hdif
      rw [b3] at c5 c6 c7 c12
      rw [b2] at c7 c12
      rw [b1] at c8 c9 c13
      generalize scan_equal changed mx mx s = s1 at *
      generalize emit_segment changed mx s1 = s3 at *
      by_cases hlt3 : s3.i < mx
      · obtain ⟨c11a, c11b⟩ := c11 hlt3
        have hb3 : s3.base_val = s3.base (s3.i - 1) := by
          rw [c11a, c10, c8, if_pos (by omega)]
        obtain ⟨rs, e, d1, d2, d3, d4, d5, d6, d7, d8, d9, d10, d11, d12, d13⟩ :=
          ih s3 (by omega) (by omega) hlt3 c10 hb3
        have he : mx - 1 ≤ e ∧ e ≤ mx := by
          rw [d10]; split <;> omega
        have hsync : s3.base (s3.i - 1) = changed (s3.i - 1) := by
          rw [c8, if_pos (by omega)]
        have hq1 : ∀ q ∈ rs, s3.i ≤ q.1 := by
          intro q hq
          have g1 := (d3 q hq).1
          have g2 := (d11 q hq).1
          by_contra hcon
          have : q.1 = s3.i - 1 := by omega
          rw [this] at g2
          exact g2 hsync
        have hsame : ∀ k, s3.i ≤ k → s3.base k = s.base k := by
          intro k hk; rw [c8, if_neg (by omega)]
        refine ⟨(s1.i - 1, nto) :: rs, e, ?_, ?_, ?_, ?_, ?_, ?_, ?_, ?_, ?_, d10, ?_, ?_, ?_⟩
        · intro hmx hnb
          have hseg : segments changed nb (diff_segments changed mx fuel s3).1.diff s.cursor
              s3.cursor [(s1.i - 1, nto)] :=
            segments_congr (c5 hmx hnb) (fun k _ hk => d4 k hk)
          exact segments_append hseg (d1 hmx hnb)
        · rw [d2, c6, segments_words_cons]; dsimp only; omega
        · intro q hq
          rcases List.mem_cons.mp hq with h | h
          · subst h; dsimp only; omega
          · have := d3 q h; omega
        · intro k hk; rw [d4 k (by omega)]; exact c7 k hk
        · intro k
          rw [d5 k, c8 k]
          by_cases hk : s.i - 1 ≤ k ∧ k < e
          · rw [if_pos hk]
            by_cases hk2 : s3.i - 1 ≤ k ∧ k < e
            · rw [if_pos hk2]
            · rw [if_neg hk2]
              by_cases hk3 : s1.i - 1 ≤ k ∧ k < s3.i
              · rw [if_pos hk3]
              · rw [if_neg hk3]; exact b8 k hk.1 (by omega)
          · rw [if_neg hk, if_neg (by omega), if_neg (by omega)]
        · intro k hk1 hk2 hcov
          rw [covered_cons, Bool.or_eq_false_iff, decide_eq_false_iff_not] at hcov
          by_cases g1 : k < s1.i - 1
          · exact b8 k hk1 g1
          · by_cases g2 : k < nto
            · exact absurd ⟨by omega, g2⟩ hcov.1
            · by_cases g3 : k < s3.i
              · exact c9 k (by omega) g3
              · have := d6 k (by omega) hk2 hcov.2
                rwa [c8 k, if_neg (by omega)] at this
        · intro hce
          obtain ⟨g1, g2⟩ := d7 hce
          refine ⟨g1, ?_⟩
          rw [g2, c8, if_neg (by omega)]
        · omega
        · intro k hk; rw [d9 k (by omega)]; exact c12 k (by omega)
        · intro q hq
          rcases List.mem_cons.mp hq with h | h
          · subst h; exact c13
          · obtain ⟨g1, g2, g3⟩ := d11 q h
            have hq := hq1 q h
            have hr := d3 q h
            refine ⟨?_, ?_, ?_⟩
            · rw [← hsame _ hq]; exact g1
            · rw [← hsame _ (by omega)]; exact g2
            · intro k hk1 hk2
              obtain ⟨j, j1, j2, j3⟩ := g3 k hk1 hk2
              exact ⟨j, j1, j2, by rw [← hsame _ (by omega)]; exact j3⟩
        · refine List.Pairwise.cons ?_ d12
          intro q hq
          have := hq1 q hq
          dsimp only; omega
        · intro q hq hce
          rcases List.mem_cons.mp hq with h | h
          · subst h; dsimp only; omega
          · exact d13 q h hce
      · rw [diff_segments_done changed mx fuel s3 hlt3]
        have hi3 : s3.i = mx := by omega
        refine ⟨[(s1.i - 1, nto)], mx, c5, ?_, ?_, c7, ?_, ?_, ?_, ?_, ?_, ?_, ?_, ?_, ?_⟩
        · dsimp only; rw [c6, segments_words_cons]; simp [segments_words]; omega
        · intro q hq
          rw [List.mem_singleton] at hq
          subst hq; dsimp only; omega
        · intro k
          dsimp only
          rw [c8 k, hi3]
          by_cases hk : s.i - 1 ≤ k ∧ k < mx
          · rw [if_pos hk]
            by_cases hk3 : s1.i - 1 ≤ k ∧ k < mx
            · rw [if_pos hk3]
            · rw [if_neg hk3]; exact b8 k hk.1 (by omega)
          · rw [if_neg hk, if_neg (by omega)]
        · intro k hk1 hk2 hcov
          rw [covered_cons, Bool.or_eq_false_iff, decide_eq_false_iff_not] at hcov
          by_cases g1 : k < s1.i - 1
          · exact b8 k hk1 g1
          · by_cases g2 : k < nto
            · exact absurd ⟨by omega, g2⟩ hcov.1
            · exact c9 k (by omega) (by omega)
        · intro h; simp at h
        · dsimp only; omega
        · intro k hk; dsimp only; exact c12 k (by omega)
        · simp
        · intro q hq
          rw [List.mem_singleton] at hq
          subst hq; exact c13
        · exact List.pairwise_singleton _ _
        · intro q hq h; simp at h

theorem last_block_shape (base changed : Mem) (mx : Nat)
    (h : base (mx - 1) ≠ changed (mx - 1)) : segment_shape base changed (mx - 1, mx) := by
  refine ⟨h, h, ?_⟩
  intro k hk1 hk2
  dsimp only at hk1 hk2
  omega

theorem run_interval_diff_strong (changed base diff : Mem) (c nb mn mx : Nat) :
    ∃ rs, (mx ≤ nb → nb < 2 ^ 32 →
        segments changed nb (run_interval_diff mn mx changed base diff c).diff c
          (run_interval_diff mn mx changed base diff c).cursor rs) ∧
      (run_interval_diff mn mx changed base diff c).cursor = c + segments_words rs ∧
      (∀ q ∈ rs, mn ≤ q.1 ∧ q.1 < q.2 ∧ q.2 ≤ mx) ∧
      (∀ k, k < c → (run_interval_diff mn mx changed base diff c).diff k = diff k) ∧
      (∀ k, (run_interval_diff mn mx changed base diff c).base k =
        if mn ≤ k ∧ k < mx then changed k else base k) ∧
      (∀ k, mn ≤ k → k < mx → covered rs k = false → base k = changed k) ∧
      (run_interval_diff mn mx changed base diff c).cursor ≤ c + (mx - mn) + 1 ∧
      (∀ k, c + (mx - mn) + 1 ≤ k →
        (run_interval_diff mn mx changed base diff c).diff k = diff k) ∧
      (∀ q ∈ rs, segment_shape base changed q) ∧
      rs.Pairwise (fun q r => q.2 + 5 ≤ r.1) := by
  by_cases hlt : mn + 1 < mx
  · obtain ⟨rs, e, d1, d2, d3, d4, d5, d6, d7, d8, d9, d10, d11, d12, d13⟩ :=
      diff_segments_strong changed nb mx mx
        { i := mn + 1, changed_val := if mn < mx then changed mn else 0,
          base_val := if mn < mx then base mn else 0, base := base, diff := diff, cursor := c }
        (by dsimp only; omega) (by dsimp only; omega) hlt
        (by dsimp only; rw [if_pos (by omega)]; rfl)
        (by dsimp only; rw [if_pos (by omega)]; rfl)
    dsimp only at d1 d2 d3 d4 d5 d6 d7 d8 d9 d11
    simp only [Nat.add_sub_cancel] at d3 d5 d6 d8 d9
    unfold run_interval_diff
    dsimp only
    generalize diff_segments changed mx mx
        { i := mn + 1, changed_val := if mn < mx then changed mn else 0,
          base_val := if mn < mx then base mn else 0, base := base, diff := diff, cursor := c } = R at *
    by_cases hce : R.2 = true
    · rw [if_pos hce] at d10
      obtain ⟨g1, g2⟩ := d7 hce
      subst d10
      have hbase : R.1.base (mx - 1) = base (mx - 1) := by
        rw [d5, if_neg (by omega)]
      by_cases hne : R.1.changed_val ≠ R.1.base_val
      · rw [if_pos ⟨Or.inl hce, hne⟩]
        dsimp only
        have hdif : base (mx - 1) ≠ changed (mx - 1) := by
          rw [← g1, ← g2]; exact fun h => hne h.symm
        refine ⟨rs ++ [(mx - 1, mx)], ?_, ?_, ?_, ?_, ?_, ?_, by omega, ?_, ?_, ?_⟩
        · intro hmx hnb
          have e1 := d1 hmx hnb
          apply @segments_append changed nb _ c R.1.cursor
          · apply segments_congr e1
            intro k _ hk
            rw [store_other _ _ _ _ (by omega), store_other _ _ _ _ (by omega)]
          · rw [g1]
            exact last_block_segment changed nb mx (by omega) hmx hnb _ _
        · rw [d2, segments_words_append]
          simp [segments_words]; omega
        · intro q hq
          rcases List.mem_append.mp hq with h | h
          · have := d3 q h; omega
          · rw [List.mem_singleton] at h; subst h; dsimp only; omega
        · intro k hk
          rw [store_other _ _ _ _ (by omega), store_other _ _ _ _ (by omega)]
          exact d4 k hk
        · intro k
          by_cases hk : k = mx - 1
          · rw [hk, store_same, g1, if_pos (by omega)]
          · rw [store_other _ _ _ _ hk, d5]
            by_cases hk2 : mn ≤ k ∧ k < mx - 1
            · rw [if_pos hk2, if_pos (by omega)]
            · rw [if_neg hk2, if_neg (by omega)]
        · intro k hk1 hk2 hcov
          rw [covered_append, Bool.or_eq_false_iff] at hcov
          by_cases hk : k = mx - 1
          · have := hcov.2
            rw [covered_cons, Bool.or_eq_false_iff, decide_eq_false_iff_not] at this
            exact absurd ⟨by omega, by omega⟩ this.1
          · exact d6 k hk1 (by omega) hcov.1
        · intro k hk
          rw [store_other _ _ _ _ (by omega), store_other _ _ _ _ (by omega)]
          exact d9 k hk
        · intro q hq
          rcases List.mem_append.mp hq with h | h
          · exact d11 q h
          · rw [List.mem_singleton] at h; subst h
            exact last_block_shape base changed mx hdif
        · rw [List.pairwise_append]
          refine ⟨d12, List.pairwise_singleton _ _, ?_⟩
          intro q hq r hr
          rw [List.mem_singleton] at hr; subst hr
          have := d13 q hq hce
          dsimp only; omega
      · rw [if_neg (fun h => hne h.2)]
        dsimp only
        have heq : changed (mx - 1) = base (mx - 1) := by
          rw [← g1, ← g2]; exact not_not.mp hne
        refine ⟨rs, d1, d2, ?_, d4, ?_, ?_, by omega, d9, d11, d12⟩
        · intro q hq; have := d3 q hq; omega
        · intro k
          rw [d5]
          by_cases hk : k = mx - 1
          · rw [hk, if_neg (by omega), if_pos (by omega), heq]
          · by_cases hk2 : mn ≤ k ∧ k < mx - 1
            · rw [if_pos hk2, if_pos (by omega)]
            · rw [if_neg hk2, if_neg (by omega)]
        · intro k hk1 hk2 hcov
          by_cases hk : k = mx - 1
          · rw [hk, heq]
          · exact d6 k hk1 (by omega) hcov
    · rw [if_neg hce] at d10
      subst d10
      have hcond : ¬ ((R.2 = true ∨ mn + 1 = e) ∧ R.1.changed_val ≠ R.1.base_val) := by
        intro h; rcases h.1 with h | h
        · exact hce h
        · omega
      rw [if_neg hcond]
      dsimp only
      exact ⟨rs, d1, d2, d3, d4, d5, d6, by omega, d9, d11, d12⟩
  · have hR : diff_segments changed mx mx
        { i := mn + 1, changed_val := if mn < mx then changed mn else 0,
          base_val := if mn < mx then base mn else 0, base := base, diff := diff, cursor := c }
        = (scan_state.mk (mn + 1) (if mn < mx then changed mn else 0)
            (if mn < mx then base mn else 0) base diff c, false) :=
      diff_segments_done changed mx mx _ (by dsimp only; omega)
    unfold run_interval_diff
    dsimp only
    rw [hR]
    dsimp only
    by_cases hcond : (false = true ∨ mn + 1 = mx) ∧
        (if mn < mx then changed mn else 0) ≠ (if mn < mx then base mn else 0)
    · rw [if_pos hcond]
      dsimp only
      have hm : mn + 1 = mx := by
        rcases hcond.1 with h | h
        · exact absurd h (by simp)
        · exact h
      have hmn : mn = mx - 1 := by omega
      have hv : (if mn < mx then changed mn else 0) = changed (mx - 1) := by
        rw [if_pos (by omega), hmn]
      have hdif : base (mx - 1) ≠ changed (mx - 1) := by
        have := hcond.2
        rw [if_pos (by omega), if_pos (by omega), hmn] at this
        exact fun h => this h.symm
      rw [hv]
      refine ⟨[(mx - 1, mx)],
        fun hmx hnb => last_block_segment changed nb mx (by omega) hmx hnb _ _,
        ?_, ?_, ?_, ?_, ?_, by omega, ?_, ?_, List.pairwise_singleton _ _⟩
      · simp [segments_words]; omega
      · intro q hq; rw [List.mem_singleton] at hq; subst hq; dsimp only; omega
      · intro k hk
        rw [store_other _ _ _ _ (by omega), store_other _ _ _ _ (by omega)]
      · intro k
        by_cases hk : k = mx - 1
        · rw [hk, store_same, if_pos (by omega)]
        · rw [store_other _ _ _ _ hk, if_neg (by omega)]
      · intro k hk1 hk2 hcov
        rw [covered_cons, Bool.or_eq_false_iff, decide_eq_false_iff_not] at hcov
        exact absurd ⟨by omega, by omega⟩ hcov.1
      · intro k hk
        rw [store_other _ _ _ _ (by omega), store_other _ _ _ _ (by omega)]
      · intro q hq
        rw [List.mem_singleton] at hq; subst hq
        exact last_block_shape base changed mx hdif
    · rw [if_neg hcond]
      dsimp only
      refine ⟨[], fun _ _ => segments.nil _, by simp [segments_words], ?_, ?_, ?_, ?_,
        by omega, ?_, ?_, List.Pairwise.nil⟩
      · intro q hq; simp at hq
      · intro k _; rfl
      · intro k
        by_cases hk : mn ≤ k ∧ k < mx
        · rw [if_pos hk]
          have hk2 : k = mn := by omega
          have hm : mn + 1 = mx := by omega
          subst hk2
          by_contra hne
          apply hcond
          refine ⟨Or.inr hm, ?_⟩
          rw [if_pos (by omega), if_pos (by omega)]
          exact fun h => hne h.symm
        · rw [if_neg hk]
      · intro k hk1 hk2 _
        have hk3 : k = mn := by omega
        have hm : mn + 1 = mx := by omega
        subst hk3
        by_contra hne
        apply hcond
        refine ⟨Or.inr hm, ?_⟩
        rw [if_pos (by omega), if_pos (by omega)]
        exact fun h => hne h.symm
      · intro k _; rfl
      · intro q hq; simp at hq

theorem segments_single_inv {changed : Mem} {nb : Nat} {d : Mem} {c c2 a b : Nat}
    (h : segments changed nb d c c2 [(a, b)]) :
    d c >>> 32 = a ∧ d c % 2 ^ 32 = b ∧ ∀ k, k < b - a → d (c + 1 + k) = changed (a + k) := by
  cases h with
  | cons _ _ _ _ _ h1 h2 h3 h4 h5 h6 => exact ⟨h3, h4, h5⟩

theorem gap_short_range (rs : List (Nat × Nat)) (lo hi : Nat)
    (hp : rs.Pairwise (fun q r => q.2 + 5 ≤ r.1))
    (hr : ∀ q ∈ rs, lo ≤ q.1 ∧ q.1 < q.2 ∧ q.2 ≤ hi) (hs : hi ≤ lo + 6) :
    rs = [] ∨ ∃ q, rs = [q] := by
  match rs, hp, hr with
  | [], _, _ => exact Or.inl rfl
  | [q], _, _ => exact Or.inr ⟨q, rfl⟩
  | q :: r :: rest, hp, hr =>
    exfalso
    have h1 := hr q (List.mem_cons_self _ _)
    have h2 := hr r (List.mem_cons_of_mem _ (List.mem_cons_self _ _))
    have h3 := (List.pairwise_cons.mp hp).1 r (List.mem_cons_self _ _)
    omega

/-- A scan over a range in which `base` and `changed` agree leaves the
mirror and the cursor as they are and writes no word below the cursor. -/
theorem run_interval_diff_synced (changed base diff : Mem) (c mn mx : Nat)
    (h : ∀ k, mn ≤ k → k < mx → base k = changed k) :
    (run_interval_diff mn mx changed base diff c).base = base ∧
    (run_interval_diff mn mx changed base diff c).cursor = c ∧
    ∀ k, k < c → (run_interval_diff mn mx changed base diff c).diff k = diff k := by
  obtain ⟨rs, -, a2, a3, a4, a5, -, -, -, a9, -⟩ :=
    run_interval_diff_strong changed base diff c 0 mn mx
  have hrs : rs = [] := by
    cases rs with
    | nil => rfl
    | cons q rest =>
      exfalso
      have h1 := a3 q (List.mem_cons_self _ _)
      exact (a9 q (List.mem_cons_self _ _)).1 (h q.1 h1.1 (by omega))
  subst hrs
  refine ⟨?_, by simpa [segments_words] using a2, a4⟩
  funext k
  rw [a5 k]
  split
  · rename_i hk; exact (h k hk.1 hk.2).symm
  · rfl

/-- A scan leaves the blocks of its range equal to `changed` and the other
blocks as they were, whatever the range. -/
theorem run_interval_diff_base (changed base diff : Mem) (c mn mx : Nat) (k : Nat) :
    (run_interval_diff mn mx changed base diff c).base k =
      if mn ≤ k ∧ k < mx then changed k else base k := by
  obtain ⟨rs, -, -, -, -, a5, -⟩ := run_interval_diff_strong changed base diff c 0 mn mx
  exact a5 k

/-- A scan over a range whose only differing block is `k`: one segment
`(k, k + 1)` of two words. -/
theorem run_interval_diff_one_block (changed base diff : Mem) (c nb mn mx k : Nat)
    (hmx : mx ≤ nb) (hnb : nb < 2 ^ 32) (hk1 : mn ≤ k) (hk2 : k < mx)
    (hd : base k ≠ changed k) (hsame : ∀ j, mn ≤ j → j < mx → j ≠ k → base j = changed j) :
    (run_interval_diff mn mx changed base diff c).cursor = c + 2 ∧
    (run_interval_diff mn mx changed base diff c).diff c >>> 32 = k ∧
    (run_interval_diff mn mx changed base diff c).diff c % 2 ^ 32 = k + 1 ∧
    (run_interval_diff mn mx changed base diff c).diff (c + 1) = changed k ∧
    (∀ j, j < c → (run_interval_diff mn mx changed base diff c).diff j = diff j) ∧
    (∀ j, (run_interval_diff mn mx changed base diff c).base j =
      if j = k then changed k else base j) := by
  obtain ⟨rs, a1, a2, a3, a4, a5, a6, -, -, a9, a10⟩ :=
    run_interval_diff_strong changed base diff c nb mn mx
  have hq : ∀ q ∈ rs, q = (k, k + 1) := by
    intro q hq
    obtain ⟨s1, s2, -⟩ := a9 q hq
    have hr := a3 q hq
    have e1 : q.1 = k := by
      by_contra hne
      exact s1 (hsame q.1 hr.1 (by omega) hne)
    have e2 : q.2 - 1 = k := by
      by_contra hne
      exact s2 (hsame (q.2 - 1) (by omega) (by omega) hne)
    have e3 : q.2 = k + 1 := by omega
    exact Prod.ext e1 e3
  have hrs : rs = [(k, k + 1)] := by
    match rs, a6, a10, hq with
    | [], a6, _, _ =>
      exact absurd (a6 k hk1 hk2 rfl) hd
    | [q], _, _, hq => rw [hq q (List.mem_cons_self _ _)]
    | q :: r :: rest, _, a10, hq =>
      exfalso
      have h1 := hq q (List.mem_cons_self _ _)
      have h2 := hq r (List.mem_cons_of_mem _ (List.mem_cons_self _ _))
      have h3 := (List.pairwise_cons.mp a10).1 r (List.mem_cons_self _ _)
      rw [h1, h2] at h3
      dsimp only at h3
      omega
  subst hrs
  obtain ⟨g1, g2, g3⟩ := segments_single_inv (a1 hmx hnb)
  refine ⟨by simpa [segments_words] using a2, g1, g2, ?_, a4, ?_⟩
  · have := g3 0 (by omega)
    simpa using this
  · intro j
    rw [a5 j]
    by_cases hj : j = k
    · subst hj; rw [if_pos ⟨hk1, hk2⟩, if_pos rfl]
    · rw [if_neg hj]
      split
      · rename_i hr; exact (hsame j hr.1 hr.2 hj).symm
      · rfl

theorem damage_rep_step_eq (nb cds cde : Nat) (changed : Mem) (ei : ext_interval)
    (st : damage_state) (r : Nat) :
    damage_rep_step nb cds cde changed ei st r =
      if (rep_block_range nb cds cde ei r).1 ≥ (rep_block_range nb cds cde ei r).2 then
        { st with check_tail := st.check_tail ||
            decide (minu (u64 (ei.start + r * ei.stride + ei.width)) cde > u64 (8 * nb)) }
      else
        { check_tail := st.check_tail ||
            decide (minu (u64 (ei.start + r * ei.stride + ei.width)) cde > u64 (8 * nb)),
          base := (run_interval_diff (rep_block_range nb cds cde ei r).1
            (rep_block_range nb cds cde ei r).2 changed st.base st.diff st.cursor).base,
          diff := (run_interval_diff (rep_block_range nb cds cde ei r).1
            (rep_block_range nb cds cde ei r).2 changed st.base st.diff st.cursor).diff,
          cursor := (run_interval_diff (rep_block_range nb cds cde ei r).1
            (rep_block_range nb cds cde ei r).2 changed st.base st.diff st.cursor).cursor } := rfl

theorem rep_block_range_le (nb cds cde : Nat) (ei : ext_interval) (r : Nat) :
    (rep_block_range nb cds cde ei r).2 ≤ nb := minu_le_right _ _

theorem damage_rep_step_base (nb cds cde : Nat) (changed : Mem) (ei : ext_interval)
    (st : damage_state) (r : Nat) (j : Nat) :
    (damage_rep_step nb cds cde changed ei st r).base j =
      if (rep_block_range nb cds cde ei r).1 ≤ j ∧ j < (rep_block_range nb cds cde ei r).2
      then changed j else st.base j := by
  rw [damage_rep_step_eq]
  split
  · rw [if_neg (by omega)]
  · dsimp only
    exact run_interval_diff_base _ _ _ _ _ _ _

theorem damage_rep_step_check_tail (nb cds cde : Nat) (changed : Mem) (ei : ext_interval)
    (st : damage_state) (r : Nat) :
    (damage_rep_step nb cds cde changed ei st r).check_tail =
      (st.check_tail ||
        decide (minu (u64 (ei.start + r * ei.stride + ei.width)) cde > u64 (8 * nb))) := by
  rw [damage_rep_step_eq]
  split <;> rfl

theorem damage_rep_step_synced (nb cds cde : Nat) (changed : Mem) (ei : ext_interval)
    (st : damage_state) (r : Nat)
    (h : ∀ j, (rep_block_range nb cds cde ei r).1 ≤ j → j < (rep_block_range nb cds cde ei r).2 →
      st.base j = changed j) :
    (damage_rep_step nb cds cde changed ei st r).base = st.base ∧
    (damage_rep_step nb cds cde changed ei st r).cursor = st.cursor := by
  rw [damage_rep_step_eq]
  split
  · exact ⟨rfl, rfl⟩
  · dsimp only
    obtain ⟨h1, h2, -⟩ := run_interval_diff_synced changed st.base st.diff st.cursor _ _ h
    exact ⟨h1, h2⟩

/-- The damage scan over `rects l` leaves every block of a visited range
equal to `changed`, and keeps a block that already equals `changed`. -/
theorem damage_rects_sync (nb cds cde : Nat) (changed : Mem) (l : List ext_interval) :
    ∀ st : damage_state,
      (∀ j, st.base j = changed j →
        (l.foldl (damage_rect_step nb cds cde changed) st).base j = changed j) ∧
      (∀ ei ∈ l, ∀ r, r < ei.rep → ∀ j, (rep_block_range nb cds cde ei r).1 ≤ j →
        j < (rep_block_range nb cds cde ei r).2 →
        (l.foldl (damage_rect_step nb cds cde changed) st).base j = changed j) ∧
      (∀ j, nb ≤ j → (l.foldl (damage_rect_step nb cds cde changed) st).base j = st.base j) := by
  have hrep : ∀ (ei : ext_interval) (n : Nat) (st : damage_state),
      (∀ j, st.base j = changed j →
        ((List.range n).foldl (damage_rep_step nb cds cde changed ei) st).base j = changed j) ∧
      (∀ r, r < n → ∀ j, (rep_block_range nb cds cde ei r).1 ≤ j →
        j < (rep_block_range nb cds cde ei r).2 →
        ((List.range n).foldl (damage_rep_step nb cds cde changed ei) st).base j = changed j) ∧
      (∀ j, nb ≤ j →
        ((List.range n).foldl (damage_rep_step nb cds cde changed ei) st).base j = st.base j) := by
    intro ei n
    induction n with
    | zero =>
      intro st
      exact ⟨fun j h => h, fun r hr => by omega, fun j _ => rfl⟩
    | succ n ih =>
      intro st
      obtain ⟨i1, i2, i3⟩ := ih st
      rw [List.range_succ, List.foldl_append]
      simp only [List.foldl_cons, List.foldl_nil]
      refine ⟨?_, ?_, ?_⟩
      · intro j hj
        rw [damage_rep_step_base]
        split
        · rfl
        · exact i1 j hj
      · intro r hr j hj1 hj2
        rw [damage_rep_step_base]
        split
        · rfl
        · rename_i hn
          by_cases hrn : r = n
          · subst hrn; exact absurd ⟨hj1, hj2⟩ hn
          · exact i2 r (by omega) j hj1 hj2
      · intro j hj
        rw [damage_rep_step_base]
        have := rep_block_range_le nb cds cde ei n
        rw [if_neg (by omega)]
        exact i3 j hj
  intro st
  induction l generalizing st with
  | nil =>
    exact ⟨fun j h => h, fun ei hei => by simp at hei, fun j _ => rfl⟩
  | cons x xs ih =>
    obtain ⟨s1, s2, s3⟩ := hrep x x.rep st
    obtain ⟨i1, i2, i3⟩ := ih (damage_rect_step nb cds cde changed st x)
    rw [List.foldl_cons]
    refine ⟨?_, ?_, ?_⟩
    · intro j hj
      exact i1 j (s1 j hj)
    · intro ei hei r hr j hj1 hj2
      rcases List.mem_cons.mp hei with h | h
      · subst h
        exact i1 j (s2 r hr j hj1 hj2)
      · exact i2 ei h r hr j hj1 hj2
    · intro j hj
      rw [i3 j hj]
      exact s3 j hj

/-- The damage scan over `rects l` of a mirror that equals `changed` on
every visited range leaves the mirror as it is and the cursor at zero. -/
theorem damage_rects_synced (nb cds cde : Nat) (changed : Mem) (l : List ext_interval)
    (st : damage_state)
    (h : ∀ ei ∈ l, ∀ r, r < ei.rep → ∀ j, (rep_block_range nb cds cde ei r).1 ≤ j →
      j < (rep_block_range nb cds cde ei r).2 → st.base j = changed j) :
    (l.foldl (damage_rect_step nb cds cde changed) st).base = st.base ∧
    (l.foldl (damage_rect_step nb cds cde changed) st).cursor = st.cursor := by
  apply foldl_invariant (fun s : damage_state => s.base = st.base ∧ s.cursor = st.cursor)
  · intro s ei hei hs
    unfold damage_rect_step
    apply foldl_invariant (fun s : damage_state => s.base = st.base ∧ s.cursor = st.cursor)
    · intro s2 r hr hs2
      have hr2 : r < ei.rep := List.mem_range.mp hr
      obtain ⟨g1, g2⟩ := damage_rep_step_synced nb cds cde changed ei s2 r
        (by intro j hj1 hj2; rw [hs2.1]; exact h ei hei r hr2 j hj1 hj2)
      exact ⟨g1.trans hs2.1, g2.trans hs2.2⟩
    · exact hs
  · exact ⟨rfl, rfl⟩

theorem damage_rects_check_tail (nb cds cde : Nat) (changed : Mem) (l : List ext_interval) :
    ∀ st st2 : damage_state, st.check_tail = st2.check_tail →
      (l.foldl (damage_rect_step nb cds cde changed) st).check_tail =
        (l.foldl (damage_rect_step nb cds cde changed) st2).check_tail := by
  have hrep : ∀ (ei : ext_interval) (n : Nat) (st st2 : damage_state),
      st.check_tail = st2.check_tail →
      ((List.range n).foldl (damage_rep_step nb cds cde changed ei) st).check_tail =
        ((List.range n).foldl (damage_rep_step nb cds cde changed ei) st2).check_tail := by
    intro ei n
    induction n with
    | zero => intro st st2 h; exact h
    | succ n ih =>
      intro st st2 h
      rw [List.range_succ, List.foldl_append, List.foldl_append]
      simp only [List.foldl_cons, List.foldl_nil]
      rw [damage_rep_step_check_tail, damage_rep_step_check_tail, ih st st2 h]
  induction l with
  | nil => intro st st2 h; exact h
  | cons x xs ih =>
    intro st st2 h
    rw [List.foldl_cons, List.foldl_cons]
    exact ih _ _ (hrep x x.rep st st2 h)

theorem copy_tail_base (nb nt c : Nat) (changed base diff : Mem) :
    (∀ j, j < nb → (copy_tail nb nt c changed base diff).1 j = base j) ∧
    tail_differs nb nt (copy_tail nb nt c changed base diff).1 changed = false := by
  rw [copy_tail_fst]
  obtain ⟨s1, s2⟩ := store_bytes_spec (nb * 8) (fun i => load_byte changed (nb * 8 + i)) base nt
  refine ⟨?_, ?_⟩
  · intro j hj
    exact s2 j (fun i _ => by omega)
  · by_contra hne
    have ht : tail_differs nb nt ((List.range nt).foldl
        (fun b i => store_byte b (nb * 8 + i) (load_byte changed (nb * 8 + i))) base) changed
        = true := by
      simpa using hne
    obtain ⟨i, hi, hd⟩ := (tail_differs_iff _ _ _ _).mp ht
    apply hd
    rw [s1 (nb * 8 + i), if_pos ⟨by omega, by omega⟩]
    rw [Nat.add_sub_cancel_left, Nat.mod_eq_of_lt (load_byte_lt _ _)]

/-- A second damage scan, over a mirror that agrees below `nb` with the one
the first scan left, changes nothing: the mirror stays, the cursor ends at
zero, and the tail is examined exactly when the first scan examined it. -/
theorem scan_damage_again (nb : Nat) (dmg : damage) (cds cde : Nat)
    (base changed diff base2 diff2 : Mem)
    (h : ∀ j, j < nb → base2 j = (scan_damage nb dmg cds cde base changed diff).base j) :
    (scan_damage nb dmg cds cde base2 changed diff2).base = base2 ∧
    (scan_damage nb dmg cds cde base2 changed diff2).cursor = 0 ∧
    (scan_damage nb dmg cds cde base2 changed diff2).check_tail =
      (scan_damage nb dmg cds cde base changed diff).check_tail := by
  cases dmg with
  | everything =>
    simp only [scan_damage] at h ⊢
    have hle : minu nb (cde / 8) ≤ nb := by rw [minu_eq_min]; exact Nat.min_le_left _ _
    obtain ⟨g1, g2, -⟩ := run_interval_diff_synced changed base2 diff2 0
      (maxu 0 (cds / 8)) (minu nb (cde / 8))
      (by
        intro k hk1 hk2
        rw [h k (by omega), run_interval_diff_base, if_pos ⟨hk1, hk2⟩])
    exact ⟨g1, g2, trivial⟩
  | rects l =>
    simp only [scan_damage] at h ⊢
    obtain ⟨-, s2, -⟩ := damage_rects_sync nb cds cde changed l
      { check_tail := false, base := base, diff := diff, cursor := 0 }
    obtain ⟨g1, g2⟩ := damage_rects_synced nb cds cde changed l
      { check_tail := false, base := base2, diff := diff2, cursor := 0 }
      (by
        intro ei hei r hr j hj1 hj2
        have := rep_block_range_le nb cds cde ei r
        dsimp only
        rw [h j (by omega)]
        exact s2 ei hei r hr j hj1 hj2)
    exact ⟨g1, g2, damage_rects_check_tail nb cds cde changed l _ _ rfl⟩

theorem construct_diff_again (size : Nat) (dmg : damage) (cds cde : Nat)
    (base changed diff diff2 : Mem) :
    (construct_diff size dmg cds cde (construct_diff size dmg cds cde base changed diff).base
        changed diff2).diffsize = 0 ∧
    (construct_diff size dmg cds cde (construct_diff size dmg cds cde base changed diff).base
        changed diff2).base = (construct_diff size dmg cds cde base changed diff).base := by
  have key : ∀ b1 : Mem,
      (∀ j, j < construct_nblocks size → b1 j =
        (scan_damage (construct_nblocks size) dmg (realign_domain cds cde).1
          (realign_domain cds cde).2 base changed diff).base j) →
      (((scan_damage (construct_nblocks size) dmg (realign_domain cds cde).1
          (realign_domain cds cde).2 base changed diff).check_tail = true ∧
        u64 (size + (2 ^ 64 - u64 (8 * construct_nblocks size))) > 0) →
        tail_differs (construct_nblocks size)
          (u64 (size + (2 ^ 64 - u64 (8 * construct_nblocks size)))) b1 changed = false) →
      (construct_diff size dmg cds cde b1 changed diff2).diffsize = 0 ∧
      (construct_diff size dmg cds cde b1 changed diff2).base = b1 := by
    intro b1 h1 h2
    obtain ⟨g1, g2, g3⟩ := scan_damage_again (construct_nblocks size) dmg
      (realign_domain cds cde).1 (realign_domain cds cde).2 base changed diff b1 diff2 h1
    unfold construct_diff
    dsimp only
    rw [g3, g1, g2]
    by_cases hc : (scan_damage (construct_nblocks size) dmg (realign_domain cds cde).1
          (realign_domain cds cde).2 base changed diff).check_tail = true ∧
        u64 (size + (2 ^ 64 - u64 (8 * construct_nblocks size))) > 0
    · rw [if_pos hc, h2 hc]
      simp
    · rw [if_neg hc]
      simp
  have first : (∀ j, j < construct_nblocks size →
        (construct_diff size dmg cds cde base changed diff).base j =
          (scan_damage (construct_nblocks size) dmg (realign_domain cds cde).1
            (realign_domain cds cde).2 base changed diff).base j) ∧
      (((scan_damage (construct_nblocks size) dmg (realign_domain cds cde).1
          (realign_domain cds cde).2 base changed diff).check_tail = true ∧
        u64 (size + (2 ^ 64 - u64 (8 * construct_nblocks size))) > 0) →
        tail_differs (construct_nblocks size)
          (u64 (size + (2 ^ 64 - u64 (8 * construct_nblocks size))))
          (construct_diff size dmg cds cde base changed diff).base changed = false) := by
    unfold construct_diff
    dsimp only
    generalize scan_damage (construct_nblocks size) dmg (realign_domain cds cde).1
      (realign_domain cds cde).2 base changed diff = st
    by_cases hc : st.check_tail = true ∧
        u64 (size + (2 ^ 64 - u64 (8 * construct_nblocks size))) > 0
    · rw [if_pos hc]
      by_cases ht : tail_differs (construct_nblocks size)
          (u64 (size + (2 ^ 64 - u64 (8 * construct_nblocks size)))) st.base changed = true
      · rw [if_pos ht]
        dsimp only
        obtain ⟨t1, t2⟩ := copy_tail_base (construct_nblocks size)
          (u64 (size + (2 ^ 64 - u64 (8 * construct_nblocks size)))) st.cursor changed st.base
          st.diff
        exact ⟨t1, fun _ => t2⟩
      · rw [if_neg ht]
        dsimp only
        exact ⟨fun j _ => rfl, fun _ => by simpa using ht⟩
    · rw [if_neg hc, if_neg (by simp)]
      dsimp only
      exact ⟨fun j _ => rfl, fun h => absurd h hc⟩
  exact key _ first.1 first.2

theorem run_interval_diff_edit_step (changed base : Mem) (nb k : Nat) (hnb : nb < 2 ^ 32)
    (hd : base k ≠ changed k) (hsame : ∀ j, j < nb → j ≠ k → base j = changed j)
    (mn mx : Nat) (hmx : mx ≤ nb) (b d : Mem) (c : Nat)
    (h : (∀ j, j ≠ k → b j = base j) ∧
      ((b k = base k ∧ c = 0) ∨
        (b k = changed k ∧ c = 2 ∧ d 0 >>> 32 = k ∧ d 0 % 2 ^ 32 = k + 1 ∧ d 1 = changed k))) :
    (∀ j, j ≠ k → (run_interval_diff mn mx changed b d c).base j = base j) ∧
    (((run_interval_diff mn mx changed b d c).base k = base k ∧
        (run_interval_diff mn mx changed b d c).cursor = 0) ∨
      ((run_interval_diff mn mx changed b d c).base k = changed k ∧
        (run_interval_diff mn mx changed b d c).cursor = 2 ∧
        (run_interval_diff mn mx changed b d c).diff 0 >>> 32 = k ∧
        (run_interval_diff mn mx changed b d c).diff 0 % 2 ^ 32 = k + 1 ∧
        (run_interval_diff mn mx changed b d c).diff 1 = changed k)) := by
  obtain ⟨h1, h2⟩ := h
  have hother : ∀ j, mn ≤ j → j < mx → j ≠ k → b j = changed j := by
    intro j _ hj2 hjk
    rw [h1 j hjk]; exact hsame j (by omega) hjk
  by_cases hin : (mn ≤ k ∧ k < mx) ∧ b k = base k
  · obtain ⟨⟨hk1, hk2⟩, hbk⟩ := hin
    have hc : c = 0 := by
      rcases h2 with h | h
      · exact h.2
      · exact absurd (hbk ▸ h.1) hd
    subst hc
    obtain ⟨g1, g2, g3, g4, -, g6⟩ := run_interval_diff_one_block changed b d 0 nb mn mx k hmx hnb
      hk1 hk2 (by rw [hbk]; exact hd) hother
    refine ⟨?_, Or.inr ⟨?_, by simpa using g1, g2, g3, by simpa using g4⟩⟩
    · intro j hj; rw [g6 j, if_neg hj]; exact h1 j hj
    · rw [g6 k, if_pos rfl]
  · have hsync : ∀ j, mn ≤ j → j < mx → b j = changed j := by
      intro j hj1 hj2
      by_cases hjk : j = k
      · subst hjk
        rcases h2 with h | h
        · exact absurd ⟨⟨hj1, hj2⟩, h.1⟩ hin
        · exact h.1
      · exact hother j hj1 hj2 hjk
    obtain ⟨g1, g2, g3⟩ := run_interval_diff_synced changed b d c mn mx hsync
    rw [g1, g2]
    refine ⟨h1, ?_⟩
    rcases h2 with h | h
    · exact Or.inl h
    · obtain ⟨e1, e2, e3, e4, e5⟩ := h
      refine Or.inr ⟨e1, e2, ?_, ?_, ?_⟩
      · rw [g3 0 (by omega)]; exact e3
      · rw [g3 0 (by omega)]; exact e4
      · rw [g3 1 (by omega)]; exact e5

theorem scan_damage_edit (changed base diff : Mem) (nb k : Nat) (hnb : nb < 2 ^ 32)
    (hd : base k ≠ changed k) (hsame : ∀ j, j < nb → j ≠ k → base j = changed j)
    (dmg : damage) (cds cde : Nat) :
    (∀ j, j ≠ k → (scan_damage nb dmg cds cde base changed diff).base j = base j) ∧
    (((scan_damage nb dmg cds cde base changed diff).base k = base k ∧
        (scan_damage nb dmg cds cde base changed diff).cursor = 0) ∨
      ((scan_damage nb dmg cds cde base changed diff).base k = changed k ∧
        (scan_damage nb dmg cds cde base changed diff).cursor = 2 ∧
        (scan_damage nb dmg cds cde base changed diff).diff 0 >>> 32 = k ∧
        (scan_damage nb dmg cds cde base changed diff).diff 0 % 2 ^ 32 = k + 1 ∧
        (scan_damage nb dmg cds cde base changed diff).diff 1 = changed k)) := by
  cases dmg with
  | everything =>
    simp only [scan_damage]
    exact run_interval_diff_edit_step changed base nb k hnb hd hsame _ _
      (by rw [minu_eq_min]; exact Nat.min_le_left _ _) base diff 0
      ⟨fun j _ => rfl, Or.inl ⟨rfl, rfl⟩⟩
  | rects l =>
    simp only [scan_damage]
    apply foldl_invariant (fun st : damage_state =>
      (∀ j, j ≠ k → st.base j = base j) ∧
      ((st.base k = base k ∧ st.cursor = 0) ∨
        (st.base k = changed k ∧ st.cursor = 2 ∧ st.diff 0 >>> 32 = k ∧
          st.diff 0 % 2 ^ 32 = k + 1 ∧ st.diff 1 = changed k)))
    · intro st ei _ hst
      unfold damage_rect_step
      apply foldl_invariant (fun st : damage_state =>
        (∀ j, j ≠ k → st.base j = base j) ∧
        ((st.base k = base k ∧ st.cursor = 0) ∨
          (st.base k = changed k ∧ st.cursor = 2 ∧ st.diff 0 >>> 32 = k ∧
            st.diff 0 % 2 ^ 32 = k + 1 ∧ st.diff 1 = changed k)))
      · intro st2 r _ hst2
        rw [damage_rep_step_eq]
        split
        · exact hst2
        · dsimp only
          exact run_interval_diff_edit_step changed base nb k hnb hd hsame _ _
            (rep_block_range_le nb cds cde ei r) st2.base st2.diff st2.cursor hst2
      · exact hst
    · exact ⟨fun j _ => rfl, Or.inl ⟨rfl, rfl⟩⟩

theorem construct_diff_edit (size : Nat) (dmg : damage) (cds cde : Nat)
    (base changed diff : Mem) (k : Nat) (hsize : size < 2 ^ 31) (h8 : size % 8 = 0)
    (hcds : cds < 2 ^ 31) (hal : domain_aligned cds cde) (hfit : damage_in_range dmg)
    (hk : block_scanned (size / 8) dmg cds cde k) (hd : base k ≠ changed k)
    (hsame : ∀ j, j < size / 8 → j ≠ k → base j = changed j) :
    (construct_diff size dmg cds cde base changed diff).diffsize = 16 ∧
    (construct_diff size dmg cds cde base changed diff).diff 0 >>> 32 = k ∧
    (construct_diff size dmg cds cde base changed diff).diff 0 % 2 ^ 32 = k + 1 ∧
    (construct_diff size dmg cds cde base changed diff).diff 1 = changed k ∧
    (∀ j, (construct_diff size dmg cds cde base changed diff).base j =
      if j = k then changed k else base j) := by
  have hnb : size / 8 < 2 ^ 32 := by omega
  obtain ⟨e1, e2⟩ := scan_damage_edit changed base diff (size / 8) k hnb hd hsame dmg cds cde
  obtain ⟨f1, -, -⟩ := scan_damage_effect changed base diff (size / 8) cds cde hnb hcds dmg hfit
  have hfin := f1 k hk
  have hB : (scan_damage (size / 8) dmg cds cde base changed diff).cursor = 2 ∧
      (scan_damage (size / 8) dmg cds cde base changed diff).diff 0 >>> 32 = k ∧
      (scan_damage (size / 8) dmg cds cde base changed diff).diff 0 % 2 ^ 32 = k + 1 ∧
      (scan_damage (size / 8) dmg cds cde base changed diff).diff 1 = changed k := by
    rcases e2 with h | h
    · exact absurd (h.1 ▸ hfin) (fun h2 => hd h2)
    · exact h.2
  rcases construct_diff_cases size dmg cds cde base changed diff hsize with ⟨h, -⟩ | ⟨-, -, h, -⟩
  · rw [h, realign_domain_aligned cds cde hal]
    dsimp only
    refine ⟨by rw [hB.1], hB.2.1, hB.2.2.1, hB.2.2.2, ?_⟩
    intro j
    by_cases hj : j = k
    · subst hj; rw [if_pos rfl]; exact hfin
    · rw [if_neg hj]; exact e1 j hj
  · omega

theorem gap_symm_forall (rs : List (Nat × Nat)) (hp : rs.Pairwise (fun q r => q.2 + 5 ≤ r.1))
    (q r : Nat × Nat) (hq : q ∈ rs) (hr : r ∈ rs) (hne : q ≠ r) :
    q.2 + 5 ≤ r.1 ∨ r.2 + 5 ≤ q.1 := by
  have hs : rs.Pairwise (fun q r => q.2 + 5 ≤ r.1 ∨ r.2 + 5 ≤ q.1) :=
    hp.imp (fun h => Or.inl h)
  exact hs.forall (fun a b h => h.symm) hq hr hne

theorem run_interval_diff_coalesce (changed base diff : Mem) (c nb mn mx : Nat) (hmx : mx ≤ nb)
    (hnb : nb < 2 ^ 32) :
    ∃ rs, segments changed nb (run_interval_diff mn mx changed base diff c).diff c
        (run_interval_diff mn mx changed base diff c).cursor rs ∧
      (run_interval_diff mn mx changed base diff c).cursor = c + segments_words rs ∧
      (∀ q ∈ rs, mn ≤ q.1 ∧ q.1 < q.2 ∧ q.2 ≤ mx) ∧
      (∀ i j, mn ≤ i → i < j → j < mx → j ≤ i + 5 → base i ≠ changed i → base j ≠ changed j →
        ∃ q ∈ rs, q.1 ≤ i ∧ j < q.2) ∧
      (∀ q ∈ rs, base (q.2 - 1) ≠ changed (q.2 - 1)) ∧
      (∀ q ∈ rs, ∀ k, q.1 ≤ k → k + 5 ≤ mx → (∀ j, k ≤ j → j < k + 5 → base j = changed j) →
        q.2 ≤ k) ∧
      rs.Pairwise (fun q r => q.2 + 5 ≤ r.1) := by
  obtain ⟨rs, a1, a2, a3, -, -, a6, -, -, a9, a10⟩ :=
    run_interval_diff_strong changed base diff c nb mn mx
  refine ⟨rs, a1 hmx hnb, a2, a3, ?_, fun q hq => (a9 q hq).2.1, ?_, a10⟩
  · intro i j hi hij hj hgap hdi hdj
    have ci : covered rs i = true := by
      by_contra hc
      exact hdi (a6 i hi (by omega) (by simpa using hc))
    have cj : covered rs j = true := by
      by_contra hc
      exact hdj (a6 j (by omega) hj (by simpa using hc))
    obtain ⟨q, hq, hq1, hq2⟩ := (covered_iff rs i).mp ci
    obtain ⟨r, hr, hr1, hr2⟩ := (covered_iff rs j).mp cj
    refine ⟨q, hq, hq1, ?_⟩
    by_contra hcon
    have hne : q ≠ r := by
      intro h; subst h; omega
    rcases gap_symm_forall rs a10 q r hq hr hne with h | h <;> omega
  · intro q hq k hk1 hk2 hrun
    obtain ⟨-, s2, s3⟩ := a9 q hq
    have hr := a3 q hq
    by_contra hcon
    by_cases h5 : k + 5 ≤ q.2
    · obtain ⟨j, j1, j2, j3⟩ := s3 k hk1 h5
      exact j3 (hrun j j1 j2)
    · exact s2 (hrun (q.2 - 1) (by omega) (by omega))

theorem coalesce_example (b ch d : Mem)
    (h : ∀ k, k < 512 → (b k ≠ ch k ↔ k = 100 ∨ k = 102)) :
    (construct_diff 4096 (damage.rects [{ start := 800, width := 24, rep := 1, stride := 0 }])
      0 SIZE_MAX b ch d).diffsize = 32 ∧
    (construct_diff 4096 (damage.rects [{ start := 800, width := 24, rep := 1, stride := 0 }])
      0 SIZE_MAX b ch d).diff 0 >>> 32 = 100 ∧
    (construct_diff 4096 (damage.rects [{ start := 800, width := 24, rep := 1, stride := 0 }])
      0 SIZE_MAX b ch d).diff 0 % 2 ^ 32 = 103 ∧
    (construct_diff 4096 (damage.rects [{ start := 800, width := 24, rep := 1, stride := 0 }])
      0 SIZE_MAX b ch d).diff 1 = ch 100 ∧
    (construct_diff 4096 (damage.rects [{ start := 800, width := 24, rep := 1, stride := 0 }])
      0 SIZE_MAX b ch d).diff 2 = ch 101 ∧
    (construct_diff 4096 (damage.rects [{ start := 800, width := 24, rep := 1, stride := 0 }])
      0 SIZE_MAX b ch d).diff 3 = ch 102 := by
  have hs : construct_diff 4096
      (damage.rects [{ start := 800, width := 24, rep := 1, stride := 0 }]) 0 SIZE_MAX b ch d =
      { base := (run_interval_diff 100 103 ch b d 0).base,
        diff := (run_interval_diff 100 103 ch b d 0).diff,
        diffsize := (run_interval_diff 100 103 ch b d 0).cursor * 8 } := rfl
  rw [hs]
  dsimp only
  obtain ⟨rs, a1, a2, a3, a4, -, -, a7⟩ :=
    run_interval_diff_coalesce ch b d 0 512 100 103 (by omega) (by omega)
  obtain ⟨q, hq, hq1, hq2⟩ := a4 100 102 (by omega) (by omega) (by omega) (by omega)
    ((h 100 (by omega)).mpr (Or.inl rfl)) ((h 102 (by omega)).mpr (Or.inr rfl))
  have hr := a3 q hq
  have hqe : q = (100, 103) := Prod.ext (by dsimp only; omega) (by dsimp only; omega)
  have hrs : rs = [(100, 103)] := by
    rcases gap_short_range rs 100 103 a7 a3 (by omega) with h0 | ⟨q0, h0⟩
    · subst h0; simp at hq
    · subst h0
      rw [List.mem_singleton] at hq
      rw [← hq, hqe]
  subst hrs
  obtain ⟨g1, g2, g3⟩ := segments_single_inv a1
  refine ⟨?_, g1, g2, ?_, ?_, ?_⟩
  · rw [a2]; simp [segments_words]
  · simpa using g3 0 (by omega)
  · simpa using g3 1 (by omega)
  · simpa using g3 2 (by omega)

theorem construct_diff_tail_only (s : Nat) (dmg : damage) (base changed diff : Mem)
    (hnb : construct_nblocks s = 0) (hnt : u64 (s + (2 ^ 64 - u64 (8 * 0))) = s)
    (hs : scan_damage 0 dmg 0 SIZE_MAX base changed diff =
      { check_tail := true, base := base, diff := diff, cursor := 0 })
    (hdiff : tail_differs 0 s base changed = true) (hpos : s > 0) :
    (construct_diff s dmg 0 SIZE_MAX base changed diff).diffsize = s := by
  have hre : realign_domain 0 SIZE_MAX = (0, SIZE_MAX) :=
    realign_domain_aligned 0 SIZE_MAX ⟨by decide, Or.inr rfl⟩
  unfold construct_diff
  dsimp only
  rw [hnb, hnt, hre, hs]
  dsimp only
  rw [if_pos (show ((true = true) ∧ s > 0) from ⟨rfl, hpos⟩), hdiff, if_pos rfl]
  dsimp only
  omega
/-! ## Claims on the shape of the diff -/

/-- C25. Gap coalescing with a window of 4, for the scan of one block range
`[mn, mx)` whose indices fit the 32-bit header fields: the words that
`run_interval_diff` writes from the cursor form segments with ranges `rs`
such that two differing blocks at most five apart (at most four blocks
between them) lie in the range of one segment, blocks between them included;
the `nto` of every segment is the index just after a differing block; and no
segment reaches into or beyond a run of five matching blocks that starts
inside it.  In particular, for a 4096-byte buffer that differs from the
mirror in blocks 100 and 102 only, with damage `[800, 824)`, the diff is the
header `nfrom = 100`, `nto = 103` followed by the blocks 100, 101 and 102 of
the changed buffer (32 bytes). -/
theorem gap_coalescing_window (changed base diff : Mem) (c nb mn mx : Nat) (hmx : mx ≤ nb)
    (hnb : nb < 2 ^ 32) :
    (∃ rs, segments changed nb (run_interval_diff mn mx changed base diff c).diff c
        (run_interval_diff mn mx changed base diff c).cursor rs ∧
      (∀ i j, mn ≤ i → i < j → j < mx → j ≤ i + 5 → base i ≠ changed i → base j ≠ changed j →
        ∃ q ∈ rs, q.1 ≤ i ∧ j < q.2) ∧
      (∀ q ∈ rs, base (q.2 - 1) ≠ changed (q.2 - 1)) ∧
      (∀ q ∈ rs, ∀ k, q.1 ≤ k → k + 5 ≤ mx → (∀ j, k ≤ j → j < k + 5 → base j = changed j) →
        q.2 ≤ k)) ∧
    (∀ b ch d : Mem, (∀ k, k < 512 → (b k ≠ ch k ↔ k = 100 ∨ k = 102)) →
      (construct_diff 4096 (damage.rects [{ start := 800, width := 24, rep := 1, stride := 0 }])
        0 SIZE_MAX b ch d).diffsize = 32 ∧
      (construct_diff 4096 (damage.rects [{ start := 800, width := 24, rep := 1, stride := 0 }])
        0 SIZE_MAX b ch d).diff 0 >>> 32 = 100 ∧
      (construct_diff 4096 (damage.rects [{ start := 800, width := 24, rep := 1, stride := 0 }])
        0 SIZE_MAX b ch d).diff 0 % 2 ^ 32 = 103 ∧
      (construct_diff 4096 (damage.rects [{ start := 800, width := 24, rep := 1, stride := 0 }])
        0 SIZE_MAX b ch d).diff 1 = ch 100 ∧
      (construct_diff 4096 (damage.rects [{ start := 800, width := 24, rep := 1, stride := 0 }])
        0 SIZE_MAX b ch d).diff 2 = ch 101 ∧
      (construct_diff 4096 (damage.rects [{ start := 800, width := 24, rep := 1, stride := 0 }])
        0 SIZE_MAX b ch d).diff 3 = ch 102) := by
  obtain ⟨rs, a1, -, -, a4, a5, a6, -⟩ :=
    run_interval_diff_coalesce changed base diff c nb mn mx hmx hnb
  exact ⟨⟨rs, a1, a4, a5, a6⟩, fun b ch d h => coalesce_example b ch d h⟩

/-- C25 (witness). The claim for the scan of the blocks `[100, 103)` of a
4096-byte buffer whose blocks 100 and 102 were changed from 0 to 1. -/
theorem gap_coalescing_window_witness :
    (103 ≤ 512 ∧ 512 < 2 ^ 32) ∧
    ∃ rs, segments (store (store zero_mem 100 1) 102 1) 512
        (run_interval_diff 100 103 (store (store zero_mem 100 1) 102 1) zero_mem zero_mem 0).diff 0
        (run_interval_diff 100 103 (store (store zero_mem 100 1) 102 1) zero_mem zero_mem
          0).cursor rs ∧
      (∀ i j, 100 ≤ i → i < j → j < 103 → j ≤ i + 5 →
        zero_mem i ≠ store (store zero_mem 100 1) 102 1 i →
        zero_mem j ≠ store (store zero_mem 100 1) 102 1 j →
        ∃ q ∈ rs, q.1 ≤ i ∧ j < q.2) ∧
      (∀ q ∈ rs, zero_mem (q.2 - 1) ≠ store (store zero_mem 100 1) 102 1 (q.2 - 1)) ∧
      (∀ q ∈ rs, ∀ k, q.1 ≤ k → k + 5 ≤ 103 →
        (∀ j, k ≤ j → j < k + 5 → zero_mem j = store (store zero_mem 100 1) 102 1 j) →
        q.2 ≤ k) :=
  ⟨⟨by decide, by decide⟩,
   (gap_coalescing_window (store (store zero_mem 100 1) 102 1) zero_mem zero_mem 0 512 100 103
    (by decide) (by decide)).1⟩

/-- C26 (counterexample). With `size = 2 ^ 32` (a multiple of 8) the cast
`(int)size` is 0, so `construct_diff` sees no whole block: for an edit of
block 0 under damage `[0, 8)` it scans no block range, takes the whole
buffer for trailing bytes and reports `diffsize = 2 ^ 32`, not 16. -/
theorem single_block_edit_fails_at_int_overflow :
    (2 ^ 32 % 8 = 0 ∧
      block_scanned (2 ^ 32 / 8) (damage.rects [{ start := 0, width := 8, rep := 1, stride := 0 }])
        0 SIZE_MAX 0 ∧
      differs_only_in_block zero_mem (store zero_mem 0 5) 0) ∧
    (construct_diff (2 ^ 32) (damage.rects [{ start := 0, width := 8, rep := 1, stride := 0 }])
      0 SIZE_MAX zero_mem (store zero_mem 0 5) zero_mem).diffsize = 2 ^ 32 := by
  refine ⟨⟨by decide, ⟨by decide, _, List.mem_singleton.mpr rfl, 0, by decide, by decide,
    by decide⟩, by decide, ?_⟩, ?_⟩
  · intro j hj
    simp [store, zero_mem, hj]
  · exact construct_diff_tail_only (2 ^ 32) _ zero_mem (store zero_mem 0 5) zero_mem
      (by decide) (by decide) rfl
      (by rw [tail_differs_iff]; exact ⟨0, by decide, by decide⟩) (by decide)

/-- C26 (as amended). Single-block edit: for every size below `2 ^ 31` that
is a multiple of 8, every aligned copy domain with a start below `2 ^ 31`,
every damage whose interval ends fit in `int` and whose scan visits block
`k < size / 8`, if `changed` differs from `base` in block `k` only, then
`construct_diff` produces a diff of exactly 16 bytes: the header with
`nfrom = k`, `nto = k + 1` followed by block `k` of `changed`; the mirror has
block `k` replaced and is otherwise unchanged. -/
theorem single_block_edit (size : Nat) (dmg : damage) (cds cde : Nat)
    (base changed diff : Mem) (k : Nat) (hsize : size < 2 ^ 31) (h8 : size % 8 = 0)
    (hcds : cds < 2 ^ 31) (hal : domain_aligned cds cde) (hfit : damage_in_range dmg)
    (hk : block_scanned (size / 8) dmg cds cde k) (hd : base k ≠ changed k)
    (hsame : ∀ j, j < size / 8 → j ≠ k → base j = changed j) :
    (construct_diff size dmg cds cde base changed diff).diffsize = 16 ∧
    (construct_diff size dmg cds cde base changed diff).diff 0 >>> 32 = k ∧
    (construct_diff size dmg cds cde base changed diff).diff 0 % 2 ^ 32 = k + 1 ∧
    (construct_diff size dmg cds cde base changed diff).diff 1 = changed k ∧
    (∀ j, (construct_diff size dmg cds cde base changed diff).base j =
      if j = k then changed k else base j) :=
  construct_diff_edit size dmg cds cde base changed diff k hsize h8 hcds hal hfit hk hd hsame

/-- C26 (witness). Size 4096, the eight bytes at offset 800 changed from 0
to the block value 5, damage `[800, 808)`: the diff is the header
`(100, 101)` followed by the written block. -/
theorem single_block_edit_witness :
    ((4096 : Nat) < 2 ^ 31 ∧ 4096 % 8 = 0 ∧ (0 : Nat) < 2 ^ 31 ∧ domain_aligned 0 SIZE_MAX ∧
      damage_in_range (damage.rects [{ start := 800, width := 8, rep := 1, stride := 0 }]) ∧
      block_scanned (4096 / 8)
        (damage.rects [{ start := 800, width := 8, rep := 1, stride := 0 }]) 0 SIZE_MAX 100 ∧
      zero_mem 100 ≠ store zero_mem 100 5 100 ∧
      (∀ j, j < 4096 / 8 → j ≠ 100 → zero_mem j = store zero_mem 100 5 j)) ∧
    ((construct_diff 4096 (damage.rects [{ start := 800, width := 8, rep := 1, stride := 0 }])
        0 SIZE_MAX zero_mem (store zero_mem 100 5) zero_mem).diffsize = 16 ∧
      (construct_diff 4096 (damage.rects [{ start := 800, width := 8, rep := 1, stride := 0 }])
        0 SIZE_MAX zero_mem (store zero_mem 100 5) zero_mem).diff 0 >>> 32 = 100 ∧
      (construct_diff 4096 (damage.rects [{ start := 800, width := 8, rep := 1, stride := 0 }])
        0 SIZE_MAX zero_mem (store zero_mem 100 5) zero_mem).diff 0 % 2 ^ 32 = 100 + 1 ∧
      (construct_diff 4096 (damage.rects [{ start := 800, width := 8, rep := 1, stride := 0 }])
        0 SIZE_MAX zero_mem (store zero_mem 100 5) zero_mem).diff 1 = store zero_mem 100 5 100) :=
  have hal : domain_aligned 0 SIZE_MAX := ⟨by decide, Or.inr rfl⟩
  have hfit : damage_in_range
      (damage.rects [{ start := 800, width := 8, rep := 1, stride := 0 }]) := by
    intro ei hei r hr
    rw [List.mem_singleton] at hei
    subst hei
    dsimp only at hr ⊢
    omega
  have hk : block_scanned (4096 / 8)
      (damage.rects [{ start := 800, width := 8, rep := 1, stride := 0 }]) 0 SIZE_MAX 100 :=
    ⟨by decide, _, List.mem_singleton.mpr rfl, 0, by decide, by decide, by decide⟩
  have hd : zero_mem 100 ≠ store zero_mem 100 5 100 := by decide
  have hsame : ∀ j, j < 4096 / 8 → j ≠ 100 → zero_mem j = store zero_mem 100 5 j := by
    intro j _ hj
    simp [store, zero_mem, hj]
  ⟨⟨by decide, by decide, by decide, hal, hfit, hk, hd, hsame⟩,
   ⟨(single_block_edit 4096 _ 0 SIZE_MAX zero_mem (store zero_mem 100 5) zero_mem 100
      (by decide) (by decide) (by decide) hal hfit hk hd hsame).1,
    (single_block_edit 4096 _ 0 SIZE_MAX zero_mem (store zero_mem 100 5) zero_mem 100
      (by decide) (by decide) (by decide) hal hfit hk hd hsame).2.1,
    (single_block_edit 4096 _ 0 SIZE_MAX zero_mem (store zero_mem 100 5) zero_mem 100
      (by decide) (by decide) (by decide) hal hfit hk hd hsame).2.2.1,
    (single_block_edit 4096 _ 0 SIZE_MAX zero_mem (store zero_mem 100 5) zero_mem 100
      (by decide) (by decide) (by decide) hal hfit hk hd hsame).2.2.2.1⟩⟩

/-- C27. `construct_diff` is idempotent on the mirror: for every size, base,
changed, damage and copy domain, a second call with the same changed, damage
and copy domain on the base that the first call left (and any diff buffer)
reports `diffsize = 0` and leaves that base unchanged. -/
theorem construct_diff_idempotent (size : Nat) (dmg : damage) (cds cde : Nat)
    (base changed diff diff2 : Mem) :
    (construct_diff size dmg cds cde (construct_diff size dmg cds cde base changed diff).base
        changed diff2).diffsize = 0 ∧
    (construct_diff size dmg cds cde (construct_diff size dmg cds cde base changed diff).base
        changed diff2).base = (construct_diff size dmg cds cde base changed diff).base :=
  construct_diff_again size dmg cds cde base changed diff diff2
/-! ## Teardown order -/

theorem destroy_unlinked_sfd_order (sfd : shadow_fd) :
    in_phase_order teardown_phase
      (teardown_effect.unlink_from_list :: destroy_unlinked_sfd sfd) = true ∧
    (destroy_unlinked_sfd sfd).head? = some teardown_effect.destroy_video_data ∧
    (destroy_unlinked_sfd sfd).getLast? = some teardown_effect.free_sfd := by
  unfold destroy_unlinked_sfd
  split_ifs <;> exact ⟨rfl, rfl, rfl⟩

theorem deref_update_sfd (l : List shadow_fd) (a : Nat) (f : shadow_fd → shadow_fd)
    (hf : ∀ s, (f s).addr = s.addr) :
    deref_sfd (update_sfd l a f) a = (deref_sfd l a).map f := by
  unfold deref_sfd update_sfd
  induction l with
  | nil => rfl
  | cons x l ih =>
    simp only [List.map_cons, List.find?_cons]
    by_cases hx : x.addr = a
    · simp [hx, hf]
    · simp [hx, ih]

/-- C21 (counterexample). The last `shadow_decref_protocol` on an owned file
destroys it, and the first teardown step is the unlinking from `map->list`:
it comes before the video teardown, the `munmap`, the frees and the close of
`fd_local`, not after them as the claimed sequence has it. -/
theorem unlink_precedes_teardown :
    (shadow_decref_protocol owned_file_map 430).2 = true ∧
    shadow_decref_protocol_effects owned_file_map 430 =
      [teardown_effect.unlink_from_list, teardown_effect.destroy_video_data,
       teardown_effect.munmap_file, teardown_effect.free_mem_mirror,
       teardown_effect.free_diff_buffer, teardown_effect.free_compress_buffer,
       teardown_effect.close_fd_local 9, teardown_effect.free_sfd] ∧
    in_phase_order spec_teardown_phase (shadow_decref_protocol_effects owned_file_map 430) =
      false := by
  decide

/-- C21 (as amended). Destruction order: for the shadow fd `sfd` at address
`a`, a call of `shadow_decref_protocol` or of `shadow_decref_transfer` that
does not report the destruction has no teardown step, and one that reports it
has exactly these steps in this order: the unlinking from `map->list`; the
video codec teardown; then for a file `munmap`, the frees of the mirror, of
the diff buffer and of the compress buffer and, when the file has a shm name,
its `shm_unlink`; for a DMA-BUF its release, the same three frees and the
free of the video buffer; for a pipe the close of `pipe_fd` when it is an
open descriptor other than `fd_local` and the frees of the two pipe buffers;
then the close of `fd_local` when it is neither -1 nor -2; and last the free
of the struct. -/
theorem destruction_order (map : fd_translation_map) (a : Nat) (sfd : shadow_fd)
    (destroyed : Bool) (effs : List teardown_effect)
    (hsfd : deref_sfd map.list a = some sfd)
    (hcall : (destroyed, effs) =
        ((shadow_decref_protocol map a).2, shadow_decref_protocol_effects map a) ∨
      (destroyed, effs) =
        ((shadow_decref_transfer map a).2, shadow_decref_transfer_effects map a)) :
    (destroyed = false → effs = []) ∧
    (destroyed = true →
      in_phase_order teardown_phase effs = true ∧
      effs =
        [teardown_effect.unlink_from_list, teardown_effect.destroy_video_data] ++
        (if sfd.type = fdcat_t.FDC_FILE then
          [teardown_effect.munmap_file, teardown_effect.free_mem_mirror,
           teardown_effect.free_diff_buffer, teardown_effect.free_compress_buffer] ++
          (if sfd.file_shm_buf_name.headD 0 ≠ 0 then [teardown_effect.shm_unlink] else [])
        else if sfd.type = fdcat_t.FDC_DMABUF then
          [teardown_effect.destroy_dmabuf, teardown_effect.free_mem_mirror,
           teardown_effect.free_diff_buffer, teardown_effect.free_compress_buffer,
           teardown_effect.free_video_buffer]
        else if fdcat_ispipe sfd.type = true then
          (if sfd.pipe_fd ≠ sfd.fd_local ∧ sfd.pipe_fd ≠ -1 ∧ sfd.pipe_fd ≠ -2 then
            [teardown_effect.close_pipe_fd sfd.pipe_fd] else []) ++
          [teardown_effect.free_pipe_recv, teardown_effect.free_pipe_send]
        else []) ++
        (if sfd.fd_local ≠ -2 ∧ sfd.fd_local ≠ -1 then
          [teardown_effect.close_fd_local sfd.fd_local] else []) ++
        [teardown_effect.free_sfd]) := by
  have key : ∀ (f : shadow_fd → shadow_fd), (∀ s, (f s).addr = s.addr) →
      (∀ s, destroy_unlinked_sfd (f s) = destroy_unlinked_sfd s) →
      ((destroy_shadow_if_unreferenced { map with list := update_sfd map.list a f } a).2 =
          false →
        destroy_shadow_if_unreferenced_effects { map with list := update_sfd map.list a f } a =
          []) ∧
      ((destroy_shadow_if_unreferenced { map with list := update_sfd map.list a f } a).2 =
          true →
        destroy_shadow_if_unreferenced_effects { map with list := update_sfd map.list a f } a =
          teardown_effect.unlink_from_list :: destroy_unlinked_sfd sfd) := by
    intro f hf hd
    have hder := deref_update_sfd map.list a f hf
    rw [hsfd] at hder
    unfold destroy_shadow_if_unreferenced destroy_shadow_if_unreferenced_effects
    simp only [hder, Option.map_some']
    split_ifs
    · exact ⟨by simp, fun _ => by rw [hd]⟩
    · exact ⟨fun _ => rfl, by simp⟩
  have hshape : effs = teardown_effect.unlink_from_list :: destroy_unlinked_sfd sfd →
      in_phase_order teardown_phase effs = true ∧
      effs = teardown_effect.unlink_from_list :: destroy_unlinked_sfd sfd := by
    intro h
    rw [h]
    exact ⟨(destroy_unlinked_sfd_order sfd).1, rfl⟩
  have hlist : teardown_effect.unlink_from_list :: destroy_unlinked_sfd sfd =
      [teardown_effect.unlink_from_list, teardown_effect.destroy_video_data] ++
        (if sfd.type = fdcat_t.FDC_FILE then
          [teardown_effect.munmap_file, teardown_effect.free_mem_mirror,
           teardown_effect.free_diff_buffer, teardown_effect.free_compress_buffer] ++
          (if sfd.file_shm_buf_name.headD 0 ≠ 0 then [teardown_effect.shm_unlink] else [])
        else if sfd.type = fdcat_t.FDC_DMABUF then
          [teardown_effect.destroy_dmabuf, teardown_effect.free_mem_mirror,
           teardown_effect.free_diff_buffer, teardown_effect.free_compress_buffer,
           teardown_effect.free_video_buffer]
        else if fdcat_ispipe sfd.type = true then
          (if sfd.pipe_fd ≠ sfd.fd_local ∧ sfd.pipe_fd ≠ -1 ∧ sfd.pipe_fd ≠ -2 then
            [teardown_effect.close_pipe_fd sfd.pipe_fd] else []) ++
          [teardown_effect.free_pipe_recv, teardown_effect.free_pipe_send]
        else []) ++
        (if sfd.fd_local ≠ -2 ∧ sfd.fd_local ≠ -1 then
          [teardown_effect.close_fd_local sfd.fd_local] else []) ++
        [teardown_effect.free_sfd] := by
    unfold destroy_unlinked_sfd
    simp only [List.cons_append, List.nil_append, List.append_assoc]
  rcases hcall with h | h
  · obtain ⟨h1, h2⟩ := Prod.mk.inj h
    have k := key (fun s => { s with refcount_protocol := s.refcount_protocol - 1 })
      (fun _ => rfl) (fun _ => rfl)
    refine ⟨fun hf => ?_, fun ht => ?_⟩
    · rw [h2]; exact k.1 (h1 ▸ hf)
    · have e : effs = teardown_effect.unlink_from_list :: destroy_unlinked_sfd sfd := by
        rw [h2]; exact k.2 (h1 ▸ ht)
      rw [← hlist]
      exact hshape e
  · obtain ⟨h1, h2⟩ := Prod.mk.inj h
    have k := key (fun s => { s with refcount_transfer := s.refcount_transfer - 1 })
      (fun _ => rfl) (fun _ => rfl)
    refine ⟨fun hf => ?_, fun ht => ?_⟩
    · rw [h2]; exact k.1 (h1 ▸ hf)
    · have e : effs = teardown_effect.unlink_from_list :: destroy_unlinked_sfd sfd := by
        rw [h2]; exact k.2 (h1 ▸ ht)
      rw [← hlist]
      exact hshape e

/-- C21 (witness). The last protocol reference of an owned file with
`fd_local = 9` and no shm name: the call reports the destruction and its
steps are the unlinking, the video teardown, `munmap`, the three frees, the
close of descriptor 9 and the free of the struct. -/
theorem destruction_order_witness :
    deref_sfd owned_file_map.list 430 = some owned_file ∧
    ((true, [teardown_effect.unlink_from_list, teardown_effect.destroy_video_data,
        teardown_effect.munmap_file, teardown_effect.free_mem_mirror,
        teardown_effect.free_diff_buffer, teardown_effect.free_compress_buffer,
        teardown_effect.close_fd_local 9, teardown_effect.free_sfd]) =
      ((shadow_decref_protocol owned_file_map 430).2,
        shadow_decref_protocol_effects owned_file_map 430)) ∧
    in_phase_order teardown_phase
      [teardown_effect.unlink_from_list, teardown_effect.destroy_video_data,
        teardown_effect.munmap_file, teardown_effect.free_mem_mirror,
        teardown_effect.free_diff_buffer, teardown_effect.free_compress_buffer,
        teardown_effect.close_fd_local 9, teardown_effect.free_sfd] = true ∧
    [teardown_effect.unlink_from_list, teardown_effect.destroy_video_data,
        teardown_effect.munmap_file, teardown_effect.free_mem_mirror,
        teardown_effect.free_diff_buffer, teardown_effect.free_compress_buffer,
        teardown_effect.close_fd_local 9, teardown_effect.free_sfd] =
      [teardown_effect.unlink_from_list, teardown_effect.destroy_video_data] ++
        (if owned_file.type = fdcat_t.FDC_FILE then
          [teardown_effect.munmap_file, teardown_effect.free_mem_mirror,
           teardown_effect.free_diff_buffer, teardown_effect.free_compress_buffer] ++
          (if owned_file.file_shm_buf_name.headD 0 ≠ 0 then [teardown_effect.shm_unlink]
            else [])
        else if owned_file.type = fdcat_t.FDC_DMABUF then
          [teardown_effect.destroy_dmabuf, teardown_effect.free_mem_mirror,
           teardown_effect.free_diff_buffer, teardown_effect.free_compress_buffer,
           teardown_effect.free_video_buffer]
        else if fdcat_ispipe owned_file.type = true then
          (if owned_file.pipe_fd ≠ owned_file.fd_local ∧ owned_file.pipe_fd ≠ -1 ∧
              owned_file.pipe_fd ≠ -2 then
            [teardown_effect.close_pipe_fd owned_file.pipe_fd] else []) ++
          [teardown_effect.free_pipe_recv, teardown_effect.free_pipe_send]
        else []) ++
        (if owned_file.fd_local ≠ -2 ∧ owned_file.fd_local ≠ -1 then
          [teardown_effect.close_fd_local owned_file.fd_local] else []) ++
        [teardown_effect.free_sfd] :=
  ⟨rfl, by decide,
    (destruction_order owned_file_map 430 owned_file true _ rfl (Or.inl (by decide))).2 rfl⟩
/-! ## Worker slices -/

theorem align_cast (v : Nat) (h : v < 2 ^ 31) :
    cast_u64 (align (cast_int v) 8) = 8 * ((v + 7) / 8) := by
  rw [cast_int_of_lt v h]
  unfold cast_u64 align
  have h1 : (v : Int) + 8 - 1 = ((v + 7 : Nat) : Int) := by push_cast; ring
  rw [h1]
  have h2 : Int.tdiv ((v + 7 : Nat) : Int) 8 = (((v + 7) / 8 : Nat) : Int) := by
    rw [Int.tdiv_eq_ediv (by omega) (by omega)]; omega
  rw [h2]
  have h3 : (8 : Int) * (((v + 7) / 8 : Nat) : Int) = ((8 * ((v + 7) / 8) : Nat) : Int) := by
    push_cast; ring
  rw [h3]
  have h4 : ((8 * ((v + 7) / 8) : Nat) : Int) % 2 ^ 64 = ((8 * ((v + 7) / 8) : Nat) : Int) := by
    apply Int.emod_eq_of_lt <;> omega
  rw [h4]; exact Int.toNat_ofNat _

theorem slice_quotient_le (i n s : Nat) (hi : i ≤ n) : i * s / n ≤ s := by
  apply Nat.div_le_of_le_mul
  exact Nat.mul_le_mul_right s hi

theorem worker_slice_eq (map : fd_translation_map) (lib : codec_lib) (sfd : shadow_fd)
    (i n : Nat) (hn : map.nthreads = (n : Int)) (hn1 : 1 ≤ n) (hn2 : n < 2 ^ 31)
    (hs : sfd.file_size < 2 ^ 31) (hi : i + 1 ≤ n) :
    (worker_run_compresseddiff map lib sfd i).2.source_start =
      8 * ((i * sfd.file_size / n + 7) / 8) ∧
    (worker_run_compresseddiff map lib sfd i).2.source_end =
      8 * (((i + 1) * sfd.file_size / n + 7) / 8) ∧
    (worker_run_compresseddiff map lib sfd i).2.diff_start =
      8 * ((i * sfd.file_size / n + 7) / 8) + 8 * i ∧
    (worker_run_compresseddiff map lib sfd i).2.diff_end =
      8 * (((i + 1) * sfd.file_size / n + 7) / 8) + 8 * (i + 1) := by
  have hcn : cast_u64 map.nthreads = n := by
    rw [hn]; unfold cast_u64
    have : ((n : Nat) : Int) % 2 ^ 64 = ((n : Nat) : Int) := by
      apply Int.emod_eq_of_lt <;> omega
    rw [this]; exact Int.toNat_ofNat _
  have hq1 : i * sfd.file_size / n ≤ sfd.file_size := slice_quotient_le i n _ (by omega)
  have hq2 : (i + 1) * sfd.file_size / n ≤ sfd.file_size :=
    slice_quotient_le (i + 1) n _ hi
  have hm1 : i * sfd.file_size < 2 ^ 64 := by
    calc i * sfd.file_size ≤ 2 ^ 31 * 2 ^ 31 := Nat.mul_le_mul (by omega) (by omega)
      _ < 2 ^ 64 := by norm_num
  have hm2 : (i + 1) * sfd.file_size < 2 ^ 64 := by
    calc (i + 1) * sfd.file_size ≤ 2 ^ 31 * 2 ^ 31 := Nat.mul_le_mul (by omega) (by omega)
      _ < 2 ^ 64 := by norm_num
  have e1 : (worker_run_compresseddiff map lib sfd i).2.source_start =
      cast_u64 (align (cast_int (u64 (i * sfd.file_size) / cast_u64 map.nthreads)) 8) := rfl
  have e2 : (worker_run_compresseddiff map lib sfd i).2.source_end =
      cast_u64 (align (cast_int (u64 ((i + 1) * sfd.file_size) / cast_u64 map.nthreads)) 8) := rfl
  have e3 : (worker_run_compresseddiff map lib sfd i).2.diff_start =
      u64 ((worker_run_compresseddiff map lib sfd i).2.source_start + 8 * i) := rfl
  have e4 : (worker_run_compresseddiff map lib sfd i).2.diff_end =
      u64 ((worker_run_compresseddiff map lib sfd i).2.source_end + 8 * (i + 1)) := rfl
  have f1 : (worker_run_compresseddiff map lib sfd i).2.source_start =
      8 * ((i * sfd.file_size / n + 7) / 8) := by
    rw [e1, hcn, u64_of_lt _ hm1, align_cast _ (by omega)]
  have f2 : (worker_run_compresseddiff map lib sfd i).2.source_end =
      8 * (((i + 1) * sfd.file_size / n + 7) / 8) := by
    rw [e2, hcn, u64_of_lt _ hm2, align_cast _ (by omega)]
  refine ⟨f1, f2, ?_, ?_⟩
  · rw [e3, f1, u64_of_lt _ (by omega)]
  · rw [e4, f2, u64_of_lt _ (by omega)]

theorem worker_slices_ordered (map : fd_translation_map) (lib : codec_lib) (sfd sfd2 : shadow_fd)
    (j k n : Nat) (hn : map.nthreads = (n : Int)) (hn2 : n < 2 ^ 31)
    (hs : sfd.file_size < 2 ^ 31) (hsame : sfd2.file_size = sfd.file_size) (hjk : j < k)
    (hk : k < n) :
    (worker_run_compresseddiff map lib sfd j).2.diff_start <
      (worker_run_compresseddiff map lib sfd j).2.diff_end ∧
    (worker_run_compresseddiff map lib sfd j).2.diff_end ≤
      (worker_run_compresseddiff map lib sfd2 k).2.diff_start := by
  obtain ⟨-, -, a3, a4⟩ := worker_slice_eq map lib sfd j n hn (by omega) hn2 hs (by omega)
  obtain ⟨-, -, b3, -⟩ := worker_slice_eq map lib sfd2 k n hn (by omega) hn2 (by omega) (by omega)
  rw [a3, a4, b3, hsame]
  have m1 : j * sfd.file_size / n ≤ (j + 1) * sfd.file_size / n :=
    Nat.div_le_div_right (Nat.mul_le_mul_right _ (by omega))
  have m2 : (j + 1) * sfd.file_size / n ≤ k * sfd.file_size / n :=
    Nat.div_le_div_right (Nat.mul_le_mul_right _ (by omega))
  omega

/-- C23 (counterexample). With eight workers on a file of `2 ^ 33` bytes the
quotients `k * S / N` leave the range of `int`, the type of the argument of
`align`: worker 4 gets `source_start = 0` again, and its region
`[32, 2 ^ 30 + 40)` of the diff buffer overlaps the region `[0, 2 ^ 30 + 8)`
of worker 0. -/
theorem worker_slices_overlap_at_int_overflow :
    (worker_run_compresseddiff eight_thread_map plain_lib eight_gigabyte_file 0).2.diff_start
      = 0 ∧
    (worker_run_compresseddiff eight_thread_map plain_lib eight_gigabyte_file 0).2.diff_end
      = 2 ^ 30 + 8 ∧
    (worker_run_compresseddiff eight_thread_map plain_lib eight_gigabyte_file 4).2.diff_start
      = 32 ∧
    (worker_run_compresseddiff eight_thread_map plain_lib eight_gigabyte_file 4).2.diff_end
      = 2 ^ 30 + 40 ∧
    (worker_run_compresseddiff eight_thread_map plain_lib eight_gigabyte_file 4).2.diff_start <
      (worker_run_compresseddiff eight_thread_map plain_lib eight_gigabyte_file 0).2.diff_end := by
  decide

/-- C23 (as amended). Worker slice disjointness: for every file size
`S < 2 ^ 31` and worker count `N` (an `int`), the worker `j` has
`source_start = 8 * ceil(floor(j * S / N) / 8)`,
`source_end = 8 * ceil(floor((j + 1) * S / N) / 8)` and the diff-buffer
region `[source_start + 8 j, source_end + 8 (j + 1))`, which is not empty
and ends at or before the start of the region of every later worker
`k < N`: the regions are pairwise non-overlapping. -/
theorem worker_slices_disjoint (map : fd_translation_map) (lib : codec_lib)
    (sfd sfd2 : shadow_fd) (j k n : Nat) (hn : map.nthreads = (n : Int)) (hn2 : n < 2 ^ 31)
    (hs : sfd.file_size < 2 ^ 31) (hsame : sfd2.file_size = sfd.file_size) (hjk : j < k)
    (hk : k < n) :
    (worker_run_compresseddiff map lib sfd j).2.diff_start =
      8 * ((j * sfd.file_size / n + 7) / 8) + 8 * j ∧
    (worker_run_compresseddiff map lib sfd j).2.diff_end =
      8 * (((j + 1) * sfd.file_size / n + 7) / 8) + 8 * (j + 1) ∧
    (worker_run_compresseddiff map lib sfd j).2.diff_start <
      (worker_run_compresseddiff map lib sfd j).2.diff_end ∧
    (worker_run_compresseddiff map lib sfd j).2.diff_end ≤
      (worker_run_compresseddiff map lib sfd2 k).2.diff_start := by
  obtain ⟨-, -, a3, a4⟩ := worker_slice_eq map lib sfd j n hn (by omega) hn2 hs (by omega)
  obtain ⟨b1, b2⟩ := worker_slices_ordered map lib sfd sfd2 j k n hn hn2 hs hsame hjk hk
  exact ⟨a3, a4, b1, b2⟩

/-- C23 (witness). Two workers on a file of 28 bytes: the regions are
`[0, 24)` and `[24, 48)`. -/
theorem worker_slices_disjoint_witness :
    (two_thread_map.nthreads = ((2 : Nat) : Int) ∧ 2 < 2 ^ 31 ∧
      odd_parallel_file.file_size < 2 ^ 31 ∧
      odd_parallel_file.file_size = odd_parallel_file.file_size ∧ 0 < 1 ∧ 1 < 2) ∧
    (worker_run_compresseddiff two_thread_map plain_lib odd_parallel_file 0).2.diff_end ≤
      (worker_run_compresseddiff two_thread_map plain_lib odd_parallel_file 1).2.diff_start :=
  ⟨⟨by decide, by decide, by decide, rfl, by decide, by decide⟩,
   (worker_slices_disjoint two_thread_map plain_lib odd_parallel_file odd_parallel_file 0 1 2
    (by decide) (by decide) (by decide) rfl (by decide) (by decide)).2.2.2⟩

set_option maxRecDepth 8000 in
/-- C24 (evaluation at the failing input). Two workers on a file of 32
bytes whose blocks 0 and 1 changed, with damage listing the adjacent
intervals `[0, 8)` and `[8, 16)`: worker 0 scans each interval on its own
and writes two headers, so its diff has 32 bytes while its slice
`[0, 24)` has 24; the test of the overflow log is true, and the payload of
the second segment lies in word 3 (bytes 24 to 31) of the diff buffer,
inside the slice of worker 1, which starts at byte 24. -/
theorem worker_diff_overruns_slice :
    (worker_run_compresseddiff two_thread_map plain_lib adjacent_damage_file 0).2.actual_size
      = 32 ∧
    (worker_run_compresseddiff two_thread_map plain_lib adjacent_damage_file 0).2.diff_start
      = 0 ∧
    (worker_run_compresseddiff two_thread_map plain_lib adjacent_damage_file 0).2.diff_end
      = 24 ∧
    section_overflow
      (worker_run_compresseddiff two_thread_map plain_lib adjacent_damage_file 0).2 = true ∧
    (worker_run_compresseddiff two_thread_map plain_lib adjacent_damage_file 1).2.diff_start
      = 24 ∧
    (adjacent_damage_file.diff_buffer.getD zero_mem) 3 = 0 ∧
    ((worker_run_compresseddiff two_thread_map plain_lib adjacent_damage_file
      0).1.diff_buffer.getD zero_mem) 3 = 5 := by
  decide

set_option maxRecDepth 8000 in
/-- C22 (evaluation at two failing inputs). In both, the two workers and the
single call leave the same mirror, but the buffers that result from applying
the diffs differ.  (a) A file of 32 bytes whose blocks 0, 1 and 2 changed,
with damage `[0, 8)`, `[8, 16)`, `[16, 24)`: the diff of worker 0 has 32
bytes in a slice of 24, and worker 1, whose slice starts at byte 24, writes
its header over the last word of that diff; applied in order, the two diffs
leave the header word `2 * 2 ^ 32 + 3` in block 1, where the single diff
leaves the value 6 of the file.  (b) A file of 28 bytes (three blocks and
four trailing bytes) whose blocks 0 and 2 changed, the whole file damaged,
and a diff buffer that still holds the value 7 in word 5: no diff holds a
tail, yet `apply_diff` copies the trailing bytes from behind each diff, so
the two diffs of the workers (16 bytes each) leave byte 24 equal to 7 and
the single diff (32 bytes) leaves it equal to 0. -/
theorem parallel_diffs_diverge :
    ((run_workers two_thread_map plain_lib strided_damage_file 2).2.map
        (fun o => (o.diff_start, o.diff_end, o.actual_size)) = [(0, 24, 32), (24, 48, 16)] ∧
      (∀ k, k < 4 → (parallel_diff_outcome two_thread_map plain_lib strided_damage_file).2 k =
        (single_diff_outcome strided_damage_file).2 k) ∧
      (parallel_diff_outcome two_thread_map plain_lib strided_damage_file).1 1 = 2 * 2 ^ 32 + 3 ∧
      (single_diff_outcome strided_damage_file).1 1 = 6 ∧
      (strided_damage_file.file_mem_local.getD zero_mem) 1 = 6) ∧
    ((run_workers two_thread_map plain_lib odd_parallel_file 2).2.map
        (fun o => o.actual_size) = [16, 16] ∧
      (construct_diff 28 damage.everything 0 SIZE_MAX zero_mem (store (store zero_mem 0 1) 2 3)
        (store zero_mem 5 7)).diffsize = 32 ∧
      (∀ k, k < 4 → (parallel_diff_outcome two_thread_map plain_lib odd_parallel_file).2 k =
        (single_diff_outcome odd_parallel_file).2 k) ∧
      (∀ k, k < 3 → (parallel_diff_outcome two_thread_map plain_lib odd_parallel_file).1 k =
        (single_diff_outcome odd_parallel_file).1 k) ∧
      load_byte (parallel_diff_outcome two_thread_map plain_lib odd_parallel_file).1 24 = 7 ∧
      load_byte (single_diff_outcome odd_parallel_file).1 24 = 0 ∧
      load_byte (odd_parallel_file.file_mem_local.getD zero_mem) 24 = 0) := by
  decide
/-! ## The close state of a pipe -/

theorem pipeclose_transfers_append (l1 l2 : List transfer) :
    pipeclose_transfers (l1 ++ l2) = pipeclose_transfers l1 ++ pipeclose_transfers l2 := by
  simp [pipeclose_transfers]

theorem pipe_step_collect (t : pipe_trace) (map : fd_translation_map) (env : collect_env)
    (h : pipe_trace_ok t) :
    pipe_trace_ok (pipe_step t (pipe_call.collect map env)) ∧
    (t.sfd.pipe_lclosed = true → (pipe_step t (pipe_call.collect map env)).sfd.pipe_lclosed = true) ∧
    (t.sfd.pipe_rclosed = true → (pipe_step t (pipe_call.collect map env)).sfd.pipe_rclosed = true) := by
  obtain ⟨hp, hinv, hc1, hc2, hc3, hp1, hp2⟩ := h
  have h1 : t.sfd.type ≠ fdcat_t.FDC_FILE := by
    intro h; rw [h] at hp; simp [fdcat_ispipe] at hp
  have h2 : t.sfd.type ≠ fdcat_t.FDC_DMABUF := by
    intro h; rw [h] at hp; simp [fdcat_ispipe] at hp
  have hstep : pipe_step t (pipe_call.collect map env) =
      { sfd := (collect_update_pipe t.sfd {}).1,
        closes := t.closes ++ collect_update_closes t.sfd,
        transfers := t.transfers ++ (collect_update_pipe t.sfd {}).2.transfers } := by
    simp only [pipe_step, collect_update_of_pipe map env t.sfd {} hp]
  rw [hstep]
  unfold pipe_close_invariant at hinv
  by_cases hcond : t.sfd.pipe_recv.used > 0 ∨ t.sfd.pipe_onlyhere = true ∨
      (t.sfd.pipe_lclosed && !t.sfd.pipe_rclosed) = true
  · have hcl : collect_update_closes t.sfd =
        if (t.sfd.pipe_lclosed && !t.sfd.pipe_rclosed) = true then [t.sfd.pipe_fd] else [] := by
      unfold collect_update_closes
      rw [if_neg h1, if_neg h2, if_pos hp]
      by_cases hc : (t.sfd.pipe_lclosed && !t.sfd.pipe_rclosed) = true
      · rw [if_pos ⟨hcond, hc⟩, if_pos hc]
      · rw [if_neg (fun h => hc h.2), if_neg hc]
    rw [collect_update_pipe_fst t.sfd {} hcond, collect_update_pipe_emit t.sfd {} hcond, hcl]
    by_cases hc : (t.sfd.pipe_lclosed && !t.sfd.pipe_rclosed) = true
    · have hl : t.sfd.pipe_lclosed = true := by
        revert hc; cases t.sfd.pipe_lclosed <;> simp
      have hr : t.sfd.pipe_rclosed = false := by
        revert hc; cases t.sfd.pipe_rclosed <;> simp
      have hfd : t.sfd.pipe_fd ≠ -2 := by
        intro h; have := (hinv h).2; rw [hr] at this; exact absurd this (by simp)
      have hlen : t.closes.length = 0 := by
        by_contra hne
        have := (hc3 (by omega)).2
        rw [hr] at this; exact absurd this (by simp)
      have hpl : (pipeclose_transfers t.transfers).length = 0 := by
        by_contra hne
        have := hp2 (by omega)
        rw [hr] at this; exact absurd this (by simp)
      simp only [hc, if_true]
      have hnil : pipeclose_transfers t.transfers = [] := List.length_eq_zero.mp hpl
      refine ⟨⟨hp, ?_, ?_, ?_, ?_, ?_, ?_⟩, fun h => h, fun _ => by simp⟩
      · intro _; exact ⟨hl, by simp⟩
      · intro fd hfdm
        rcases List.mem_append.mp hfdm with h | h
        · exact hc1 fd h
        · rw [List.mem_singleton] at h; rw [h]; exact hfd
      · simp [hlen]
      · intro _; exact ⟨hl, by simp⟩
      · rw [pipeclose_transfers_append, hnil]
        simp [pipeclose_transfers]
      · intro _; simp
    · simp only [hc, if_false]
      refine ⟨⟨hp, hinv, ?_, ?_, ?_, ?_, ?_⟩, fun h => h, fun h => h⟩
      · simpa using hc1
      · simpa using hc2
      · simpa using hc3
      · rw [pipeclose_transfers_append]
        simpa [pipeclose_transfers] using hp1
      · rw [pipeclose_transfers_append]
        simpa [pipeclose_transfers] using hp2
  · have hcl : collect_update_closes t.sfd = [] := by
      unfold collect_update_closes
      rw [if_neg h1, if_neg h2, if_pos hp, if_neg (fun h => hcond h.1)]
    rw [collect_update_pipe_idle t.sfd {} hcond, hcl]
    refine ⟨⟨hp, hinv, ?_, ?_, ?_, ?_, ?_⟩, fun h => h, fun h => h⟩
    · simpa using hc1
    · simpa using hc2
    · simpa using hc3
    · simpa using hp1
    · simpa using hp2

theorem pipe_step_apply (t : pipe_trace) (transf : transfer) (h : pipe_trace_ok t) :
    pipe_trace_ok (pipe_step t (pipe_call.apply transf)) ∧
    (t.sfd.pipe_lclosed = true → (pipe_step t (pipe_call.apply transf)).sfd.pipe_lclosed = true) ∧
    (t.sfd.pipe_rclosed = true → (pipe_step t (pipe_call.apply transf)).sfd.pipe_rclosed = true) := by
  obtain ⟨hp, hinv, hc1, hc2, hc3, hp1, hp2⟩ := h
  unfold pipe_close_invariant at hinv
  have hmono : t.sfd.pipe_rclosed = true →
      (if transf.special ≠ 0 then true else t.sfd.pipe_rclosed) = true := by
    intro h; split
    · rfl
    · exact h
  simp only [pipe_step, apply_update_pipe]
  refine ⟨⟨hp, ?_, hc1, hc2, ?_, hp1, ?_⟩, fun h => h, hmono⟩
  · intro h; exact ⟨(hinv h).1, hmono (hinv h).2⟩
  · intro h; exact ⟨(hc3 h).1, hmono (hc3 h).2⟩
  · intro h; exact hmono (hp2 h)

theorem mark_pipe_status_fields (sfd : shadow_fd) (revents : Nat) :
    (mark_pipe_status sfd revents).type = sfd.type ∧
    (mark_pipe_status sfd revents).pipe_fd = sfd.pipe_fd ∧
    (mark_pipe_status sfd revents).pipe_rclosed = sfd.pipe_rclosed ∧
    (sfd.pipe_lclosed = true → (mark_pipe_status sfd revents).pipe_lclosed = true) := by
  unfold mark_pipe_status
  dsimp only
  split_ifs <;> simp

theorem pipe_step_mark (t : pipe_trace) (revents : Nat) (h : pipe_trace_ok t) :
    pipe_trace_ok (pipe_step t (pipe_call.mark revents)) ∧
    (t.sfd.pipe_lclosed = true → (pipe_step t (pipe_call.mark revents)).sfd.pipe_lclosed = true) ∧
    (t.sfd.pipe_rclosed = true → (pipe_step t (pipe_call.mark revents)).sfd.pipe_rclosed = true) := by
  obtain ⟨hp, hinv, hc1, hc2, hc3, hp1, hp2⟩ := h
  unfold pipe_close_invariant at hinv
  obtain ⟨m1, m2, m3, m4⟩ := mark_pipe_status_fields t.sfd revents
  simp only [pipe_step]
  refine ⟨⟨by rw [m1]; exact hp, ?_, hc1, hc2, ?_, hp1, ?_⟩, m4, fun h => by rw [m3]; exact h⟩
  · intro h
    rw [m2] at h
    exact ⟨m4 (hinv h).1, by rw [m3]; exact (hinv h).2⟩
  · intro h; exact ⟨m4 (hc3 h).1, by rw [m3]; exact (hc3 h).2⟩
  · intro h; rw [m3]; exact hp2 h

theorem pipe_step_close (t : pipe_trace) (h : pipe_trace_ok t) :
    pipe_trace_ok (pipe_step t pipe_call.close_rclosed) ∧
    (t.sfd.pipe_lclosed = true → (pipe_step t pipe_call.close_rclosed).sfd.pipe_lclosed = true) ∧
    (t.sfd.pipe_rclosed = true → (pipe_step t pipe_call.close_rclosed).sfd.pipe_rclosed = true) := by
  obtain ⟨hp, hinv, hc1, hc2, hc3, hp1, hp2⟩ := h
  unfold pipe_close_invariant at hinv
  have hstep : pipe_step t pipe_call.close_rclosed =
      { t with sfd := close_rclosed_pipe t.sfd,
               closes := t.closes ++ close_rclosed_pipe_closes t.sfd } := rfl
  rw [hstep]
  by_cases hg : fdcat_ispipe t.sfd.type = true ∧ t.sfd.pipe_rclosed = true ∧
      t.sfd.pipe_lclosed = false
  · have e1 : close_rclosed_pipe t.sfd =
        { t.sfd with fd_local := if t.sfd.pipe_fd = t.sfd.fd_local then -2 else t.sfd.fd_local,
                     pipe_fd := -2, pipe_lclosed := true } := by
      unfold close_rclosed_pipe; rw [if_pos hg]
    have e2 : close_rclosed_pipe_closes t.sfd = [t.sfd.pipe_fd] := by
      unfold close_rclosed_pipe_closes; rw [if_pos hg]
    obtain ⟨-, hr, hl⟩ := hg
    have hfd : t.sfd.pipe_fd ≠ -2 := by
      intro h; have := (hinv h).1; rw [hl] at this; exact absurd this (by simp)
    have hlen : t.closes.length = 0 := by
      by_contra hne
      have := (hc3 (by omega)).1
      rw [hl] at this; exact absurd this (by simp)
    rw [e1, e2]
    refine ⟨⟨hp, ?_, ?_, ?_, ?_, hp1, ?_⟩, fun _ => rfl, fun h => h⟩
    · intro _; exact ⟨rfl, hr⟩
    · intro fd hfdm
      rcases List.mem_append.mp hfdm with h | h
      · exact hc1 fd h
      · rw [List.mem_singleton] at h; rw [h]; exact hfd
    · simp [hlen]
    · intro _; exact ⟨rfl, hr⟩
    · intro _; exact hr
  · have e1 : close_rclosed_pipe t.sfd = t.sfd := by
      unfold close_rclosed_pipe; rw [if_neg hg]
    have e2 : close_rclosed_pipe_closes t.sfd = [] := by
      unfold close_rclosed_pipe_closes; rw [if_neg hg]
    rw [e1, e2]
    refine ⟨⟨hp, hinv, ?_, ?_, ?_, hp1, hp2⟩, fun h => h, fun h => h⟩
    · simpa using hc1
    · simpa using hc2
    · simpa using hc3

theorem pipe_step_ok (t : pipe_trace) (c : pipe_call) (h : pipe_trace_ok t) :
    pipe_trace_ok (pipe_step t c) ∧
    (t.sfd.pipe_lclosed = true → (pipe_step t c).sfd.pipe_lclosed = true) ∧
    (t.sfd.pipe_rclosed = true → (pipe_step t c).sfd.pipe_rclosed = true) := by
  cases c with
  | collect map env => exact pipe_step_collect t map env h
  | apply transf => exact pipe_step_apply t transf h
  | mark revents => exact pipe_step_mark t revents h
  | close_rclosed => exact pipe_step_close t h

theorem run_pipe_calls_ok (calls : List pipe_call) :
    ∀ t : pipe_trace, pipe_trace_ok t →
      pipe_trace_ok (run_pipe_calls t calls) ∧
      (t.sfd.pipe_lclosed = true → (run_pipe_calls t calls).sfd.pipe_lclosed = true) ∧
      (t.sfd.pipe_rclosed = true → (run_pipe_calls t calls).sfd.pipe_rclosed = true) := by
  induction calls with
  | nil => intro t h; exact ⟨h, fun h => h, fun h => h⟩
  | cons c cs ih =>
    intro t h
    obtain ⟨s1, s2, s3⟩ := pipe_step_ok t c h
    obtain ⟨i1, i2, i3⟩ := ih (pipe_step t c) s1
    exact ⟨i1, fun h => i2 (s2 h), fun h => i3 (s3 h)⟩

theorem run_pipe_calls_append (t : pipe_trace) (c1 c2 : List pipe_call) :
    run_pipe_calls t (c1 ++ c2) = run_pipe_calls (run_pipe_calls t c1) c2 := by
  simp [run_pipe_calls, List.foldl_append]

theorem close_rclosed_pipes_map (map : fd_translation_map) :
    close_rclosed_pipes map = { map with list := map.list.map close_rclosed_pipe } := rfl

/-- C28. The private pipe end is never closed twice: for a pipe shadow fd
that satisfies the close invariant (`pipe_fd = -2` implies `pipe_lclosed` and
`pipe_rclosed`) and every sequence of calls of `collect_update`,
`apply_update`, `mark_pipe_object_statuses` and `close_rclosed_pipes` on it,
the invariant holds in the state reached; a close flag that is set after a
part of the sequence is set after the whole of it; no `close` is called on a
`pipe_fd` that holds `-2`, and `close` is called at most once; and at most
one transfer with `pipeclose = 1` is emitted. -/
theorem pipe_end_closed_once (sfd : shadow_fd) (calls : List pipe_call)
    (hpipe : fdcat_ispipe sfd.type = true) (hinv : pipe_close_invariant sfd) :
    pipe_close_invariant (run_pipe_calls { sfd := sfd } calls).sfd ∧
    (∀ c1 c2, calls = c1 ++ c2 →
      ((run_pipe_calls { sfd := sfd } c1).sfd.pipe_lclosed = true →
        (run_pipe_calls { sfd := sfd } calls).sfd.pipe_lclosed = true) ∧
      ((run_pipe_calls { sfd := sfd } c1).sfd.pipe_rclosed = true →
        (run_pipe_calls { sfd := sfd } calls).sfd.pipe_rclosed = true)) ∧
    (∀ fd ∈ (run_pipe_calls { sfd := sfd } calls).closes, fd ≠ -2) ∧
    (run_pipe_calls { sfd := sfd } calls).closes.length ≤ 1 ∧
    (pipeclose_transfers (run_pipe_calls { sfd := sfd } calls).transfers).length ≤ 1 := by
  have h0 : pipe_trace_ok { sfd := sfd } :=
    ⟨hpipe, hinv, by intro fd h; simp at h, by simp, by intro h; simp at h,
      by simp [pipeclose_transfers], by intro h; simp [pipeclose_transfers] at h⟩
  obtain ⟨⟨-, g2, g3, g4, -, g6, -⟩, -, -⟩ := run_pipe_calls_ok calls _ h0
  refine ⟨g2, ?_, g3, g4, g6⟩
  intro c1 c2 hc
  subst hc
  rw [run_pipe_calls_append]
  obtain ⟨k1, -, -⟩ := run_pipe_calls_ok c1 _ h0
  obtain ⟨-, k2, k3⟩ := run_pipe_calls_ok c2 _ k1
  exact ⟨k2, k3⟩

/-- C28 (witness). A pipe whose local end hung up: `collect_update`
announces the close and closes descriptor 31; `close_rclosed_pipes` and a
second `collect_update` close nothing more. -/
theorem pipe_end_closed_once_witness :
    (fdcat_ispipe hung_up_pipe.type = true ∧ pipe_close_invariant hung_up_pipe) ∧
    ((∀ fd ∈ (run_pipe_calls { sfd := hung_up_pipe }
        [pipe_call.collect plain_map plain_collect_env, pipe_call.close_rclosed,
         pipe_call.collect plain_map plain_collect_env]).closes, fd ≠ -2) ∧
      (run_pipe_calls { sfd := hung_up_pipe }
        [pipe_call.collect plain_map plain_collect_env, pipe_call.close_rclosed,
         pipe_call.collect plain_map plain_collect_env]).closes.length ≤ 1 ∧
      (pipeclose_transfers (run_pipe_calls { sfd := hung_up_pipe }
        [pipe_call.collect plain_map plain_collect_env, pipe_call.close_rclosed,
         pipe_call.collect plain_map plain_collect_env]).transfers).length ≤ 1) :=
  have hinv : pipe_close_invariant hung_up_pipe := fun h => absurd h (by decide)
  ⟨⟨by decide, hinv⟩,
   (pipe_end_closed_once hung_up_pipe
    [pipe_call.collect plain_map plain_collect_env, pipe_call.close_rclosed,
     pipe_call.collect plain_map plain_collect_env] (by decide) hinv).2.2⟩

theorem hung_up_pipe_history :
    (run_pipe_calls { sfd := hung_up_pipe }
      [pipe_call.collect plain_map plain_collect_env, pipe_call.close_rclosed,
       pipe_call.collect plain_map plain_collect_env]).closes = [31] ∧
    (run_pipe_calls { sfd := hung_up_pipe }
      [pipe_call.collect plain_map plain_collect_env, pipe_call.close_rclosed,
       pipe_call.collect plain_map plain_collect_env]).sfd.pipe_fd = -2 ∧
    ((run_pipe_calls { sfd := hung_up_pipe }
      [pipe_call.collect plain_map plain_collect_env, pipe_call.close_rclosed,
       pipe_call.collect plain_map plain_collect_env]).transfers.map (fun tf => tf.special)) =
      [1] := by
  decide
/-! ## Worker threads and the parallel path -/

end Waypipe
